import Mathlib

/-!
# MHAS packet framing: a shallow embedding of `mmtmhasparserlib`

The development follows `src/src/mhaspacket.cpp` and `src/src/mhasparser.cpp`.

* A byte is a `Fin 256`; an `ilo::ByteBuffer` is a list of bytes.
* An iterator pair `(begin, end)` is the list of bytes lying between the two
  iterators; "advancing `begin` by `n`" is dropping `n` bytes from the front.
* Machine integers are natural numbers, reduced modulo `2 ^ 32` or `2 ^ 64`
  wherever the C++ code can wrap.
* A C++ exception is an `Except.error` carrying the message of the assertion.
-/

namespace Mhas

/-! ## Bytes, bits and errors -/

/-- One octet of an `ilo::ByteBuffer`. -/
abbrev Byte := Fin 256

/-- The C++ `ilo::ByteBuffer` (a `std::vector<uint8_t>`). -/
abbrev ByteBuffer := List Byte

/-- The exceptions the embedded code raises, one constructor per message. -/
inductive Err where
  /-- "Invalid iterators provided (begin >= end)." -/
  | invalidIterators
  /-- "Payload is not completely covered by begin and end." -/
  | payloadNotCovered
  /-- "Packet doesn't contain payload or payload is too big." -/
  | emptyPacket
  /-- "Begin iterator > end iterator." -/
  | beginAfterEnd
  /-- "Provided iterator range is too small." -/
  | rangeTooSmall
  /-- "Packet was not completely written." -/
  | notCompletelyWritten
  /-- "Provided buffer is too small." -/
  | bufferTooSmall
  /-- "Wrote invalid amount of bits." -/
  | wroteInvalidAmountOfBits
  /-- "Size calculation is wrong." -/
  | sizeCalculationWrong
  /-- The bit cursor ran past the end of its buffer. -/
  | outOfBits
  /-- An escaped value larger than the three fields can hold was to be written. -/
  | valueTooLarge
  /-- "Invalid packet type." -/
  | invalidPacketType
  /-- A concrete packet decoder rejected its payload. -/
  | malformedPayload
  /-- The loop bound of the embedding was exhausted (shown never to happen). -/
  | outOfFuel
  /-- "Invalid payload size." -/
  | invalidPayloadSize
  /-- "Reserved value doesn't match." -/
  | reservedValueMismatch
  /-- "End iterator is smaller or equal end iterator." -/
  | emptyPayload
  /-- "Payload was not completely parsed (contains data after ASI)." -/
  | residualData
  /-- "Invalid payload provided." -/
  | invalidPayload
  /-- "Unsupported profile level indication" -/
  | unsupportedProfileLevel
  /-- "Wrong coreSbrFrameLengthIndex found." -/
  | wrongCoreSbrFrameLengthIndex
  /-- "Invalid sampling frequency found." -/
  | invalidSamplingFrequency
  /-- "Unknown sampling frequency found." -/
  | unknownSamplingFrequency
  /-- "Invalid speaker layout type found." -/
  | invalidSpeakerLayoutType
  /-- "SAOC is currently not supported" -/
  | saocNotSupported
  /-- "Invalid signal group type found." -/
  | invalidSignalGroupType
  /-- "No MHAS info available." -/
  | noMhasInfoAvailable
  /-- "Metadata element id not found." -/
  | metadataElementIdNotFound
  /-- "No group with the given id was found." -/
  | noGroupWithId
  /-- "Group preset extension does not fit the list of group presets." -/
  | presetExtensionMismatch
  /-- "The number of groups listed in the group preset extension does not fit the number of
  groups listed in the group preset." -/
  | presetExtensionGroupsMismatch
  /-- "No switch group with the given id was found." -/
  | noSwitchGroupWithId
  /-- "No Group Preset with the given id was found." -/
  | noGroupPresetWithId
  /-- "Invalid state reached." -/
  | invalidState
  /-- The exception `std::bad_cast` of a failed `dynamic_cast` to a reference. -/
  | badCast
  /-- "Invalid range provided" -/
  | invalidRange
  deriving DecidableEq, Repr

deriving instance DecidableEq for Except

/-- The `n` low bits of `v`, most significant bit first. -/
def natToBits (v : Nat) : Nat → List Bool
  | 0 => []
  | n + 1 => natToBits (v / 2) n ++ [v % 2 == 1]

/-- The number spelled by a bit string, most significant bit first. -/
def bitsToNat (bs : List Bool) : Nat :=
  bs.foldl (fun acc b => 2 * acc + b.toNat) 0

/-- The bit string of a byte buffer, each byte most significant bit first. -/
def bytesToBits : ByteBuffer → List Bool
  | [] => []
  | b :: bs => natToBits b.val 8 ++ bytesToBits bs

/-- The bytes spelled by a bit string; a trailing group of fewer than eight bits is dropped. -/
def bitsToBytes : List Bool → ByteBuffer
  | b0 :: b1 :: b2 :: b3 :: b4 :: b5 :: b6 :: b7 :: rest =>
      Fin.ofNat (bitsToNat [b0, b1, b2, b3, b4, b5, b6, b7]) :: bitsToBytes rest
  | _ => []

/-! ## The bit cursors of the `ilo` library -/

/-- The reading cursor `ilo::CBitParser`: the bits not yet read and the count of bits read. -/
structure CBitParser where
  /-- The bits between the cursor and the end of the range. -/
  bits : List Bool
  /-- The value of `nofReadBits()`. -/
  nofReadBits : Nat
  deriving DecidableEq, Repr

/-- The constructor `CBitParser(begin, end)`. -/
def CBitParser.new (range : ByteBuffer) : CBitParser :=
  { bits := bytesToBits range, nofReadBits := 0 }

/-- The call `read<T>(n)`: the next `n` bits as a number, or an exception when fewer remain. -/
def CBitParser.read (p : CBitParser) (n : Nat) : Except Err (Nat × CBitParser) :=
  if n ≤ p.bits.length then
    .ok (bitsToNat (p.bits.take n), { bits := p.bits.drop n, nofReadBits := p.nofReadBits + n })
  else
    .error Err.outOfBits

/-- The writing cursor `ilo::CBitBuffer` over a caller-owned buffer: the bits of the
buffer and the write position `tell()`. -/
structure CBitBuffer where
  /-- The bits of the underlying buffer. -/
  bits : List Bool
  /-- The value of `tell()`. -/
  pos : Nat
  deriving DecidableEq, Repr

/-- The constructor `CBitBuffer(rawBuffer, size)`: a cursor over the first `size` bytes. -/
def CBitBuffer.new (rawBuffer : ByteBuffer) (size : Nat) : CBitBuffer :=
  { bits := bytesToBits (rawBuffer.take size), pos := 0 }

/-- The call `write(v, n)`: overwrite the next `n` bits with the `n` low bits of `v`. -/
def CBitBuffer.write (b : CBitBuffer) (v n : Nat) : Except Err CBitBuffer :=
  if b.pos + n ≤ b.bits.length then
    .ok { bits := b.bits.take b.pos ++ natToBits v n ++ b.bits.drop (b.pos + n), pos := b.pos + n }
  else
    .error Err.outOfBits

/-- The value of `tell()`. -/
def CBitBuffer.tell (b : CBitBuffer) : Nat := b.pos

/-! ## The escaped-value codec -/

/-- Modelled from the spec: `readEscapedValue` of `mmtmhasparserlib/mhasutilities.h`, a
header this development has no source for. Decoding reads `first` bits; if the value
equals the maximum representable in `first` bits it continues into `second` bits, which
are added, with the same escape test, and then into `third` bits. The result is a `u64`.
Running out of bits propagates the cursor's exception. -/
def readEscapedValue (p : CBitParser) (first second third : Nat) :
    Except Err (Nat × CBitParser) := do
  let (v1, p1) ← p.read first
  if v1 = 2 ^ first - 1 then
    let (v2, p2) ← p1.read second
    if v2 = 2 ^ second - 1 then
      let (v3, p3) ← p2.read third
      pure ((v1 + v2 + v3) % 2 ^ 64, p3)
    else
      pure ((v1 + v2) % 2 ^ 64, p2)
  else
    pure (v1 % 2 ^ 64, p1)

/-- Modelled from the spec: `writeEscapedValue` of `mmtmhasparserlib/mhasutilities.h`, a
header this development has no source for. The encoder rejects a value exceeding the
maximum representable by the three fields, and otherwise chooses the shortest
representation: the value itself in `first` bits when it is below the all-ones escape,
else the escape followed by the remainder in `second` bits, else both escapes followed
by the remainder in `third` bits. -/
def writeEscapedValue (b : CBitBuffer) (value first second third : Nat) :
    Except Err CBitBuffer :=
  if value > (2 ^ first - 1) + (2 ^ second - 1) + (2 ^ third - 1) then
    .error Err.valueTooLarge
  else if value < 2 ^ first - 1 then
    b.write value first
  else do
    let b1 ← b.write (2 ^ first - 1) first
    let rest := value - (2 ^ first - 1)
    if rest < 2 ^ second - 1 then
      b1.write rest second
    else do
      let b2 ← b1.write (2 ^ second - 1) second
      b2.write (rest - (2 ^ second - 1)) third

/-- The bits `writeEscapedValue` emits for a representable value. -/
def escapedBits (value first second third : Nat) : List Bool :=
  if value < 2 ^ first - 1 then
    natToBits value first
  else if value - (2 ^ first - 1) < 2 ^ second - 1 then
    natToBits (2 ^ first - 1) first ++ natToBits (value - (2 ^ first - 1)) second
  else
    natToBits (2 ^ first - 1) first ++ natToBits (2 ^ second - 1) second
      ++ natToBits (value - (2 ^ first - 1) - (2 ^ second - 1)) third

/-- C++ `uint64_t` left shift; the language defines it for counts below 64 only. -/
def shl64 (x s : Nat) : Nat := (x * 2 ^ s) % 2 ^ 64

/-- C++ `uint64_t` subtraction of two 64-bit values, wrapping. -/
def sub64 (a b : Nat) : Nat := (a + 2 ^ 64 - b) % 2 ^ 64

/-- C++ `uint32_t` subtraction of two 32-bit values, wrapping. -/
def sub32 (a b : Nat) : Nat := (a + 2 ^ 32 - b) % 2 ^ 32

/-- The static function `escapedValueWriteSize` of `mhaspacket.cpp`. -/
def escapedValueWriteSize (value first second third : Nat) : Nat :=
  let size := first
  if value ≥ sub64 (shl64 2 (sub32 first 1)) 1 then
    let size := (size + second) % 2 ^ 32
    let value := sub64 value (sub64 (shl64 2 (sub32 first 1)) 1)
    if value ≥ sub64 (shl64 2 (sub32 second 1)) 1 then
      (size + third) % 2 ^ 32
    else
      size
  else
    size

/-! ## The packet entity (`mhaspacket.cpp`) -/

/-- The base class `CMhasPacket`: raw payload, label (`uint64_t`) and type (`uint32_t`). -/
structure CMhasPacket where
  /-- The raw payload buffer of this packet. -/
  m_payload : ByteBuffer
  /-- The packet label. -/
  m_packetLabel : Nat
  /-- The packet type. -/
  m_packetType : Nat
  deriving DecidableEq, Repr

/-- The getter `payload()`. -/
def CMhasPacket.payload (p : CMhasPacket) : ByteBuffer := p.m_payload

/-- The getter `packetType()`. -/
def CMhasPacket.packetType (p : CMhasPacket) : Nat := p.m_packetType

/-- The getter `packetLabel()`. -/
def CMhasPacket.packetLabel (p : CMhasPacket) : Nat := p.m_packetLabel

/-- The constructor `CMhasPacket(begin, end)`. The argument is the range between the two
iterators; the result is the packet and the range left after `begin` has been advanced. -/
def CMhasPacket.new (range : ByteBuffer) : Except Err (CMhasPacket × ByteBuffer) := do
  if ¬ (0 < range.length) then throw Err.invalidIterators
  let bitBuffer := CBitParser.new range
  let (packetType, bitBuffer) ← readEscapedValue bitBuffer 3 8 8
  let m_packetType := packetType % 2 ^ 32
  let (m_packetLabel, bitBuffer) ← readEscapedValue bitBuffer 2 8 32
  let (packetLength, bitBuffer) ← readEscapedValue bitBuffer 11 24 24
  let read := (bitBuffer.nofReadBits / 8) % 2 ^ 32
  if ¬ (range.length ≥ (read + packetLength) % 2 ^ 64) then throw Err.payloadNotCovered
  let begin := range.drop read
  let m_payload := begin.take packetLength
  let begin := begin.drop packetLength
  pure ({ m_payload := m_payload, m_packetLabel := m_packetLabel,
          m_packetType := m_packetType }, begin)

/-- The method `calculatePacketSize()`. -/
def CMhasPacket.calculatePacketSize (p : CMhasPacket) : Except Err Nat := do
  let bits := 0
  let bits := (bits + escapedValueWriteSize p.m_packetType 3 8 8) % 2 ^ 64
  let bits := (bits + escapedValueWriteSize p.m_packetLabel 2 8 32) % 2 ^ 64
  let bits := (bits + escapedValueWriteSize p.m_payload.length 11 24 24) % 2 ^ 64
  if ¬ (bits % 8 = 0) then throw Err.sizeCalculationWrong
  pure (((bits / 8) % 2 ^ 32 + p.m_payload.length % 2 ^ 32) % 2 ^ 32)

/-- The overload `writePacket(uint8_t* rawBuffer, std::size_t rawBufferSize)`. The argument
is the content of the raw buffer; the result is the returned byte count and the content
of the raw buffer afterwards. -/
def CMhasPacket.writePacketRaw (p : CMhasPacket) (rawBuffer : ByteBuffer) :
    Except Err (Nat × ByteBuffer) := do
  let bytes ← p.calculatePacketSize
  if ¬ (bytes ≤ rawBuffer.length) then throw Err.bufferTooSmall
  let bitBuffer := CBitBuffer.new rawBuffer (rawBuffer.length % 2 ^ 32)
  let bitBuffer ← writeEscapedValue bitBuffer p.m_packetType 3 8 8
  let bitBuffer ← writeEscapedValue bitBuffer p.m_packetLabel 2 8 32
  let bitBuffer ← writeEscapedValue bitBuffer p.m_payload.length 11 24 24
  if ¬ (bitBuffer.tell % 8 = 0) then throw Err.wroteInvalidAmountOfBits
  let payloadStart := bitBuffer.tell / 8
  if ¬ (payloadStart + p.m_payload.length = bytes) then throw Err.sizeCalculationWrong
  let written := bitsToBytes bitBuffer.bits ++ rawBuffer.drop (rawBuffer.length % 2 ^ 32)
  pure (bytes, written.take payloadStart ++ p.m_payload
                ++ written.drop (payloadStart + p.m_payload.length))

/-- The call `vector.resize(n)` of `std::vector<uint8_t>`: truncate, or pad with zero bytes. -/
def resize (vector : ByteBuffer) (n : Nat) : ByteBuffer :=
  vector.take n ++ List.replicate (n - vector.length) 0

/-- The overload `writePacket(ilo::ByteBuffer& vector)`; the result is the vector afterwards. -/
def CMhasPacket.writePacket (p : CMhasPacket) (vector : ByteBuffer) : Except Err ByteBuffer := do
  let newSize ← p.calculatePacketSize
  if ¬ (newSize ≠ 0) then throw Err.emptyPacket
  let vector := resize vector newSize
  let (_, vector) ← p.writePacketRaw vector
  pure vector

/-- A value the escaped field `(first, second, third)` can hold. -/
def representable (v first second third : Nat) : Prop :=
  v ≤ (2 ^ first - 1) + (2 ^ second - 1) + (2 ^ third - 1)

instance (v first second third : Nat) : Decidable (representable v first second third) :=
  inferInstanceAs (Decidable (_ ≤ _))

/-- A packet `writePacket` can serialise: type, label and payload length fit their fields. -/
def CMhasPacket.serialisable (p : CMhasPacket) : Prop :=
  representable p.m_packetType 3 8 8 ∧ representable p.m_packetLabel 2 8 32
    ∧ representable p.m_payload.length 11 24 24

instance (p : CMhasPacket) : Decidable p.serialisable :=
  inferInstanceAs (Decidable (_ ∧ _ ∧ _))

/-- The header bits of a packet with the given type, label and payload length. -/
def headerBitsOf (type label length : Nat) : List Bool :=
  escapedBits type 3 8 8 ++ escapedBits label 2 8 32 ++ escapedBits length 11 24 24

/-- The header bits `writePacket` emits: type, label and payload length, escaped. -/
def headerBits (p : CMhasPacket) : List Bool :=
  headerBitsOf p.m_packetType p.m_packetLabel p.m_payload.length

/-- The header as the constructor and the factory both decode it: type, label, payload
length and the number of header bytes `nofReadBits() / 8`. -/
def decodeHeader (range : ByteBuffer) : Except Err (Nat × Nat × Nat × Nat) := do
  let (packetType, bitBuffer) ← readEscapedValue (CBitParser.new range) 3 8 8
  let (packetLabel, bitBuffer) ← readEscapedValue bitBuffer 2 8 32
  let (packetLength, bitBuffer) ← readEscapedValue bitBuffer 11 24 24
  pure (packetType, packetLabel, packetLength, bitBuffer.nofReadBits / 8)

/-! ## The factory (`CMhasPacket::s_parseNextPacket`) -/

/-- The payload decoders of the concrete packet classes. The classes for CRC16, frame, sync
and marker packets are not part of this development and the configuration decoder is an
external collaborator, so the factory is studied for arbitrary decoders. -/
structure Decoders where
  /-- Whether the payload decoder of the class for this packet type accepts the payload. -/
  payloadOk : Nat → ByteBuffer → Bool
  /-- Whether the frame decoder accepts the payload, given `audioPreRollPresent`. -/
  frameOk : Bool → ByteBuffer → Bool
  /-- The field `mhasConfigInfo().audioPreRollPresent` of a configuration packet. -/
  audioPreRollPresent : ByteBuffer → Bool

/-- The constructor `X(begin, end)` of a concrete packet class: the base constructor, the
check of the packet type, then the payload decoder of the class. -/
def concretePacket (decoderOk : ByteBuffer → Bool) (expectedType : Nat) (range : ByteBuffer) :
    Except Err (CMhasPacket × ByteBuffer) := do
  let (p, rest) ← CMhasPacket.new range
  if ¬ (p.packetType = expectedType) then throw Err.invalidPacketType
  if ¬ (decoderOk p.m_payload = true) then throw Err.malformedPayload
  pure (p, rest)

/-- The `switch` of the factory: the constructor selected by the decoded packet type. -/
def dispatch (D : Decoders) (packetType : Nat) (range : ByteBuffer) (audioPreRollPresent : Bool) :
    Except Err (CMhasPacket × ByteBuffer) :=
  if packetType = 9 then concretePacket (D.payloadOk 9) 9 range
  else if packetType = 17 then concretePacket (D.payloadOk 17) 17 range
  else if packetType = 2 then concretePacket (D.frameOk audioPreRollPresent) 2 range
  else if packetType = 3 then concretePacket (D.payloadOk 3) 3 range
  else if packetType = 1 then concretePacket (D.payloadOk 1) 1 range
  else if packetType = 6 then concretePacket (D.payloadOk 6) 6 range
  else if packetType = 8 then concretePacket (D.payloadOk 8) 8 range
  else CMhasPacket.new range

/-- The static method `s_parseNextPacket(begin, end, audioPreRollPresent)`. The result is the
packet, or `none` for a null pointer, and the range left after `begin`. -/
def CMhasPacket.s_parseNextPacket (D : Decoders) (range : ByteBuffer)
    (audioPreRollPresent : Bool) : Except Err (Option CMhasPacket × ByteBuffer) :=
  if range = [] then .ok (none, range)
  else
    let bitBuffer := CBitParser.new range
    let header : Except Err (Nat × Nat × CBitParser) := do
      let (packetType, bitBuffer) ← readEscapedValue bitBuffer 3 8 8
      let (_, bitBuffer) ← readEscapedValue bitBuffer 2 8 32
      let (packetLength, bitBuffer) ← readEscapedValue bitBuffer 11 24 24
      pure (packetType % 2 ^ 32, packetLength, bitBuffer)
    match header with
    | .error _ => .ok (none, range)
    | .ok (packetType, packetLength, bitBuffer) =>
      let headerLength := (bitBuffer.nofReadBits / 8) % 2 ^ 32
      let packetSize := (headerLength + packetLength) % 2 ^ 64
      if range.length < packetSize then .ok (none, range)
      else
        match dispatch D packetType range audioPreRollPresent with
        | .error e => .error e
        | .ok (p, rest) => .ok (some p, rest)

/-! ## The streaming parser (`mhasparser.cpp`) -/

/-- The class `CMhasParser`. -/
structure CMhasParser where
  /-- The "synchronized" flag. -/
  m_isSynced : Bool := false
  /-- The accumulated input. -/
  m_buffer : ByteBuffer := []
  /-- The output queue. -/
  m_parsedPackets : List CMhasPacket := []
  /-- Whether the last configuration packet declared an audio pre-roll. -/
  m_audioPreRollPresent : Bool := false
  deriving DecidableEq, Repr

/-- The method `feed`. -/
def CMhasParser.feed (s : CMhasParser) (vector : ByteBuffer) : CMhasParser :=
  { s with m_buffer := s.m_buffer ++ vector }

/-- The method `numPacketsAvailable`. -/
def CMhasParser.numPacketsAvailable (s : CMhasParser) : Nat := s.m_parsedPackets.length % 2 ^ 32

/-- The method `numBytesPending`. -/
def CMhasParser.numBytesPending (s : CMhasParser) : Nat := s.m_buffer.length % 2 ^ 32

/-- The method `sync`. -/
def CMhasParser.sync (s : CMhasParser) : CMhasParser := { s with m_isSynced := true }

/-- The method `isSynced`. -/
def CMhasParser.isSynced (s : CMhasParser) : Bool := s.m_isSynced

/-- The method `reset`. -/
def CMhasParser.reset (s : CMhasParser) : CMhasParser :=
  { s with m_buffer := [], m_parsedPackets := [], m_isSynced := false }

/-- The loop of `syncIfNecessary` on an unsynced parser: while more than three bytes remain,
test the three bytes at `begin` against the sync pattern, else advance `begin`. The result
is whether the pattern was found and the range left after `begin`. -/
def syncScan : ByteBuffer → Bool × ByteBuffer
  | [] => (false, [])
  | b :: tail =>
    if (b :: tail).length > 3 then
      if b = 0xC0 ∧ tail[0]? = some 0x01 ∧ tail[1]? = some 0xA5 then
        (true, b :: tail)
      else
        syncScan tail
    else
      (false, b :: tail)

/-- The method `syncIfNecessary(begin, end)`: the returned flag, the parser afterwards and
the range left after `begin`. -/
def CMhasParser.syncIfNecessary (s : CMhasParser) (range : ByteBuffer) :
    Bool × CMhasParser × ByteBuffer :=
  if s.m_isSynced then (true, s, range)
  else
    let (found, begin) := syncScan range
    (found, { s with m_isSynced := found }, begin)

/-- The `while` loop of `parsePackets`: the range left after `readIterator`, the pre-roll
flag, the output queue and the exception that ended the loop, if any. The first argument
bounds the number of iterations. -/
def parseLoop (D : Decoders) : Nat → ByteBuffer → Bool → List CMhasPacket →
    ByteBuffer × Bool × List CMhasPacket × Option Err
  | 0, range, flag, queue => (range, flag, queue, some Err.outOfFuel)
  | fuel + 1, range, flag, queue =>
    match CMhasPacket.s_parseNextPacket D range flag with
    | .error e => (range, flag, queue, some e)
    | .ok (none, _) => (range, flag, queue, none)
    | .ok (some packet, rest) =>
      let flag := if packet.packetType = 1 then D.audioPreRollPresent packet.m_payload else flag
      parseLoop D fuel rest flag (queue ++ [packet])

/-- The method `parsePackets`: the parser afterwards and the exception that escaped the
call, if any. An exception leaves the input buffer as it was. -/
def CMhasParser.parsePackets (D : Decoders) (s : CMhasParser) : CMhasParser × Option Err :=
  let (synced, s1, readIterator) := s.syncIfNecessary s.m_buffer
  if ¬ (synced = true) then
    ({ s1 with m_buffer := readIterator }, none)
  else
    match parseLoop D (readIterator.length + 1) readIterator s1.m_audioPreRollPresent
        s1.m_parsedPackets with
    | (_, flag, queue, some e) =>
      ({ s1 with m_audioPreRollPresent := flag, m_parsedPackets := queue }, some e)
    | (readIterator, flag, queue, none) =>
      ({ s1 with m_buffer := readIterator, m_audioPreRollPresent := flag,
                 m_parsedPackets := queue }, none)

/-- The method `nextPacket`: the returned packet, `none` for a null pointer, and the parser
afterwards. -/
def CMhasParser.nextPacket (s : CMhasParser) : Option CMhasPacket × CMhasParser :=
  match s.m_parsedPackets with
  | packet :: rest => (some packet, { s with m_parsedPackets := rest })
  | [] => (none, s)

/-- The method `allAvailablePackets`: the returned queue and the parser afterwards. -/
def CMhasParser.allAvailablePackets (s : CMhasParser) : List CMhasPacket × CMhasParser :=
  (s.m_parsedPackets, { s with m_parsedPackets := [] })

/-- The serialised form of a packet: the header bytes followed by the payload. -/
def packetBytes (p : CMhasPacket) : ByteBuffer :=
  bitsToBytes (headerBits p) ++ p.m_payload

/-- Whether the payload decoder the factory selects for this packet accepts it; packets of
a type without a concrete class are always accepted. -/
def accepted (D : Decoders) (audioPreRollPresent : Bool) (p : CMhasPacket) : Bool :=
  if p.m_packetType = 9 then D.payloadOk 9 p.m_payload
  else if p.m_packetType = 17 then D.payloadOk 17 p.m_payload
  else if p.m_packetType = 2 then D.frameOk audioPreRollPresent p.m_payload
  else if p.m_packetType = 3 then D.payloadOk 3 p.m_payload
  else if p.m_packetType = 1 then D.payloadOk 1 p.m_payload
  else if p.m_packetType = 6 then D.payloadOk 6 p.m_payload
  else if p.m_packetType = 8 then D.payloadOk 8 p.m_payload
  else true

/-- The pre-roll flag `parsePackets` holds after it has queued the packet. -/
def nextFlag (D : Decoders) (audioPreRollPresent : Bool) (p : CMhasPacket) : Bool :=
  if p.packetType = 1 then D.audioPreRollPresent p.m_payload else audioPreRollPresent

/-- Every packet of the sequence is accepted by its decoder, under the pre-roll flag the
packets before it leave behind. -/
def acceptedAll (D : Decoders) : Bool → List CMhasPacket → Prop
  | _, [] => True
  | flag, p :: ps => accepted D flag p = true ∧ acceptedAll D (nextFlag D flag p) ps

/-- The pre-roll flag after a sequence of packets has been queued. -/
def flagAfter (D : Decoders) (flag : Bool) (ps : List CMhasPacket) : Bool :=
  ps.foldl (nextFlag D) flag

/-- The results of `n` successive calls of `nextPacket`. -/
def CMhasParser.drain (s : CMhasParser) : Nat → List (Option CMhasPacket)
  | 0 => []
  | n + 1 => s.nextPacket.1 :: CMhasParser.drain s.nextPacket.2 n

/-- The overload `writePacket(ilo::ByteBuffer::iterator begin, ilo::ByteBuffer::iterator end)`.
The argument is the content of the range; the result is its content afterwards. -/
def CMhasPacket.writePacketRange (p : CMhasPacket) (range : ByteBuffer) :
    Except Err ByteBuffer := do
  let packetSize ← p.calculatePacketSize
  if ¬ (range.length = packetSize) then throw Err.rangeTooSmall
  let (bytesWritten, written) ← p.writePacketRaw range
  if ¬ (bytesWritten = packetSize) then throw Err.notCompletelyWritten
  pure written

/-- The sync-packet signature `0xC0 0x01 0xA5`. -/
def syncPattern : ByteBuffer := [0xC0, 0x01, 0xA5]

/-- The calls a consumer can make on a parser, `reset` apart. -/
inductive ParserCall where
  /-- The call `feed(vector)`. -/
  | feed (vector : ByteBuffer)
  /-- The call `sync()`. -/
  | sync
  /-- The call `parsePackets()`. -/
  | parsePackets
  /-- The call `nextPacket()`. -/
  | nextPacket
  /-- The call `allAvailablePackets()`. -/
  | allAvailablePackets

/-- The parser after one call; an exception that escapes `parsePackets` leaves the parser
in the state the call had reached. -/
def CMhasParser.call (D : Decoders) (s : CMhasParser) : ParserCall → CMhasParser
  | .feed vector => s.feed vector
  | .sync => s.sync
  | .parsePackets => (s.parsePackets D).1
  | .nextPacket => s.nextPacket.2
  | .allAvailablePackets => s.allAvailablePackets.2

/-- The parser after a sequence of calls. -/
def CMhasParser.calls (D : Decoders) (s : CMhasParser) (cs : List ParserCall) : CMhasParser :=
  cs.foldl (CMhasParser.call D) s

/-! ## The CRC16 engine (`CCRC16` in `mhaspacket.cpp`) -/

/-- The class `CCRC16`: the lookup table and the start value. -/
structure CCRC16 where
  /-- The 256 table entries. -/
  m_lookupTable : List Nat
  /-- The initial value of the register. -/
  m_crcStartValue : Nat

/-- The body of the inner loop of the constructor: one shift of the 16-bit `value`, with
the polynomial xored in when the top bit was set. -/
def CCRC16.shiftStep (crcPolynom value : Nat) : Nat :=
  if (value &&& 0x8000) > 0 then ((value <<< 1) ^^^ crcPolynom) % 2 ^ 16
  else (value <<< 1) % 2 ^ 16

/-- The table entry the constructor computes for index `i`: `i << 8`, shifted eight times. -/
def CCRC16.tableEntry (crcPolynom i : Nat) : Nat :=
  (CCRC16.shiftStep crcPolynom)^[8] ((i <<< 8) % 2 ^ 16)

/-- The constructor `CCRC16(crcPolynom, crcStartValue)`. -/
def CCRC16.new (crcPolynom crcStartValue : Nat) : CCRC16 :=
  { m_lookupTable := (List.range 256).map (CCRC16.tableEntry crcPolynom),
    m_crcStartValue := crcStartValue }

/-- The method `CCRC16::calculateCRC`. -/
def CCRC16.calculateCRC (c : CCRC16) (buffer : ByteBuffer) : Nat :=
  buffer.foldl
    (fun crc byte => ((crc <<< 8) ^^^ c.m_lookupTable.getD ((crc >>> 8) ^^^ byte.val) 0) % 2 ^ 16)
    c.m_crcStartValue

/-- The method `CMhasPacket::calculateCRC16`, with its static `CCRC16(0x8021, 0xffff)`. -/
def CMhasPacket.calculateCRC16 (p : CMhasPacket) : Nat :=
  (CCRC16.new 0x8021 0xffff).calculateCRC p.m_payload

/-- The reference, one bit: shift the 16-bit register left by one and, if a one was
shifted out, xor the generator polynomial 0x8021 into it. -/
def crc16ReferenceBit (register : Nat) : Nat :=
  if register / 2 ^ 15 % 2 = 1 then (2 * register) % 2 ^ 16 ^^^ 0x8021
  else (2 * register) % 2 ^ 16

/-- The reference, one byte, most significant bit first: the byte is xored into the high
half of the register, which is then shifted eight times. -/
def crc16ReferenceByte (register : Nat) (byte : Byte) : Nat :=
  crc16ReferenceBit^[8] (register ^^^ (byte.val * 2 ^ 8))

/-- The reference bit-serial CRC-16 of the spec: register initialised to 0xFFFF, no
reflection and no final xor. -/
def crc16Reference (payload : ByteBuffer) : Nat :=
  payload.foldl crc16ReferenceByte 0xFFFF

/-- The remainder of a polynomial over GF(2), coded as a number (bit `k` is the
coefficient of `x^k`), modulo a generator of degree 16, by long division: the terms of
degree `16 + d - 1` down to 16 are cancelled in turn. -/
def gf2Mod (generator : Nat) (a : Nat) : Nat → Nat
  | 0 => a
  | d + 1 => gf2Mod generator (if a.testBit (16 + d) then a ^^^ (generator <<< d) else a) d

/-! ## The truncation packet (`mhastruncationpacket.cpp`) -/

/-- The constructor `CBitBuffer(ilo::ByteBuffer& buffer, nofBits)`: a cursor over the first
`nofBits` bits of the buffer. -/
def CBitBuffer.ofBuffer (buffer : ByteBuffer) (nofBits : Nat) : CBitBuffer :=
  { bits := (bytesToBits buffer).take nofBits, pos := 0 }

/-- The content of the buffer under a cursor made with `CBitBuffer.ofBuffer`. -/
def CBitBuffer.content (b : CBitBuffer) (buffer : ByteBuffer) (nofBits : Nat) : ByteBuffer :=
  bitsToBytes (b.bits ++ (bytesToBits buffer).drop nofBits)

/-- The call `seek(offset, ilo::EPosType::cur)` with a non-negative offset. -/
def CBitBuffer.seek (b : CBitBuffer) (offset : Nat) : Except Err CBitBuffer :=
  if b.pos + offset ≤ b.bits.length then .ok { b with pos := b.pos + offset }
  else .error Err.outOfBits

/-- The structure `SMhasTruncationPacketConfig`. -/
structure SMhasTruncationPacketConfig where
  /-- Whether this truncation message is active. -/
  isActive : Bool := false
  /-- Whether the truncation happens from the beginning of the packet. -/
  truncateFromBegin : Bool := true
  /-- The number of audio samples to truncate. -/
  truncatedSamples : Nat := 0
  deriving DecidableEq, Repr

/-- The class `CMhasTruncationPacket`. -/
structure CMhasTruncationPacket extends CMhasPacket where
  /-- The member behind `isActive()`. -/
  m_isActive : Bool := false
  /-- The member behind `truncateFromBegin()`. -/
  m_truncFromBegin : Bool := false
  /-- The member behind `truncatedSamples()`. -/
  m_truncSamples : Nat := 0
  deriving DecidableEq, Repr

/-- The getter `isActive()`. -/
def CMhasTruncationPacket.isActive (t : CMhasTruncationPacket) : Bool := t.m_isActive

/-- The getter `truncateFromBegin()`. -/
def CMhasTruncationPacket.truncateFromBegin (t : CMhasTruncationPacket) : Bool :=
  t.m_truncFromBegin

/-- The getter `truncatedSamples()`. -/
def CMhasTruncationPacket.truncatedSamples (t : CMhasTruncationPacket) : Nat := t.m_truncSamples

/-- The mutator `setActive(bool)`. -/
def CMhasTruncationPacket.setActive (t : CMhasTruncationPacket) (isActive : Bool) :
    Except Err CMhasTruncationPacket := do
  let temp := if isActive then 1 else 0
  let nofBits := (t.m_payload.length * 8) % 2 ^ 32
  let bitBuffer := CBitBuffer.ofBuffer t.m_payload nofBits
  let bitBuffer ← bitBuffer.write temp 1
  pure { t with m_payload := bitBuffer.content t.m_payload nofBits, m_isActive := isActive }

/-- The mutator `truncateFromBegin(bool)`. -/
def CMhasTruncationPacket.setTruncateFromBegin (t : CMhasTruncationPacket)
    (truncFromBegin : Bool) : Except Err CMhasTruncationPacket := do
  let temp := if truncFromBegin then 1 else 0
  let nofBits := (t.m_payload.length * 8) % 2 ^ 32
  let bitBuffer := CBitBuffer.ofBuffer t.m_payload nofBits
  let bitBuffer ← bitBuffer.seek 2
  let bitBuffer ← bitBuffer.write temp 1
  pure { t with m_payload := bitBuffer.content t.m_payload nofBits,
                m_truncFromBegin := truncFromBegin }

/-- The mutator `truncatedSamples(uint16_t)`. -/
def CMhasTruncationPacket.setTruncatedSamples (t : CMhasTruncationPacket)
    (truncatedSamplesLeft : Nat) : Except Err CMhasTruncationPacket := do
  let temp := truncatedSamplesLeft % 2 ^ 16
  let nofBits := (t.m_payload.length * 8) % 2 ^ 32
  let bitBuffer := CBitBuffer.ofBuffer t.m_payload nofBits
  let bitBuffer ← bitBuffer.seek 3
  let bitBuffer ← bitBuffer.write temp 13
  pure { t with m_payload := bitBuffer.content t.m_payload nofBits,
                m_truncSamples := truncatedSamplesLeft % 2 ^ 16 }

/-- The private method `parsePayload(begin, end)`. -/
def CMhasTruncationPacket.parsePayload (range : ByteBuffer) :
    Except Err SMhasTruncationPacketConfig := do
  if ¬ (range.length = 2) then throw Err.invalidPayloadSize
  let parser := CBitParser.new (range.take 2)
  let (isActive, parser) ← parser.read 1
  let (reserved, parser) ← parser.read 1
  if ¬ (reserved ≠ 1) then throw Err.reservedValueMismatch
  let (truncateFromBegin, parser) ← parser.read 1
  let (truncatedSamples, _) ← parser.read 13
  pure { isActive := isActive == 1, truncateFromBegin := truncateFromBegin == 1,
         truncatedSamples := truncatedSamples }

/-- The private method `applyConfig(config)`. -/
def CMhasTruncationPacket.applyConfig (t : CMhasTruncationPacket)
    (config : SMhasTruncationPacketConfig) : Except Err CMhasTruncationPacket := do
  let t ← t.setActive config.isActive
  let t ← t.setTruncateFromBegin config.truncateFromBegin
  t.setTruncatedSamples config.truncatedSamples

/-- The override `payload(begin, end)` of the truncation packet. -/
def CMhasTruncationPacket.setPayload (t : CMhasTruncationPacket) (range : ByteBuffer) :
    Except Err CMhasTruncationPacket := do
  let config ← CMhasTruncationPacket.parsePayload range
  t.applyConfig config

/-- The constructor `CMhasTruncationPacket(begin, end)`; the result is the packet and the
range left after `begin`. -/
def CMhasTruncationPacket.new (range : ByteBuffer) :
    Except Err (CMhasTruncationPacket × ByteBuffer) := do
  let (p, rest) ← CMhasPacket.new range
  if ¬ (p.packetType = 17) then throw Err.invalidPacketType
  let t : CMhasTruncationPacket := { toCMhasPacket := p }
  let t ← t.setPayload t.m_payload
  pure (t, rest)

/-- The reserved bit of a truncation payload: bit 1 of the stream, mask 0x40 of the
first byte. -/
def reservedBitSet (payload : ByteBuffer) : Prop :=
  (payload.headD 0).val &&& 0x40 ≠ 0

instance (payload : ByteBuffer) : Decidable (reservedBitSet payload) :=
  inferInstanceAs (Decidable (_ ≠ _))

/-! ## The ASI packet (`mhasasipacket.cpp`) -/

/-- The bit parser `ilo::CBitParser` as the ASI decoders use it: a program over a cursor on
the fixed bit string `data`. The state is the position of the cursor; `nofReadBits()` is that
position and `seek` moves it by a signed offset. A program takes the position before it to
its result and the position after it, or to an exception. -/
structure BitParser (data : List Bool) (α : Type) where
  /-- The effect of the program on a cursor at position `pos`. -/
  run : Nat → Except Err (α × Nat)
  /-- A program never moves the cursor out of the buffer. -/
  inside : ∀ pos a pos1, pos ≤ data.length → run pos = .ok (a, pos1) → pos1 ≤ data.length

instance (data : List Bool) : Monad (BitParser data) where
  pure a :=
    { run := fun pos => .ok (a, pos)
      inside := by
        intro pos a1 pos1 hp h
        injection h with h
        injection h with _ h
        exact h ▸ hp }
  bind x f :=
    { run := fun pos =>
        match x.run pos with
        | .ok (a, pos1) => (f a).run pos1
        | .error e => .error e
      inside := by
        intro pos b pos2 hp h
        cases hx : x.run pos with
        | error e => simp [hx] at h
        | ok r =>
          obtain ⟨a, pos1⟩ := r
          simp only [hx] at h
          exact (f a).inside pos1 b pos2 (x.inside pos a pos1 hp hx) h }

/-- The call `bitparser.read<T>(n)`: the next `n` bits, most significant first. -/
def bitparser.read {data : List Bool} (n : Nat) : BitParser data Nat where
  run := fun pos =>
    if pos + n ≤ data.length then .ok (bitsToNat ((data.drop pos).take n), pos + n)
    else .error Err.outOfBits
  inside := by
    intro pos a pos1 _ h
    simp only at h
    split at h
    · injection h with h
      injection h with _ h
      omega
    · cases h

/-- The call `bitparser.seek(offset, ilo::EPosType::cur)`; the target has to lie inside the
buffer. -/
def bitparser.seek {data : List Bool} (offset : Int) : BitParser data Unit where
  run := fun pos =>
    if 0 ≤ (pos : Int) + offset ∧ (pos : Int) + offset ≤ (data.length : Int) then
      .ok ((), ((pos : Int) + offset).toNat)
    else .error Err.outOfBits
  inside := by
    intro pos a pos1 _ h
    simp only at h
    split at h
    · injection h with h
      injection h with _ h
      omega
    · cases h

/-- The call `bitparser.nofReadBits()`, a `uint32_t`. -/
def bitparser.nofReadBits {data : List Bool} : BitParser data Nat where
  run := fun pos => .ok (pos % 2 ^ 32, pos)
  inside := by
    intro pos a pos1 hp h
    injection h with h
    injection h with _ h
    exact h ▸ hp

/-- The conversion `static_cast<int32_t>(x)` (two's complement). -/
def toInt32 (x : Int) : Int := (x + 2 ^ 31) % 2 ^ 32 - 2 ^ 31

/-- The algorithm `std::generate` over a vector that was resized to `n` elements: the
generator runs `n` times and fills the vector in order. -/
def generate {m : Type → Type} [Monad m] {α : Type} : Nat → m α → m (List α)
  | 0, _ => pure []
  | n + 1, f => do
    let x ← f
    let xs ← generate n f
    pure (x :: xs)

/-- The structure `SAudioSceneGroupPresets::SAudioScenePresetCondition::SCondition`. -/
structure SCondition where
  disableGainInteractivity : Bool := false
  gainFlag : Bool := false
  gain : Nat := 0
  disablePositionInteractivity : Bool := false
  positionFlag : Bool := false
  azOffset : Nat := 0
  elOffset : Nat := 0
  distFactor : Nat := 0
  deriving DecidableEq, Repr

/-- The structure `SAudioSceneGroupPresets::SAudioScenePresetCondition`; the shared pointer
`condition` is `none` when it is `nullptr`. -/
structure SAudioScenePresetCondition where
  groupID : Nat := 0
  onOff : Bool := false
  condition : Option SCondition := none
  deriving DecidableEq, Repr

/-- The structure `SAudioSceneGroupPresets`. -/
structure SAudioSceneGroupPresets where
  presetID : Nat := 0
  kind : Nat := 0
  conditions : List SAudioScenePresetCondition := []
  deriving DecidableEq, Repr

/-- The structure `SAudioSceneSwitchGroup`. -/
structure SAudioSceneSwitchGroup where
  switchGroupID : Nat := 0
  switchGroupAllowOnOff : Bool := false
  switchGroupDefaultOnOff : Bool := false
  switchGroupDefaultGroupId : Nat := 0
  switchGroupMemberId : List Nat := []
  deriving DecidableEq, Repr

/-- The structure `SAudioSceneGroup`. -/
structure SAudioSceneGroup where
  groupID : Nat := 0
  allowOnOff : Bool := false
  defaultOnOff : Bool := false
  allowPositionInteractivity : Bool := false
  interactivityMinAzOffset : Nat := 0
  interactivityMaxAzOffset : Nat := 0
  interactivityMinElOffset : Nat := 0
  interactivityMaxElOffset : Nat := 0
  interactivityMinDistFactor : Nat := 0
  interactivityMaxDistFactor : Nat := 0
  allowGainInteractivity : Bool := false
  interactivityMinGain : Nat := 0
  interactivityMaxGain : Nat := 0
  bsGroupNumMembers : Nat := 0
  hasConjunctMembers : Bool := false
  startID : Nat := 0
  metaDataElementId : List Nat := []
  deriving DecidableEq, Repr

/-- The structure `SAudioSceneCompositePair::SCompositePair`. -/
structure SCompositePair where
  compositeElementIDs : Nat × Nat := (0, 0)
  deriving DecidableEq, Repr

/-- The structure `SAudioSceneCompositePair`. -/
structure SAudioSceneCompositePair where
  compositePairs : List SCompositePair := []
  deriving DecidableEq, Repr

/-- The structure `SAudioSceneContentDataBlock::SContentDataBlock`. -/
structure SContentDataBlock where
  contentDataGroupID : Nat := 0
  contentKind : Nat := 0
  hasContentLanguage : Bool := false
  contentLanguage : Nat := 0
  deriving DecidableEq, Repr

/-- The structure `SAudioSceneContentDataBlock`. -/
structure SAudioSceneContentDataBlock where
  contentDataBlocks : List SContentDataBlock := []
  deriving DecidableEq, Repr

/-- The structure `SAudioSceneDescription::SDescriptionLanguages`. -/
structure SDescriptionLanguages where
  bsDescLanguage : Nat := 0
  descData : List Nat := []
  deriving DecidableEq, Repr

/-- The structure `SAudioSceneDescription::SDescriptionBlock`. -/
structure SDescriptionBlock where
  descriptionGroupID : Nat := 0
  descriptionSwitchGroupID : Nat := 0
  descriptionGroupPresetID : Nat := 0
  languages : List SDescriptionLanguages := []
  deriving DecidableEq, Repr

/-- The structure `SAudioSceneDescription`. -/
structure SAudioSceneDescription where
  descriptionBlocks : List SDescriptionBlock := []
  deriving DecidableEq, Repr

/-- The structure `SAudioSceneDrcUiInfo::STargetLoudnessConditions`. -/
structure STargetLoudnessConditions where
  targetLoudnessValueUpper : Nat := 0
  drcSetEffectAvailable : Nat := 0
  deriving DecidableEq, Repr

/-- The structure `SAudioSceneDrcUiInfo`. -/
structure SAudioSceneDrcUiInfo where
  version : Nat := 0
  targetLoudnessConditions : List STargetLoudnessConditions := []
  deriving DecidableEq, Repr

/-- The structure `SAudioSceneGrpPresetEx::SGrpPresetCondition`. -/
structure SGrpPresetCondition where
  grpPresetSwitchGrpId : Nat := 0
  grpPresetGrpId : Nat := 0
  grpPresetGain : Nat := 0
  grpPresetAzOffset : Nat := 0
  grpPresetElOffset : Nat := 0
  grpPresetDistFactor : Nat := 0
  grpPresetConditionOnOff : Bool := false
  grpPresetDisableGainInteractivity : Bool := false
  grpPresetGainFlag : Bool := false
  isSwitchGrpCondtion : Bool := false
  grpPresetDisablePosInteractivity : Bool := false
  grpPresetPositionFlag : Bool := false
  deriving DecidableEq, Repr

/-- The structure `SAudioSceneGrpPresetEx::SDownmixIdGrpPresetEx`. -/
structure SDownmixIdGrpPresetEx where
  grpPresetDownmixId : Nat := 0
  grpPresetConditions : List SGrpPresetCondition := []
  deriving DecidableEq, Repr

/-- The structure `SAudioSceneGrpPresetEx::SGroupPresets`. -/
structure SGroupPresets where
  hasSwitchGrpConditions : Bool := false
  hasDownmixIdGrpPresetEx : Bool := false
  isSwitchGrpCondition : List Bool := []
  downmixIdGrpPreset : List SDownmixIdGrpPresetEx := []
  deriving DecidableEq, Repr

/-- The structure `SAudioSceneGrpPresetEx`. -/
structure SAudioSceneGrpPresetEx where
  groupPresets : List SGroupPresets := []
  deriving DecidableEq, Repr

/-- The structure `SAudioSceneLoudnessCompData::SLcPresetParams`. -/
structure SLcPresetParams where
  lcPresetParamsPresent : Bool := false
  lcPresetMinMaxGainPresent : Bool := false
  bsLcPresetMinGain : Nat := 0
  bsLcPresetMaxGain : Nat := 0
  lcPresetIncludeGroup : List Bool := []
  deriving DecidableEq, Repr

/-- The structure `SAudioSceneLoudnessCompData`. -/
structure SAudioSceneLoudnessCompData where
  lcGroupLoudnessPresent : Bool := false
  lcDefaultParamsPresent : Bool := false
  lcDefaultMinMaxGainPresent : Bool := false
  bsLcDefaultMinGain : Nat := 0
  bsLcDefaultMaxGain : Nat := 0
  bsLcGroupLoudness : List Nat := []
  lcDefaultIncludeGroup : List Bool := []
  lcPresetParams : List SLcPresetParams := []
  deriving DecidableEq, Repr

/-- The structure `SAudioSceneProdScreenSizeData`. -/
structure SAudioSceneProdScreenSizeData where
  hasNonStandardScreenSize : Bool := false
  bsScreenSizeAz : Nat := 0
  bsScreenSizeTopEl : Nat := 0
  bsScreenSizeBottomEl : Nat := 0
  deriving DecidableEq, Repr

/-- The structure `SAudioSceneProdScreenSizeDataEx::SPresetProductionScreens`. -/
structure SPresetProductionScreens where
  hasNonStandardScreenSize : Bool := false
  isCenteredInAzimuth : Bool := false
  prodScreenGrpPresetId : Nat := 0
  bsScreenSizeAz : Nat := 0
  bsScreenSizeLeftAz : Nat := 0
  bsScreenSizeRightAz : Nat := 0
  bsScreenSizeTopEl : Nat := 0
  bsScreenSizeBottomEl : Nat := 0
  deriving DecidableEq, Repr

/-- The structure `SAudioSceneProdScreenSizeDataEx`. -/
structure SAudioSceneProdScreenSizeDataEx where
  overwriteProdScreenSizeData : Bool := false
  bsScreenSizeLeftAz : Nat := 0
  bsScreenSizeRightAz : Nat := 0
  presetProdScreens : List SPresetProductionScreens := []
  deriving DecidableEq, Repr

/-- What the shared pointer `SAudioSceneDataSet::data` points to: one of the classes derived
from `SAudioSceneDataElement`, or nothing (`nullptr`). -/
inductive SAudioSceneDataElement where
  | description (d : SAudioSceneDescription)
  | contentDataBlock (d : SAudioSceneContentDataBlock)
  | compositePair (d : SAudioSceneCompositePair)
  | prodScreenSizeData (d : SAudioSceneProdScreenSizeData)
  | drcUiInfo (d : SAudioSceneDrcUiInfo)
  | prodScreenSizeDataEx (d : SAudioSceneProdScreenSizeDataEx)
  | grpPresetEx (d : SAudioSceneGrpPresetEx)
  | loudnessCompData (d : SAudioSceneLoudnessCompData)
  | nullptr
  deriving DecidableEq, Repr

/-- The structure `SAudioSceneData::SAudioSceneDataSet`; `dataType` is the value of the
enumeration `EDataType` (0 .. 9 are named, 10 .. 15 are not). -/
structure SAudioSceneDataSet where
  dataType : Nat := 0
  dataLength : Nat := 0
  data : SAudioSceneDataElement := .nullptr
  deriving DecidableEq, Repr

/-- The structure `SAudioSceneData`. -/
structure SAudioSceneData where
  dataSets : List SAudioSceneDataSet := []
  deriving DecidableEq, Repr

/-- The structure `SAudioSceneInfo`. -/
structure SAudioSceneInfo where
  isMainStream : Bool := false
  audioSceneInfoIDPresent : Bool := false
  audioSceneInfoID : Nat := 0
  metaDataElementIDOffset : Nat := 0
  metaDataElementIDmaxAvail : Nat := 0
  groups : List SAudioSceneGroup := []
  switchGroups : List SAudioSceneSwitchGroup := []
  groupPresets : List SAudioSceneGroupPresets := []
  data : SAudioSceneData := {}
  deriving DecidableEq, Repr

/-- The class `CMhasAsiPacket`. -/
structure CMhasAsiPacket extends CMhasPacket where
  /-- The member behind `audioSceneInfo()`. -/
  m_sceneInfo : SAudioSceneInfo := {}
  deriving DecidableEq, Repr

/-- The method `SAudioSceneGroup::parsePayload(bitparser)` on a fresh object. -/
def SAudioSceneGroup.parsePayload {data : List Bool} : BitParser data SAudioSceneGroup := do
  let mut obj : SAudioSceneGroup := {}
  obj := { obj with groupID := ← bitparser.read 7 }
  obj := { obj with allowOnOff := (← bitparser.read 1) == 1 }
  obj := { obj with defaultOnOff := (← bitparser.read 1) == 1 }
  obj := { obj with allowPositionInteractivity := (← bitparser.read 1) == 1 }
  if obj.allowPositionInteractivity then
    obj := { obj with interactivityMinAzOffset := ← bitparser.read 7 }
    obj := { obj with interactivityMaxAzOffset := ← bitparser.read 7 }
    obj := { obj with interactivityMinElOffset := ← bitparser.read 5 }
    obj := { obj with interactivityMaxElOffset := ← bitparser.read 5 }
    obj := { obj with interactivityMinDistFactor := ← bitparser.read 4 }
    obj := { obj with interactivityMaxDistFactor := ← bitparser.read 4 }
  obj := { obj with allowGainInteractivity := (← bitparser.read 1) == 1 }
  if obj.allowGainInteractivity then
    obj := { obj with interactivityMinGain := ← bitparser.read 6 }
    obj := { obj with interactivityMaxGain := ← bitparser.read 5 }
  obj := { obj with bsGroupNumMembers := ← bitparser.read 7 }
  obj := { obj with hasConjunctMembers := (← bitparser.read 1) == 1 }
  if obj.hasConjunctMembers then
    obj := { obj with startID := ← bitparser.read 7 }
  else
    obj := { obj with
      metaDataElementId := ← generate (obj.bsGroupNumMembers + 1) (bitparser.read 7) }
  pure obj

/-- The method `SAudioSceneSwitchGroup::parsePayload(bitparser)` on a fresh object. -/
def SAudioSceneSwitchGroup.parsePayload {data : List Bool} :
    BitParser data SAudioSceneSwitchGroup := do
  let mut obj : SAudioSceneSwitchGroup := {}
  obj := { obj with switchGroupID := ← bitparser.read 5 }
  obj := { obj with switchGroupAllowOnOff := (← bitparser.read 1) == 1 }
  if obj.switchGroupAllowOnOff then
    obj := { obj with switchGroupDefaultOnOff := (← bitparser.read 1) == 1 }
  let members ← bitparser.read 5
  obj := { obj with switchGroupMemberId := ← generate (members + 1) (bitparser.read 7) }
  obj := { obj with switchGroupDefaultGroupId := ← bitparser.read 7 }
  pure obj

/-- The generator of `SAudioSceneGroupPresets::parsePayload`: one preset condition. -/
def SAudioScenePresetCondition.parse {data : List Bool} :
    BitParser data SAudioScenePresetCondition := do
  let mut condition : SAudioScenePresetCondition := {}
  condition := { condition with groupID := ← bitparser.read 7 }
  condition := { condition with onOff := (← bitparser.read 1) == 1 }
  if condition.onOff then
    let mut c : SCondition := {}
    c := { c with disableGainInteractivity := (← bitparser.read 1) == 1 }
    c := { c with gainFlag := (← bitparser.read 1) == 1 }
    if c.gainFlag then
      c := { c with gain := ← bitparser.read 8 }
    c := { c with disablePositionInteractivity := (← bitparser.read 1) == 1 }
    c := { c with positionFlag := (← bitparser.read 1) == 1 }
    if c.positionFlag then
      c := { c with azOffset := ← bitparser.read 8 }
      c := { c with elOffset := ← bitparser.read 6 }
      c := { c with distFactor := ← bitparser.read 4 }
    condition := { condition with condition := some c }
  pure condition

/-- The method `SAudioSceneGroupPresets::parsePayload(bitparser)` on a fresh object. -/
def SAudioSceneGroupPresets.parsePayload {data : List Bool} :
    BitParser data SAudioSceneGroupPresets := do
  let mut obj : SAudioSceneGroupPresets := {}
  obj := { obj with presetID := ← bitparser.read 5 }
  obj := { obj with kind := ← bitparser.read 5 }
  let numConditions ← bitparser.read 4
  obj := { obj with
    conditions := ← generate (numConditions + 1) SAudioScenePresetCondition.parse }
  pure obj

/-- The method `SAudioSceneCompositePair::parsePayload(bitparser)` on a fresh object. -/
def SAudioSceneCompositePair.parsePayload {data : List Bool} :
    BitParser data SAudioSceneCompositePair := do
  let numCompositePairs ← bitparser.read 7
  let compositePairs ← generate (numCompositePairs + 1) (do
    let first ← bitparser.read 7
    let second ← bitparser.read 7
    pure ({ compositeElementIDs := (first, second) } : SCompositePair))
  pure { compositePairs := compositePairs }

/-- The method `SAudioSceneContentDataBlock::parsePayload(bitparser)` on a fresh object. -/
def SAudioSceneContentDataBlock.parsePayload {data : List Bool} :
    BitParser data SAudioSceneContentDataBlock := do
  let numContentDataBlocks ← bitparser.read 7
  let contentDataBlocks ← generate (numContentDataBlocks + 1) (do
    let mut contentDataBlock : SContentDataBlock := {}
    contentDataBlock := { contentDataBlock with contentDataGroupID := ← bitparser.read 7 }
    contentDataBlock := { contentDataBlock with contentKind := ← bitparser.read 4 }
    contentDataBlock :=
      { contentDataBlock with hasContentLanguage := (← bitparser.read 1) == 1 }
    if contentDataBlock.hasContentLanguage then
      contentDataBlock := { contentDataBlock with contentLanguage := ← bitparser.read 24 }
    pure contentDataBlock)
  pure { contentDataBlocks := contentDataBlocks }

/-- The method `SAudioSceneDescription::parsePayload(bitparser, type)` on a fresh object. -/
def SAudioSceneDescription.parsePayload {data : List Bool} (type : Nat) :
    BitParser data SAudioSceneDescription := do
  let numDescBlocks ← bitparser.read 7
  let descriptionBlocks ← generate (numDescBlocks + 1) (do
    let mut descriptionBlock : SDescriptionBlock := {}
    if type = 0 then
      descriptionBlock := { descriptionBlock with descriptionGroupID := ← bitparser.read 7 }
    else if type = 1 then
      descriptionBlock :=
        { descriptionBlock with descriptionSwitchGroupID := ← bitparser.read 5 }
    else if type = 5 then
      descriptionBlock :=
        { descriptionBlock with descriptionGroupPresetID := ← bitparser.read 5 }
    let numDescLanguages ← bitparser.read 4
    let languages ← generate (numDescLanguages + 1) (do
      let bsDescLanguage ← bitparser.read 24
      let descDataLength ← bitparser.read 8
      let descData ← generate (descDataLength + 1) (bitparser.read 8)
      pure ({ bsDescLanguage := bsDescLanguage, descData := descData } :
        SDescriptionLanguages))
    descriptionBlock := { descriptionBlock with languages := languages }
    pure descriptionBlock)
  pure { descriptionBlocks := descriptionBlocks }

/-- The method `SAudioSceneDrcUiInfo::parsePayload(bitparser, length)` on a fresh object. -/
def SAudioSceneDrcUiInfo.parsePayload {data : List Bool} (length : Nat) :
    BitParser data SAudioSceneDrcUiInfo := do
  let mut obj : SAudioSceneDrcUiInfo := {}
  obj := { obj with version := ← bitparser.read 2 }
  if obj.version = 0 then
    let numTargetLoudnessConditions ← bitparser.read 3
    let targetLoudnessConditions ← generate numTargetLoudnessConditions (do
      let targetLoudnessValueUpper ← bitparser.read 6
      let drcSetEffectAvailable ← bitparser.read 16
      pure ({ targetLoudnessValueUpper := targetLoudnessValueUpper,
              drcSetEffectAvailable := drcSetEffectAvailable } : STargetLoudnessConditions))
    obj := { obj with targetLoudnessConditions := targetLoudnessConditions }
  else
    let toSkip : Int := (length : Int) * 8 - 2
    bitparser.seek toSkip
  pure obj

/-- The method `SDownmixIdGrpPresetEx::parseConditions(bitparser)`. -/
def SDownmixIdGrpPresetEx.parseConditions {data : List Bool} (obj : SDownmixIdGrpPresetEx) :
    BitParser data SDownmixIdGrpPresetEx := do
  let numConditions ← bitparser.read 4
  let grpPresetConditions ← generate (numConditions + 1) (do
    let mut c : SGrpPresetCondition := {}
    c := { c with isSwitchGrpCondtion := (← bitparser.read 1) == 1 }
    if c.isSwitchGrpCondtion then
      c := { c with grpPresetSwitchGrpId := ← bitparser.read 5 }
    else
      c := { c with grpPresetGrpId := ← bitparser.read 7 }
    c := { c with grpPresetConditionOnOff := (← bitparser.read 1) == 1 }
    if c.grpPresetConditionOnOff then
      c := { c with grpPresetDisableGainInteractivity := (← bitparser.read 1) == 1 }
      c := { c with grpPresetGainFlag := (← bitparser.read 1) == 1 }
      if c.grpPresetGainFlag then
        c := { c with grpPresetGain := ← bitparser.read 8 }
      c := { c with grpPresetDisablePosInteractivity := (← bitparser.read 1) == 1 }
      c := { c with grpPresetPositionFlag := (← bitparser.read 1) == 1 }
      if c.grpPresetPositionFlag then
        c := { c with grpPresetAzOffset := ← bitparser.read 8 }
        c := { c with grpPresetElOffset := ← bitparser.read 6 }
        c := { c with grpPresetDistFactor := ← bitparser.read 4 }
    pure c)
  pure { obj with grpPresetConditions := grpPresetConditions }

/-- The method `SGroupPresets::parseDownmixIdGrpPresetEx(bitparser)`; the loop
`for (j = 1; j < numDownmixIdGrpPresetEx + 1; ++j)` runs `numDownmixIdGrpPresetEx` times and
appends one element each time. -/
def SGroupPresets.parseDownmixIdGrpPresetEx {data : List Bool} (obj : SGroupPresets) :
    BitParser data SGroupPresets := do
  let numDownmixIdGrpPresetEx ← bitparser.read 5
  let added ← generate numDownmixIdGrpPresetEx (do
    let mut downmixIdGrpPresetEx : SDownmixIdGrpPresetEx := {}
    downmixIdGrpPresetEx :=
      { downmixIdGrpPresetEx with grpPresetDownmixId := ← bitparser.read 7 }
    downmixIdGrpPresetEx ← downmixIdGrpPresetEx.parseConditions
    pure downmixIdGrpPresetEx)
  pure { obj with downmixIdGrpPreset := obj.downmixIdGrpPreset ++ added }

/-- The method `SAudioSceneGrpPresetEx::parsePayload(bitparser, grpPresetNumConditions)`. -/
def SAudioSceneGrpPresetEx.parsePayload {data : List Bool} (obj : SAudioSceneGrpPresetEx)
    (grpPresetNumConditions : Nat) : BitParser data SAudioSceneGrpPresetEx := do
  let mut grpPresets : SGroupPresets := {}
  grpPresets := { grpPresets with hasSwitchGrpConditions := (← bitparser.read 1) == 1 }
  if grpPresets.hasSwitchGrpConditions then
    grpPresets := { grpPresets with
      isSwitchGrpCondition :=
        ← generate (grpPresetNumConditions + 1) (do pure ((← bitparser.read 1) == 1)) }
  grpPresets := { grpPresets with hasDownmixIdGrpPresetEx := (← bitparser.read 1) == 1 }
  if grpPresets.hasDownmixIdGrpPresetEx then
    grpPresets ← grpPresets.parseDownmixIdGrpPresetEx
  pure { obj with groupPresets := obj.groupPresets ++ [grpPresets] }

/-- The method `SAudioSceneLoudnessCompData::parsePayload(bitparser, numGroups,
numGroupPresets)` on a fresh object. -/
def SAudioSceneLoudnessCompData.parsePayload {data : List Bool}
    (numGroups numGroupPresets : Nat) : BitParser data SAudioSceneLoudnessCompData := do
  let mut obj : SAudioSceneLoudnessCompData := {}
  obj := { obj with lcGroupLoudnessPresent := (← bitparser.read 1) == 1 }
  if obj.lcGroupLoudnessPresent then
    obj := { obj with bsLcGroupLoudness := ← generate numGroups (bitparser.read 8) }
  obj := { obj with lcDefaultParamsPresent := (← bitparser.read 1) == 1 }
  if obj.lcDefaultParamsPresent then
    obj := { obj with
      lcDefaultIncludeGroup := ← generate numGroups (do pure ((← bitparser.read 1) == 1)) }
    obj := { obj with lcDefaultMinMaxGainPresent := (← bitparser.read 1) == 1 }
    if obj.lcDefaultMinMaxGainPresent then
      obj := { obj with bsLcDefaultMinGain := ← bitparser.read 4 }
      obj := { obj with bsLcDefaultMaxGain := ← bitparser.read 4 }
  let lcPresetParams ← generate numGroupPresets (do
    let mut presetParams : SLcPresetParams := {}
    presetParams := { presetParams with lcPresetParamsPresent := (← bitparser.read 1) == 1 }
    if presetParams.lcPresetParamsPresent then
      presetParams := { presetParams with
        lcPresetIncludeGroup :=
          ← generate numGroups (do pure ((← bitparser.read 1) == 1)) }
      presetParams :=
        { presetParams with lcPresetMinMaxGainPresent := (← bitparser.read 1) == 1 }
      if presetParams.lcPresetMinMaxGainPresent then
        presetParams := { presetParams with bsLcPresetMinGain := ← bitparser.read 4 }
        presetParams := { presetParams with bsLcPresetMaxGain := ← bitparser.read 4 }
    pure presetParams)
  obj := { obj with lcPresetParams := lcPresetParams }
  pure obj

/-- The method `SAudioSceneProdScreenSizeData::parsePayload(bitparser)` on a fresh object. -/
def SAudioSceneProdScreenSizeData.parsePayload {data : List Bool} :
    BitParser data SAudioSceneProdScreenSizeData := do
  let mut obj : SAudioSceneProdScreenSizeData := {}
  obj := { obj with hasNonStandardScreenSize := (← bitparser.read 1) == 1 }
  if obj.hasNonStandardScreenSize then
    obj := { obj with bsScreenSizeAz := ← bitparser.read 9 }
    obj := { obj with bsScreenSizeTopEl := ← bitparser.read 9 }
    obj := { obj with bsScreenSizeBottomEl := ← bitparser.read 9 }
  pure obj

/-- The method `SAudioSceneProdScreenSizeDataEx::parsePayload(bitparser)` on a fresh
object. -/
def SAudioSceneProdScreenSizeDataEx.parsePayload {data : List Bool} :
    BitParser data SAudioSceneProdScreenSizeDataEx := do
  let mut obj : SAudioSceneProdScreenSizeDataEx := {}
  obj := { obj with overwriteProdScreenSizeData := (← bitparser.read 1) == 1 }
  if obj.overwriteProdScreenSizeData then
    obj := { obj with bsScreenSizeLeftAz := ← bitparser.read 10 }
    obj := { obj with bsScreenSizeRightAz := ← bitparser.read 10 }
  let numPresetProductionScreens ← bitparser.read 5
  let presetProdScreens ← generate numPresetProductionScreens (do
    let mut s : SPresetProductionScreens := {}
    s := { s with prodScreenGrpPresetId := ← bitparser.read 5 }
    s := { s with hasNonStandardScreenSize := (← bitparser.read 1) == 1 }
    if s.hasNonStandardScreenSize then
      s := { s with isCenteredInAzimuth := (← bitparser.read 1) == 1 }
      if s.isCenteredInAzimuth then
        s := { s with bsScreenSizeAz := ← bitparser.read 9 }
      else
        s := { s with bsScreenSizeLeftAz := ← bitparser.read 10 }
        s := { s with bsScreenSizeRightAz := ← bitparser.read 10 }
      s := { s with bsScreenSizeTopEl := ← bitparser.read 9 }
      s := { s with bsScreenSizeBottomEl := ← bitparser.read 9 }
    pure s)
  obj := { obj with presetProdScreens := presetProdScreens }
  pure obj

/-- The loop `for (j = 0; j < numGroupPresets; ++j) grpPresetEx.parsePayload(bitparser,
grpPresetNumConditions[j])` of `SAudioSceneData::parsePayload`; `conds` holds the first
`numGroupPresets` entries of `grpPresetNumConditions`. -/
def SAudioSceneGrpPresetEx.parseAll {data : List Bool} :
    List Nat → SAudioSceneGrpPresetEx → BitParser data SAudioSceneGrpPresetEx
  | [], obj => pure obj
  | c :: conds, obj => do
    let obj ← obj.parsePayload c
    SAudioSceneGrpPresetEx.parseAll conds obj

/-- The `switch (dataSet.dataType)` of `SAudioSceneData::parsePayload`: the decoder of one
data set, chosen by its type. -/
def SAudioSceneDataSet.parseData {data : List Bool} (numGroups numGroupPresets : Nat)
    (grpPresetNumConditions : List Nat) (dataType dataLength : Nat) :
    BitParser data SAudioSceneDataElement := do
  if dataType = 0 ∨ dataType = 1 ∨ dataType = 5 then
    let description ← SAudioSceneDescription.parsePayload dataType
    pure (.description description)
  else if dataType = 2 then
    let contentDataBlock ← SAudioSceneContentDataBlock.parsePayload
    pure (.contentDataBlock contentDataBlock)
  else if dataType = 3 then
    let compositePair ← SAudioSceneCompositePair.parsePayload
    pure (.compositePair compositePair)
  else if dataType = 4 then
    let prodScreenSizeData ← SAudioSceneProdScreenSizeData.parsePayload
    pure (.prodScreenSizeData prodScreenSizeData)
  else if dataType = 6 then
    let drcUiInfo ← SAudioSceneDrcUiInfo.parsePayload dataLength
    pure (.drcUiInfo drcUiInfo)
  else if dataType = 7 then
    let prodScreenSizeDataEx ← SAudioSceneProdScreenSizeDataEx.parsePayload
    pure (.prodScreenSizeDataEx prodScreenSizeDataEx)
  else if dataType = 8 then
    let grpPresetEx ←
      SAudioSceneGrpPresetEx.parseAll (grpPresetNumConditions.take numGroupPresets) {}
    pure (.grpPresetEx grpPresetEx)
  else if dataType = 9 then
    let loudnessCompData ← SAudioSceneLoudnessCompData.parsePayload numGroups numGroupPresets
    pure (.loudnessCompData loudnessCompData)
  else
    bitparser.seek (8 * (dataLength : Int))
    pure .nullptr

/-- The generator of `SAudioSceneData::parsePayload`: one extension block (data set). -/
def SAudioSceneDataSet.parse {data : List Bool} (numGroups numGroupPresets : Nat)
    (grpPresetNumConditions : List Nat) : BitParser data SAudioSceneDataSet := do
  let dataType ← bitparser.read 4
  let dataLength ← bitparser.read 16
  let numReadBitsOrig ← bitparser.nofReadBits
  let element ←
    SAudioSceneDataSet.parseData numGroups numGroupPresets grpPresetNumConditions dataType
      dataLength
  let bitsRead : Nat := ((← bitparser.nofReadBits) + 2 ^ 32 - numReadBitsOrig) % 2 ^ 32
  let toRead : Int := toInt32 ((dataLength : Int) * 8 - toInt32 (bitsRead : Int))
  bitparser.seek toRead
  pure { dataType := dataType, dataLength := dataLength, data := element }

/-- The method `SAudioSceneData::parsePayload(numGroups, numGroupPresets,
grpPresetNumConditions, bitparser)` on a fresh object. -/
def SAudioSceneData.parsePayload {data : List Bool} (numGroups numGroupPresets : Nat)
    (grpPresetNumConditions : List Nat) : BitParser data SAudioSceneData := do
  let numDataSets ← bitparser.read 4
  let dataSets ← generate numDataSets
    (SAudioSceneDataSet.parse numGroups numGroupPresets grpPresetNumConditions)
  pure { dataSets := dataSets }

/-- The part of `SAudioSceneInfo::parsePayload(begin, end)` that works on the bit parser:
the fields of the scene, then `bitparser.nofReadBits()`. -/
def SAudioSceneInfo.parseBits {data : List Bool} : BitParser data (SAudioSceneInfo × Nat) := do
  let mut obj : SAudioSceneInfo := {}
  obj := { obj with isMainStream := (← bitparser.read 1) == 1 }
  if obj.isMainStream then
    obj := { obj with audioSceneInfoIDPresent := (← bitparser.read 1) == 1 }
    if obj.audioSceneInfoIDPresent then
      obj := { obj with audioSceneInfoID := ← bitparser.read 8 }
    let numGroups ← bitparser.read 7
    obj := { obj with groups := ← generate numGroups SAudioSceneGroup.parsePayload }
    let numSwitchGroups ← bitparser.read 5
    obj := { obj with
      switchGroups := ← generate numSwitchGroups SAudioSceneSwitchGroup.parsePayload }
    let numGroupPresets ← bitparser.read 5
    obj := { obj with
      groupPresets := ← generate numGroupPresets SAudioSceneGroupPresets.parsePayload }
    let numConditions : List Nat :=
      obj.groupPresets.map (fun groupPreset => (groupPreset.conditions.length - 1) % 2 ^ 8)
    obj := { obj with
      data := ← SAudioSceneData.parsePayload numGroups numGroupPresets numConditions }
    obj := { obj with metaDataElementIDmaxAvail := ← bitparser.read 7 }
  else
    obj := { obj with metaDataElementIDOffset := ← bitparser.read 7 }
    obj := { obj with metaDataElementIDmaxAvail := ← bitparser.read 7 }
  let numReadBits ← bitparser.nofReadBits
  pure (obj, numReadBits)

/-- The method `SAudioSceneInfo::parsePayload(begin, end)` on a fresh object: the result is
the scene and the range left after `begin` has been advanced by the bytes that were read. -/
def SAudioSceneInfo.parsePayload (range : ByteBuffer) :
    Except Err (SAudioSceneInfo × ByteBuffer) := do
  if ¬ (range.length > 0) then throw Err.emptyPayload
  let ((obj, numReadBits), _) ←
    (SAudioSceneInfo.parseBits : BitParser (bytesToBits range) _).run 0
  let begin := range.drop (if numReadBits % 8 = 0 then numReadBits / 8 else numReadBits / 8 + 1)
  pure (obj, begin)

/-- The constructor `CMhasAsiPacket(begin, end)`; the result is the packet and the range left
after `begin`. The local iterator `payloadBeginIterator` is modelled by the range between it
and `m_payload.end()`. -/
def CMhasAsiPacket.new (range : ByteBuffer) : Except Err (CMhasAsiPacket × ByteBuffer) := do
  let (p, rest) ← CMhasPacket.new range
  if ¬ (p.packetType = 3) then throw Err.invalidPacketType
  let (m_sceneInfo, _) ← SAudioSceneInfo.parsePayload p.m_payload
  let payloadBeginIterator : ByteBuffer := []
  if ¬ (payloadBeginIterator = []) then throw Err.residualData
  pure ({ toCMhasPacket := p, m_sceneInfo := m_sceneInfo }, rest)

/-- The override `payload(begin, end)` of the ASI packet. -/
def CMhasAsiPacket.setPayload (t : CMhasAsiPacket) (range : ByteBuffer) :
    Except Err CMhasAsiPacket := do
  let (m_sceneInfo, begin) ← SAudioSceneInfo.parsePayload range
  if ¬ (begin = []) then throw Err.residualData
  pure { t with m_sceneInfo := m_sceneInfo, m_payload := range }

/-- The constructor `CMhasAsiPacket(label, payloadBegin, payloadEnd)`. -/
def CMhasAsiPacket.ofPayload (label : Nat) (range : ByteBuffer) : Except Err CMhasAsiPacket := do
  let t : CMhasAsiPacket :=
    { toCMhasPacket := { m_payload := [], m_packetLabel := 1, m_packetType := 3 } }
  let t ← t.setPayload range
  pure { t with m_packetLabel := label }

/-! ## The configuration packet (`mhasconfigpacket.cpp`) -/

/-- The lookup `find(k)` of a `std::map<uint8_t, T>`, which is modelled by the list of its
entries in ascending key order. -/
def mapFind {β : Type} (m : List (Nat × β)) (k : Nat) : Option β :=
  match m with
  | [] => none
  | (k1, v) :: rest => if k1 = k then some v else mapFind rest k

/-- The assignment `m[k] = v` of a `std::map<uint8_t, T>`. -/
def mapAssign {β : Type} (m : List (Nat × β)) (k : Nat) (v : β) : List (Nat × β) :=
  match m with
  | [] => [(k, v)]
  | (k1, v1) :: rest =>
    if k < k1 then (k, v) :: (k1, v1) :: rest
    else if k = k1 then (k, v) :: rest
    else (k1, v1) :: mapAssign rest k v

/-- The call `m.count(k)` of a `std::map<uint8_t, T>`. -/
def mapCount {β : Type} (m : List (Nat × β)) (k : Nat) : Nat :=
  if (mapFind m k).isSome then 1 else 0

/-- The keys of a `std::map<uint8_t, T>`, ascending. -/
def mapKeys {β : Type} (m : List (Nat × β)) : List Nat := m.map Prod.fst

/-- The record `SSpeakerConfig3d`; `speakerLayoutType` holds the value of the enumeration
`ESpeakerLayoutType` (`INVALID = 255`). -/
structure SSpeakerConfig3d where
  speakerLayoutType : Nat := 255
  numSpeakers : Nat := 0
  cicpSpeakerLayoutIdx : Nat := 255
  cicpSpeakerIdx : List Nat := []
  deriving DecidableEq, Repr

/-- The record `SSignals3d::SSignalGroup`; `signalGroupType` holds the value of the
enumeration `ESignalGroupType` (`INVALID = 255`). The layout behind `audioChannelLayout` is
never written after it was made, so the shared pointer is modelled by what it points to
(`none` for a null pointer). -/
structure SSignalGroup where
  metaDataElementIds : List Nat := []
  idx : Nat := 255
  signalGroupType : Nat := 255
  audioChannelLayout : Option SSpeakerConfig3d := none
  numSignals : Nat := 0
  deriving DecidableEq, Repr

/-- The objects behind the pointers `std::shared_ptr<SSignalGroup>`: a pointer is the index
of its object in this list, and every holder of the pointer sees the same object. -/
abbrev SignalGroupHeap := List SSignalGroup

/-- The allocation `std::make_shared<SSignalGroup>()`, followed by the writes that fill the
new object: the heap afterwards and the pointer. -/
def SignalGroupHeap.alloc (heap : SignalGroupHeap) (g : SSignalGroup) : SignalGroupHeap × Nat :=
  (heap ++ [g], heap.length)

/-- A write through a pointer: the object at `ptr` is replaced by `f` of it. -/
def SignalGroupHeap.update (heap : SignalGroupHeap) (ptr : Nat)
    (f : SSignalGroup → SSignalGroup) : SignalGroupHeap :=
  match heap[ptr]? with
  | some g => heap.set ptr (f g)
  | none => heap

/-- The record `SSignals3d::SSignal`; `signalGroup` is a pointer into the heap, or `none`
for a null pointer. -/
structure SSignal where
  signalGroup : Option Nat := none
  signalNumber : Nat := 255
  deriving DecidableEq, Repr

/-- The record `SSignals3d`, with its two private members. `signalGroups` holds pointers into
the heap. -/
structure SSignals3d where
  numHoaTransportChannel : Nat := 0
  numAudioObjects : Nat := 0
  numAudioChannels : Nat := 0
  signalGroups : List Nat := []
  signals : List (Nat × SSignal) := []
  asiApplied : Bool := false
  appliedMetaDataElementIdOffset : Nat := 0
  deriving DecidableEq, Repr

/-- The record `SConfig`. -/
structure SConfig where
  profileLevelIndication : Nat := 0
  samplingFrequencyIndex : Nat := 0
  coreSbrFrameLengthIndex : Nat := 0
  outputFramesize : Int := -1
  outputSamplingFrequency : Int := -1
  samplingFrequency : Int := -1
  signals3d : SSignals3d := {}
  referenceLayout : Option SSpeakerConfig3d := none
  audioPreRollPresent : Bool := false
  compatibleProfileLevels : List Nat := []
  deriving DecidableEq, Repr

/-- A speaker layout in the record that the external decoder `mmt::audioparser::CMpeghParser`
returns, as far as `SConfig::parsePayload` reads it. -/
structure SMpeghSpeakerLayout where
  speakerLayoutType : Nat := 0
  CICPIdx : Nat := 0
  CICPSpeakerIdx : List Nat := []
  numSpeakers : Nat := 0
  deriving DecidableEq, Repr

/-- A signal group in the record of the external decoder, as far as it is read. -/
structure SMpeghSignalGroup where
  numSignals : Nat := 0
  signalGroupType : Nat := 0
  audioChannelLayout : SMpeghSpeakerLayout := {}
  metaDataElementIds : List Nat := []
  deriving DecidableEq, Repr

/-- The record `parser.getConfigInfo()` of the external decoder, as far as it is read. -/
structure SMpeghConfigInfo where
  profileLevelIndicator : Nat := 0
  samplingFrequency : Nat := 0
  coreSbrFrameLengthIndex : Nat := 0
  referenceLayout : SMpeghSpeakerLayout := {}
  signalGroups : List SMpeghSignalGroup := []
  numAudioChannels : Nat := 0
  numAudioObjects : Nat := 0
  numHOATransportChannels : Nat := 0
  audioPreRollPresent : Bool := false
  compatibleProfileLevels : List Nat := []
  deriving DecidableEq, Repr

/-- The table `RESAMPLING_RATIOS`. The ratios 1.0, 1.5, 2.0 and 3.0 are written as fractions:
the product of a `double` of the table and a 32-bit integer is exact. -/
def RESAMPLING_RATIOS : List (Int × (Nat × Nat)) :=
  [(96000, (1, 1)), (88200, (1, 1)), (64000, (3, 2)), (58800, (3, 2)), (48000, (1, 1)),
   (44100, (1, 1)), (32000, (3, 2)), (29400, (3, 2)), (24000, (2, 1)), (22050, (2, 1)),
   (16000, (3, 1)), (14700, (3, 1))]

/-- The conversion `static_cast<int32_t>(x * ratio)` of a product with a ratio of the table:
the fraction is cut off towards zero. -/
def timesRatio (x : Int) (ratio : Nat × Nat) : Int :=
  Int.tdiv (x * ratio.1) ratio.2

/-- The `switch` over `speakerLayoutType` and the three assignments that follow it, which
`SConfig::parsePayload` performs on a new `SSpeakerConfig3d`, once for the reference layout
and once for the channel layout of a signal group. -/
def SSpeakerConfig3d.ofLayout (layout : SMpeghSpeakerLayout) : Except Err SSpeakerConfig3d :=
  if layout.speakerLayoutType = 0 ∨ layout.speakerLayoutType = 1
      ∨ layout.speakerLayoutType = 2 ∨ layout.speakerLayoutType = 3 then
    .ok { speakerLayoutType := layout.speakerLayoutType,
          cicpSpeakerLayoutIdx := layout.CICPIdx % 2 ^ 8,
          cicpSpeakerIdx := layout.CICPSpeakerIdx,
          numSpeakers := layout.numSpeakers % 2 ^ 32 }
  else
    .error Err.invalidSpeakerLayoutType

/-- The loop `for (i = 0; i < metaDataElementIds.size(); i++)` of `SConfig::parsePayload`:
`signals[metaDataElementIds[i]]` is set to the signal group and the number `i`. -/
def assignSignals (signalGroup : Nat) :
    List Nat → Nat → List (Nat × SSignal) → List (Nat × SSignal)
  | [], _, signals => signals
  | id :: ids, i, signals =>
    assignSignals signalGroup ids (i + 1)
      (mapAssign signals id { signalGroup := some signalGroup, signalNumber := i % 2 ^ 8 })

/-- The `switch` over `signalGroupType` in the loop of `SConfig::parsePayload`: the type
and the channel layout the new signal group gets. -/
def SConfig.signalGroupKind (group : SMpeghSignalGroup) :
    Except Err (Nat × Option SSpeakerConfig3d) :=
  if group.signalGroupType = 0 then
    match SSpeakerConfig3d.ofLayout group.audioChannelLayout with
    | .ok audioChannelLayout => .ok (0, some audioChannelLayout)
    | .error e => .error e
  else if group.signalGroupType = 1 then .ok (1, none)
  else if group.signalGroupType = 2 then .error Err.saocNotSupported
  else if group.signalGroupType = 3 then .ok (3, none)
  else .error Err.invalidSignalGroupType

/-- The body of the loop over `configInfo.signalGroups` in `SConfig::parsePayload`, for the
group of index `grp`: a new signal group is made and filled, its element ids are entered
into `signals`, and the pointer to it is appended to `signalGroups`. -/
def SConfig.parseSignalGroup (configInfo : SMpeghConfigInfo) (grp : Nat)
    (group : SMpeghSignalGroup) (heap : SignalGroupHeap) (signals3d : SSignals3d) :
    Except Err (SignalGroupHeap × SSignals3d) :=
  match SConfig.signalGroupKind group with
  | .error e => .error e
  | .ok (signalGroupType, audioChannelLayout) =>
    let signalGroup : SSignalGroup :=
      { idx := grp % 2 ^ 8, numSignals := group.numSignals % 2 ^ 32,
        signalGroupType := signalGroupType, audioChannelLayout := audioChannelLayout,
        metaDataElementIds := group.metaDataElementIds }
    let (heap, pointer) := heap.alloc signalGroup
    .ok (heap,
      { signals3d with
        signals := assignSignals pointer signalGroup.metaDataElementIds 0 signals3d.signals,
        signalGroups := signals3d.signalGroups ++ [pointer],
        numAudioChannels := configInfo.numAudioChannels % 2 ^ 32,
        numAudioObjects := configInfo.numAudioObjects % 2 ^ 32,
        numHoaTransportChannel := configInfo.numHOATransportChannels % 2 ^ 32 })

/-- The loop `for (grp = 0; grp < configInfo.signalGroups.size(); grp++)` of
`SConfig::parsePayload`. -/
def SConfig.parseSignalGroups (configInfo : SMpeghConfigInfo) :
    List SMpeghSignalGroup → Nat → SignalGroupHeap → SSignals3d →
      Except Err (SignalGroupHeap × SSignals3d)
  | [], _, heap, signals3d => pure (heap, signals3d)
  | group :: groups, grp, heap, signals3d => do
    let (heap, signals3d) ← SConfig.parseSignalGroup configInfo grp group heap signals3d
    SConfig.parseSignalGroups configInfo groups (grp + 1) heap signals3d

/-- The scope of `SConfig::parsePayload` that is entered for the baseline and low complexity
profiles: the check of `coreSbrFrameLengthIndex`, the check of the sampling frequency and
the lookup in `RESAMPLING_RATIOS`. The result is `outputSamplingFrequency` and
`outputFramesize`. -/
def SConfig.deriveOutput (profileLevelIndication coreSbrFrameLengthIndex : Nat)
    (samplingFrequency : Int) : Except Err (Int × Int) :=
  if ¬ (coreSbrFrameLengthIndex = 1) then .error Err.wrongCoreSbrFrameLengthIndex
  else if ¬ (profileLevelIndication = 0x0F ∨ profileLevelIndication = 0x14)
      ∧ ¬ (samplingFrequency ≤ 48000) then
    .error Err.invalidSamplingFrequency
  else
    let coreFrameLength : Int := 1024
    match RESAMPLING_RATIOS.lookup samplingFrequency with
    | none => .error Err.unknownSamplingFrequency
    | some ratio =>
      .ok (timesRatio samplingFrequency ratio, timesRatio coreFrameLength ratio)

/-- The part of `SConfig::parsePayload` that follows `parser.getConfigInfo()`, on the object
`c`: the checks in the order of the source, then the members that are written. -/
def SConfig.fromConfigInfo (heap : SignalGroupHeap) (c : SConfig)
    (configInfo : SMpeghConfigInfo) : Except Err (SignalGroupHeap × SConfig) :=
  if ¬ (configInfo.profileLevelIndicator % 2 ^ 8 ≥ 0x0B
        ∧ configInfo.profileLevelIndicator % 2 ^ 8 ≤ 0x14) then
    .error Err.unsupportedProfileLevel
  else
    match SConfig.deriveOutput (configInfo.profileLevelIndicator % 2 ^ 8)
        (configInfo.coreSbrFrameLengthIndex % 2 ^ 8) (toInt32 configInfo.samplingFrequency) with
    | .error e => .error e
    | .ok (outputSamplingFrequency, outputFramesize) =>
      match SSpeakerConfig3d.ofLayout configInfo.referenceLayout with
      | .error e => .error e
      | .ok referenceLayout =>
        match SConfig.parseSignalGroups configInfo configInfo.signalGroups 0 heap
            c.signals3d with
        | .error e => .error e
        | .ok (heap, signals3d) =>
          .ok (heap,
            { c with
              profileLevelIndication := configInfo.profileLevelIndicator % 2 ^ 8,
              samplingFrequency := toInt32 configInfo.samplingFrequency,
              coreSbrFrameLengthIndex := configInfo.coreSbrFrameLengthIndex % 2 ^ 8,
              outputSamplingFrequency := outputSamplingFrequency,
              outputFramesize := outputFramesize,
              referenceLayout := some referenceLayout,
              signals3d := signals3d,
              audioPreRollPresent := configInfo.audioPreRollPresent,
              compatibleProfileLevels := configInfo.compatibleProfileLevels })

/-- The method `SConfig::parsePayload(begin, end)`, called on the object `c`. The external
decoder is the argument `mpegh`: the record `getConfigInfo()` returns after `addConfig`, or
the exception `addConfig` throws. -/
def SConfig.parsePayload (mpegh : ByteBuffer → Except Err SMpeghConfigInfo)
    (heap : SignalGroupHeap) (c : SConfig) (range : ByteBuffer) :
    Except Err (SignalGroupHeap × SConfig) :=
  if ¬ (0 < range.length) then .error Err.invalidPayload
  else
    match mpegh range with
    | .error e => .error e
    | .ok configInfo => SConfig.fromConfigInfo heap c configInfo

/-- The method `SSignals3d::applyAsi(audioSceneInfo)`: the heap and the object afterwards. -/
def SSignals3d.applyAsi (heap : SignalGroupHeap) (s : SSignals3d)
    (audioSceneInfo : SAudioSceneInfo) : SignalGroupHeap × SSignals3d :=
  if ¬ (s.asiApplied = true) then
    let appliedMetaDataElementIdOffset := (audioSceneInfo.metaDataElementIDOffset + 1) % 2 ^ 8
    let newSignals : List (Nat × SSignal) :=
      s.signals.foldl
        (fun newSignals signal =>
          mapAssign newSignals ((signal.1 + appliedMetaDataElementIdOffset) % 2 ^ 8) signal.2)
        []
    let heap :=
      s.signalGroups.foldl
        (fun heap signalGroup =>
          heap.update signalGroup fun g =>
            { g with
              metaDataElementIds :=
                g.metaDataElementIds.map
                  fun id => (appliedMetaDataElementIdOffset + id) % 2 ^ 8 })
        heap
    (heap, { s with appliedMetaDataElementIdOffset := appliedMetaDataElementIdOffset,
                    signals := newSignals, asiApplied := true })
  else (heap, s)

/-- The method `SConfig::applyAsi(audioSceneInfo)`: the heap and the object afterwards. -/
def SConfig.applyAsi (heap : SignalGroupHeap) (c : SConfig) (audioSceneInfo : SAudioSceneInfo) :
    SignalGroupHeap × SConfig :=
  if ¬ (audioSceneInfo.isMainStream = true) then
    let (heap, signals3d) := c.signals3d.applyAsi heap audioSceneInfo
    (heap, { c with signals3d := signals3d })
  else (heap, c)

/-- The class `CMhasConfigPacket`. -/
structure CMhasConfigPacket extends CMhasPacket where
  /-- The member behind `mhasConfigInfo()`. -/
  m_config : SConfig := {}
  deriving DecidableEq, Repr

/-- The constructor `CMhasConfigPacket(begin, end)`: the heap afterwards, the packet and the
range left after `begin`. -/
def CMhasConfigPacket.new (mpegh : ByteBuffer → Except Err SMpeghConfigInfo)
    (heap : SignalGroupHeap) (range : ByteBuffer) :
    Except Err (SignalGroupHeap × CMhasConfigPacket × ByteBuffer) := do
  let (p, rest) ← CMhasPacket.new range
  if ¬ (p.packetType = 1) then throw Err.invalidPacketType
  let (heap, m_config) ← SConfig.parsePayload mpegh heap {} p.m_payload
  pure (heap, { toCMhasPacket := p, m_config := m_config }, rest)

/-- The override `payload(begin, end)` of the configuration packet. -/
def CMhasConfigPacket.setPayload (mpegh : ByteBuffer → Except Err SMpeghConfigInfo)
    (heap : SignalGroupHeap) (t : CMhasConfigPacket) (range : ByteBuffer) :
    Except Err (SignalGroupHeap × CMhasConfigPacket) := do
  let (heap, m_config) ← SConfig.parsePayload mpegh heap t.m_config range
  pure (heap, { t with m_config := m_config, m_payload := range })

/-- The constructor `CMhasConfigPacket(label, payloadStart, payloadEnd)`. -/
def CMhasConfigPacket.ofPayload (mpegh : ByteBuffer → Except Err SMpeghConfigInfo)
    (heap : SignalGroupHeap) (label : Nat) (range : ByteBuffer) :
    Except Err (SignalGroupHeap × CMhasConfigPacket) := do
  let t : CMhasConfigPacket :=
    { toCMhasPacket := { m_payload := [], m_packetLabel := 1, m_packetType := 1 } }
  let (heap, t) ← t.setPayload mpegh heap range
  pure (heap, { t with m_packetLabel := label })

/-- The method `mhasConfigInfo()`: a copy of the configuration, whose pointers point to the
same signal groups. -/
def CMhasConfigPacket.mhasConfigInfo (t : CMhasConfigPacket) : SConfig := t.m_config

/-- The method `isLcProfile()`. -/
def CMhasConfigPacket.isLcProfile (t : CMhasConfigPacket) : Bool :=
  decide (t.m_config.profileLevelIndication ≥ 0x0B ∧ t.m_config.profileLevelIndication ≤ 0x0F)

/-- The resampling ratio of the specification, a rational number: 96000 and 88200 to 1,
64000 and 58800 to 3/2, 48000 and 44100 to 1, 32000 and 29400 to 3/2, 24000 and 22050 to 2,
16000 and 14700 to 3. -/
def resamplingRatio (f : Int) : Option ℚ :=
  if f = 96000 ∨ f = 88200 ∨ f = 48000 ∨ f = 44100 then some 1
  else if f = 64000 ∨ f = 58800 ∨ f = 32000 ∨ f = 29400 then some (3 / 2)
  else if f = 24000 ∨ f = 22050 then some 2
  else if f = 16000 ∨ f = 14700 then some 3
  else none

/-! ## The ASI group decoder in parts -/

/-- The value of the `n` bits of `data` from position `pos` on, most significant first. -/
def bitsAt (data : List Bool) (pos n : Nat) : Nat := bitsToNat ((data.drop pos).take n)

/-- The last part of `SAudioSceneGroup::parsePayload`, from `bsGroupNumMembers` on, on the
object `obj0`. -/
def SAudioSceneGroup.parseMembers {data : List Bool} (obj0 : SAudioSceneGroup) :
    BitParser data SAudioSceneGroup := do
  let mut obj := obj0
  obj := { obj with bsGroupNumMembers := ← bitparser.read 7 }
  obj := { obj with hasConjunctMembers := (← bitparser.read 1) == 1 }
  if obj.hasConjunctMembers then
    obj := { obj with startID := ← bitparser.read 7 }
  else
    obj := { obj with
      metaDataElementId := ← generate (obj.bsGroupNumMembers + 1) (bitparser.read 7) }
  pure obj

/-- The part of `SAudioSceneGroup::parsePayload` from `allowGainInteractivity` on, on the
object `obj0`. -/
def SAudioSceneGroup.parseGain {data : List Bool} (obj0 : SAudioSceneGroup) :
    BitParser data SAudioSceneGroup := do
  let mut obj := obj0
  obj := { obj with allowGainInteractivity := (← bitparser.read 1) == 1 }
  if obj.allowGainInteractivity then
    obj := { obj with interactivityMinGain := ← bitparser.read 6 }
    obj := { obj with interactivityMaxGain := ← bitparser.read 5 }
  SAudioSceneGroup.parseMembers obj

/-- The method `SAudioSceneGroup::parsePayload(bitparser)` with its two last parts set
apart. -/
def SAudioSceneGroup.parsePosition {data : List Bool} : BitParser data SAudioSceneGroup := do
  let mut obj : SAudioSceneGroup := {}
  obj := { obj with groupID := ← bitparser.read 7 }
  obj := { obj with allowOnOff := (← bitparser.read 1) == 1 }
  obj := { obj with defaultOnOff := (← bitparser.read 1) == 1 }
  obj := { obj with allowPositionInteractivity := (← bitparser.read 1) == 1 }
  if obj.allowPositionInteractivity then
    obj := { obj with interactivityMinAzOffset := ← bitparser.read 7 }
    obj := { obj with interactivityMaxAzOffset := ← bitparser.read 7 }
    obj := { obj with interactivityMinElOffset := ← bitparser.read 5 }
    obj := { obj with interactivityMaxElOffset := ← bitparser.read 5 }
    obj := { obj with interactivityMinDistFactor := ← bitparser.read 4 }
    obj := { obj with interactivityMaxDistFactor := ← bitparser.read 4 }
  SAudioSceneGroup.parseGain obj

/-! ## The info wrapper (`mhasinfowrapper.cpp`) -/

/-- The element `m[k]` of a `std::map<uint8_t, T>`, read: the value at the key `k`, or the
value `dflt` that `operator[]` makes for a key the map does not hold. -/
def mapAt {β : Type} (m : List (Nat × β)) (k : Nat) (dflt : β) : β :=
  (mapFind m k).getD dflt

/-- A range-based `for` loop whose body may throw: the state when the loop ends and the
exception that ended it, if any. -/
def forEachUntilError {σ α : Type} (step : α → σ → σ × Option Err) :
    List α → σ → σ × Option Err
  | [], s => (s, none)
  | x :: xs, s =>
    match step x s with
    | (s1, none) => forEachUntilError step xs s1
    | (s1, some e) => (s1, some e)

/-- The record `CMhasInfoWrapper::SItemDescription`; a `char` is modelled by its byte, and
the default language code is `und`. -/
structure SItemDescription where
  lang : List Nat := [117, 110, 100]
  desc : List Nat := []
  deriving DecidableEq, Repr

/-- The record `CMhasInfoWrapper::SGroup`. -/
structure SGroup where
  id : Nat := 0
  descriptions : List SItemDescription := []
  signals : List SSignal := []
  deriving DecidableEq, Repr

/-- The record `CMhasInfoWrapper::SGroupPreset::SGroupReference`; `groupType` holds the
value of the enumeration `EGroupType` (`Invalid = 0`, `Group = 1`, `SwitchGroup = 2`). -/
structure SGroupReference where
  referenceId : Nat := 0
  groupType : Nat := 0
  onOff : Bool := false
  deriving DecidableEq, Repr

/-- The record `CMhasInfoWrapper::SGroupPreset`. -/
structure SGroupPreset where
  id : Nat := 0
  descriptions : List SItemDescription := []
  groupIds : List SGroupReference := []
  deriving DecidableEq, Repr

/-- The record `CMhasInfoWrapper::SSwitchGroup`. -/
structure SSwitchGroup where
  id : Nat := 0
  descriptions : List SItemDescription := []
  defaultGroupId : Nat := 0
  groupIds : List Nat := []
  deriving DecidableEq, Repr

/-- The record `CMhasInfoWrapper::SMhasBufferInfo`; `signalGroups` holds pointers. -/
structure SMhasBufferInfo where
  referenceLayout : Option SSpeakerConfig3d := none
  groups : List (Nat × SGroup) := []
  switchGroups : List (Nat × SSwitchGroup) := []
  groupPresets : List (Nat × SGroupPreset) := []
  signalGroups : List Nat := []
  wasResynced : Bool := false
  deriving DecidableEq, Repr

/-- The class `CMhasInfoWrapper`. -/
structure CMhasInfoWrapper where
  m_mhasParser : CMhasParser := {}
  m_mhasBufferInfo : SMhasBufferInfo := {}
  m_signals3d : SSignals3d := {}
  m_isMhasInfoAvailable : Bool := false
  m_seekingAsi : Bool := false
  deriving DecidableEq, Repr

/-- What the wrapper reads from a packet it takes out of the queue of its parser: the
result of `mhasConfigInfo()` of a configuration packet and of `audioSceneInfo()` of an ASI
packet. The result is `none` for a packet that is not of the class, on which the
`dynamic_cast` to a reference throws `std::bad_cast`. -/
structure PacketViews where
  /-- The call `dynamic_cast<CMhasConfigPacket&>(packet).mhasConfigInfo()`. -/
  mhasConfigInfo : CMhasPacket → Option SConfig
  /-- The call `dynamic_cast<CMhasAsiPacket&>(packet).audioSceneInfo()`. -/
  audioSceneInfo : CMhasPacket → Option SAudioSceneInfo

/-- The item description `handleGroupDescription` makes of one language entry: the three
bytes of the language code, most significant first, and the bytes of the text. -/
def SItemDescription.ofLanguage (lang : SDescriptionLanguages) : SItemDescription :=
  { lang := [(lang.bsDescLanguage / 2 ^ 16) % 2 ^ 8, (lang.bsDescLanguage / 2 ^ 8) % 2 ^ 8,
             lang.bsDescLanguage % 2 ^ 8],
    desc := lang.descData }

/-- The element ids of a group as `initGroups` collects them. With conjunct members the
loop `for (uint8_t id = startID; id < startID + bsGroupNumMembers + 1; id++)` runs over
`bsGroupNumMembers + 1` ids; it ends only when the bound is at most 255, because `id` wraps
around at 256. -/
def SAudioSceneGroup.memberIds (group : SAudioSceneGroup) : Except Err (List Nat) :=
  if group.hasConjunctMembers then
    if group.startID + group.bsGroupNumMembers + 1 ≤ 255 then
      .ok (List.range' group.startID (group.bsGroupNumMembers + 1))
    else .error Err.outOfFuel
  else .ok group.metaDataElementId

/-- The loop `for (uint8_t id : metaDataElementIds)` of `initGroups`: every id has to be a
key of `m_signals3d.signals`, and its signal is appended. -/
def CMhasInfoWrapper.lookupSignals (signals : List (Nat × SSignal)) :
    List Nat → Except Err (List SSignal)
  | [] => .ok []
  | id :: ids =>
    match mapFind signals id with
    | none => .error Err.metadataElementIdNotFound
    | some signal =>
      match CMhasInfoWrapper.lookupSignals signals ids with
      | .error e => .error e
      | .ok rest => .ok (signal :: rest)

/-- The body of the loop of `initGroups`. -/
def CMhasInfoWrapper.initGroup (signals3d : SSignals3d) (group : SAudioSceneGroup)
    (info : SMhasBufferInfo) : SMhasBufferInfo × Option Err :=
  match group.memberIds with
  | .error e => (info, some e)
  | .ok metaDataElementIds =>
    match CMhasInfoWrapper.lookupSignals signals3d.signals metaDataElementIds with
    | .error e => (info, some e)
    | .ok signals =>
      ({ info with
         groups := mapAssign info.groups group.groupID
           { id := group.groupID, signals := signals } }, none)

/-- The method `initGroups(audioScene)`, on the member `m_mhasBufferInfo`. -/
def CMhasInfoWrapper.initGroups (signals3d : SSignals3d) (audioScene : SAudioSceneInfo)
    (info : SMhasBufferInfo) : SMhasBufferInfo × Option Err :=
  forEachUntilError (CMhasInfoWrapper.initGroup signals3d) audioScene.groups
    { info with groups := [] }

/-- The body of the loop of `initSwitchGroups`: every member has to be a key of `groups`. -/
def CMhasInfoWrapper.initSwitchGroup (switchGroup : SAudioSceneSwitchGroup)
    (info : SMhasBufferInfo) : SMhasBufferInfo × Option Err :=
  if switchGroup.switchGroupMemberId.all fun groupId => (mapFind info.groups groupId).isSome
  then
    ({ info with
       switchGroups := mapAssign info.switchGroups switchGroup.switchGroupID
         { id := switchGroup.switchGroupID,
           defaultGroupId := switchGroup.switchGroupDefaultGroupId,
           groupIds := switchGroup.switchGroupMemberId } }, none)
  else (info, some Err.noGroupWithId)

/-- The method `initSwitchGroups(audioScene)`, on the member `m_mhasBufferInfo`. -/
def CMhasInfoWrapper.initSwitchGroups (audioScene : SAudioSceneInfo)
    (info : SMhasBufferInfo) : SMhasBufferInfo × Option Err :=
  forEachUntilError CMhasInfoWrapper.initSwitchGroup audioScene.switchGroups
    { info with switchGroups := [] }

/-- The method `initGroupPresets(audioScene, groupPresetIds)`, on the member
`m_mhasBufferInfo`: the member afterwards and the vector `groupPresetIds`. -/
def CMhasInfoWrapper.initGroupPresets (audioScene : SAudioSceneInfo)
    (info : SMhasBufferInfo) : SMhasBufferInfo × List Nat :=
  (audioScene.groupPresets.foldl
      (fun info groupPreset =>
        { info with
          groupPresets := mapAssign info.groupPresets groupPreset.presetID
            { id := groupPreset.presetID,
              groupIds := groupPreset.conditions.map fun condition =>
                { referenceId := condition.groupID, groupType := 1,
                  onOff := condition.onOff } } })
      { info with groupPresets := [] },
    audioScene.groupPresets.map fun groupPreset => groupPreset.presetID)

/-- The body of the inner loop of `handleGroupPresetExtension`, for the condition `j` of
the preset `presetId`: `entry` is `j` and `isSwitchGrpCondition[j]`. -/
def CMhasInfoWrapper.handleCondition (presetId : Nat) (entry : Nat × Bool)
    (info : SMhasBufferInfo) : SMhasBufferInfo × Option Err :=
  let preset := mapAt info.groupPresets presetId {}
  let reference := preset.groupIds.getD entry.1 {}
  if entry.2 then
    let info : SMhasBufferInfo :=
      { info with
        groupPresets := mapAssign info.groupPresets presetId
          { preset with
            groupIds := preset.groupIds.set entry.1 { reference with groupType := 2 } } }
    if ¬ (mapCount info.switchGroups reference.referenceId = 1) then
      (info, some Err.noSwitchGroupWithId)
    else (info, none)
  else
    let info : SMhasBufferInfo :=
      { info with groupPresets := mapAssign info.groupPresets presetId preset }
    if ¬ (mapCount info.groups reference.referenceId = 1) then
      (info, some Err.noGroupWithId)
    else (info, none)

/-- The body of the outer loop of `handleGroupPresetExtension`, for the preset `i`:
`entry` is `presetExt.groupPresets[i]` and `groupPresetIds[i]`. -/
def CMhasInfoWrapper.handlePresetExtension (entry : SGroupPresets × Nat)
    (info : SMhasBufferInfo) : SMhasBufferInfo × Option Err :=
  if entry.1.hasSwitchGrpConditions then
    let info : SMhasBufferInfo :=
      { info with
        groupPresets := mapAssign info.groupPresets entry.2
          (mapAt info.groupPresets entry.2 {}) }
    if ¬ ((mapAt info.groupPresets entry.2 {}).groupIds.length
          = entry.1.isSwitchGrpCondition.length) then
      (info, some Err.presetExtensionGroupsMismatch)
    else
      forEachUntilError (CMhasInfoWrapper.handleCondition entry.2)
        entry.1.isSwitchGrpCondition.enum info
  else (info, none)

/-- The method `handleGroupPresetExtension(presetExt, groupPresetIds)`, on the member
`m_mhasBufferInfo`. -/
def CMhasInfoWrapper.handleGroupPresetExtension (presetExt : SAudioSceneGrpPresetEx)
    (groupPresetIds : List Nat) (info : SMhasBufferInfo) : SMhasBufferInfo × Option Err :=
  if ¬ (presetExt.groupPresets.length = groupPresetIds.length) then
    (info, some Err.presetExtensionMismatch)
  else
    forEachUntilError CMhasInfoWrapper.handlePresetExtension
      (presetExt.groupPresets.zip groupPresetIds) info

/-- The body of the inner loop of `handleGroupDescription`, for one language entry of the
description block `descBlock`: the `switch` over the data type. -/
def CMhasInfoWrapper.addDescription (dataType : Nat) (descBlock : SDescriptionBlock)
    (lang : SDescriptionLanguages) (info : SMhasBufferInfo) : SMhasBufferInfo × Option Err :=
  let itemDesc := SItemDescription.ofLanguage lang
  if dataType = 0 then
    if ¬ (mapCount info.groups descBlock.descriptionGroupID = 1) then
      (info, some Err.noGroupWithId)
    else
      let group := mapAt info.groups descBlock.descriptionGroupID {}
      ({ info with
         groups := mapAssign info.groups descBlock.descriptionGroupID
           { group with descriptions := group.descriptions ++ [itemDesc] } }, none)
  else if dataType = 1 then
    if ¬ (mapCount info.switchGroups descBlock.descriptionSwitchGroupID = 1) then
      (info, some Err.noSwitchGroupWithId)
    else
      let switchGroup := mapAt info.switchGroups descBlock.descriptionSwitchGroupID {}
      ({ info with
         switchGroups := mapAssign info.switchGroups descBlock.descriptionSwitchGroupID
           { switchGroup with descriptions := switchGroup.descriptions ++ [itemDesc] } },
        none)
  else if dataType = 5 then
    if ¬ (mapCount info.groupPresets descBlock.descriptionGroupPresetID = 1) then
      (info, some Err.noGroupPresetWithId)
    else
      let groupPreset := mapAt info.groupPresets descBlock.descriptionGroupPresetID {}
      ({ info with
         groupPresets := mapAssign info.groupPresets descBlock.descriptionGroupPresetID
           { groupPreset with descriptions := groupPreset.descriptions ++ [itemDesc] } },
        none)
  else (info, some Err.invalidState)

/-- The method `handleGroupDescription(audioSceneDescription, dataType)`, on the member
`m_mhasBufferInfo`. -/
def CMhasInfoWrapper.handleGroupDescription (audioSceneDescription : SAudioSceneDescription)
    (dataType : Nat) (info : SMhasBufferInfo) : SMhasBufferInfo × Option Err :=
  forEachUntilError
    (fun descBlock info =>
      forEachUntilError (CMhasInfoWrapper.addDescription dataType descBlock)
        descBlock.languages info)
    audioSceneDescription.descriptionBlocks info

/-- The body of the loop over `audioScene.data.dataSets` of `extractAsiInfo`. -/
def CMhasInfoWrapper.handleDataSet (groupPresetIds : List Nat) (dataSet : SAudioSceneDataSet)
    (info : SMhasBufferInfo) : SMhasBufferInfo × Option Err :=
  if dataSet.dataType = 8 then
    match dataSet.data with
    | .grpPresetEx presetExt =>
      CMhasInfoWrapper.handleGroupPresetExtension presetExt groupPresetIds info
    | _ => (info, some Err.badCast)
  else if dataSet.dataType = 1 ∨ dataSet.dataType = 5 ∨ dataSet.dataType = 0 then
    match dataSet.data with
    | .description audioSceneDescription =>
      CMhasInfoWrapper.handleGroupDescription audioSceneDescription dataSet.dataType info
    | _ => (info, some Err.badCast)
  else (info, none)

/-- The part of `extractAsiInfo` that works on the member `m_mhasBufferInfo`. -/
def CMhasInfoWrapper.extractInfo (signals3d : SSignals3d) (audioScene : SAudioSceneInfo)
    (info : SMhasBufferInfo) : SMhasBufferInfo × Option Err :=
  match CMhasInfoWrapper.initGroups signals3d audioScene info with
  | (info, some e) => (info, some e)
  | (info, none) =>
    match CMhasInfoWrapper.initSwitchGroups audioScene info with
    | (info, some e) => (info, some e)
    | (info, none) =>
      forEachUntilError
        (CMhasInfoWrapper.handleDataSet (CMhasInfoWrapper.initGroupPresets audioScene info).2)
        audioScene.data.dataSets (CMhasInfoWrapper.initGroupPresets audioScene info).1

/-- The method `extractAsiInfo(mhasAsiPacket)`; the argument is
`mhasAsiPacket.audioSceneInfo()`. The result is the wrapper afterwards and the exception
that escaped the call, if any. -/
def CMhasInfoWrapper.extractAsiInfo (w : CMhasInfoWrapper) (audioScene : SAudioSceneInfo) :
    CMhasInfoWrapper × Option Err :=
  ({ w with
     m_seekingAsi := false,
     m_mhasBufferInfo :=
       (CMhasInfoWrapper.extractInfo w.m_signals3d audioScene w.m_mhasBufferInfo).1 },
   (CMhasInfoWrapper.extractInfo w.m_signals3d audioScene w.m_mhasBufferInfo).2)

/-- The body of the loop of `handleParsedPackets`: the `switch` over the packet type. -/
def CMhasInfoWrapper.handlePacket (V : PacketViews) (packet : CMhasPacket)
    (w : CMhasInfoWrapper) : CMhasInfoWrapper × Option Err :=
  if packet.packetType = 1 then
    match V.mhasConfigInfo packet with
    | none => (w, some Err.badCast)
    | some mhasConfigInfo =>
      ({ w with
         m_mhasBufferInfo :=
           { w.m_mhasBufferInfo with
             referenceLayout := mhasConfigInfo.referenceLayout,
             signalGroups := mhasConfigInfo.signals3d.signalGroups },
         m_signals3d := mhasConfigInfo.signals3d,
         m_seekingAsi := true }, none)
  else if packet.packetType = 3 then
    match V.audioSceneInfo packet with
    | none => (w, some Err.badCast)
    | some audioScene =>
      match w.extractAsiInfo audioScene with
      | (w, some e) => (w, some e)
      | (w, none) => ({ w with m_isMhasInfoAvailable := true }, none)
  else if packet.packetType = 2 then
    if w.m_seekingAsi then
      ({ w with
         m_mhasBufferInfo :=
           { w.m_mhasBufferInfo with groups := [], groupPresets := [], switchGroups := [] },
         m_seekingAsi := false,
         m_isMhasInfoAvailable := true }, none)
    else ({ w with m_isMhasInfoAvailable := true }, none)
  else (w, none)

/-- The loop `while (auto packet = m_mhasParser.nextPacket())` of `handleParsedPackets`, on
the queue of the parser: each turn takes the first packet out of the queue. -/
def CMhasInfoWrapper.handleQueue (V : PacketViews) :
    List CMhasPacket → CMhasInfoWrapper → CMhasInfoWrapper × Option Err
  | [], w => (w, none)
  | packet :: rest, w =>
    match CMhasInfoWrapper.handlePacket V packet
        { w with m_mhasParser := { w.m_mhasParser with m_parsedPackets := rest } } with
    | (w, none) => CMhasInfoWrapper.handleQueue V rest w
    | (w, some e) => (w, some e)

/-- The method `handleParsedPackets()`: the wrapper afterwards and the exception that
escaped the call, if any. -/
def CMhasInfoWrapper.handleParsedPackets (V : PacketViews) (w : CMhasInfoWrapper) :
    CMhasInfoWrapper × Option Err :=
  CMhasInfoWrapper.handleQueue V w.m_mhasParser.m_parsedPackets w

/-- The method `feed(buffer)`: the wrapper afterwards and the exception that escaped the
call, if any. Every exception of `parsePackets()` is a `std::exception` and is caught. -/
def CMhasInfoWrapper.feed (D : Decoders) (V : PacketViews) (w : CMhasInfoWrapper)
    (buffer : ByteBuffer) : CMhasInfoWrapper × Option Err :=
  match (w.m_mhasParser.feed buffer).parsePackets D with
  | (parser, none) => CMhasInfoWrapper.handleParsedPackets V { w with m_mhasParser := parser }
  | (parser, some _) =>
    CMhasInfoWrapper.handleParsedPackets V
      { w with
        m_mhasParser := parser.reset,
        m_isMhasInfoAvailable := false,
        m_seekingAsi := false,
        m_mhasBufferInfo := { w.m_mhasBufferInfo with wasResynced := true } }

/-- The keys of the three maps of the wrapper are ids of the top-level lists of the scene. -/
def SMhasBufferInfo.keysWithin (audioScene : SAudioSceneInfo) (info : SMhasBufferInfo) :
    Prop :=
  mapKeys info.groups ⊆ audioScene.groups.map (fun group => group.groupID)
    ∧ mapKeys info.switchGroups
        ⊆ audioScene.switchGroups.map (fun switchGroup => switchGroup.switchGroupID)
    ∧ mapKeys info.groupPresets
        ⊆ audioScene.groupPresets.map (fun groupPreset => groupPreset.presetID)

/-- The operations of the public interface that change a parser: the calls of `ParserCall`
and `reset()`. -/
inductive ParserOperation where
  /-- One of the calls `feed`, `sync`, `parsePackets`, `nextPacket`, `allAvailablePackets`. -/
  | call (c : ParserCall)
  /-- The call `reset()`. -/
  | reset

/-- The parser after one operation. -/
def CMhasParser.operate (D : Decoders) (s : CMhasParser) : ParserOperation → CMhasParser
  | .call c => s.call D c
  | .reset => s.reset

/-- The parser a sequence of operations leaves behind. -/
def CMhasParser.operations (D : Decoders) (s : CMhasParser) (ops : List ParserOperation) :
    CMhasParser :=
  ops.foldl (CMhasParser.operate D) s

/-- The packets an operation appends to the output queue: those `parsePackets` pushes,
none for the other operations. -/
def CMhasParser.appended (D : Decoders) (s : CMhasParser) : ParserOperation → List CMhasPacket
  | .call .parsePackets => (s.parsePackets D).1.m_parsedPackets.drop s.m_parsedPackets.length
  | _ => []

/-- The packets parsed over a sequence of operations, in the order they were queued. -/
def CMhasParser.parsedOver (D : Decoders) : CMhasParser → List ParserOperation → List CMhasPacket
  | _, [] => []
  | s, op :: ops => s.appended D op ++ CMhasParser.parsedOver D (s.operate D op) ops

/-- The pre-roll flag of the most recent configuration packet of a sequence, or, when the
sequence has no configuration packet, the value `start`. -/
def lastConfigurationFlag (D : Decoders) (start : Bool) (ps : List CMhasPacket) : Bool :=
  match (ps.filter fun p => p.packetType = 1).getLast? with
  | some p => D.audioPreRollPresent p.m_payload
  | none => start

/-! ## The calls on a truncation packet -/

/-- The calls that change a truncation packet. -/
inductive TruncationCall where
  /-- The call `setActive(isActive)`. -/
  | setActive (isActive : Bool)
  /-- The call `truncateFromBegin(truncFromBegin)`. -/
  | truncateFromBegin (truncFromBegin : Bool)
  /-- The call `truncatedSamples(truncatedSamplesLeft)`. -/
  | truncatedSamples (truncatedSamplesLeft : Nat)
  /-- The call `payload(begin, end)`. -/
  | payload (range : ByteBuffer)

/-- The truncation packet after one call. -/
def CMhasTruncationPacket.call (t : CMhasTruncationPacket) :
    TruncationCall → Except Err CMhasTruncationPacket
  | .setActive isActive => t.setActive isActive
  | .truncateFromBegin truncFromBegin => t.setTruncateFromBegin truncFromBegin
  | .truncatedSamples truncatedSamplesLeft => t.setTruncatedSamples truncatedSamplesLeft
  | .payload range => t.setPayload range

/-- The truncation packet after a sequence of calls, each of which returns. -/
def CMhasTruncationPacket.calls (t : CMhasTruncationPacket) :
    List TruncationCall → Except Err CMhasTruncationPacket
  | [] => .ok t
  | c :: cs => do
    let t ← t.call c
    CMhasTruncationPacket.calls t cs

/-- The loop `for (uint8_t id = group.startID; id < group.startID + group.bsGroupNumMembers
+ 1; id++) metaDataElementIds.push_back(id)` of `initGroups`; the bound is computed in `int`,
the counter wraps around at 256. The first argument bounds the number of evaluations of
the loop condition. -/
def CMhasInfoWrapper.conjunctMembers (group : SAudioSceneGroup) :
    Nat → Nat → List Nat → Except Err (List Nat)
  | 0, _, _ => .error Err.outOfFuel
  | fuel + 1, id, metaDataElementIds =>
    if id < group.startID + group.bsGroupNumMembers + 1 then
      CMhasInfoWrapper.conjunctMembers group fuel ((id + 1) % 2 ^ 8) (metaDataElementIds ++ [id])
    else .ok metaDataElementIds

/-! ## The public bit count of an escaped value (`mhashelpertools.cpp`) -/

/-- C++ `unsigned int` left shift; the language defines it for counts below 32 only. -/
def shl32 (x s : Nat) : Nat := (x * 2 ^ s) % 2 ^ 32

/-- The function `tools::calculateEscapedValueBitCount` of `mhashelpertools.cpp`: `bits` and
`value` are `uint64_t`, the escape limits `(2u << (first - 1)) - 1` are computed in
`unsigned int`. -/
def tools.calculateEscapedValueBitCount (value first second third : Nat) : Nat :=
  let bits := first
  if value ≥ sub32 (shl32 2 (sub32 first 1)) 1 then
    let bits := (bits + second) % 2 ^ 64
    let value := sub64 value (sub32 (shl32 2 (sub32 first 1)) 1)
    if value ≥ sub32 (shl32 2 (sub32 second 1)) 1 then
      (bits + third) % 2 ^ 64
    else
      bits
  else
    bits

/-! ## The conditions of a group preset -/

/-- The number of bits the generator of `SAudioSceneGroupPresets::parsePayload` reads for a
condition: `groupID` and `onOff`, and for a condition record its four flags, the gain when
`gainFlag` is set and the three offsets when `positionFlag` is set. -/
def SAudioScenePresetCondition.nofBits (c : SAudioScenePresetCondition) : Nat :=
  8 + match c.condition with
      | none => 0
      | some d => 4 + (if d.gainFlag then 8 else 0) + (if d.positionFlag then 18 else 0)

/-- What the generator reads for one condition, at the cursor position `p`. -/
def SAudioScenePresetCondition.readAt (data : List Bool) (p : Nat)
    (c : SAudioScenePresetCondition) : Prop :=
  c.groupID = bitsAt data p 7
    ∧ c.onOff = (bitsAt data (p + 7) 1 == 1)
    ∧ (c.onOff = false → c.condition = none)
    ∧ (c.onOff = true → ∃ d, c.condition = some d
        ∧ d.disableGainInteractivity = (bitsAt data (p + 8) 1 == 1)
        ∧ d.gainFlag = (bitsAt data (p + 9) 1 == 1)
        ∧ (d.gainFlag = true → d.gain = bitsAt data (p + 10) 8)
        ∧ (d.gainFlag = false → d.gain = 0)
        ∧ ∀ q, q = p + 10 + (if d.gainFlag = true then 8 else 0) →
            d.disablePositionInteractivity = (bitsAt data q 1 == 1)
            ∧ d.positionFlag = (bitsAt data (q + 1) 1 == 1)
            ∧ (d.positionFlag = true →
                d.azOffset = bitsAt data (q + 2) 8 ∧ d.elOffset = bitsAt data (q + 10) 6
                  ∧ d.distFactor = bitsAt data (q + 16) 4)
            ∧ (d.positionFlag = false →
                d.azOffset = 0 ∧ d.elOffset = 0 ∧ d.distFactor = 0))

/-! ## Bit strings -/

theorem natToBits_length (v n : Nat) : (natToBits v n).length = n := by
  induction n generalizing v with
  | zero => rfl
  | succ n ih => simp [natToBits, ih]

theorem bitsToNat_snoc (bs : List Bool) (b : Bool) :
    bitsToNat (bs ++ [b]) = 2 * bitsToNat bs + b.toNat := by
  simp [bitsToNat, List.foldl_append]

theorem bitsToNat_natToBits (v n : Nat) : bitsToNat (natToBits v n) = v % 2 ^ n := by
  induction n generalizing v with
  | zero => simp [natToBits, bitsToNat, Nat.mod_one]
  | succ n ih =>
    rw [natToBits, bitsToNat_snoc, ih, pow_succ', Nat.mod_mul]
    rcases Nat.mod_two_eq_zero_or_one v with h | h <;> simp [h, Nat.add_comm]

theorem bitsToNat_lt (bs : List Bool) : bitsToNat bs < 2 ^ bs.length := by
  induction bs using List.reverseRecOn with
  | nil => simp [bitsToNat]
  | append_singleton bs b ih =>
    rw [bitsToNat_snoc, List.length_append, List.length_singleton, Nat.pow_succ]
    cases b <;> simp <;> omega

theorem natToBits_bitsToNat (bs : List Bool) : natToBits (bitsToNat bs) bs.length = bs := by
  induction bs using List.reverseRecOn with
  | nil => rfl
  | append_singleton bs b ih =>
    rw [bitsToNat_snoc, List.length_append, List.length_singleton, natToBits]
    have h1 : (2 * bitsToNat bs + b.toNat) / 2 = bitsToNat bs := by
      cases b <;> simp; omega
    have h2 : ((2 * bitsToNat bs + b.toNat) % 2 == 1) = b := by
      cases b <;> simp; omega
    rw [h1, h2, ih]

/-! ## The bit cursors -/

/-- Overwriting the bits of `B` from position `pos` on with the bits `w`. -/
def splice (B : List Bool) (pos : Nat) (w : List Bool) : List Bool :=
  B.take pos ++ w ++ B.drop (pos + w.length)

theorem splice_length (B : List Bool) (pos : Nat) (w : List Bool)
    (h : pos + w.length ≤ B.length) : (splice B pos w).length = B.length := by
  simp [splice]; omega

theorem splice_splice (B : List Bool) (pos : Nat) (w1 w2 : List Bool)
    (h : pos + w1.length ≤ B.length) :
    splice (splice B pos w1) (pos + w1.length) w2 = splice B pos (w1 ++ w2) := by
  have hl : (B.take pos ++ w1).length = pos + w1.length := by simp; omega
  have e1 : (splice B pos w1).take (pos + w1.length) = B.take pos ++ w1 := by
    unfold splice
    rw [← hl, List.take_left']
    rfl
  have e2 : (splice B pos w1).drop (pos + w1.length + w2.length)
      = B.drop (pos + (w1 ++ w2).length) := by
    unfold splice
    rw [← hl, List.drop_append, List.drop_drop, hl, List.length_append]
    congr 1
    omega
  rw [splice, e1, e2]
  simp [splice]

theorem splice_zero (B w : List Bool) : splice B 0 w = w ++ B.drop w.length := by
  simp [splice]

theorem CBitBuffer.write_eq (b : CBitBuffer) (v n : Nat) (h : b.pos + n ≤ b.bits.length) :
    b.write v n = .ok { bits := splice b.bits b.pos (natToBits v n), pos := b.pos + n } := by
  simp [CBitBuffer.write, h, splice, natToBits_length]

theorem CBitParser.read_natToBits (v n : Nat) (rest : List Bool) (k : Nat) :
    CBitParser.read { bits := natToBits v n ++ rest, nofReadBits := k } n
      = .ok (v % 2 ^ n, { bits := rest, nofReadBits := k + n }) := by
  have hl := natToBits_length v n
  have ht : (natToBits v n ++ rest).take n = natToBits v n := List.take_left' hl
  have hd : (natToBits v n ++ rest).drop n = rest := List.drop_left' hl
  simp [CBitParser.read, hl, ht, hd, bitsToNat_natToBits]

/-! ## The escaped-value codec: what is written and what is read back -/

theorem escapedBits_length_le (v f s t : Nat) : (escapedBits v f s t).length ≤ f + s + t := by
  unfold escapedBits
  split_ifs <;> simp [natToBits_length] <;> omega

theorem two_pow_pred_mod (n : Nat) : (2 ^ n - 1) % 2 ^ n = 2 ^ n - 1 :=
  Nat.mod_eq_of_lt (by have := Nat.one_le_two_pow (n := n); omega)

theorem writeEscapedValue_eq (b : CBitBuffer) (v f s t : Nat)
    (hmax : v ≤ (2 ^ f - 1) + (2 ^ s - 1) + (2 ^ t - 1))
    (hroom : b.pos + (escapedBits v f s t).length ≤ b.bits.length) :
    writeEscapedValue b v f s t
      = .ok { bits := splice b.bits b.pos (escapedBits v f s t),
              pos := b.pos + (escapedBits v f s t).length } := by
  unfold writeEscapedValue
  rw [if_neg (by omega)]
  unfold escapedBits at hroom ⊢
  by_cases h1 : v < 2 ^ f - 1
  · simp only [h1, if_true, natToBits_length] at hroom ⊢
    exact CBitBuffer.write_eq b v f hroom
  · by_cases h2 : v - (2 ^ f - 1) < 2 ^ s - 1
    · simp only [h1, h2, if_true, if_false, natToBits_length, List.length_append] at hroom ⊢
      rw [CBitBuffer.write_eq b _ f (by omega)]
      simp only [bind, Except.bind]
      rw [CBitBuffer.write_eq _ _ s (by
        show b.pos + f + s ≤ (splice b.bits b.pos (natToBits (2 ^ f - 1) f)).length
        rw [splice_length _ _ _ (by rw [natToBits_length]; omega)]
        omega)]
      have := splice_splice b.bits b.pos (natToBits (2 ^ f - 1) f)
        (natToBits (v - (2 ^ f - 1)) s) (by simp [natToBits_length]; omega)
      simp only [natToBits_length] at this
      simp only [this, Nat.add_assoc]
    · simp only [h1, h2, if_false, natToBits_length, List.length_append] at hroom ⊢
      rw [CBitBuffer.write_eq b _ f (by omega)]
      simp only [bind, Except.bind]
      rw [CBitBuffer.write_eq _ _ s (by
        show b.pos + f + s ≤ (splice b.bits b.pos (natToBits (2 ^ f - 1) f)).length
        rw [splice_length _ _ _ (by rw [natToBits_length]; omega)]
        omega)]
      have e1 := splice_splice b.bits b.pos (natToBits (2 ^ f - 1) f)
        (natToBits (2 ^ s - 1) s) (by simp [natToBits_length]; omega)
      simp only [natToBits_length] at e1
      simp only [e1]
      rw [CBitBuffer.write_eq _ _ t (by
        show b.pos + f + s + t
          ≤ (splice b.bits b.pos (natToBits (2 ^ f - 1) f ++ natToBits (2 ^ s - 1) s)).length
        rw [splice_length _ _ _ (by simp [natToBits_length]; omega)]
        omega)]
      have e2 := splice_splice b.bits b.pos
        (natToBits (2 ^ f - 1) f ++ natToBits (2 ^ s - 1) s)
        (natToBits (v - (2 ^ f - 1) - (2 ^ s - 1)) t) (by simp [natToBits_length]; omega)
      simp only [natToBits_length, List.length_append] at e2
      simp only [e2, Nat.add_assoc]

theorem readEscapedValue_escapedBits (v f s t : Nat) (rest : List Bool) (k : Nat)
    (hv : v < 2 ^ 64) (hmax : v ≤ (2 ^ f - 1) + (2 ^ s - 1) + (2 ^ t - 1)) :
    readEscapedValue { bits := escapedBits v f s t ++ rest, nofReadBits := k } f s t
      = .ok (v, { bits := rest, nofReadBits := k + (escapedBits v f s t).length }) := by
  have pf := Nat.one_le_two_pow (n := f)
  have ps := Nat.one_le_two_pow (n := s)
  have pt := Nat.one_le_two_pow (n := t)
  unfold readEscapedValue escapedBits
  by_cases h1 : v < 2 ^ f - 1
  · simp only [h1, if_true, natToBits_length]
    rw [CBitParser.read_natToBits]
    have e : v % 2 ^ f = v := Nat.mod_eq_of_lt (by omega)
    have e64 : v % 2 ^ 64 = v := Nat.mod_eq_of_lt hv
    simp only [bind, Except.bind, e, pure, Except.pure]
    rw [if_neg (by omega), e64]
  · by_cases h2 : v - (2 ^ f - 1) < 2 ^ s - 1
    · simp only [h1, h2, if_true, if_false, natToBits_length, List.length_append,
        List.append_assoc]
      rw [CBitParser.read_natToBits]
      simp only [bind, Except.bind, two_pow_pred_mod, if_true]
      rw [CBitParser.read_natToBits]
      have e : (v - (2 ^ f - 1)) % 2 ^ s = v - (2 ^ f - 1) := Nat.mod_eq_of_lt (by omega)
      simp only [e, pure, Except.pure]
      rw [if_neg (by omega)]
      have e64 : (2 ^ f - 1 + (v - (2 ^ f - 1))) % 2 ^ 64 = v := by
        rw [Nat.mod_eq_of_lt (by omega)]; omega
      rw [e64]
      simp only [Nat.add_assoc]
    · simp only [h1, h2, if_false, natToBits_length, List.length_append,
        List.append_assoc]
      rw [CBitParser.read_natToBits]
      simp only [bind, Except.bind, two_pow_pred_mod, if_true]
      rw [CBitParser.read_natToBits]
      simp only [two_pow_pred_mod, if_true]
      rw [CBitParser.read_natToBits]
      have e : (v - (2 ^ f - 1) - (2 ^ s - 1)) % 2 ^ t = v - (2 ^ f - 1) - (2 ^ s - 1) :=
        Nat.mod_eq_of_lt (by omega)
      have e64 : (2 ^ f - 1 + (2 ^ s - 1) + (v - (2 ^ f - 1) - (2 ^ s - 1))) % 2 ^ 64 = v := by
        rw [Nat.mod_eq_of_lt (by omega)]; omega
      simp only [e, pure, Except.pure]
      rw [e64]
      simp only [Nat.add_assoc]

/-! ## The size of an escaped value -/

theorem escape_limit (f : Nat) (h1 : 1 ≤ f) (h64 : f ≤ 64) :
    sub64 (shl64 2 (sub32 f 1)) 1 = 2 ^ f - 1 := by
  have e32 : sub32 f 1 = f - 1 := by
    unfold sub32
    norm_num
    omega
  have e2 : 2 * 2 ^ (f - 1) = 2 ^ f := by
    obtain ⟨g, rfl⟩ := Nat.exists_eq_succ_of_ne_zero (by omega : f ≠ 0)
    simp [pow_succ']
  simp only [e32, shl64, e2, sub64]
  rcases Nat.lt_or_ge f 64 with h | h
  · have hlt : 2 ^ f < 2 ^ 64 := Nat.pow_lt_pow_right (by norm_num) h
    have hge := Nat.one_le_two_pow (n := f)
    rw [Nat.mod_eq_of_lt hlt]
    omega
  · have : f = 64 := by omega
    subst this
    norm_num

theorem escapedValueWriteSize_eq (v f s t : Nat) (hv : v < 2 ^ 64)
    (hf : 1 ≤ f) (hf64 : f ≤ 64) (hs : 1 ≤ s) (hs64 : s ≤ 64) (ht : f + s + t < 2 ^ 32) :
    escapedValueWriteSize v f s t
      = if v < 2 ^ f - 1 then f
        else if v - (2 ^ f - 1) < 2 ^ s - 1 then f + s else f + s + t := by
  unfold escapedValueWriteSize
  simp only [escape_limit f hf hf64, escape_limit s hs hs64, ge_iff_le]
  by_cases h1 : v < 2 ^ f - 1
  · rw [if_neg (by omega), if_pos h1]
  · have e : sub64 v (2 ^ f - 1) = v - (2 ^ f - 1) := by
      unfold sub64
      norm_num at hv ⊢
      omega
    have e1 : (f + s) % 2 ^ 32 = f + s := Nat.mod_eq_of_lt (by omega)
    have e2 : (f + s + t) % 2 ^ 32 = f + s + t := Nat.mod_eq_of_lt (by omega)
    rw [if_pos (by omega), if_neg h1, e, e1, e2]
    by_cases h2 : v - (2 ^ f - 1) < 2 ^ s - 1
    · rw [if_neg (by omega), if_pos h2]
    · rw [if_pos (by omega), if_neg h2]

/-! ## Bytes and bits -/

theorem bytesToBits_length (bs : ByteBuffer) : (bytesToBits bs).length = 8 * bs.length := by
  induction bs with
  | nil => rfl
  | cons b bs ih => simp [bytesToBits, natToBits_length, ih]; omega

theorem bytesToBits_append (xs ys : ByteBuffer) :
    bytesToBits (xs ++ ys) = bytesToBits xs ++ bytesToBits ys := by
  induction xs with
  | nil => rfl
  | cons b bs ih => simp [bytesToBits, ih]

theorem eight_bits (l : List Bool) (h : l.length = 8) :
    ∃ b0 b1 b2 b3 b4 b5 b6 b7, l = [b0, b1, b2, b3, b4, b5, b6, b7] := by
  match l, h with
  | [b0, b1, b2, b3, b4, b5, b6, b7], _ => exact ⟨b0, b1, b2, b3, b4, b5, b6, b7, rfl⟩

theorem bitsToBytes_byte (b : Byte) (r : List Bool) :
    bitsToBytes (natToBits b.val 8 ++ r) = b :: bitsToBytes r := by
  obtain ⟨b0, b1, b2, b3, b4, b5, b6, b7, e⟩ := eight_bits _ (natToBits_length b.val 8)
  have hv : bitsToNat [b0, b1, b2, b3, b4, b5, b6, b7] = b.val := by
    rw [← e, bitsToNat_natToBits]
    exact Nat.mod_eq_of_lt b.isLt
  rw [e]
  show Fin.ofNat (bitsToNat [b0, b1, b2, b3, b4, b5, b6, b7]) :: bitsToBytes r = _
  rw [hv]
  congr 1
  apply Fin.ext
  show b.val % 256 = b.val
  exact Nat.mod_eq_of_lt b.isLt

theorem bitsToBytes_bytesToBits_append (bs : ByteBuffer) (r : List Bool) :
    bitsToBytes (bytesToBits bs ++ r) = bs ++ bitsToBytes r := by
  induction bs with
  | nil => rfl
  | cons b bs ih => rw [bytesToBits, List.append_assoc, bitsToBytes_byte, ih]; rfl

theorem bitsToBytes_bytesToBits (bs : ByteBuffer) : bitsToBytes (bytesToBits bs) = bs := by
  have := bitsToBytes_bytesToBits_append bs []
  simpa [bitsToBytes] using this

theorem bytesToBits_bitsToBytes (w : List Bool) (h : w.length % 8 = 0) :
    bytesToBits (bitsToBytes w) = w := by
  generalize hn : w.length = n
  induction n using Nat.strong_induction_on generalizing w with
  | _ n ih =>
    match w, h, hn with
    | [], _, _ => rfl
    | [_], h, _ => simp at h
    | [_, _], h, _ => simp at h
    | [_, _, _], h, _ => simp at h
    | [_, _, _, _], h, _ => simp at h
    | [_, _, _, _, _], h, _ => simp at h
    | [_, _, _, _, _, _], h, _ => simp at h
    | [_, _, _, _, _, _, _], h, _ => simp at h
    | b0 :: b1 :: b2 :: b3 :: b4 :: b5 :: b6 :: b7 :: rest, h, hn =>
      have hr : rest.length % 8 = 0 := by simp at h; omega
      have hlt : rest.length < n := by simp at hn; omega
      have e := natToBits_bitsToNat [b0, b1, b2, b3, b4, b5, b6, b7]
      have hb := bitsToNat_lt [b0, b1, b2, b3, b4, b5, b6, b7]
      show bytesToBits (Fin.ofNat (bitsToNat [b0, b1, b2, b3, b4, b5, b6, b7])
        :: bitsToBytes rest) = _
      rw [bytesToBits, ih _ hlt rest hr rfl]
      have hval : (Fin.ofNat (bitsToNat [b0, b1, b2, b3, b4, b5, b6, b7]) : Fin 256).val
          = bitsToNat [b0, b1, b2, b3, b4, b5, b6, b7] := by
        show _ % 256 = _
        exact Nat.mod_eq_of_lt (by simpa using hb)
      rw [hval]
      simp only [List.length_cons, List.length_nil] at e
      rw [e]
      rfl

theorem bitsToBytes_length (w : List Bool) (h : w.length % 8 = 0) :
    (bitsToBytes w).length = w.length / 8 := by
  have := congrArg List.length (bytesToBits_bitsToBytes w h)
  rw [bytesToBits_length] at this
  omega

theorem bitsToBytes_append (w r : List Bool) (h : w.length % 8 = 0) :
    bitsToBytes (w ++ r) = bitsToBytes w ++ bitsToBytes r := by
  conv_lhs => rw [← bytesToBits_bitsToBytes w h]
  exact bitsToBytes_bytesToBits_append _ _

theorem bytesToBits_drop (bs : ByteBuffer) (k : Nat) :
    (bytesToBits bs).drop (8 * k) = bytesToBits (bs.drop k) := by
  induction k generalizing bs with
  | zero => rfl
  | succ k ih =>
    cases bs with
    | nil => simp [bytesToBits]
    | cons b bs =>
      have : 8 * (k + 1) = (natToBits b.val 8).length + 8 * k := by
        rw [natToBits_length]; omega
      rw [bytesToBits, this, List.drop_append, ih]
      rfl


/-! ## Serialising a packet -/

theorem escapedBits_length (v f s t : Nat) :
    (escapedBits v f s t).length
      = if v < 2 ^ f - 1 then f
        else if v - (2 ^ f - 1) < 2 ^ s - 1 then f + s else f + s + t := by
  unfold escapedBits
  split_ifs <;> simp [natToBits_length, Nat.add_assoc]

theorem escapedBits_length_eq_writeSize (v f s t : Nat) (hv : v < 2 ^ 64)
    (hf : 1 ≤ f) (hf64 : f ≤ 64) (hs : 1 ≤ s) (hs64 : s ≤ 64) (ht : f + s + t < 2 ^ 32) :
    (escapedBits v f s t).length = escapedValueWriteSize v f s t := by
  rw [escapedBits_length, escapedValueWriteSize_eq v f s t hv hf hf64 hs hs64 ht]

theorem serialisable_bounds (p : CMhasPacket) (hs : p.serialisable) :
    p.m_packetType ≤ 517 ∧ p.m_packetLabel ≤ 4294967553 ∧ p.m_payload.length ≤ 33556477 := by
  obtain ⟨h1, h2, h3⟩ := hs
  unfold representable at h1 h2 h3
  norm_num at h1 h2 h3
  exact ⟨h1, h2, h3⟩

theorem headerBits_length (p : CMhasPacket) :
    (headerBits p).length % 8 = 0 ∧ 16 ≤ (headerBits p).length
      ∧ (headerBits p).length ≤ 120 := by
  unfold headerBits headerBitsOf
  simp only [List.length_append, escapedBits_length]
  split_ifs <;> omega

theorem headerBits_length_eq (p : CMhasPacket) (hs : p.serialisable) :
    (headerBits p).length
      = escapedValueWriteSize p.m_packetType 3 8 8 + escapedValueWriteSize p.m_packetLabel 2 8 32
        + escapedValueWriteSize p.m_payload.length 11 24 24 := by
  obtain ⟨h1, h2, h3⟩ := serialisable_bounds p hs
  unfold headerBits headerBitsOf
  rw [List.length_append, List.length_append,
    escapedBits_length_eq_writeSize _ 3 8 8 (by omega) (by omega) (by omega) (by omega)
      (by omega) (by norm_num),
    escapedBits_length_eq_writeSize _ 2 8 32 (by omega) (by omega) (by omega) (by omega)
      (by omega) (by norm_num),
    escapedBits_length_eq_writeSize _ 11 24 24 (by omega) (by omega) (by omega) (by omega)
      (by omega) (by norm_num)]

theorem packetBytes_length (p : CMhasPacket) :
    (packetBytes p).length = (headerBits p).length / 8 + p.m_payload.length := by
  unfold packetBytes
  rw [List.length_append, bitsToBytes_length _ (headerBits_length p).1]

theorem calculatePacketSize_eq (p : CMhasPacket) (hs : p.serialisable) :
    p.calculatePacketSize = .ok ((headerBits p).length / 8 + p.m_payload.length) := by
  obtain ⟨h1, h2, h3⟩ := serialisable_bounds p hs
  obtain ⟨hm, hlo, hhi⟩ := headerBits_length p
  have hl := headerBits_length_eq p hs
  unfold CMhasPacket.calculatePacketSize
  simp only [Nat.zero_add, Nat.add_mod_mod, Nat.mod_add_mod, ← hl]
  have e64 : (headerBits p).length % 2 ^ 64 = (headerBits p).length :=
    Nat.mod_eq_of_lt (by omega)
  have e32 : ((headerBits p).length / 8 + p.m_payload.length) % 2 ^ 32
      = (headerBits p).length / 8 + p.m_payload.length := by
    omega
  simp only [e64, hm, not_true_eq_false, if_false, e32, bind, Except.bind, pure, Except.pure]

theorem write_header (p : CMhasPacket) (hs : p.serialisable) (B : List Bool)
    (hroom : (headerBits p).length ≤ B.length) :
    ∃ b1 b2,
      writeEscapedValue { bits := B, pos := 0 } p.m_packetType 3 8 8 = .ok b1
      ∧ writeEscapedValue b1 p.m_packetLabel 2 8 32 = .ok b2
      ∧ writeEscapedValue b2 p.m_payload.length 11 24 24
          = .ok { bits := headerBits p ++ B.drop (headerBits p).length,
                  pos := (headerBits p).length } := by
  obtain ⟨r1, r2, r3⟩ := hs
  unfold headerBits headerBitsOf at hroom ⊢
  simp only [List.length_append] at hroom ⊢
  have hl1 : (splice B 0 (escapedBits p.m_packetType 3 8 8)).length = B.length :=
    splice_length _ _ _ (by omega)
  have hl2 : (splice (splice B 0 (escapedBits p.m_packetType 3 8 8))
      (escapedBits p.m_packetType 3 8 8).length (escapedBits p.m_packetLabel 2 8 32)).length
      = B.length := by
    rw [splice_length _ _ _ (by omega), hl1]
  have w1 := writeEscapedValue_eq { bits := B, pos := 0 } _ 3 8 8 r1
    (by simp only [Nat.zero_add]; omega)
  have w2 := writeEscapedValue_eq
    { bits := splice B 0 (escapedBits p.m_packetType 3 8 8),
      pos := 0 + (escapedBits p.m_packetType 3 8 8).length } _ 2 8 32 r2 (by
      simp only [Nat.zero_add, hl1]
      omega)
  refine ⟨_, _, w1, w2, ?_⟩
  · rw [writeEscapedValue_eq _ _ 11 24 24 r3 (by
      simp only [Nat.zero_add, hl2]
      omega)]
    simp only [Nat.zero_add]
    have e1 := splice_splice B 0 (escapedBits p.m_packetType 3 8 8)
      (escapedBits p.m_packetLabel 2 8 32) (by omega)
    simp only [Nat.zero_add] at e1
    rw [e1]
    have e2 := splice_splice B 0
      (escapedBits p.m_packetType 3 8 8 ++ escapedBits p.m_packetLabel 2 8 32)
      (escapedBits p.m_payload.length 11 24 24) (by simp only [List.length_append]; omega)
    simp only [Nat.zero_add, List.length_append] at e2
    rw [e2, splice_zero]
    simp only [List.length_append]

theorem writePacketRaw_eq (p : CMhasPacket) (hs : p.serialisable) (raw : ByteBuffer)
    (h1 : (packetBytes p).length ≤ raw.length) (h2 : raw.length < 2 ^ 32) :
    p.writePacketRaw raw
      = .ok ((packetBytes p).length, packetBytes p ++ raw.drop (packetBytes p).length) := by
  obtain ⟨hm, hlo, hhi⟩ := headerBits_length p
  rw [packetBytes_length] at h1 ⊢
  have hB : (headerBits p).length ≤ (bytesToBits raw).length := by
    rw [bytesToBits_length]; omega
  obtain ⟨b1, b2, w1, w2, w3⟩ := write_header p hs (bytesToBits raw) hB
  have hnew : CBitBuffer.new raw (raw.length % 2 ^ 32) = { bits := bytesToBits raw, pos := 0 } := by
    rw [CBitBuffer.new, Nat.mod_eq_of_lt h2, List.take_length]
  have hdrop : (bytesToBits raw).drop (headerBits p).length
      = bytesToBits (raw.drop ((headerBits p).length / 8)) := by
    rw [← bytesToBits_drop]; congr 1; omega
  have hlen := bitsToBytes_length _ hm
  unfold CMhasPacket.writePacketRaw
  rw [calculatePacketSize_eq p hs, hnew]
  simp only [bind, Except.bind, w1, w2, w3, CBitBuffer.tell, hm, h1, not_true_eq_false,
    if_false, pure, Except.pure, hdrop]
  rw [bitsToBytes_append _ _ hm, bitsToBytes_bytesToBits, Nat.mod_eq_of_lt h2,
    List.drop_length, List.append_nil]
  have ht : (bitsToBytes (headerBits p) ++ raw.drop ((headerBits p).length / 8)).take
      ((headerBits p).length / 8) = bitsToBytes (headerBits p) := List.take_left' hlen
  have hd : (bitsToBytes (headerBits p) ++ raw.drop ((headerBits p).length / 8)).drop
      ((headerBits p).length / 8 + p.m_payload.length)
      = raw.drop ((headerBits p).length / 8 + p.m_payload.length) := by
    rw [← hlen, List.drop_append, List.drop_drop]
  simp only [ht, hd, packetBytes, List.append_assoc]

theorem resize_length (v : ByteBuffer) (n : Nat) : (resize v n).length = n := by
  simp [resize]; omega

theorem writePacket_eq (p : CMhasPacket) (hs : p.serialisable) (vector : ByteBuffer) :
    p.writePacket vector = .ok (packetBytes p) := by
  obtain ⟨h1, h2, h3⟩ := serialisable_bounds p hs
  obtain ⟨hm, hlo, hhi⟩ := headerBits_length p
  have hl := packetBytes_length p
  unfold CMhasPacket.writePacket
  rw [calculatePacketSize_eq p hs, ← hl]
  simp only [bind, Except.bind]
  rw [writePacketRaw_eq p hs _ (by rw [resize_length]) (by rw [resize_length]; omega)]
  have hd : (resize vector (packetBytes p).length).drop (packetBytes p).length = [] := by
    apply List.drop_eq_nil_of_le
    rw [resize_length]
  have hne : (packetBytes p).length ≠ 0 := by omega
  simp [hd, hne, pure, Except.pure]


/-! ## Reading back: a successful read has consumed the canonical encoding -/

theorem CBitParser.read_ok {p p' : CBitParser} {n v : Nat} (h : p.read n = .ok (v, p')) :
    p.bits = natToBits v n ++ p'.bits ∧ v < 2 ^ n ∧ p'.nofReadBits = p.nofReadBits + n := by
  unfold CBitParser.read at h
  split at h
  · rename_i hn
    injection h with h
    injection h with hv hp
    subst hv hp
    have hl : (p.bits.take n).length = n := by simp; omega
    refine ⟨?_, ?_, rfl⟩
    · have := natToBits_bitsToNat (p.bits.take n)
      rw [hl] at this
      rw [this, List.take_append_drop]
    · have := bitsToNat_lt (p.bits.take n)
      rwa [hl] at this
  · cases h

theorem readEscapedValue_ok {p p' : CBitParser} {f s t v : Nat}
    (hw : (2 ^ f - 1) + (2 ^ s - 1) + (2 ^ t - 1) < 2 ^ 64)
    (h : readEscapedValue p f s t = .ok (v, p')) :
    p.bits = escapedBits v f s t ++ p'.bits
      ∧ p'.nofReadBits = p.nofReadBits + (escapedBits v f s t).length
      ∧ representable v f s t := by
  have pf := Nat.one_le_two_pow (n := f)
  have ps := Nat.one_le_two_pow (n := s)
  have pt := Nat.one_le_two_pow (n := t)
  unfold readEscapedValue at h
  cases h1 : p.read f with
  | error e => simp [h1, bind, Except.bind] at h
  | ok r1 =>
    obtain ⟨v1, p1⟩ := r1
    obtain ⟨hb1, hv1, hn1⟩ := CBitParser.read_ok h1
    simp only [h1, bind, Except.bind] at h
    by_cases e1 : v1 = 2 ^ f - 1
    · simp only [e1, if_true] at h
      cases h2 : p1.read s with
      | error e => simp [h2] at h
      | ok r2 =>
        obtain ⟨v2, p2⟩ := r2
        obtain ⟨hb2, hv2, hn2⟩ := CBitParser.read_ok h2
        simp only [h2] at h
        by_cases e2 : v2 = 2 ^ s - 1
        · simp only [e2, if_true] at h
          cases h3 : p2.read t with
          | error e => simp [h3] at h
          | ok r3 =>
            obtain ⟨v3, p3⟩ := r3
            obtain ⟨hb3, hv3, hn3⟩ := CBitParser.read_ok h3
            simp only [h3, pure, Except.pure] at h
            injection h with h
            injection h with hv hp
            subst hp
            rw [Nat.mod_eq_of_lt (by omega)] at hv
            have c1 : ¬ v < 2 ^ f - 1 := by omega
            have c2 : ¬ v - (2 ^ f - 1) < 2 ^ s - 1 := by omega
            have c3 : v - (2 ^ f - 1) - (2 ^ s - 1) = v3 := by omega
            unfold escapedBits representable
            simp only [c1, c2, c3, if_false, List.length_append, natToBits_length]
            refine ⟨?_, by omega, by omega⟩
            rw [hb1, hb2, hb3, e1, e2]
            simp only [List.append_assoc]
        · simp only [e2, if_false, pure, Except.pure] at h
          injection h with h
          injection h with hv hp
          subst hp
          rw [Nat.mod_eq_of_lt (by omega)] at hv
          have c1 : ¬ v < 2 ^ f - 1 := by omega
          have c2 : v - (2 ^ f - 1) < 2 ^ s - 1 := by omega
          have c3 : v - (2 ^ f - 1) = v2 := by omega
          have c4 : v2 < 2 ^ s - 1 := by omega
          unfold escapedBits representable
          simp only [c1, c3, c4, if_true, if_false, List.length_append, natToBits_length]
          refine ⟨?_, by omega, by omega⟩
          rw [hb1, hb2, e1]
          simp only [List.append_assoc]
    · simp only [e1, if_false, pure, Except.pure] at h
      injection h with h
      injection h with hv hp
      subst hp
      rw [Nat.mod_eq_of_lt (by omega)] at hv
      subst hv
      have c1 : v1 < 2 ^ f - 1 := by omega
      unfold escapedBits representable
      simp only [c1, if_true, natToBits_length]
      exact ⟨hb1, hn1, by omega⟩


/-! ## The header, decoded -/

theorem headerBitsOf_length (t l len : Nat) :
    (headerBitsOf t l len).length % 8 = 0 ∧ 16 ≤ (headerBitsOf t l len).length
      ∧ (headerBitsOf t l len).length ≤ 120 := by
  unfold headerBitsOf
  simp only [List.length_append, escapedBits_length]
  split_ifs <;> omega

theorem representable_bounds {t l len : Nat} (h1 : representable t 3 8 8)
    (h2 : representable l 2 8 32) (h3 : representable len 11 24 24) :
    t ≤ 517 ∧ l ≤ 4294967553 ∧ len ≤ 33556477 := by
  unfold representable at h1 h2 h3
  norm_num at h1 h2 h3
  exact ⟨h1, h2, h3⟩

theorem decodeHeader_ok {range : ByteBuffer} {t l len hb : Nat}
    (h : decodeHeader range = .ok (t, l, len, hb)) :
    ∃ R, bytesToBits range = headerBitsOf t l len ++ R
      ∧ hb = (headerBitsOf t l len).length / 8
      ∧ representable t 3 8 8 ∧ representable l 2 8 32 ∧ representable len 11 24 24 := by
  unfold decodeHeader at h
  cases r1 : readEscapedValue (CBitParser.new range) 3 8 8 with
  | error e => simp [r1, bind, Except.bind] at h
  | ok x1 =>
    obtain ⟨t1, b1⟩ := x1
    simp only [r1, bind, Except.bind] at h
    cases r2 : readEscapedValue b1 2 8 32 with
    | error e => simp [r2] at h
    | ok x2 =>
      obtain ⟨l2, b2⟩ := x2
      simp only [r2] at h
      cases r3 : readEscapedValue b2 11 24 24 with
      | error e => simp [r3] at h
      | ok x3 =>
        obtain ⟨len3, b3⟩ := x3
        simp only [r3, pure, Except.pure] at h
        injection h with h
        simp only [Prod.mk.injEq] at h
        obtain ⟨rfl, rfl, rfl, rfl⟩ := h
        obtain ⟨e1, n1, p1⟩ := readEscapedValue_ok (by norm_num) r1
        obtain ⟨e2, n2, p2⟩ := readEscapedValue_ok (by norm_num) r2
        obtain ⟨e3, n3, p3⟩ := readEscapedValue_ok (by norm_num) r3
        refine ⟨b3.bits, ?_, ?_, p1, p2, p3⟩
        · have : (CBitParser.new range).bits = bytesToBits range := rfl
          rw [← this, e1, e2, e3]
          simp only [headerBitsOf, List.append_assoc]
        · have : (CBitParser.new range).nofReadBits = 0 := rfl
          rw [n3, n2, n1, this]
          simp only [headerBitsOf, List.length_append, Nat.zero_add]

theorem decodeHeader_of_bits {range : ByteBuffer} {t l len : Nat} {R : List Bool}
    (hb : bytesToBits range = headerBitsOf t l len ++ R)
    (h1 : representable t 3 8 8) (h2 : representable l 2 8 32)
    (h3 : representable len 11 24 24) :
    decodeHeader range = .ok (t, l, len, (headerBitsOf t l len).length / 8) := by
  obtain ⟨b1, b2, b3⟩ := representable_bounds h1 h2 h3
  unfold decodeHeader CBitParser.new
  rw [hb]
  simp only [headerBitsOf, List.append_assoc]
  rw [readEscapedValue_escapedBits _ _ _ _ _ _ (by omega) h1]
  simp only [bind, Except.bind]
  rw [readEscapedValue_escapedBits _ _ _ _ _ _ (by omega) h2]
  simp only []
  rw [readEscapedValue_escapedBits _ _ _ _ _ _ (by omega) h3]
  simp only [pure, Except.pure, List.length_append, Nat.zero_add, Nat.add_assoc]

/-- The constructor in closed form: it fails on an empty range and on an undecodable
header, and otherwise takes `len` payload bytes after the `hb` header bytes, provided
that many bytes are there. -/
theorem CMhasPacket.new_eq (range : ByteBuffer) :
    CMhasPacket.new range
      = if range = [] then .error Err.invalidIterators
        else match decodeHeader range with
          | .error e => .error e
          | .ok (t, l, len, hb) =>
            if hb + len ≤ range.length then
              .ok ({ m_payload := (range.drop hb).take len, m_packetLabel := l,
                     m_packetType := t }, range.drop (hb + len))
            else .error Err.payloadNotCovered := by
  by_cases hr : range = []
  · subst hr
    rfl
  · have hpos : 0 < range.length := List.length_pos.mpr hr
    rw [if_neg hr]
    cases hd : decodeHeader range with
    | error e =>
      unfold decodeHeader at hd
      unfold CMhasPacket.new
      cases r1 : readEscapedValue (CBitParser.new range) 3 8 8 with
      | error e1 =>
        simp only [r1, bind, Except.bind] at hd
        injection hd with hd
        simp [r1, bind, Except.bind, hpos, pure, Except.pure, hd]
      | ok x1 =>
        obtain ⟨t1, b1⟩ := x1
        simp only [r1, bind, Except.bind] at hd
        cases r2 : readEscapedValue b1 2 8 32 with
        | error e2 =>
          simp only [r2] at hd
          injection hd with hd
          simp [r1, r2, bind, Except.bind, hpos, pure, Except.pure, hd]
        | ok x2 =>
          obtain ⟨l2, b2⟩ := x2
          simp only [r2] at hd
          cases r3 : readEscapedValue b2 11 24 24 with
          | error e3 =>
            simp only [r3] at hd
            injection hd with hd
            simp [r1, r2, r3, bind, Except.bind, hpos, pure, Except.pure, hd]
          | ok x3 => simp [r3, pure, Except.pure] at hd
    | ok x =>
      obtain ⟨t, l, len, hb⟩ := x
      obtain ⟨R, hbits, hhb, p1, p2, p3⟩ := decodeHeader_ok hd
      obtain ⟨c1, c2, c3⟩ := representable_bounds p1 p2 p3
      obtain ⟨hm, hlo, hhi⟩ := headerBitsOf_length t l len
      unfold decodeHeader at hd
      unfold CMhasPacket.new
      cases r1 : readEscapedValue (CBitParser.new range) 3 8 8 with
      | error e1 => simp [r1, bind, Except.bind] at hd
      | ok x1 =>
        obtain ⟨t1, b1⟩ := x1
        simp only [r1, bind, Except.bind] at hd
        cases r2 : readEscapedValue b1 2 8 32 with
        | error e2 => simp [r2] at hd
        | ok x2 =>
          obtain ⟨l2, b2⟩ := x2
          simp only [r2] at hd
          cases r3 : readEscapedValue b2 11 24 24 with
          | error e3 => simp [r3] at hd
          | ok x3 =>
            obtain ⟨len3, b3⟩ := x3
            simp only [r3, pure, Except.pure] at hd
            injection hd with hd
            simp only [Prod.mk.injEq] at hd
            obtain ⟨rfl, rfl, rfl, hn⟩ := hd
            have et : t1 % 2 ^ 32 = t1 := Nat.mod_eq_of_lt (by omega)
            have er : (b3.nofReadBits / 8) % 2 ^ 32 = hb := by
              rw [hn]; exact Nat.mod_eq_of_lt (by omega)
            have es : (hb + len3) % 2 ^ 64 = hb + len3 := Nat.mod_eq_of_lt (by omega)
            simp only [bind, Except.bind, pure, Except.pure, hpos, not_true_eq_false,
              if_false, r1, r2, r3, et, er, es, ge_iff_le]
            by_cases hc : hb + len3 ≤ range.length
            · simp only [hc, not_true_eq_false, if_false, if_true, List.drop_drop]
            · simp only [hc, not_false_eq_true, if_true, if_false]


/-- The factory in closed form: null on an empty range, on an undecodable header and on a
packet longer than the range; otherwise the constructor selected by the packet type. -/
theorem CMhasPacket.s_parseNextPacket_eq (D : Decoders) (range : ByteBuffer) (flag : Bool) :
    CMhasPacket.s_parseNextPacket D range flag
      = if range = [] then .ok (none, [])
        else match decodeHeader range with
          | .error _ => .ok (none, range)
          | .ok (t, _, len, hb) =>
            if range.length < hb + len then .ok (none, range)
            else match dispatch D t range flag with
              | .error e => .error e
              | .ok (p, rest) => .ok (some p, rest) := by
  by_cases hr : range = []
  · subst hr
    rfl
  · rw [if_neg hr]
    unfold CMhasPacket.s_parseNextPacket
    rw [if_neg hr]
    cases hd : decodeHeader range with
    | error e =>
      unfold decodeHeader at hd
      cases r1 : readEscapedValue (CBitParser.new range) 3 8 8 with
      | error e1 => simp [r1, bind, Except.bind]
      | ok x1 =>
        obtain ⟨t1, b1⟩ := x1
        simp only [r1, bind, Except.bind] at hd
        cases r2 : readEscapedValue b1 2 8 32 with
        | error e2 => simp [r1, r2, bind, Except.bind]
        | ok x2 =>
          obtain ⟨l2, b2⟩ := x2
          simp only [r2] at hd
          cases r3 : readEscapedValue b2 11 24 24 with
          | error e3 => simp [r1, r2, r3, bind, Except.bind]
          | ok x3 => simp [r3, pure, Except.pure] at hd
    | ok x =>
      obtain ⟨t, l, len, hb⟩ := x
      obtain ⟨R, hbits, hhb, p1, p2, p3⟩ := decodeHeader_ok hd
      obtain ⟨c1, c2, c3⟩ := representable_bounds p1 p2 p3
      obtain ⟨hm, hlo, hhi⟩ := headerBitsOf_length t l len
      unfold decodeHeader at hd
      cases r1 : readEscapedValue (CBitParser.new range) 3 8 8 with
      | error e1 => simp [r1, bind, Except.bind] at hd
      | ok x1 =>
        obtain ⟨t1, b1⟩ := x1
        simp only [r1, bind, Except.bind] at hd
        cases r2 : readEscapedValue b1 2 8 32 with
        | error e2 => simp [r2] at hd
        | ok x2 =>
          obtain ⟨l2, b2⟩ := x2
          simp only [r2] at hd
          cases r3 : readEscapedValue b2 11 24 24 with
          | error e3 => simp [r3] at hd
          | ok x3 =>
            obtain ⟨len3, b3⟩ := x3
            simp only [r3, pure, Except.pure] at hd
            injection hd with hd
            simp only [Prod.mk.injEq] at hd
            obtain ⟨rfl, rfl, rfl, hn⟩ := hd
            have et : t1 % 2 ^ 32 = t1 := Nat.mod_eq_of_lt (by omega)
            have er : (b3.nofReadBits / 8) % 2 ^ 32 = hb := by
              rw [hn]; exact Nat.mod_eq_of_lt (by omega)
            have es : (hb + len3) % 2 ^ 64 = hb + len3 := Nat.mod_eq_of_lt (by omega)
            simp only [bind, Except.bind, pure, Except.pure, r1, r2, r3, et, er, es]


/-! ## Parsing what was written, and writing what was parsed -/

theorem decodeHeader_packetBytes (p : CMhasPacket) (hs : p.serialisable) (rest : ByteBuffer) :
    decodeHeader (packetBytes p ++ rest)
      = .ok (p.m_packetType, p.m_packetLabel, p.m_payload.length,
             (headerBits p).length / 8) := by
  obtain ⟨h1, h2, h3⟩ := hs
  have hm := (headerBits_length p).1
  have hb : bytesToBits (packetBytes p ++ rest)
      = headerBitsOf p.m_packetType p.m_packetLabel p.m_payload.length
        ++ bytesToBits (p.m_payload ++ rest) := by
    unfold packetBytes
    rw [List.append_assoc, bytesToBits_append, bytesToBits_bitsToBytes _ hm]
    rfl
  exact decodeHeader_of_bits hb h1 h2 h3

theorem CMhasPacket.new_packetBytes (p : CMhasPacket) (hs : p.serialisable)
    (rest : ByteBuffer) : CMhasPacket.new (packetBytes p ++ rest) = .ok (p, rest) := by
  obtain ⟨hm, hlo, hhi⟩ := headerBits_length p
  have hlen := bitsToBytes_length _ hm
  have hl := packetBytes_length p
  have hne : packetBytes p ++ rest ≠ [] := by
    intro h
    have := congrArg List.length h
    simp only [List.length_append, List.length_nil] at this
    omega
  rw [CMhasPacket.new_eq, if_neg hne, decodeHeader_packetBytes p hs rest]
  simp only []
  rw [if_pos (by simp only [List.length_append]; omega)]
  have hd : (packetBytes p ++ rest).drop ((headerBits p).length / 8) = p.m_payload ++ rest := by
    unfold packetBytes
    rw [List.append_assoc, ← hlen]
    exact List.drop_left' rfl
  have hd2 : (packetBytes p ++ rest).drop ((headerBits p).length / 8 + p.m_payload.length)
      = rest := by
    rw [← hl]
    exact List.drop_left' rfl
  rw [hd, hd2, List.take_left' rfl]

theorem CMhasPacket.new_ok {range rest : ByteBuffer} {p : CMhasPacket}
    (h : CMhasPacket.new range = .ok (p, rest)) :
    range = packetBytes p ++ rest ∧ p.serialisable := by
  rw [CMhasPacket.new_eq] at h
  by_cases hr : range = []
  · simp [hr] at h
  · rw [if_neg hr] at h
    cases hd : decodeHeader range with
    | error e => simp [hd] at h
    | ok x =>
      obtain ⟨t, l, len, hb⟩ := x
      simp only [hd] at h
      by_cases hc : hb + len ≤ range.length
      · rw [if_pos hc] at h
        injection h with h
        simp only [Prod.mk.injEq] at h
        obtain ⟨hp, hrest⟩ := h
        obtain ⟨R, hbits, hhb, p1, p2, p3⟩ := decodeHeader_ok hd
        obtain ⟨hm, hlo, hhi⟩ := headerBitsOf_length t l len
        have hplen : p.m_payload.length = len := by
          rw [← hp]
          simp only [List.length_take, List.length_drop]
          omega
        have hhdr : headerBits p = headerBitsOf t l len := by
          unfold headerBits
          rw [hplen, ← hp]
        have hrange : range = bitsToBytes (headerBitsOf t l len) ++ bitsToBytes R := by
          have := congrArg bitsToBytes hbits
          rwa [bitsToBytes_bytesToBits, bitsToBytes_append _ _ hm] at this
        have hdrop : range.drop hb = bitsToBytes R := by
          conv_lhs => rw [hrange]
          rw [hhb, ← bitsToBytes_length _ hm]
          exact List.drop_left' rfl
        refine ⟨?_, ?_⟩
        · unfold packetBytes
          rw [hhdr, ← hrest, ← hp]
          simp only []
          rw [← List.drop_drop, List.append_assoc, List.take_append_drop, hdrop]
          exact hrange
        · rw [← hp] at hplen
          refine ⟨?_, ?_, ?_⟩
          · rw [← hp]; exact p1
          · rw [← hp]; exact p2
          · rw [← hp] at *
            rw [hplen]; exact p3
      · simp [hc] at h


/-! ## More on the writer -/

theorem CBitBuffer.write_ok {b b' : CBitBuffer} {v n : Nat} (h : b.write v n = .ok b') :
    b'.pos = b.pos + n := by
  unfold CBitBuffer.write at h
  split at h
  · injection h with h
    rw [← h]
  · cases h

theorem CBitBuffer.write_error {b : CBitBuffer} {v n : Nat} {e : Err}
    (h : b.write v n = .error e) : e = Err.outOfBits := by
  unfold CBitBuffer.write at h
  split at h
  · cases h
  · injection h with h
    exact h.symm

theorem writeEscapedValue_pos {b b' : CBitBuffer} {v f s t : Nat}
    (h : writeEscapedValue b v f s t = .ok b') :
    b'.pos = b.pos + (escapedBits v f s t).length := by
  unfold writeEscapedValue at h
  rw [escapedBits_length]
  split at h
  · cases h
  · by_cases c1 : v < 2 ^ f - 1
    · rw [if_pos c1] at h ⊢
      exact CBitBuffer.write_ok h
    · rw [if_neg c1] at h ⊢
      cases w1 : b.write (2 ^ f - 1) f with
      | error e => simp [w1, bind, Except.bind] at h
      | ok b1 =>
        simp only [w1, bind, Except.bind] at h
        have q1 := CBitBuffer.write_ok w1
        by_cases c2 : v - (2 ^ f - 1) < 2 ^ s - 1
        · rw [if_pos c2] at h ⊢
          have q2 := CBitBuffer.write_ok h
          omega
        · rw [if_neg c2] at h ⊢
          cases w2 : b1.write (2 ^ s - 1) s with
          | error e => simp [w2] at h
          | ok b2 =>
            simp only [w2] at h
            have q2 := CBitBuffer.write_ok w2
            have q3 := CBitBuffer.write_ok h
            omega

theorem writeEscapedValue_error {b : CBitBuffer} {v f s t : Nat} {e : Err}
    (h : writeEscapedValue b v f s t = .error e) :
    e = Err.valueTooLarge ∨ e = Err.outOfBits := by
  unfold writeEscapedValue at h
  split at h
  · injection h with h
    exact Or.inl h.symm
  · right
    split at h
    · exact CBitBuffer.write_error h
    · cases w1 : b.write (2 ^ f - 1) f with
      | error e1 =>
        simp only [w1, bind, Except.bind] at h
        injection h with h
        rw [← h]
        exact CBitBuffer.write_error w1
      | ok b1 =>
        simp only [w1, bind, Except.bind] at h
        split at h
        · exact CBitBuffer.write_error h
        · cases w2 : b1.write (2 ^ s - 1) s with
          | error e2 =>
            simp only [w2] at h
            injection h with h
            rw [← h]
            exact CBitBuffer.write_error w2
          | ok b2 =>
            simp only [w2] at h
            exact CBitBuffer.write_error h

theorem writePacketRaw_assertions (p : CMhasPacket) (hs : p.serialisable) (raw : ByteBuffer) :
    p.writePacketRaw raw ≠ .error Err.wroteInvalidAmountOfBits
      ∧ p.writePacketRaw raw ≠ .error Err.sizeCalculationWrong := by
  obtain ⟨hm, hlo, hhi⟩ := headerBits_length p
  unfold CMhasPacket.writePacketRaw
  rw [calculatePacketSize_eq p hs]
  simp only [bind, Except.bind]
  by_cases hb : (headerBits p).length / 8 + p.m_payload.length ≤ raw.length
  · simp only [hb, not_true_eq_false, if_false, pure, Except.pure]
    cases w1 : writeEscapedValue (CBitBuffer.new raw (raw.length % 2 ^ 32)) p.m_packetType 3 8 8 with
    | error e => rcases writeEscapedValue_error w1 with h | h <;> simp [h]
    | ok b1 =>
      simp only []
      cases w2 : writeEscapedValue b1 p.m_packetLabel 2 8 32 with
      | error e => rcases writeEscapedValue_error w2 with h | h <;> simp [h]
      | ok b2 =>
        simp only []
        cases w3 : writeEscapedValue b2 p.m_payload.length 11 24 24 with
        | error e => rcases writeEscapedValue_error w3 with h | h <;> simp [h]
        | ok b3 =>
          have q1 := writeEscapedValue_pos w1
          have q2 := writeEscapedValue_pos w2
          have q3 := writeEscapedValue_pos w3
          have q0 : (CBitBuffer.new raw (raw.length % 2 ^ 32)).pos = 0 := rfl
          have q : b3.pos = (headerBits p).length := by
            unfold headerBits headerBitsOf
            simp only [List.length_append]
            omega
          simp [CBitBuffer.tell, q, hm]
  · simp [hb, throw, throwThe, MonadExceptOf.throw]


/-! ## The factory on a complete packet -/

theorem concretePacket_eq (ok : ByteBuffer → Bool) (p : CMhasPacket) (range rest : ByteBuffer)
    (h : CMhasPacket.new range = .ok (p, rest)) :
    concretePacket ok p.m_packetType range
      = if ok p.m_payload = true then .ok (p, rest) else .error Err.malformedPayload := by
  unfold concretePacket
  rw [h]
  by_cases hc : ok p.m_payload = true
  · simp [bind, Except.bind, CMhasPacket.packetType, hc, pure, Except.pure]
  · simp [bind, Except.bind, CMhasPacket.packetType, hc, pure, Except.pure, throw, throwThe,
      MonadExceptOf.throw]

theorem dispatch_eq (D : Decoders) (p : CMhasPacket) (range rest : ByteBuffer) (flag : Bool)
    (h : CMhasPacket.new range = .ok (p, rest)) :
    dispatch D p.m_packetType range flag
      = if accepted D flag p = true then .ok (p, rest) else .error Err.malformedPayload := by
  have key : ∀ ok : ByteBuffer → Bool, concretePacket ok p.m_packetType range
      = if ok p.m_payload = true then .ok (p, rest) else .error Err.malformedPayload :=
    fun ok => concretePacket_eq ok p range rest h
  unfold dispatch accepted
  by_cases h9 : p.m_packetType = 9
  · rw [if_pos h9, if_pos h9, ← h9, key]
  rw [if_neg h9, if_neg h9]
  by_cases h17 : p.m_packetType = 17
  · rw [if_pos h17, if_pos h17, ← h17, key]
  rw [if_neg h17, if_neg h17]
  by_cases h2 : p.m_packetType = 2
  · rw [if_pos h2, if_pos h2, ← h2, key]
  rw [if_neg h2, if_neg h2]
  by_cases h3 : p.m_packetType = 3
  · rw [if_pos h3, if_pos h3, ← h3, key]
  rw [if_neg h3, if_neg h3]
  by_cases h1 : p.m_packetType = 1
  · rw [if_pos h1, if_pos h1, ← h1, key]
  rw [if_neg h1, if_neg h1]
  by_cases h6 : p.m_packetType = 6
  · rw [if_pos h6, if_pos h6, ← h6, key]
  rw [if_neg h6, if_neg h6]
  by_cases h8 : p.m_packetType = 8
  · rw [if_pos h8, if_pos h8, ← h8, key]
  rw [if_neg h8, if_neg h8, if_pos rfl]
  exact h

theorem packetBytes_ne_nil (p : CMhasPacket) (rest : ByteBuffer) : packetBytes p ++ rest ≠ [] := by
  intro h
  have := congrArg List.length h
  have hl := packetBytes_length p
  have := (headerBits_length p).2.1
  simp only [List.length_append, List.length_nil] at *
  omega

/-- On a range that starts with a whole serialised packet the factory returns that packet
and advances past it, unless the decoder of its class rejects the payload. -/
theorem CMhasPacket.s_parseNextPacket_packetBytes (D : Decoders) (p : CMhasPacket)
    (hs : p.serialisable) (rest : ByteBuffer) (flag : Bool) :
    CMhasPacket.s_parseNextPacket D (packetBytes p ++ rest) flag
      = if accepted D flag p = true then .ok (some p, rest)
        else .error Err.malformedPayload := by
  have hl := packetBytes_length p
  rw [CMhasPacket.s_parseNextPacket_eq, if_neg (packetBytes_ne_nil p rest),
    decodeHeader_packetBytes p hs rest]
  simp only []
  rw [if_neg (by simp only [List.length_append]; omega),
    dispatch_eq D p _ rest flag (CMhasPacket.new_packetBytes p hs rest)]
  by_cases hc : accepted D flag p = true
  · simp [hc]
  · simp [hc]

/-- The factory either asks for more data or stands before a whole serialised packet. -/
theorem CMhasPacket.s_parseNextPacket_cases (D : Decoders) (range : ByteBuffer) (flag : Bool) :
    CMhasPacket.s_parseNextPacket D range flag = .ok (none, range)
      ∨ ∃ p rest, p.serialisable ∧ range = packetBytes p ++ rest := by
  rw [CMhasPacket.s_parseNextPacket_eq]
  by_cases hr : range = []
  · left
    rw [if_pos hr, hr]
  · rw [if_neg hr]
    cases hd : decodeHeader range with
    | error e => left; rfl
    | ok x =>
      obtain ⟨t, l, len, hb⟩ := x
      simp only []
      by_cases hc : range.length < hb + len
      · left
        rw [if_pos hc]
      · right
        have hn := CMhasPacket.new_eq range
        rw [if_neg hr, hd] at hn
        simp only [] at hn
        rw [if_pos (by omega)] at hn
        obtain ⟨h1, h2⟩ := CMhasPacket.new_ok hn
        exact ⟨_, _, h2, h1⟩

theorem CMhasPacket.s_parseNextPacket_some {D : Decoders} {range rest : ByteBuffer}
    {flag : Bool} {p : CMhasPacket}
    (h : CMhasPacket.s_parseNextPacket D range flag = .ok (some p, rest)) :
    p.serialisable ∧ range = packetBytes p ++ rest ∧ accepted D flag p = true := by
  rcases CMhasPacket.s_parseNextPacket_cases D range flag with hn | ⟨q, r, hq, hr⟩
  · rw [hn] at h
    cases h
  · subst hr
    rw [CMhasPacket.s_parseNextPacket_packetBytes D q hq r flag] at h
    by_cases hc : accepted D flag q = true
    · rw [if_pos hc] at h
      injection h with h
      simp only [Prod.mk.injEq, Option.some.injEq] at h
      obtain ⟨rfl, rfl⟩ := h
      exact ⟨hq, rfl, hc⟩
    · rw [if_neg hc] at h
      cases h

theorem CMhasPacket.s_parseNextPacket_none {D : Decoders} {range rest : ByteBuffer}
    {flag : Bool} (h : CMhasPacket.s_parseNextPacket D range flag = .ok (none, rest)) :
    rest = range := by
  rcases CMhasPacket.s_parseNextPacket_cases D range flag with hn | ⟨q, r, hq, hr⟩
  · rw [hn] at h
    injection h with h
    simp only [Prod.mk.injEq, true_and] at h
    exact h.symm
  · subst hr
    rw [CMhasPacket.s_parseNextPacket_packetBytes D q hq r flag] at h
    by_cases hc : accepted D flag q = true
    · rw [if_pos hc] at h
      cases h
    · rw [if_neg hc] at h
      cases h

theorem CMhasPacket.s_parseNextPacket_error {D : Decoders} {range : ByteBuffer}
    {flag : Bool} {e : Err} (h : CMhasPacket.s_parseNextPacket D range flag = .error e) :
    e = Err.malformedPayload := by
  rcases CMhasPacket.s_parseNextPacket_cases D range flag with hn | ⟨q, r, hq, hr⟩
  · rw [hn] at h
    cases h
  · subst hr
    rw [CMhasPacket.s_parseNextPacket_packetBytes D q hq r flag] at h
    by_cases hc : accepted D flag q = true
    · rw [if_pos hc] at h
      cases h
    · rw [if_neg hc] at h
      injection h with h
      exact h.symm


/-! ## The parse loop -/

theorem parseLoop_fuel (D : Decoders) (fuel : Nat) :
    ∀ (range : ByteBuffer) (flag : Bool) (queue : List CMhasPacket), range.length < fuel →
      parseLoop D fuel range flag queue = parseLoop D (range.length + 1) range flag queue := by
  induction fuel using Nat.strong_induction_on with
  | _ fuel ih =>
    intro range flag queue h
    cases fuel with
    | zero => omega
    | succ n =>
      rw [parseLoop, parseLoop]
      cases hs : CMhasPacket.s_parseNextPacket D range flag with
      | error e => rfl
      | ok x =>
        obtain ⟨o, rest⟩ := x
        cases o with
        | none => rfl
        | some p =>
          obtain ⟨hp, hr, _⟩ := CMhasPacket.s_parseNextPacket_some hs
          have hl := packetBytes_length p
          have hh := (headerBits_length p).2.1
          have hlen : rest.length + 2 ≤ range.length := by
            rw [hr, List.length_append]; omega
          simp only []
          rw [ih n (by omega) rest _ _ (by omega),
            ih range.length (by omega) rest _ _ (by omega)]

/-- One turn of the `while` loop of `parsePackets`. -/
theorem parseLoop_step (D : Decoders) (range : ByteBuffer) (flag : Bool)
    (queue : List CMhasPacket) :
    parseLoop D (range.length + 1) range flag queue
      = match CMhasPacket.s_parseNextPacket D range flag with
        | .error e => (range, flag, queue, some e)
        | .ok (none, _) => (range, flag, queue, none)
        | .ok (some p, rest) =>
          parseLoop D (rest.length + 1) rest (nextFlag D flag p) (queue ++ [p]) := by
  rw [parseLoop]
  cases hs : CMhasPacket.s_parseNextPacket D range flag with
  | error e => rfl
  | ok x =>
    obtain ⟨o, rest⟩ := x
    cases o with
    | none => rfl
    | some p =>
      obtain ⟨hp, hr, _⟩ := CMhasPacket.s_parseNextPacket_some hs
      have hl := packetBytes_length p
      have hh := (headerBits_length p).2.1
      have hlen : rest.length + 2 ≤ range.length := by
        rw [hr, List.length_append]; omega
      simp only []
      rw [parseLoop_fuel D range.length rest _ _ (by omega)]
      rfl

/-- The loop bound of the embedding is never exhausted: `parsePackets` returns. -/
theorem parseLoop_terminates (D : Decoders) (n : Nat) :
    ∀ (range : ByteBuffer) (flag : Bool) (queue : List CMhasPacket), range.length = n →
      (parseLoop D (range.length + 1) range flag queue).2.2.2 ≠ some Err.outOfFuel := by
  induction n using Nat.strong_induction_on with
  | _ n ih =>
    intro range flag queue hn
    rw [parseLoop_step]
    cases hs : CMhasPacket.s_parseNextPacket D range flag with
    | error e =>
      have := CMhasPacket.s_parseNextPacket_error hs
      subst this
      simp
    | ok x =>
      obtain ⟨o, rest⟩ := x
      cases o with
      | none => simp
      | some p =>
        obtain ⟨hp, hr, _⟩ := CMhasPacket.s_parseNextPacket_some hs
        have hl := packetBytes_length p
        have hh := (headerBits_length p).2.1
        have hlen : rest.length + 2 ≤ range.length := by
          rw [hr, List.length_append]; omega
        exact ih rest.length (by omega) rest _ _ rfl

/-- The loop consumes a run of serialised, accepted packets and queues them in order. -/
theorem parseLoop_packets (D : Decoders) (ps : List CMhasPacket) :
    ∀ (ws : List ByteBuffer) (flag : Bool) (queue : List CMhasPacket) (tail : ByteBuffer),
      List.Forall₂ (fun p w => p.serialisable ∧ w = packetBytes p) ps ws →
      acceptedAll D flag ps →
      parseLoop D ((ws.flatten ++ tail).length + 1) (ws.flatten ++ tail) flag queue
        = parseLoop D (tail.length + 1) tail (flagAfter D flag ps) (queue ++ ps) := by
  induction ps with
  | nil =>
    intro ws flag queue tail hw _
    cases hw
    simp [flagAfter]
  | cons p ps ih =>
    intro ws flag queue tail hw hacc
    cases hw with
    | cons hpw hrest =>
      rename_i w ws
      obtain ⟨hp, rfl⟩ := hpw
      obtain ⟨ha, hacc⟩ := hacc
      rw [parseLoop_step]
      simp only [List.flatten_cons, List.append_assoc]
      rw [CMhasPacket.s_parseNextPacket_packetBytes D p hp _ flag, if_pos ha]
      simp only []
      rw [ih ws _ _ tail hrest hacc]
      simp [flagAfter]

/-- Feeding more bytes behind a range does not change what the loop had already done. -/
theorem parseLoop_append (D : Decoders) (n : Nat) :
    ∀ (range : ByteBuffer) (flag : Bool) (queue : List CMhasPacket)
      (rest : ByteBuffer) (flag' : Bool) (queue' : List CMhasPacket) (extra : ByteBuffer),
      range.length = n →
      parseLoop D (range.length + 1) range flag queue = (rest, flag', queue', none) →
      parseLoop D ((range ++ extra).length + 1) (range ++ extra) flag queue
        = parseLoop D ((rest ++ extra).length + 1) (rest ++ extra) flag' queue' := by
  induction n using Nat.strong_induction_on with
  | _ n ih =>
    intro range flag queue rest flag' queue' extra hn h
    rw [parseLoop_step] at h
    cases hs : CMhasPacket.s_parseNextPacket D range flag with
    | error e => simp [hs] at h
    | ok x =>
      obtain ⟨o, r1⟩ := x
      cases o with
      | none =>
        simp only [hs, Prod.mk.injEq, and_true] at h
        obtain ⟨rfl, rfl, rfl⟩ := h
        rfl
      | some p =>
        obtain ⟨hp, hr, ha⟩ := CMhasPacket.s_parseNextPacket_some hs
        have hl := packetBytes_length p
        have hh := (headerBits_length p).2.1
        have hlen : r1.length + 2 ≤ range.length := by
          rw [hr, List.length_append]; omega
        simp only [hs] at h
        rw [parseLoop_step D (range ++ extra)]
        have hs' : CMhasPacket.s_parseNextPacket D (range ++ extra) flag
            = .ok (some p, r1 ++ extra) := by
          conv_lhs => rw [hr, List.append_assoc]
          rw [CMhasPacket.s_parseNextPacket_packetBytes D p hp _ flag, if_pos ha]
        rw [hs']
        simp only []
        exact ih r1.length (by omega) r1 _ _ rest flag' queue' extra rfl h

/-- What the loop leaves behind is the tail of its input, and no whole packet starts it. -/
theorem parseLoop_rest (D : Decoders) (n : Nat) :
    ∀ (range : ByteBuffer) (flag : Bool) (queue : List CMhasPacket)
      (rest : ByteBuffer) (flag' : Bool) (queue' : List CMhasPacket),
      range.length = n →
      parseLoop D (range.length + 1) range flag queue = (rest, flag', queue', none) →
      (∃ consumed, range = consumed ++ rest)
        ∧ CMhasPacket.s_parseNextPacket D rest flag' = .ok (none, rest) := by
  induction n using Nat.strong_induction_on with
  | _ n ih =>
    intro range flag queue rest flag' queue' hn h
    rw [parseLoop_step] at h
    cases hs : CMhasPacket.s_parseNextPacket D range flag with
    | error e => simp [hs] at h
    | ok x =>
      obtain ⟨o, r1⟩ := x
      cases o with
      | none =>
        have hr1 := CMhasPacket.s_parseNextPacket_none hs
        simp only [hs, Prod.mk.injEq, and_true] at h
        obtain ⟨rfl, rfl, rfl⟩ := h
        subst hr1
        exact ⟨⟨[], rfl⟩, hs⟩
      | some p =>
        obtain ⟨hp, hr, ha⟩ := CMhasPacket.s_parseNextPacket_some hs
        have hl := packetBytes_length p
        have hh := (headerBits_length p).2.1
        have hlen : r1.length + 2 ≤ range.length := by
          rw [hr, List.length_append]; omega
        simp only [hs] at h
        obtain ⟨⟨c, hc⟩, hnone⟩ := ih r1.length (by omega) r1 _ _ rest flag' queue' rfl h
        refine ⟨⟨packetBytes p ++ c, ?_⟩, hnone⟩
        rw [hr, hc, List.append_assoc]


/-! ## Synchronisation -/

theorem syncScan_found_append (X : ByteBuffer) :
    ∀ (r Y : ByteBuffer), syncScan X = (true, r) → syncScan (X ++ Y) = (true, r ++ Y) := by
  induction X with
  | nil => intro r Y h; simp [syncScan] at h
  | cons b tail ih =>
    intro r Y h
    rw [syncScan] at h
    rw [List.cons_append, syncScan]
    by_cases hl : (b :: tail).length > 3
    · have hl' : (b :: (tail ++ Y)).length > 3 := by
        simp only [List.length_cons, List.length_append] at hl ⊢; omega
      have ht : 3 ≤ tail.length := by simp only [List.length_cons] at hl; omega
      have g0 : (tail ++ Y)[0]? = tail[0]? := List.getElem?_append_left (by omega)
      have g1 : (tail ++ Y)[1]? = tail[1]? := List.getElem?_append_left (by omega)
      rw [if_pos hl] at h
      rw [if_pos hl', g0, g1]
      by_cases hp : b = 0xC0 ∧ tail[0]? = some 0x01 ∧ tail[1]? = some 0xA5
      · rw [if_pos hp] at h ⊢
        simp only [Prod.mk.injEq, true_and] at h
        rw [← h]
        rfl
      · rw [if_neg hp] at h ⊢
        exact ih r Y h
    · rw [if_neg hl] at h
      simp at h

theorem syncScan_missed_append (X : ByteBuffer) :
    ∀ (r Y : ByteBuffer), syncScan X = (false, r) → syncScan (X ++ Y) = syncScan (r ++ Y) := by
  induction X with
  | nil =>
    intro r Y h
    simp only [syncScan, Prod.mk.injEq, true_and] at h
    rw [← h]
  | cons b tail ih =>
    intro r Y h
    rw [syncScan] at h
    by_cases hl : (b :: tail).length > 3
    · have hl' : (b :: (tail ++ Y)).length > 3 := by
        simp only [List.length_cons, List.length_append] at hl ⊢; omega
      have ht : 3 ≤ tail.length := by simp only [List.length_cons] at hl; omega
      have g0 : (tail ++ Y)[0]? = tail[0]? := List.getElem?_append_left (by omega)
      have g1 : (tail ++ Y)[1]? = tail[1]? := List.getElem?_append_left (by omega)
      rw [if_pos hl] at h
      by_cases hp : b = 0xC0 ∧ tail[0]? = some 0x01 ∧ tail[1]? = some 0xA5
      · rw [if_pos hp] at h
        simp at h
      · rw [if_neg hp] at h
        rw [List.cons_append, syncScan, if_pos hl', g0, g1, if_neg hp]
        exact ih r Y h
    · rw [if_neg hl] at h
      simp only [Prod.mk.injEq, true_and] at h
      rw [← h]

theorem syncScan_suffix (X : ByteBuffer) : ∃ pre, X = pre ++ (syncScan X).2 := by
  induction X with
  | nil => exact ⟨[], rfl⟩
  | cons b tail ih =>
    rw [syncScan]
    split_ifs
    · exact ⟨[], rfl⟩
    · obtain ⟨pre, hpre⟩ := ih
      exact ⟨b :: pre, by rw [List.cons_append, ← hpre]⟩
    · exact ⟨[], rfl⟩

/-! ## `parsePackets`, case by case -/

theorem parsePackets_synced (D : Decoders) (buffer : ByteBuffer) (queue : List CMhasPacket)
    (flag : Bool) :
    CMhasParser.parsePackets D ⟨true, buffer, queue, flag⟩
      = match parseLoop D (buffer.length + 1) buffer flag queue with
        | (_, f, q, some e) => (⟨true, buffer, q, f⟩, some e)
        | (r, f, q, none) => (⟨true, r, q, f⟩, none) := by
  unfold CMhasParser.parsePackets CMhasParser.syncIfNecessary
  simp only [if_true, not_true_eq_false, if_false]

theorem parsePackets_unsynced (D : Decoders) (buffer : ByteBuffer) (queue : List CMhasPacket)
    (flag : Bool) :
    CMhasParser.parsePackets D ⟨false, buffer, queue, flag⟩
      = match syncScan buffer with
        | (false, r) => (⟨false, r, queue, flag⟩, none)
        | (true, r) =>
          match parseLoop D (r.length + 1) r flag queue with
          | (_, f, q, some e) => (⟨true, buffer, q, f⟩, some e)
          | (r', f, q, none) => (⟨true, r', q, f⟩, none) := by
  unfold CMhasParser.parsePackets CMhasParser.syncIfNecessary
  simp only [Bool.false_eq_true, if_false]
  rcases hs : syncScan buffer with ⟨_ | _, r⟩
  · simp
  · simp only [not_true_eq_false, if_false]

theorem drain_queue (queue : List CMhasPacket) :
    ∀ (synced : Bool) (buffer : ByteBuffer) (flag : Bool),
      CMhasParser.drain ⟨synced, buffer, queue, flag⟩ (queue.length + 1)
        = queue.map some ++ [none] := by
  induction queue with
  | nil => intro _ _ _; rfl
  | cons p ps ih =>
    intro synced buffer flag
    rw [List.length_cons, CMhasParser.drain]
    simp only [CMhasParser.nextPacket, List.map_cons, List.cons_append]
    rw [ih]

theorem written_packets (ps : List CMhasPacket) :
    ∀ ws : List ByteBuffer, List.Forall₂ (fun p w => p.writePacket [] = .ok w) ps ws →
      (∀ p ∈ ps, p.serialisable) →
      List.Forall₂ (fun p w => p.serialisable ∧ w = packetBytes p) ps ws := by
  induction ps with
  | nil => intro ws h _; cases h; exact List.Forall₂.nil
  | cons p ps ih =>
    intro ws h hs
    cases h with
    | cons hpw hrest =>
      have hp := hs p (List.mem_cons_self _ _)
      rw [writePacket_eq p hp] at hpw
      injection hpw with hpw
      exact List.Forall₂.cons ⟨hp, hpw.symm⟩
        (ih _ hrest (fun q hq => hs q (List.mem_cons_of_mem _ hq)))


/-! ## The claims on the packet entity and the escaped-value codec -/

/-- C1: packet round trip. For every packet whose type is representable in the (3,8,8)
escaped field, whose label is representable in (2,8,32) and whose payload length is
representable in (11,24,24), `writePacket` succeeds, and parsing the bytes it produced
with the constructor `CMhasPacket(begin, end)` yields a packet with the same
`packetType()`, the same `packetLabel()` and the same `payload()`, with `begin` left at
`end`. -/
theorem packet_round_trip (p : CMhasPacket) (ht : representable p.m_packetType 3 8 8)
    (hl : representable p.m_packetLabel 2 8 32)
    (hn : representable p.m_payload.length 11 24 24) (vector : ByteBuffer) :
    ∃ written, p.writePacket vector = .ok written
      ∧ ∃ q, CMhasPacket.new written = .ok (q, [])
        ∧ q.packetType = p.packetType ∧ q.packetLabel = p.packetLabel
        ∧ q.payload = p.payload := by
  have hs : p.serialisable := ⟨ht, hl, hn⟩
  refine ⟨packetBytes p, writePacket_eq p hs vector, p, ?_, rfl, rfl, rfl⟩
  have := CMhasPacket.new_packetBytes p hs []
  rwa [List.append_nil] at this

/-- Witness for C1: a sync packet (type 6, label 0, payload `A5`) written into an empty
vector. -/
theorem packet_round_trip_witness :
    representable 6 3 8 8 ∧ representable 0 2 8 32 ∧ representable 1 11 24 24
      ∧ ∃ written,
          CMhasPacket.writePacket { m_payload := [0xA5], m_packetLabel := 0, m_packetType := 6 } []
            = .ok written
          ∧ ∃ q, CMhasPacket.new written = .ok (q, [])
            ∧ q.packetType = 6 ∧ q.packetLabel = 0 ∧ q.payload = [0xA5] :=
  ⟨by decide, by decide, by decide,
    packet_round_trip { m_payload := [0xA5], m_packetLabel := 0, m_packetType := 6 }
      (by decide) (by decide) (by decide) []⟩

/-- C2: escaped-value round trip. For all widths and every 64-bit value `v` not above
`(2^first-1)+(2^second-1)+(2^third-1)`, writing `v` into a bit buffer with room for the
three fields succeeds; a reading cursor placed where the writer started decodes `v` and
stops exactly where the writer stopped, so it consumes exactly the bits written; and
that number of bits is `first`, `first+second` or `first+second+third` according to
which fields are all ones. -/
theorem escaped_value_round_trip (first second third v : Nat) (hv : v < 2 ^ 64)
    (hmax : v ≤ (2 ^ first - 1) + (2 ^ second - 1) + (2 ^ third - 1))
    (b : CBitBuffer) (hroom : b.pos + (first + second + third) ≤ b.bits.length) (k : Nat) :
    ∃ b', writeEscapedValue b v first second third = .ok b'
      ∧ b.pos ≤ b'.pos
      ∧ readEscapedValue { bits := b'.bits.drop b.pos, nofReadBits := k } first second third
          = .ok (v, { bits := b'.bits.drop b'.pos, nofReadBits := k + (b'.pos - b.pos) })
      ∧ b'.pos - b.pos
          = if v < 2 ^ first - 1 then first
            else if v - (2 ^ first - 1) < 2 ^ second - 1 then first + second
            else first + second + third := by
  have hle := escapedBits_length_le v first second third
  have hr : b.pos + (escapedBits v first second third).length ≤ b.bits.length := by omega
  have hp : (b.bits.take b.pos).length = b.pos := by
    rw [List.length_take]; omega
  refine ⟨_, writeEscapedValue_eq b v first second third hmax hr, by simp, ?_, ?_⟩
  · have e1 : (splice b.bits b.pos (escapedBits v first second third)).drop b.pos
        = escapedBits v first second third
          ++ b.bits.drop (b.pos + (escapedBits v first second third).length) := by
      unfold splice
      rw [List.append_assoc]
      exact List.drop_left' hp
    have e2 : (splice b.bits b.pos (escapedBits v first second third)).drop
        (b.pos + (escapedBits v first second third).length)
        = b.bits.drop (b.pos + (escapedBits v first second third).length) := by
      unfold splice
      exact List.drop_left' (by rw [List.length_append, hp])
    simp only [e1, e2, Nat.add_sub_cancel_left]
    exact readEscapedValue_escapedBits v first second third _ k hv hmax
  · simp only [Nat.add_sub_cancel_left]
    exact escapedBits_length v first second third

/-- Witness for C2: the value 300 in the packet-type field (3,8,8) of a three-byte buffer. -/
theorem escaped_value_round_trip_witness :
    300 < 2 ^ 64 ∧ 300 ≤ (2 ^ 3 - 1) + (2 ^ 8 - 1) + (2 ^ 8 - 1)
      ∧ ∃ b', writeEscapedValue (CBitBuffer.new [0, 0, 0] 3) 300 3 8 8 = .ok b'
        ∧ (CBitBuffer.new [0, 0, 0] 3).pos ≤ b'.pos
        ∧ readEscapedValue
            { bits := b'.bits.drop (CBitBuffer.new [0, 0, 0] 3).pos, nofReadBits := 0 } 3 8 8
            = .ok (300, { bits := b'.bits.drop b'.pos,
                          nofReadBits := 0 + (b'.pos - (CBitBuffer.new [0, 0, 0] 3).pos) })
        ∧ b'.pos - (CBitBuffer.new [0, 0, 0] 3).pos
            = if 300 < 2 ^ 3 - 1 then 3
              else if 300 - (2 ^ 3 - 1) < 2 ^ 8 - 1 then 3 + 8 else 3 + 8 + 8 :=
  ⟨by decide, by decide,
    escaped_value_round_trip 3 8 8 300 (by decide) (by decide) (CBitBuffer.new [0, 0, 0] 3)
      (by decide) 0⟩

/-- C3: for every packet whose type, label and payload length are representable,
`calculatePacketSize()` is the sum of the three escaped sizes divided by eight plus the
payload length; `writePacket` into a vector leaves exactly that many bytes; the
raw-buffer overload returns that number, keeps the length of the buffer and leaves the
bytes past that number untouched; and on no raw buffer does it raise "Wrote invalid
amount of bits" or "Size calculation is wrong". -/
theorem write_size (p : CMhasPacket) (ht : representable p.m_packetType 3 8 8)
    (hl : representable p.m_packetLabel 2 8 32)
    (hn : representable p.m_payload.length 11 24 24) :
    p.calculatePacketSize
        = .ok ((escapedValueWriteSize p.m_packetType 3 8 8
                + escapedValueWriteSize p.m_packetLabel 2 8 32
                + escapedValueWriteSize p.m_payload.length 11 24 24) / 8
               + p.m_payload.length)
      ∧ (∀ vector, ∃ written, p.writePacket vector = .ok written
          ∧ p.calculatePacketSize = .ok written.length)
      ∧ (∀ raw size, p.calculatePacketSize = .ok size → size ≤ raw.length →
          raw.length < 2 ^ 32 →
          ∃ out, p.writePacketRaw raw = .ok (size, out) ∧ out.length = raw.length
            ∧ out.drop size = raw.drop size)
      ∧ (∀ raw, p.writePacketRaw raw ≠ .error Err.wroteInvalidAmountOfBits
          ∧ p.writePacketRaw raw ≠ .error Err.sizeCalculationWrong) := by
  have hs : p.serialisable := ⟨ht, hl, hn⟩
  have hc := calculatePacketSize_eq p hs
  have hl := packetBytes_length p
  refine ⟨?_, ?_, ?_, writePacketRaw_assertions p hs⟩
  · rw [hc, headerBits_length_eq p hs]
  · intro vector
    exact ⟨packetBytes p, writePacket_eq p hs vector, by rw [hc, hl]⟩
  · intro raw size hsize hle hlt
    rw [hc] at hsize
    injection hsize with hsize
    rw [← hl] at hsize
    subst hsize
    refine ⟨_, writePacketRaw_eq p hs raw hle hlt, ?_, ?_⟩
    · simp only [List.length_append, List.length_drop]
      omega
    · exact List.drop_left' rfl

/-- Witness for C3: a sync packet written into a vector and into a five-byte raw buffer. -/
theorem write_size_witness :
    representable 6 3 8 8 ∧ representable 0 2 8 32 ∧ representable 1 11 24 24
      ∧ CMhasPacket.calculatePacketSize
          { m_payload := [0xA5], m_packetLabel := 0, m_packetType := 6 } = .ok 3
      ∧ CMhasPacket.writePacketRaw { m_payload := [0xA5], m_packetLabel := 0, m_packetType := 6 }
          [1, 2, 3, 4, 5] = .ok (3, [0xC0, 0x01, 0xA5, 4, 5])
      ∧ ∃ out, CMhasPacket.writePacketRaw
            { m_payload := [0xA5], m_packetLabel := 0, m_packetType := 6 } [1, 2, 3, 4, 5]
            = .ok (3, out)
          ∧ out.length = [(1 : Byte), 2, 3, 4, 5].length
          ∧ out.drop 3 = [(1 : Byte), 2, 3, 4, 5].drop 3 :=
  ⟨by decide, by decide, by decide, by decide, by decide,
    (write_size { m_payload := [0xA5], m_packetLabel := 0, m_packetType := 6 }
      (by decide) (by decide) (by decide)).2.2.1 [1, 2, 3, 4, 5] 3 (by decide) (by decide)
      (by decide)⟩

/-- C4: the encoded size is the minimal tier. For field widths between 1 and 64 and a
64-bit value `v`, `escapedValueWriteSize` is `first` when `v < 2^first-1`, `first+second`
when `v - (2^first-1) < 2^second-1`, and `first+second+third` otherwise; with widths
(3,8,8) the values 0..6 take 3 bits, 7..261 take 11 bits and larger values 19 bits. -/
theorem write_size_minimal_tier (v first second third : Nat) (hv : v < 2 ^ 64)
    (hf : 1 ≤ first) (hf64 : first ≤ 64) (hs : 1 ≤ second) (hs64 : second ≤ 64)
    (ht : first + second + third < 2 ^ 32) :
    escapedValueWriteSize v first second third
        = (if v < 2 ^ first - 1 then first
           else if v - (2 ^ first - 1) < 2 ^ second - 1 then first + second
           else first + second + third)
      ∧ (∀ w, w ≤ 6 → escapedValueWriteSize w 3 8 8 = 3)
      ∧ (∀ w, 7 ≤ w → w ≤ 261 → escapedValueWriteSize w 3 8 8 = 11)
      ∧ (∀ w, 262 ≤ w → w < 2 ^ 64 → escapedValueWriteSize w 3 8 8 = 19) := by
  refine ⟨escapedValueWriteSize_eq v first second third hv hf hf64 hs hs64 ht, ?_, ?_, ?_⟩
  · intro w hw
    rw [escapedValueWriteSize_eq w 3 8 8 (by omega) (by omega) (by omega) (by omega)
      (by omega) (by norm_num)]
    rw [if_pos (by norm_num; omega)]
  · intro w h7 h261
    rw [escapedValueWriteSize_eq w 3 8 8 (by omega) (by omega) (by omega) (by omega)
      (by omega) (by norm_num)]
    rw [if_neg (by norm_num; omega), if_pos (by norm_num; omega)]
  · intro w h262 hw
    rw [escapedValueWriteSize_eq w 3 8 8 hw (by omega) (by omega) (by omega)
      (by omega) (by norm_num)]
    rw [if_neg (by norm_num; omega), if_neg (by norm_num; omega)]

/-- Witness for C4: the value 2047 in the payload-length field (11,24,24) takes 35 bits. -/
theorem write_size_minimal_tier_witness :
    escapedValueWriteSize 2047 11 24 24 = 35
      ∧ escapedValueWriteSize 6 3 8 8 = 3 ∧ escapedValueWriteSize 7 3 8 8 = 11
      ∧ escapedValueWriteSize 261 3 8 8 = 11 ∧ escapedValueWriteSize 262 3 8 8 = 19 :=
  have h := write_size_minimal_tier 2047 11 24 24 (by decide) (by decide) (by decide)
    (by decide) (by decide) (by decide)
  ⟨h.1.trans (by decide), h.2.1 6 (by decide), h.2.2.1 7 (by decide) (by decide),
    h.2.2.1 261 (by decide) (by decide), h.2.2.2 262 (by decide) (by decide)⟩

/-- C5: parse from cursor. On every byte range the constructor `CMhasPacket(begin, end)`
decodes type (3,8,8), label (2,8,32) and length (11,24,24) and then takes exactly
`length` payload bytes after the header bytes: the payload has the decoded length and
`begin` is advanced by header bytes plus length. It throws on an empty range, when
the header cannot be decoded, and when fewer than header bytes plus length bytes lie
in the range. -/
theorem constructor_parse_from_cursor (range : ByteBuffer) :
    (range = [] → CMhasPacket.new range = .error Err.invalidIterators)
      ∧ (∀ e, range ≠ [] → decodeHeader range = .error e → CMhasPacket.new range = .error e)
      ∧ (∀ t l len hb, decodeHeader range = .ok (t, l, len, hb) →
          (range.length < hb + len → CMhasPacket.new range = .error Err.payloadNotCovered)
          ∧ (hb + len ≤ range.length →
              ∃ p, CMhasPacket.new range = .ok (p, range.drop (hb + len))
                ∧ p.packetType = t ∧ p.packetLabel = l
                ∧ p.payload = (range.drop hb).take len ∧ p.payload.length = len)) := by
  refine ⟨?_, ?_, ?_⟩
  · intro h
    rw [CMhasPacket.new_eq, if_pos h]
  · intro e hne hd
    rw [CMhasPacket.new_eq, if_neg hne, hd]
  · intro t l len hb hd
    have hne : range ≠ [] := by
      intro h
      subst h
      have he : decodeHeader [] = .error Err.outOfBits := by decide
      rw [he] at hd
      cases hd
    rw [CMhasPacket.new_eq, if_neg hne, hd]
    refine ⟨?_, ?_⟩
    · intro h
      simp only []
      rw [if_neg (by omega)]
    · intro h
      simp only []
      rw [if_pos h]
      refine ⟨_, rfl, rfl, rfl, rfl, ?_⟩
      simp only [CMhasPacket.payload, List.length_take, List.length_drop]
      omega

/-- Witness for C5: a sync packet followed by one more byte. -/
theorem constructor_parse_from_cursor_witness :
    decodeHeader [0xC0, 0x01, 0xA5, 0x77] = .ok (6, 0, 1, 2)
      ∧ ∃ p, CMhasPacket.new [0xC0, 0x01, 0xA5, 0x77]
            = .ok (p, List.drop (2 + 1) [0xC0, 0x01, 0xA5, 0x77])
          ∧ p.packetType = 6 ∧ p.packetLabel = 0
          ∧ p.payload = (List.drop 2 [0xC0, 0x01, 0xA5, 0x77]).take 1
          ∧ p.payload.length = 1 :=
  ⟨by decide,
    ((constructor_parse_from_cursor [0xC0, 0x01, 0xA5, 0x77]).2.2 6 0 1 2 (by decide)).2
      (by decide)⟩

/-- C6: the factory's "need more data". On every byte range `s_parseNextPacket` returns
null without throwing and leaves `begin` where it was when the range is empty, when the
three header fields cannot be decoded, and when header bytes plus decoded payload length
exceed the bytes available. -/
theorem factory_need_more_data (D : Decoders) (range : ByteBuffer) (flag : Bool) :
    (range = [] → CMhasPacket.s_parseNextPacket D range flag = .ok (none, range))
      ∧ (∀ e, decodeHeader range = .error e →
          CMhasPacket.s_parseNextPacket D range flag = .ok (none, range))
      ∧ (∀ t l len hb, decodeHeader range = .ok (t, l, len, hb) → range.length < hb + len →
          CMhasPacket.s_parseNextPacket D range flag = .ok (none, range)) := by
  refine ⟨?_, ?_, ?_⟩
  · intro h
    rw [CMhasPacket.s_parseNextPacket_eq, if_pos h, h]
  · intro e hd
    rw [CMhasPacket.s_parseNextPacket_eq, hd]
    by_cases h : range = []
    · rw [if_pos h, h]
    · rw [if_neg h]
  · intro t l len hb hd hlt
    rw [CMhasPacket.s_parseNextPacket_eq, hd]
    by_cases h : range = []
    · rw [if_pos h, h]
    · rw [if_neg h]
      simp only []
      rw [if_pos hlt]

/-- Witness for C6: a header that announces a payload of 16 bytes, followed by 2 bytes. -/
theorem factory_need_more_data_witness :
    decodeHeader [0xC0, 0x10, 0xA5, 0x77] = .ok (6, 0, 16, 2)
      ∧ [(0xC0 : Byte), 0x10, 0xA5, 0x77].length < 2 + 16
      ∧ CMhasPacket.s_parseNextPacket ⟨fun _ _ => true, fun _ _ => true, fun _ => false⟩
          [0xC0, 0x10, 0xA5, 0x77] false = .ok (none, [0xC0, 0x10, 0xA5, 0x77]) :=
  ⟨by decide, by decide,
    (factory_need_more_data ⟨fun _ _ => true, fun _ _ => true, fun _ => false⟩
      [0xC0, 0x10, 0xA5, 0x77] false).2.2 6 0 16 2 (by decide) (by decide)⟩

/-! ## The claims on the streaming parser -/

/-- C7: stream decoding in arrival order. For every sequence of serialisable packets
`p1..pn`, each accepted by its decoder, a parser with nothing buffered and nothing
queued on which `sync()` was called and that is fed `write(p1) ++ ... ++ write(pn)`
holds after `parsePackets()` exactly the packets `p1..pn` in that order, no exception
escapes, `numBytesPending()` is 0, and successive `nextPacket()` calls return the
packets first-in-first-out and then null. -/
theorem stream_decoding_in_order (D : Decoders) (s : CMhasParser) (ps : List CMhasPacket)
    (ws : List ByteBuffer) (hbuf : s.m_buffer = []) (hq : s.m_parsedPackets = [])
    (hs : ∀ p ∈ ps, p.serialisable)
    (hw : List.Forall₂ (fun p w => p.writePacket [] = .ok w) ps ws)
    (hacc : acceptedAll D s.m_audioPreRollPresent ps) :
    ((s.sync.feed ws.flatten).parsePackets D).2 = none
      ∧ ((s.sync.feed ws.flatten).parsePackets D).1.m_parsedPackets = ps
      ∧ ((s.sync.feed ws.flatten).parsePackets D).1.numBytesPending = 0
      ∧ ((s.sync.feed ws.flatten).parsePackets D).1.drain (ps.length + 1)
          = ps.map some ++ [none] := by
  obtain ⟨synced, buffer, queue, flag⟩ := s
  simp only at hbuf hq hacc
  subst hbuf hq
  have hloop := parseLoop_packets D ps ws flag [] [] (written_packets ps ws hw hs) hacc
  simp only [List.append_nil, List.nil_append] at hloop
  have hend : parseLoop D (([] : ByteBuffer).length + 1) [] (flagAfter D flag ps) ps
      = ([], flagAfter D flag ps, ps, none) := rfl
  have hpp : CMhasParser.parsePackets D
      (CMhasParser.feed (CMhasParser.sync ⟨synced, [], [], flag⟩) ws.flatten)
      = (⟨true, [], ps, flagAfter D flag ps⟩, none) := by
    show CMhasParser.parsePackets D ⟨true, [] ++ ws.flatten, [], flag⟩ = _
    rw [parsePackets_synced, List.nil_append, hloop, hend]
  rw [hpp]
  exact ⟨rfl, rfl, rfl, drain_queue ps true [] _⟩

/-- Witness for C7: two sync packets and a packet of an unknown type. -/
theorem stream_decoding_in_order_witness :
    (((({} : CMhasParser).sync.feed
        [[0xC0, 0x01, 0xA5], [0xC0, 0x01, 0xA5], [0xA0, 0x02, 0x11, 0x22]].flatten).parsePackets
        ⟨fun _ _ => true, fun _ _ => true, fun _ => false⟩).1.m_parsedPackets
      = [⟨[0xA5], 0, 6⟩, ⟨[0xA5], 0, 6⟩, ⟨[0x11, 0x22], 0, 5⟩])
    ∧ ((({} : CMhasParser).sync.feed
        [[0xC0, 0x01, 0xA5], [0xC0, 0x01, 0xA5], [0xA0, 0x02, 0x11, 0x22]].flatten).parsePackets
        ⟨fun _ _ => true, fun _ _ => true, fun _ => false⟩).1.numBytesPending = 0 :=
  have h := stream_decoding_in_order ⟨fun _ _ => true, fun _ _ => true, fun _ => false⟩ {}
    [⟨[0xA5], 0, 6⟩, ⟨[0xA5], 0, 6⟩, ⟨[0x11, 0x22], 0, 5⟩]
    [[0xC0, 0x01, 0xA5], [0xC0, 0x01, 0xA5], [0xA0, 0x02, 0x11, 0x22]] rfl rfl
    (by decide)
    (List.Forall₂.cons (by decide) (List.Forall₂.cons (by decide)
      (List.Forall₂.cons (by decide) List.Forall₂.nil)))
    ⟨rfl, rfl, rfl, trivial⟩
  ⟨h.2.1, h.2.2.1⟩

/-- C8: chunking invariance. From every parser state and for every split `a ++ b` of the
fed bytes, if the first `parsePackets()` of the chunked run raises no exception, then the
second one and the single `parsePackets()` of the unsplit run end alike: the same
exception or none, and when none, the same sync state, pending bytes, output queue and
pre-roll flag. What a pass leaves pending is a tail of its input, and on a synced parser
no whole packet starts it: an incomplete trailing packet stays buffered. -/
theorem chunking_invariance (D : Decoders) (s : CMhasParser) (a b : ByteBuffer)
    (h1 : ((s.feed a).parsePackets D).2 = none) :
    ((((s.feed a).parsePackets D).1.feed b).parsePackets D).2
        = ((s.feed (a ++ b)).parsePackets D).2
      ∧ (((s.feed (a ++ b)).parsePackets D).2 = none →
          ((((s.feed a).parsePackets D).1.feed b).parsePackets D).1
            = ((s.feed (a ++ b)).parsePackets D).1)
      ∧ (∃ consumed, (s.feed a).m_buffer = consumed ++ ((s.feed a).parsePackets D).1.m_buffer)
      ∧ (((s.feed a).parsePackets D).1.m_isSynced = true →
          CMhasPacket.s_parseNextPacket D ((s.feed a).parsePackets D).1.m_buffer
            ((s.feed a).parsePackets D).1.m_audioPreRollPresent
            = .ok (none, ((s.feed a).parsePackets D).1.m_buffer)) := by
  obtain ⟨synced, B, q, f⟩ := s
  have hfa : CMhasParser.feed ⟨synced, B, q, f⟩ a = ⟨synced, B ++ a, q, f⟩ := rfl
  have hfab : CMhasParser.feed ⟨synced, B, q, f⟩ (a ++ b) = ⟨synced, (B ++ a) ++ b, q, f⟩ := by
    show (⟨synced, B ++ (a ++ b), q, f⟩ : CMhasParser) = _
    rw [List.append_assoc]
  rw [hfa] at h1 ⊢
  rw [hfab]
  cases synced with
  | true =>
    rw [parsePackets_synced] at h1 ⊢
    rcases hl : parseLoop D ((B ++ a).length + 1) (B ++ a) f q with ⟨r, f', q', _ | e⟩
    · have happ := parseLoop_append D _ (B ++ a) f q r f' q' b rfl hl
      obtain ⟨hsuf, hnone⟩ := parseLoop_rest D _ (B ++ a) f q r f' q' rfl hl
      simp only []
      have hfb : CMhasParser.feed ⟨true, r, q', f'⟩ b = ⟨true, r ++ b, q', f'⟩ := rfl
      rw [hfb, parsePackets_synced, parsePackets_synced, happ]
      rcases hl2 : parseLoop D ((r ++ b).length + 1) (r ++ b) f' q' with ⟨r2, f2, q2, _ | e2⟩
      · exact ⟨rfl, fun _ => rfl, hsuf, fun _ => hnone⟩
      · exact ⟨rfl, fun h => by simp at h, hsuf, fun _ => hnone⟩
    · rw [hl] at h1
      simp at h1
  | false =>
    rw [parsePackets_unsynced] at h1 ⊢
    obtain ⟨pre, hpre⟩ := syncScan_suffix (B ++ a)
    rcases hs : syncScan (B ++ a) with ⟨_ | _, r⟩
    · have hmiss := syncScan_missed_append (B ++ a) r b hs
      rw [hs] at hpre
      simp only []
      have hfb : CMhasParser.feed ⟨false, r, q, f⟩ b = ⟨false, r ++ b, q, f⟩ := rfl
      rw [hfb, parsePackets_unsynced, parsePackets_unsynced, hmiss]
      rcases hs2 : syncScan (r ++ b) with ⟨_ | _, r2⟩
      · exact ⟨rfl, fun _ => rfl, ⟨pre, hpre⟩, fun h => by simp at h⟩
      · simp only []
        rcases hl2 : parseLoop D (r2.length + 1) r2 f q with ⟨r3, f3, q3, _ | e3⟩
        · exact ⟨rfl, fun _ => rfl, ⟨pre, hpre⟩, fun h => by simp at h⟩
        · exact ⟨rfl, fun h => by simp at h, ⟨pre, hpre⟩, fun h => by simp at h⟩
    · have hfound := syncScan_found_append (B ++ a) r b hs
      rw [hs] at hpre h1
      simp only [] at h1 ⊢
      rcases hl : parseLoop D (r.length + 1) r f q with ⟨r', f', q', _ | e⟩
      · have happ := parseLoop_append D _ r f q r' f' q' b rfl hl
        obtain ⟨⟨c, hc⟩, hnone⟩ := parseLoop_rest D _ r f q r' f' q' rfl hl
        have hsuf : ∃ consumed, B ++ a = consumed ++ r' :=
          ⟨pre ++ c, by rw [hpre]; simp only [hc, List.append_assoc]⟩
        simp only []
        have hfb : CMhasParser.feed ⟨true, r', q', f'⟩ b = ⟨true, r' ++ b, q', f'⟩ := rfl
        rw [hfb, parsePackets_synced, parsePackets_unsynced, hfound]
        simp only []
        rw [happ]
        rcases hl2 : parseLoop D ((r' ++ b).length + 1) (r' ++ b) f' q' with
          ⟨r2, f2, q2, _ | e2⟩
        · exact ⟨rfl, fun _ => rfl, hsuf, fun _ => hnone⟩
        · exact ⟨rfl, fun h => by simp at h, hsuf, fun _ => hnone⟩
      · rw [hl] at h1
        simp at h1

/-- Witness for C8: a sync packet and a four-byte packet, split inside the second packet,
fed to an unsynced parser behind one byte of garbage. -/
theorem chunking_invariance_witness :
    ((((({} : CMhasParser).feed [0x00, 0xC0, 0x01, 0xA5, 0xA0, 0x02]).parsePackets
        ⟨fun _ _ => true, fun _ _ => true, fun _ => false⟩).1.feed [0x11, 0x22]).parsePackets
        ⟨fun _ _ => true, fun _ _ => true, fun _ => false⟩).1
      = ((({} : CMhasParser).feed ([0x00, 0xC0, 0x01, 0xA5, 0xA0, 0x02] ++ [0x11, 0x22])).parsePackets
        ⟨fun _ _ => true, fun _ _ => true, fun _ => false⟩).1
    ∧ ((({} : CMhasParser).feed [0x00, 0xC0, 0x01, 0xA5, 0xA0, 0x02]).parsePackets
        ⟨fun _ _ => true, fun _ _ => true, fun _ => false⟩).1.m_buffer = [0xA0, 0x02] :=
  ⟨(chunking_invariance ⟨fun _ _ => true, fun _ _ => true, fun _ => false⟩ {}
      [0x00, 0xC0, 0x01, 0xA5, 0xA0, 0x02] [0x11, 0x22] (by decide)).2.1 (by decide),
    by decide⟩

/-- C9, at the failing input: an unsynced parser whose buffer is exactly the sync pattern
`C0 01 A5`. The loop of `syncIfNecessary` runs only while more than three bytes remain,
so the pattern is not tested: the parser stays unsynced and keeps the three bytes. -/
theorem sync_pattern_at_end_missed (D : Decoders) :
    ((({} : CMhasParser).feed [0xC0, 0x01, 0xA5]).parsePackets D).1.isSynced = false
      ∧ ((({} : CMhasParser).feed [0xC0, 0x01, 0xA5]).parsePackets D).1.numBytesPending = 3
      ∧ ((({} : CMhasParser).feed [0x00, 0x00, 0xC0, 0x01, 0xA5]).parsePackets D).1.isSynced
          = false := by
  refine ⟨rfl, rfl, rfl⟩

/-- C10, at the failing input: an unsynced parser whose buffer is five zero bytes, which
hold no sync pattern. `syncIfNecessary` stops three bytes before `end`, not at `end`, so
`parsePackets()` keeps three bytes pending; no packet is queued and the parser stays
unsynced. -/
theorem no_pattern_keeps_three_bytes (D : Decoders) :
    (CMhasParser.syncIfNecessary {} [0x00, 0x00, 0x00, 0x00, 0x00]).2.2 = [0x00, 0x00, 0x00]
      ∧ ((({} : CMhasParser).feed [0x00, 0x00, 0x00, 0x00, 0x00]).parsePackets D).1.numBytesPending
          = 3
      ∧ ((({} : CMhasParser).feed [0x00, 0x00, 0x00, 0x00, 0x00]).parsePackets D).1.m_parsedPackets
          = []
      ∧ ((({} : CMhasParser).feed [0x00, 0x00, 0x00, 0x00, 0x00]).parsePackets D).1.isSynced
          = false := by
  refine ⟨rfl, rfl, rfl, rfl⟩

/-! ## Sync recovery, sticky sync and the size checks of `writePacket` -/

theorem syncScan_garbage (g : ByteBuffer) :
    ∀ (tail : ByteBuffer), ¬ syncPattern <:+: g → tail ≠ [] →
      syncScan (g ++ syncPattern ++ tail) = (true, syncPattern ++ tail) := by
  induction g with
  | nil =>
    intro tail _ ht
    obtain ⟨t, ts, rfl⟩ := List.exists_cons_of_ne_nil ht
    simp [syncPattern, syncScan]
  | cons b g ih =>
    intro tail hg ht
    have hg' : ¬ syncPattern <:+: g := fun h => hg (List.IsInfix.trans h (List.infix_cons (List.infix_refl _)))
    obtain ⟨t, ts, rfl⟩ := List.exists_cons_of_ne_nil ht
    have hstep : syncScan (b :: g ++ syncPattern ++ t :: ts)
        = syncScan (g ++ syncPattern ++ t :: ts) := by
      rw [List.cons_append, List.cons_append, syncScan]
      rw [if_pos (by simp [syncPattern]; omega)]
      rw [if_neg]
      rintro ⟨h0, h1, h2⟩
      subst h0
      match g, hg, h1, h2 with
      | [], _, h1, _ => simp [syncPattern] at h1
      | [x], _, h1, h2 => simp [syncPattern] at h1 h2
      | x :: y :: rest, hg, h1, h2 =>
        simp only [List.cons_append, List.getElem?_cons_zero, List.getElem?_cons_succ,
          Option.some.injEq] at h1 h2
        subst h1 h2
        exact hg ⟨[], rest, rfl⟩
    rw [hstep]
    exact ih (t :: ts) hg' ht

theorem accepted_sync (D : Decoders) (flag : Bool) (p : CMhasPacket) (ht : p.m_packetType = 6) :
    accepted D flag p = D.payloadOk 6 p.m_payload := by
  unfold accepted
  simp [ht]

theorem nextFlag_sync (D : Decoders) (flag : Bool) (p : CMhasPacket) (ht : p.m_packetType = 6) :
    nextFlag D flag p = flag := by
  unfold nextFlag CMhasPacket.packetType
  simp [ht]

/-- C11, the claim as stated refuted: one garbage byte, the sync pattern and a sync packet
fed to a fresh parser. The pattern is itself a serialised sync packet and the parse loop
starts on it, so two packets are decoded, not one. -/
theorem sync_recovery_yields_two_packets :
    ((({} : CMhasParser).feed ([0x00] ++ syncPattern ++ [0xC0, 0x01, 0xA5])).parsePackets
        ⟨fun _ _ => true, fun _ _ => true, fun _ => false⟩).1.m_parsedPackets
      = [⟨[0xA5], 0, 6⟩, ⟨[0xA5], 0, 6⟩]
    ∧ ((({} : CMhasParser).feed ([0x00] ++ syncPattern ++ [0xC0, 0x01, 0xA5])).parsePackets
        ⟨fun _ _ => true, fun _ _ => true, fun _ => false⟩).1.numPacketsAvailable ≠ 1 := by
  decide

/-- C11, amended: feeding an unsynced parser, with nothing buffered or queued, garbage
bytes that do not contain the pattern, then the sync pattern, then a valid sync packet,
and calling `parsePackets()`, leaves the parser synced with exactly two decoded packets:
the pattern itself, decoded as a sync packet, which is the first parsed packet, and the
sync packet behind it. No byte stays pending, so the garbage is in no output packet. -/
theorem sync_recovery (D : Decoders) (s : CMhasParser) (g w : ByteBuffer) (p : CMhasPacket)
    (hu : s.m_isSynced = false) (hb : s.m_buffer = []) (hq : s.m_parsedPackets = [])
    (hg : ¬ syncPattern <:+: g) (hpat : D.payloadOk 6 [0xA5] = true)
    (ht : p.packetType = 6) (hs : p.serialisable) (hw : p.writePacket [] = .ok w)
    (ha : D.payloadOk 6 p.m_payload = true) :
    (s.feed (g ++ syncPattern ++ w)).parsePackets D
      = (⟨true, [], [⟨[0xA5], 0, 6⟩, p], s.m_audioPreRollPresent⟩, none) := by
  obtain ⟨synced, buffer, queue, flag⟩ := s
  simp only at hu hb hq
  subst hu hb hq
  rw [writePacket_eq p hs] at hw
  injection hw with hw
  subst hw
  have hne : packetBytes p ≠ [] := by
    have := packetBytes_ne_nil p []
    rwa [List.append_nil] at this
  have hscan := syncScan_garbage g (packetBytes p) hg hne
  have hsyncp : (⟨[0xA5], 0, 6⟩ : CMhasPacket).serialisable := by decide
  have hpatb : syncPattern = packetBytes ⟨[0xA5], 0, 6⟩ := by decide
  have hacc : acceptedAll D flag [⟨[0xA5], 0, 6⟩, p] := by
    refine ⟨?_, ?_, trivial⟩
    · rw [accepted_sync D flag _ rfl]; exact hpat
    · rw [accepted_sync D _ p ht]; exact ha
  have hloop := parseLoop_packets D [⟨[0xA5], 0, 6⟩, p] [syncPattern, packetBytes p] flag [] []
    (List.Forall₂.cons ⟨hsyncp, hpatb⟩ (List.Forall₂.cons ⟨hs, rfl⟩ List.Forall₂.nil)) hacc
  have hflat : [syncPattern, packetBytes p].flatten ++ [] = syncPattern ++ packetBytes p := by
    simp
  have hflag : flagAfter D flag [⟨[0xA5], 0, 6⟩, p] = flag := by
    simp only [flagAfter, List.foldl_cons, List.foldl_nil]
    rw [nextFlag_sync D flag _ rfl, nextFlag_sync D flag p ht]
  rw [hflat, hflag, List.nil_append] at hloop
  have hend : parseLoop D (([] : ByteBuffer).length + 1) [] flag [⟨[0xA5], 0, 6⟩, p]
      = ([], flag, [⟨[0xA5], 0, 6⟩, p], none) := rfl
  show CMhasParser.parsePackets D ⟨false, [] ++ (g ++ syncPattern ++ packetBytes p), [], flag⟩ = _
  rw [List.nil_append, parsePackets_unsynced, hscan]
  simp only []
  rw [hloop, hend]

/-- Witness for C11 amended: one garbage byte, the pattern and a sync packet with label 1. -/
theorem sync_recovery_witness :
    (({} : CMhasParser).feed ([0x00] ++ syncPattern ++ [0xC8, 0x01, 0xA5])).parsePackets
        ⟨fun _ _ => true, fun _ _ => true, fun _ => false⟩
      = (⟨true, [], [⟨[0xA5], 0, 6⟩, ⟨[0xA5], 1, 6⟩], false⟩, none) :=
  sync_recovery ⟨fun _ _ => true, fun _ _ => true, fun _ => false⟩ {} [0x00] [0xC8, 0x01, 0xA5]
    ⟨[0xA5], 1, 6⟩ rfl rfl rfl (by decide) rfl rfl (by decide) (by decide) rfl

/-- C12: sticky sync. Once `isSynced()` is true, no sequence of `feed`, `sync`,
`parsePackets`, `nextPacket` and `allAvailablePackets` calls makes it false; `reset()`
does, and it also empties the pending input and the output queue. -/
theorem sticky_sync (D : Decoders) (s : CMhasParser) (cs : List ParserCall)
    (h : s.isSynced = true) :
    (s.calls D cs).isSynced = true
      ∧ s.reset.isSynced = false ∧ s.reset.numBytesPending = 0
      ∧ s.reset.numPacketsAvailable = 0 := by
  refine ⟨?_, rfl, rfl, rfl⟩
  induction cs generalizing s with
  | nil => exact h
  | cons c cs ih =>
    apply ih
    obtain ⟨synced, buffer, queue, flag⟩ := s
    have hs : synced = true := h
    subst hs
    cases c with
    | feed v => rfl
    | sync => rfl
    | parsePackets =>
      show (CMhasParser.parsePackets D ⟨true, buffer, queue, flag⟩).1.isSynced = true
      rw [parsePackets_synced]
      rcases parseLoop D (buffer.length + 1) buffer flag queue with ⟨r, f, q, _ | e⟩ <;> rfl
    | nextPacket =>
      show (CMhasParser.nextPacket ⟨true, buffer, queue, flag⟩).2.isSynced = true
      cases queue <;> rfl
    | allAvailablePackets => rfl

/-- Witness for C12: a synced parser is fed two sync packets, parses and is drained. -/
theorem sticky_sync_witness :
    ((({} : CMhasParser).sync).calls ⟨fun _ _ => true, fun _ _ => true, fun _ => false⟩
        [.feed [0xC0, 0x01, 0xA5, 0xC0], .parsePackets, .nextPacket, .sync,
         .allAvailablePackets, .parsePackets]).isSynced = true
      ∧ (({} : CMhasParser).sync).reset.isSynced = false
      ∧ (({} : CMhasParser).sync).reset.numBytesPending = 0
      ∧ (({} : CMhasParser).sync).reset.numPacketsAvailable = 0 :=
  sticky_sync ⟨fun _ _ => true, fun _ _ => true, fun _ => false⟩ (({} : CMhasParser).sync)
    [.feed [0xC0, 0x01, 0xA5, 0xC0], .parsePackets, .nextPacket, .sync,
     .allAvailablePackets, .parsePackets] rfl

/-- C13, at the failing input: a sync packet, whose size is 3, and a raw buffer of 5
bytes. The raw overload only asserts `bytes <= rawBufferSize`, so it does not throw: it
writes the packet and returns 3. The iterator overload throws on the same range. -/
theorem write_into_larger_raw_buffer :
    CMhasPacket.calculatePacketSize ⟨[0xA5], 0, 6⟩ = .ok 3
      ∧ CMhasPacket.writePacketRaw ⟨[0xA5], 0, 6⟩ [1, 2, 3, 4, 5]
          = .ok (3, [0xC0, 0x01, 0xA5, 4, 5])
      ∧ CMhasPacket.writePacketRange ⟨[0xA5], 0, 6⟩ [1, 2, 3, 4, 5]
          = .error Err.rangeTooSmall
      ∧ CMhasPacket.writePacketRaw ⟨[0xA5], 0, 6⟩ [1, 2] = .error Err.bufferTooSmall := by
  decide

/-! ## The CRC16 engine -/

theorem and_top_bit (x : Nat) : (x &&& 0x8000 > 0) ↔ x.testBit 15 = true := by
  have h15 : (0x8000 : Nat) = 2 ^ 15 := by norm_num
  rw [h15]
  constructor
  · intro h
    by_contra hc
    have : x &&& 2 ^ 15 = 0 := by
      apply Nat.eq_of_testBit_eq
      intro j
      simp only [Nat.testBit_and, Nat.testBit_two_pow, Nat.zero_testBit]
      by_cases hj : 15 = j
      · subst hj; simpa using hc
      · simp [hj]
    omega
  · intro h
    have : (x &&& 2 ^ 15).testBit 15 = true := by
      simp only [Nat.testBit_and, Nat.testBit_two_pow_self, h, Bool.and_self]
    by_contra hc
    have h0 : x &&& 2 ^ 15 = 0 := by omega
    rw [h0] at this
    simp at this

theorem shiftStep_testBit (P x j : Nat) :
    (CCRC16.shiftStep P x).testBit j
      = (decide (j < 16)
          && xor (decide (1 ≤ j) && x.testBit (j - 1)) (x.testBit 15 && P.testBit j)) := by
  unfold CCRC16.shiftStep
  by_cases ht : x.testBit 15 = true
  · rw [if_pos ((and_top_bit x).mpr ht)]
    simp only [Nat.testBit_mod_two_pow, Nat.testBit_xor, Nat.testBit_shiftLeft, ht, ge_iff_le,
      Bool.true_and]
  · rw [if_neg (fun h => ht ((and_top_bit x).mp h))]
    simp only [Bool.not_eq_true] at ht
    simp only [Nat.testBit_mod_two_pow, Nat.testBit_shiftLeft, ht, ge_iff_le, Bool.false_and,
      Bool.xor_false]

theorem shiftStep_lt (P x : Nat) : CCRC16.shiftStep P x < 2 ^ 16 := by
  unfold CCRC16.shiftStep
  split <;> exact Nat.mod_lt _ (by norm_num)

theorem shiftStep_xor (P u v : Nat) :
    CCRC16.shiftStep P (u ^^^ v) = CCRC16.shiftStep P u ^^^ CCRC16.shiftStep P v := by
  apply Nat.eq_of_testBit_eq
  intro j
  simp only [shiftStep_testBit, Nat.testBit_xor]
  generalize decide (j < 16) = a
  generalize decide (1 ≤ j) = b
  generalize u.testBit (j - 1) = c
  generalize v.testBit (j - 1) = d
  generalize u.testBit 15 = e
  generalize v.testBit 15 = f
  generalize P.testBit j = g
  cases a <;> cases b <;> cases c <;> cases d <;> cases e <;> cases f <;> cases g <;> rfl

theorem shiftStep_iterate_xor (P : Nat) (n : Nat) (u v : Nat) :
    (CCRC16.shiftStep P)^[n] (u ^^^ v)
      = (CCRC16.shiftStep P)^[n] u ^^^ (CCRC16.shiftStep P)^[n] v := by
  induction n generalizing u v with
  | zero => rfl
  | succ n ih => simp only [Function.iterate_succ_apply, shiftStep_xor, ih]

theorem shiftStep_iterate_lt (P : Nat) (n : Nat) (x : Nat) (hx : x < 2 ^ 16) :
    (CCRC16.shiftStep P)^[n] x < 2 ^ 16 := by
  induction n generalizing x with
  | zero => exact hx
  | succ n ih =>
    rw [Function.iterate_succ_apply]
    exact ih _ (shiftStep_lt P x)

theorem shiftStep_low (P x : Nat) (hx : x < 2 ^ 15) : CCRC16.shiftStep P x = x * 2 := by
  unfold CCRC16.shiftStep
  have ht : x.testBit 15 = false := Nat.testBit_lt_two_pow hx
  rw [if_neg (fun h => by rw [(and_top_bit x).mp h] at ht; cases ht), Nat.shiftLeft_eq]
  exact Nat.mod_eq_of_lt (by norm_num at hx ⊢; omega)

theorem shiftStep_iterate_low (P : Nat) (k : Nat) :
    ∀ x, x * 2 ^ k < 2 ^ 16 → (CCRC16.shiftStep P)^[k] x = x * 2 ^ k := by
  induction k with
  | zero => intro x _; simp
  | succ k ih =>
    intro x hx
    have h2 : x * 2 ^ (k + 1) = x * 2 * 2 ^ k := by rw [pow_succ]; ring
    have hk : 1 ≤ 2 ^ k := Nat.one_le_two_pow
    have hlt : x < 2 ^ 15 := by
      rw [h2] at hx
      have : x * 2 ≤ x * 2 * 2 ^ k := Nat.le_mul_of_pos_right _ hk
      norm_num at hx ⊢
      omega
    rw [Function.iterate_succ_apply, shiftStep_low P x hlt, ih (x * 2) (by rw [← h2]; exact hx), h2]

theorem testBit_of_lt {x n j : Nat} (hx : x < 2 ^ n) (hj : n ≤ j) : x.testBit j = false :=
  Nat.testBit_lt_two_pow (Nat.lt_of_lt_of_le hx (Nat.pow_le_pow_right (by norm_num) hj))

theorem crc16ReferenceBit_eq (x : Nat) : crc16ReferenceBit x = CCRC16.shiftStep 0x8021 x := by
  unfold crc16ReferenceBit CCRC16.shiftStep
  have hc : (x / 2 ^ 15 % 2 = 1) ↔ (x &&& 0x8000 > 0) := by
    rw [and_top_bit, Nat.testBit_to_div_mod]
    simp
  have hs : x <<< 1 = 2 * x := by rw [Nat.shiftLeft_eq]; ring
  by_cases h : x / 2 ^ 15 % 2 = 1
  · rw [if_pos h, if_pos (hc.mp h), hs]
    apply Nat.eq_of_testBit_eq
    intro j
    simp only [Nat.testBit_xor, Nat.testBit_mod_two_pow]
    by_cases hj : j < 16
    · simp [hj]
    · have : Nat.testBit 0x8021 j = false := testBit_of_lt (n := 16) (by norm_num) (by omega)
      simp [hj, this]
  · rw [if_neg h, if_neg (fun h' => h (hc.mpr h')), hs]

theorem table_lookup (P s i : Nat) (hi : i < 256) :
    (CCRC16.new P s).m_lookupTable.getD i 0 = CCRC16.tableEntry P i := by
  simp [CCRC16.new, List.getD_eq_getElem?_getD, List.getElem?_map, List.getElem?_range hi]

theorem crc_byte_split (crc b : Nat) (hc : crc < 2 ^ 16) (hb : b < 2 ^ 8) :
    crc ^^^ (b * 2 ^ 8) = ((((crc >>> 8) ^^^ b) <<< 8) % 2 ^ 16) ^^^ (crc % 2 ^ 8) := by
  apply Nat.eq_of_testBit_eq
  intro j
  rw [← Nat.shiftLeft_eq]
  simp only [Nat.testBit_xor, Nat.testBit_mod_two_pow, Nat.testBit_shiftLeft,
    Nat.testBit_shiftRight, ge_iff_le]
  by_cases h8 : j < 8
  · have h16 : j < 16 := by omega
    have : ¬ 8 ≤ j := by omega
    simp [h8, h16, this]
  · by_cases h16 : j < 16
    · have : 8 + (j - 8) = j := by omega
      simp [h8, h16, this, show 8 ≤ j by omega]
    · have e1 : crc.testBit j = false := testBit_of_lt hc (by omega)
      have e2 : b.testBit (j - 8) = false := testBit_of_lt hb (by omega)
      simp [h8, h16, e1, e2]

theorem crc_byte_step (s crc : Nat) (b : Byte) (hc : crc < 2 ^ 16) :
    ((crc <<< 8) ^^^ (CCRC16.new 0x8021 s).m_lookupTable.getD ((crc >>> 8) ^^^ b.val) 0) % 2 ^ 16
      = crc16ReferenceByte crc b := by
  have hb : b.val < 2 ^ 8 := b.isLt
  have hhi : crc >>> 8 < 2 ^ 8 := by
    rw [Nat.shiftRight_eq_div_pow]
    exact Nat.div_lt_of_lt_mul (by rw [← pow_add]; exact hc)
  have hh : (crc >>> 8) ^^^ b.val < 2 ^ 8 := Nat.xor_lt_two_pow hhi hb
  have hf : crc16ReferenceBit = CCRC16.shiftStep 0x8021 := funext crc16ReferenceBit_eq
  have hlo : crc % 2 ^ 8 * 2 ^ 8 < 2 ^ 16 := by
    have := Nat.mod_lt crc (show 2 ^ 8 > 0 by norm_num)
    norm_num at this ⊢
    omega
  have hT := shiftStep_iterate_lt 0x8021 8 ((((crc >>> 8) ^^^ b.val) <<< 8) % 2 ^ 16)
    (Nat.mod_lt _ (by norm_num))
  rw [table_lookup _ _ _ (by norm_num at hh ⊢; exact hh)]
  unfold crc16ReferenceByte CCRC16.tableEntry
  rw [hf, crc_byte_split crc b.val hc hb, shiftStep_iterate_xor,
    shiftStep_iterate_low 0x8021 8 (crc % 2 ^ 8) hlo]
  generalize (CCRC16.shiftStep 0x8021)^[8] ((((crc >>> 8) ^^^ b.val) <<< 8) % 2 ^ 16) = T at hT
  apply Nat.eq_of_testBit_eq
  intro j
  rw [← Nat.shiftLeft_eq]
  simp only [Nat.testBit_xor, Nat.testBit_mod_two_pow, Nat.testBit_shiftLeft, ge_iff_le]
  by_cases h16 : j < 16
  · by_cases h8 : 8 ≤ j
    · simp [h16, h8, show j - 8 < 8 by omega, Bool.xor_comm]
    · simp [h16, h8]
  · have e1 : T.testBit j = false := testBit_of_lt hT (by omega)
    simp [h16, e1, show ¬ j - 8 < 8 by omega]

theorem crc16ReferenceByte_lt (crc : Nat) (b : Byte) (hc : crc < 2 ^ 16) :
    crc16ReferenceByte crc b < 2 ^ 16 := by
  rw [← crc_byte_step 0 crc b hc]
  exact Nat.mod_lt _ (by norm_num)

theorem calculateCRC_fold (s : Nat) (buffer : ByteBuffer) :
    ∀ crc, crc < 2 ^ 16 →
      buffer.foldl (fun crc byte =>
          ((crc <<< 8) ^^^ (CCRC16.new 0x8021 s).m_lookupTable.getD ((crc >>> 8) ^^^ byte.val) 0)
            % 2 ^ 16) crc
        = buffer.foldl crc16ReferenceByte crc := by
  induction buffer with
  | nil => intro _ _; rfl
  | cons b bs ih =>
    intro crc hc
    simp only [List.foldl_cons]
    rw [crc_byte_step s crc b hc]
    exact ih _ (crc16ReferenceByte_lt crc b hc)

/-- The table-driven CRC of the code is the bit-serial reference. -/
theorem calculateCRC16_eq_reference (payload : ByteBuffer) (label type : Nat) :
    CMhasPacket.calculateCRC16 ⟨payload, label, type⟩ = crc16Reference payload := by
  unfold CMhasPacket.calculateCRC16 CCRC16.calculateCRC crc16Reference
  exact calculateCRC_fold 0xffff payload 0xffff (by norm_num)

set_option maxRecDepth 100000 in
theorem table_is_remainder :
    ∀ i, i < 256 → CCRC16.tableEntry 0x8021 i = gf2Mod 0x18021 (i <<< 16) 8 := by
  decide

theorem shiftStep_injective (P x y : Nat) (hP : P.testBit 0 = true) (hx : x < 2 ^ 16)
    (hy : y < 2 ^ 16) (h : CCRC16.shiftStep P x = CCRC16.shiftStep P y) : x = y := by
  have hbit : ∀ j, (CCRC16.shiftStep P x).testBit j = (CCRC16.shiftStep P y).testBit j :=
    fun j => by rw [h]
  simp only [shiftStep_testBit] at hbit
  have h15 : x.testBit 15 = y.testBit 15 := by
    have := hbit 0
    simpa [hP] using this
  apply Nat.eq_of_testBit_eq
  intro k
  by_cases hk : k < 15
  · have := hbit (k + 1)
    simp only [show k + 1 < 16 by omega, show 1 ≤ k + 1 by omega, decide_True, Bool.true_and,
      Nat.add_sub_cancel, h15] at this
    generalize x.testBit k = a at this
    generalize y.testBit k = b at this
    generalize (y.testBit 15 && P.testBit (k + 1)) = c at this
    revert this
    cases a <;> cases b <;> cases c <;> simp
  · by_cases hk15 : k = 15
    · subst hk15; exact h15
    · rw [testBit_of_lt hx (by omega), testBit_of_lt hy (by omega)]

theorem shiftStep_iterate_injective (P : Nat) (hP : P.testBit 0 = true) (n : Nat) :
    ∀ x y, x < 2 ^ 16 → y < 2 ^ 16 →
      (CCRC16.shiftStep P)^[n] x = (CCRC16.shiftStep P)^[n] y → x = y := by
  induction n with
  | zero => intro x y _ _ h; exact h
  | succ n ih =>
    intro x y hx hy h
    rw [Function.iterate_succ_apply, Function.iterate_succ_apply] at h
    exact shiftStep_injective P x y hP hx hy (ih _ _ (shiftStep_lt P x) (shiftStep_lt P y) h)

theorem crc16ReferenceByte_injective {s s' : Nat} {b b' : Byte} (hs : s < 2 ^ 16)
    (hs' : s' < 2 ^ 16) (h : crc16ReferenceByte s b = crc16ReferenceByte s' b') :
    s ^^^ (b.val * 2 ^ 8) = s' ^^^ (b'.val * 2 ^ 8) := by
  have hf : crc16ReferenceBit = CCRC16.shiftStep 0x8021 := funext crc16ReferenceBit_eq
  have hbv : ∀ c : Byte, c.val * 2 ^ 8 < 2 ^ 16 := fun c => by
    have := c.isLt
    norm_num
    omega
  unfold crc16ReferenceByte at h
  rw [hf] at h
  exact shiftStep_iterate_injective 0x8021 (by decide) 8 _ _
    (Nat.xor_lt_two_pow hs (hbv b)) (Nat.xor_lt_two_pow hs' (hbv b')) h

theorem crc16_fold_lt (payload : ByteBuffer) :
    ∀ s, s < 2 ^ 16 → payload.foldl crc16ReferenceByte s < 2 ^ 16 := by
  induction payload with
  | nil => intro s hs; exact hs
  | cons b bs ih =>
    intro s hs
    exact ih _ (crc16ReferenceByte_lt s b hs)

theorem crc16_fold_injective (payload : ByteBuffer) :
    ∀ s s', s < 2 ^ 16 → s' < 2 ^ 16 →
      payload.foldl crc16ReferenceByte s = payload.foldl crc16ReferenceByte s' → s = s' := by
  induction payload with
  | nil => intro s s' _ _ h; exact h
  | cons b bs ih =>
    intro s s' hs hs' h
    have h1 := ih _ _ (crc16ReferenceByte_lt s b hs) (crc16ReferenceByte_lt s' b hs') h
    exact Nat.xor_left_injective (crc16ReferenceByte_injective hs hs' h1)

theorem crc16_fold_set (payload : ByteBuffer) :
    ∀ (s i : Nat) (b : Byte) (hi : i < payload.length), s < 2 ^ 16 → b ≠ payload[i] →
      (payload.set i b).foldl crc16ReferenceByte s ≠ payload.foldl crc16ReferenceByte s := by
  induction payload with
  | nil => intro s i b hi; simp at hi
  | cons x xs ih =>
    intro s i b hi hs hb
    cases i with
    | zero =>
      simp only [List.set_cons_zero, List.foldl_cons]
      intro h
      have h1 := crc16_fold_injective xs _ _ (crc16ReferenceByte_lt s b hs)
        (crc16ReferenceByte_lt s x hs) h
      have h2 := Nat.xor_right_injective (crc16ReferenceByte_injective hs hs h1)
      have h3 : b.val = x.val := by
        have hpos : (0 : Nat) < 2 ^ 8 := by norm_num
        exact Nat.eq_of_mul_eq_mul_right hpos h2
      exact hb (Fin.ext h3)
    | succ k =>
      simp only [List.set_cons_succ, List.foldl_cons]
      exact ih _ k b (by simpa using hi) (crc16ReferenceByte_lt s x hs) (by simpa using hb)

/-- C14: `calculateCRC16()` equals the reference bit-serial CRC-16 of the payload bytes
only (register initialised to 0xFFFF, each byte most significant bit first, generator
polynomial 0x8021, no reflection, no final xor); the table has 256 entries and entry `i`
is `i * x^16` modulo the generator `x^16 + 0x8021`; the result for an empty payload is
0xFFFF. -/
theorem crc16_refines_reference :
    (∀ p : CMhasPacket, p.calculateCRC16 = crc16Reference p.m_payload)
      ∧ (CCRC16.new 0x8021 0xffff).m_lookupTable.length = 256
      ∧ (∀ i, i < 256 →
          (CCRC16.new 0x8021 0xffff).m_lookupTable.getD i 0 = gf2Mod 0x18021 (i <<< 16) 8)
      ∧ (∀ label type, CMhasPacket.calculateCRC16 ⟨[], label, type⟩ = 0xFFFF) := by
  refine ⟨fun p => calculateCRC16_eq_reference p.m_payload p.m_packetLabel p.m_packetType,
    by simp [CCRC16.new], ?_, fun _ _ => rfl⟩
  intro i hi
  rw [table_lookup _ _ i hi]
  exact table_is_remainder i hi

/-- Witness for C14: the table entry of index 1 is the polynomial 0x8021 itself. -/
theorem crc16_refines_reference_witness :
    (CCRC16.new 0x8021 0xffff).m_lookupTable.getD 1 0 = gf2Mod 0x18021 (1 <<< 16) 8
      ∧ gf2Mod 0x18021 (1 <<< 16) 8 = 0x8021 :=
  ⟨crc16_refines_reference.2.2.1 1 (by decide), by decide⟩

/-- C15: the CRC detects every single-byte corruption. For every payload, every index
inside it and every byte different from the one stored there, `calculateCRC16` of the
payload with that byte replaced differs from `calculateCRC16` of the payload; and the
value depends on the payload only, so recomputing over the same payload gives it again. -/
theorem crc16_detects_single_byte_corruption (p : CMhasPacket) (i : Nat)
    (hi : i < p.m_payload.length) (b : Byte) (hb : b ≠ p.m_payload[i]) :
    CMhasPacket.calculateCRC16 { p with m_payload := p.m_payload.set i b } ≠ p.calculateCRC16
      ∧ (∀ q : CMhasPacket, q.m_payload = p.m_payload → q.calculateCRC16 = p.calculateCRC16) := by
  refine ⟨?_, fun q hq => ?_⟩
  · rw [calculateCRC16_eq_reference,
      calculateCRC16_eq_reference p.m_payload p.m_packetLabel p.m_packetType]
    exact crc16_fold_set p.m_payload 0xFFFF i b hi (by norm_num) hb
  · unfold CMhasPacket.calculateCRC16
    rw [hq]

/-- Witness for C15: the second byte of a three-byte frame payload is flipped. -/
theorem crc16_detects_single_byte_corruption_witness :
    CMhasPacket.calculateCRC16
        { (⟨[0x12, 0x34, 0x56], 5, 2⟩ : CMhasPacket) with
          m_payload := ([0x12, 0x34, 0x56] : ByteBuffer).set 1 0x35 }
      ≠ CMhasPacket.calculateCRC16 ⟨[0x12, 0x34, 0x56], 5, 2⟩ :=
  (crc16_detects_single_byte_corruption ⟨[0x12, 0x34, 0x56], 5, 2⟩ 1 (by decide) 0x35
    (by decide)).1

/-! ## The truncation packet -/

theorem natToBits_add (v m n : Nat) :
    natToBits v (m + n) = natToBits (v / 2 ^ n) m ++ natToBits v n := by
  induction n generalizing v with
  | zero => simp [natToBits]
  | succ n ih =>
    rw [← Nat.add_assoc, natToBits, natToBits, ih, List.append_assoc, Nat.div_div_eq_div_mul,
      pow_succ']

theorem bitsToNat_append (xs ys : List Bool) :
    bitsToNat (xs ++ ys) = bitsToNat xs * 2 ^ ys.length + bitsToNat ys := by
  induction ys using List.reverseRecOn with
  | nil => simp [bitsToNat]
  | append_singleton ys b ih =>
    rw [← List.append_assoc, bitsToNat_snoc, bitsToNat_snoc, ih, List.length_append,
      List.length_singleton, pow_succ]
    ring

theorem sixteen_bits (payload : ByteBuffer) (h : payload.length = 2) :
    (bytesToBits payload).length = 16 := by
  rw [bytesToBits_length, h]

theorem two_bytes (payload : ByteBuffer) (h : payload.length = 2) :
    ∃ b0 b1, payload = [b0, b1] := by
  match payload, h with
  | [b0, b1], _ => exact ⟨b0, b1, rfl⟩

theorem ofBuffer_two (payload : ByteBuffer) (h : payload.length = 2) :
    CBitBuffer.ofBuffer payload ((payload.length * 8) % 2 ^ 32)
      = { bits := bytesToBits payload, pos := 0 } := by
  have hl := sixteen_bits payload h
  unfold CBitBuffer.ofBuffer
  rw [h]
  norm_num
  omega

theorem content_two (bits : List Bool) (payload : ByteBuffer) (h : payload.length = 2) :
    CBitBuffer.content { bits := bits, pos := p } payload ((payload.length * 8) % 2 ^ 32)
      = bitsToBytes bits := by
  have hl := sixteen_bits payload h
  unfold CBitBuffer.content
  rw [h]
  norm_num
  rw [← hl, List.drop_length, List.append_nil]

theorem bit_of_bool (a : Bool) : natToBits (if a = true then 1 else 0) 1 = [a] := by
  cases a <;> rfl

theorem splice_set_zero (B : List Bool) (a : Bool) (h : B.length = 16) :
    splice B 0 [a] = B.set 0 a := by
  match B, h with
  | x0 :: rest, _ => rfl

theorem splice_set_two (B : List Bool) (a : Bool) (h : B.length = 16) :
    splice B 2 [a] = B.set 2 a := by
  match B, h with
  | x0 :: x1 :: x2 :: rest, _ => rfl

theorem splice_tail (B w : List Bool) (h : B.length = 16) (hw : w.length = 13) :
    splice B 3 w = B.take 3 ++ w := by
  unfold splice
  rw [hw, List.drop_eq_nil_of_le (by omega), List.append_nil]

theorem CMhasTruncationPacket.setActive_eq (t : CMhasTruncationPacket)
    (h : t.m_payload.length = 2) (a : Bool) :
    t.setActive a
      = .ok { t with m_payload := bitsToBytes ((bytesToBits t.m_payload).set 0 a),
                     m_isActive := a } := by
  have hl := sixteen_bits _ h
  unfold CMhasTruncationPacket.setActive
  simp only [ofBuffer_two _ h]
  rw [CBitBuffer.write_eq _ _ _ (by show 0 + 1 ≤ (bytesToBits t.m_payload).length; omega)]
  simp only [bind, Except.bind, pure, Except.pure, content_two _ _ h, bit_of_bool,
    splice_set_zero _ _ hl]

theorem CMhasTruncationPacket.setTruncateFromBegin_eq (t : CMhasTruncationPacket)
    (h : t.m_payload.length = 2) (a : Bool) :
    t.setTruncateFromBegin a
      = .ok { t with m_payload := bitsToBytes ((bytesToBits t.m_payload).set 2 a),
                     m_truncFromBegin := a } := by
  have hl := sixteen_bits _ h
  unfold CMhasTruncationPacket.setTruncateFromBegin
  simp only [ofBuffer_two _ h]
  have hseek : CBitBuffer.seek { bits := bytesToBits t.m_payload, pos := 0 } 2
      = .ok { bits := bytesToBits t.m_payload, pos := 2 } := by
    unfold CBitBuffer.seek
    rw [if_pos (by show 0 + 2 ≤ (bytesToBits t.m_payload).length; omega)]
  rw [hseek]
  simp only [bind, Except.bind]
  rw [CBitBuffer.write_eq _ _ _ (by show 2 + 1 ≤ (bytesToBits t.m_payload).length; omega)]
  simp only [pure, Except.pure, content_two _ _ h, bit_of_bool, splice_set_two _ _ hl]

theorem CMhasTruncationPacket.setTruncatedSamples_eq (t : CMhasTruncationPacket)
    (h : t.m_payload.length = 2) (v : Nat) :
    t.setTruncatedSamples v
      = .ok { t with m_payload := bitsToBytes ((bytesToBits t.m_payload).take 3
                                    ++ natToBits (v % 2 ^ 16) 13),
                     m_truncSamples := v % 2 ^ 16 } := by
  have hl := sixteen_bits _ h
  unfold CMhasTruncationPacket.setTruncatedSamples
  simp only [ofBuffer_two _ h]
  have hseek : CBitBuffer.seek { bits := bytesToBits t.m_payload, pos := 0 } 3
      = .ok { bits := bytesToBits t.m_payload, pos := 3 } := by
    unfold CBitBuffer.seek
    rw [if_pos (by show 0 + 3 ≤ (bytesToBits t.m_payload).length; omega)]
  rw [hseek]
  simp only [bind, Except.bind]
  rw [CBitBuffer.write_eq _ _ _ (by show 3 + 13 ≤ (bytesToBits t.m_payload).length; omega)]
  simp only [pure, Except.pure, content_two _ _ h,
    splice_tail _ _ hl (natToBits_length _ 13)]

theorem natToBits_mod (v n : Nat) : natToBits (v % 2 ^ n) n = natToBits v n := by
  have := natToBits_bitsToNat (natToBits v n)
  rwa [bitsToNat_natToBits, natToBits_length] at this

theorem truncation_bits (b0 b1 : Byte) :
    bytesToBits [b0, b1]
      = natToBits (b0.val / 2 ^ 7) 1 ++ (natToBits (b0.val / 2 ^ 6) 1
          ++ (natToBits (b0.val / 2 ^ 5) 1 ++ (natToBits (b0.val * 256 + b1.val) 13 ++ []))) := by
  have h1 := b1.isLt
  have e8 := natToBits_add b0.val 1 7
  have e7 := natToBits_add b0.val 1 6
  have e6 := natToBits_add b0.val 1 5
  have e13 := natToBits_add (b0.val * 256 + b1.val) 5 8
  have hdiv : (b0.val * 256 + b1.val) / 2 ^ 8 = b0.val := by norm_num; omega
  have hmod : natToBits (b0.val * 256 + b1.val) 8 = natToBits b1.val 8 := by
    rw [← natToBits_mod]
    congr 1
    norm_num
    omega
  rw [hdiv, hmod] at e13
  simp only [Nat.reduceAdd] at e8 e7 e6 e13
  simp only [bytesToBits, e8, e7, e6, e13, List.append_assoc, List.append_nil]

theorem CBitParser.read_append (w rest : List Bool) (k n : Nat) (hw : w.length = n) :
    CBitParser.read { bits := w ++ rest, nofReadBits := k } n
      = .ok (bitsToNat w, { bits := rest, nofReadBits := k + n }) := by
  have ht : (w ++ rest).take n = w := List.take_left' hw
  have hd : (w ++ rest).drop n = rest := List.drop_left' hw
  unfold CBitParser.read
  simp only [ht, hd, List.length_append, hw, Nat.le_add_right, if_true]

theorem CMhasTruncationPacket.parsePayload_two (b0 b1 : Byte) :
    CMhasTruncationPacket.parsePayload [b0, b1]
      = if b0.val / 64 % 2 = 1 then .error Err.reservedValueMismatch
        else .ok { isActive := b0.val / 128 % 2 == 1,
                   truncateFromBegin := b0.val / 32 % 2 == 1,
                   truncatedSamples := b0.val % 32 * 256 + b1.val } := by
  have h1 := b1.isLt
  have hs : (b0.val * 256 + b1.val) % 2 ^ 13 = b0.val % 32 * 256 + b1.val := by
    norm_num
    omega
  have hnew : CBitParser.new (List.take 2 [b0, b1])
      = { bits := bytesToBits [b0, b1], nofReadBits := 0 } := rfl
  have vA := bitsToNat_natToBits (b0.val / 2 ^ 7) 1
  have vB := bitsToNat_natToBits (b0.val / 2 ^ 6) 1
  have vC := bitsToNat_natToBits (b0.val / 2 ^ 5) 1
  have vD := bitsToNat_natToBits (b0.val * 256 + b1.val) 13
  have lA := natToBits_length (b0.val / 2 ^ 7) 1
  have lB := natToBits_length (b0.val / 2 ^ 6) 1
  have lC := natToBits_length (b0.val / 2 ^ 5) 1
  have lD := natToBits_length (b0.val * 256 + b1.val) 13
  unfold CMhasTruncationPacket.parsePayload
  rw [hnew, truncation_bits]
  generalize natToBits (b0.val / 2 ^ 7) 1 = A at vA lA ⊢
  generalize natToBits (b0.val / 2 ^ 6) 1 = B at vB lB ⊢
  generalize natToBits (b0.val / 2 ^ 5) 1 = C at vC lC ⊢
  generalize natToBits (b0.val * 256 + b1.val) 13 = D at vD lD ⊢
  have hlen : ([b0, b1] : ByteBuffer).length = 2 := rfl
  have r1 := CBitParser.read_append A (B ++ (C ++ (D ++ []))) 0 1 lA
  have r2 := CBitParser.read_append B (C ++ (D ++ [])) (0 + 1) 1 lB
  have r3 := CBitParser.read_append C (D ++ []) (0 + 1 + 1) 1 lC
  have r4 := CBitParser.read_append D [] (0 + 1 + 1 + 1) 13 lD
  simp only [hlen, not_true_eq_false, if_false, bind, Except.bind, pure, Except.pure, r1, r2,
    r3, r4, vA, vB, vC, vD, hs]
  norm_num

theorem payload_of_bits (X : List Bool) (h : X.length = 16) :
    (bitsToBytes X).length = 2 ∧ bytesToBits (bitsToBytes X) = X := by
  refine ⟨?_, bytesToBits_bitsToBytes X (by omega)⟩
  rw [bitsToBytes_length X (by omega), h]

theorem CMhasTruncationPacket.applyConfig_eq (t : CMhasTruncationPacket)
    (h : t.m_payload.length = 2) (c : SMhasTruncationPacketConfig) :
    t.applyConfig c
      = .ok { t with
          m_payload := bitsToBytes ((((bytesToBits t.m_payload).set 0 c.isActive).set 2
            c.truncateFromBegin).take 3 ++ natToBits (c.truncatedSamples % 2 ^ 16) 13),
          m_isActive := c.isActive, m_truncFromBegin := c.truncateFromBegin,
          m_truncSamples := c.truncatedSamples % 2 ^ 16 } := by
  have hl := sixteen_bits _ h
  have h1 := payload_of_bits ((bytesToBits t.m_payload).set 0 c.isActive)
    (by rw [List.length_set]; exact hl)
  have h2 := payload_of_bits (((bytesToBits t.m_payload).set 0 c.isActive).set 2
    c.truncateFromBegin) (by rw [List.length_set, List.length_set]; exact hl)
  unfold CMhasTruncationPacket.applyConfig
  rw [CMhasTruncationPacket.setActive_eq t h]
  simp only [bind, Except.bind]
  rw [CMhasTruncationPacket.setTruncateFromBegin_eq _ h1.1]
  simp only [h1.2]
  rw [CMhasTruncationPacket.setTruncatedSamples_eq _ h2.1]
  simp only [h2.2]

set_option maxRecDepth 100000 in
theorem byte_facts :
    ∀ b : Byte, ((b.val &&& 0x40 ≠ 0) ↔ b.val / 64 % 2 = 1)
      ∧ (b.val / 128 % 2 == 1) = b.val.testBit 7
      ∧ (b.val / 32 % 2 == 1) = b.val.testBit 5
      ∧ b.val % 32 = b.val &&& 0x1F := by
  decide

theorem parsePayload_error_iff (range : ByteBuffer) :
    (∃ e, CMhasTruncationPacket.parsePayload range = .error e)
      ↔ (range.length ≠ 2 ∨ reservedBitSet range) := by
  by_cases hl : range.length = 2
  · obtain ⟨b0, b1, rfl⟩ := two_bytes range hl
    rw [CMhasTruncationPacket.parsePayload_two]
    have hb := (byte_facts b0).1
    unfold reservedBitSet
    simp only [List.headD_cons]
    by_cases hr : b0.val / 64 % 2 = 1
    · simp [hr, hb.mpr hr]
    · have : ¬ (b0.val &&& 0x40 ≠ 0) := fun h => hr (hb.mp h)
      simp only [hr, if_false, this, or_false]
      simp
  · have : CMhasTruncationPacket.parsePayload range = .error Err.invalidPayloadSize := by
      unfold CMhasTruncationPacket.parsePayload
      simp [hl, bind, Except.bind, throw, throwThe, MonadExceptOf.throw]
    rw [this]
    simp [hl]

theorem CMhasTruncationPacket.applyConfig_ok (t : CMhasTruncationPacket)
    (h : t.m_payload.length = 2) (c : SMhasTruncationPacketConfig) :
    ∃ t2, t.applyConfig c = .ok t2 ∧ t2.isActive = c.isActive
      ∧ t2.truncateFromBegin = c.truncateFromBegin
      ∧ t2.truncatedSamples = c.truncatedSamples % 2 ^ 16 :=
  ⟨_, CMhasTruncationPacket.applyConfig_eq t h c, rfl, rfl, rfl⟩

theorem CMhasTruncationPacket.setPayload_error_iff (t : CMhasTruncationPacket)
    (h : t.m_payload.length = 2) (range : ByteBuffer) :
    (∃ e, t.setPayload range = .error e) ↔ (range.length ≠ 2 ∨ reservedBitSet range) := by
  rw [← parsePayload_error_iff]
  unfold CMhasTruncationPacket.setPayload
  cases hp : CMhasTruncationPacket.parsePayload range with
  | error e => simp [bind, Except.bind]
  | ok c =>
    obtain ⟨t2, h2, -⟩ := CMhasTruncationPacket.applyConfig_ok t h c
    simp [bind, Except.bind, h2]

theorem CMhasTruncationPacket.new_eq_setPayload (range rest : ByteBuffer) (p : CMhasPacket)
    (hp : CMhasPacket.new range = .ok (p, rest)) (ht : p.packetType = 17) :
    CMhasTruncationPacket.new range
      = (CMhasTruncationPacket.setPayload { toCMhasPacket := p } p.m_payload).map
          (fun t => (t, rest)) := by
  unfold CMhasTruncationPacket.new
  simp only [hp, bind, Except.bind, ht, not_true_eq_false, if_false, Except.map, pure,
    Except.pure]

theorem CMhasTruncationPacket.setPayload_self_error_iff (t : CMhasTruncationPacket) :
    (∃ e, t.setPayload t.m_payload = .error e)
      ↔ (t.m_payload.length ≠ 2 ∨ reservedBitSet t.m_payload) := by
  by_cases h : t.m_payload.length = 2
  · exact CMhasTruncationPacket.setPayload_error_iff t h _
  · have hp := (parsePayload_error_iff t.m_payload).mpr (Or.inl h)
    obtain ⟨e, he⟩ := hp
    constructor
    · intro _
      exact Or.inl h
    · intro _
      refine ⟨e, ?_⟩
      unfold CMhasTruncationPacket.setPayload
      simp [he, bind, Except.bind]

/-- C16: decoding a truncation payload fails exactly when the payload is not two bytes long
or bit 1 of the stream (mask 0x40 of the first byte) is set. This holds for the private
decoder `parsePayload`, for `payload(begin, end)` on a truncation packet (whose own payload
is two bytes long), and for the stream constructor once the packet header has been read and
names packet type 17. -/
theorem truncation_decode_fails_iff :
    (∀ range : ByteBuffer,
        (∃ e, CMhasTruncationPacket.parsePayload range = .error e)
          ↔ (range.length ≠ 2 ∨ reservedBitSet range))
    ∧ (∀ (t : CMhasTruncationPacket) (range : ByteBuffer), t.m_payload.length = 2 →
        ((∃ e, t.setPayload range = .error e)
          ↔ (range.length ≠ 2 ∨ reservedBitSet range)))
    ∧ (∀ (range rest : ByteBuffer) (p : CMhasPacket),
        CMhasPacket.new range = .ok (p, rest) → p.packetType = 17 →
        ((∃ e, CMhasTruncationPacket.new range = .error e)
          ↔ (p.payload.length ≠ 2 ∨ reservedBitSet p.payload))) := by
  refine ⟨parsePayload_error_iff, fun t range h => ?_, fun range rest p hp ht => ?_⟩
  · exact CMhasTruncationPacket.setPayload_error_iff t h range
  · rw [CMhasTruncationPacket.new_eq_setPayload range rest p hp ht]
    have := CMhasTruncationPacket.setPayload_self_error_iff { toCMhasPacket := p }
    unfold CMhasPacket.payload
    rw [← this]
    cases CMhasTruncationPacket.setPayload { toCMhasPacket := p } p.m_payload <;>
      simp [Except.map]

/-- Witness for C16: the stream `E1 40 02 C0 00` holds a truncation packet whose reserved bit
is set, and the stream constructor rejects it. -/
theorem truncation_decode_fails_iff_witness :
    ∃ e, CMhasTruncationPacket.new [0xE1, 0x40, 0x02, 0xC0, 0x00] = .error e :=
  (truncation_decode_fails_iff.2.2 [0xE1, 0x40, 0x02, 0xC0, 0x00] [] ⟨[0xC0, 0x00], 0, 17⟩
    (by decide) (by decide)).mpr (Or.inr (by decide))

theorem samples_or (b0 b1 : Byte) :
    b0.val % 32 * 256 + b1.val = ((b0.val &&& 0x1F) <<< 8) ||| b1.val := by
  rw [← (byte_facts b0).2.2.2, Nat.shiftLeft_eq, Nat.mul_comm]
  exact Nat.mul_add_lt_is_or (show b1.val < 2 ^ 8 from b1.isLt) _

theorem samples_lt (b0 b1 : Byte) : b0.val % 32 * 256 + b1.val < 2 ^ 13 := by
  have := b1.isLt
  have := Nat.mod_lt b0.val (show 0 < 32 by norm_num)
  norm_num
  omega

theorem CMhasTruncationPacket.parsePayload_layout (b0 b1 : Byte)
    (hr : ¬ reservedBitSet [b0, b1]) :
    CMhasTruncationPacket.parsePayload [b0, b1]
      = .ok { isActive := b0.val.testBit 7, truncateFromBegin := b0.val.testBit 5,
              truncatedSamples := ((b0.val &&& 0x1F) <<< 8) ||| b1.val } := by
  have hb := byte_facts b0
  have h64 : ¬ (b0.val / 64 % 2 = 1) := fun h => hr (hb.1.mpr h)
  rw [CMhasTruncationPacket.parsePayload_two, if_neg h64, hb.2.1, hb.2.2.1, samples_or]

theorem CMhasTruncationPacket.setPayload_layout (t : CMhasTruncationPacket)
    (h : t.m_payload.length = 2) (b0 b1 : Byte) (hr : ¬ reservedBitSet [b0, b1]) :
    ∃ t2, t.setPayload [b0, b1] = .ok t2 ∧ t2.isActive = b0.val.testBit 7
      ∧ t2.truncateFromBegin = b0.val.testBit 5
      ∧ t2.truncatedSamples = ((b0.val &&& 0x1F) <<< 8) ||| b1.val := by
  obtain ⟨t2, h2, ha, hf, hs⟩ := CMhasTruncationPacket.applyConfig_ok t h
    { isActive := b0.val.testBit 7, truncateFromBegin := b0.val.testBit 5,
      truncatedSamples := ((b0.val &&& 0x1F) <<< 8) ||| b1.val }
  refine ⟨t2, ?_, ha, hf, ?_⟩
  · unfold CMhasTruncationPacket.setPayload
    rw [CMhasTruncationPacket.parsePayload_layout b0 b1 hr]
    exact h2
  · rw [hs]
    apply Nat.mod_eq_of_lt
    rw [← samples_or]
    have := samples_lt b0 b1
    norm_num at this ⊢
    omega

/-- C17: for every two-byte payload `[b0, b1]` whose reserved bit is clear, decoding yields
`isActive() =` bit 7 of `b0`, `truncateFromBegin() =` bit 5 of `b0` and
`truncatedSamples() = ((b0 & 0x1F) << 8) | b1`; this is what the private decoder returns,
what the getters return after `payload(begin, end)`, and what they return after the stream
constructor has read a packet of type 17 with that payload. -/
theorem truncation_bit_layout (b0 b1 : Byte) (hr : ¬ reservedBitSet [b0, b1]) :
    CMhasTruncationPacket.parsePayload [b0, b1]
        = .ok { isActive := b0.val.testBit 7, truncateFromBegin := b0.val.testBit 5,
                truncatedSamples := ((b0.val &&& 0x1F) <<< 8) ||| b1.val }
    ∧ (∀ t : CMhasTruncationPacket, t.m_payload.length = 2 →
        ∃ t2, t.setPayload [b0, b1] = .ok t2 ∧ t2.isActive = b0.val.testBit 7
          ∧ t2.truncateFromBegin = b0.val.testBit 5
          ∧ t2.truncatedSamples = ((b0.val &&& 0x1F) <<< 8) ||| b1.val)
    ∧ (∀ (range rest : ByteBuffer) (p : CMhasPacket),
        CMhasPacket.new range = .ok (p, rest) → p.packetType = 17 → p.payload = [b0, b1] →
        ∃ t2, CMhasTruncationPacket.new range = .ok (t2, rest)
          ∧ t2.isActive = b0.val.testBit 7
          ∧ t2.truncateFromBegin = b0.val.testBit 5
          ∧ t2.truncatedSamples = ((b0.val &&& 0x1F) <<< 8) ||| b1.val) := by
  refine ⟨CMhasTruncationPacket.parsePayload_layout b0 b1 hr,
    fun t h => CMhasTruncationPacket.setPayload_layout t h b0 b1 hr,
    fun range rest p hp ht hpl => ?_⟩
  unfold CMhasPacket.payload at hpl
  obtain ⟨t2, h2, hg⟩ := CMhasTruncationPacket.setPayload_layout { toCMhasPacket := p }
    (by show p.m_payload.length = 2; rw [hpl]; rfl) b0 b1 hr
  refine ⟨t2, ?_, hg⟩
  rw [CMhasTruncationPacket.new_eq_setPayload range rest p hp ht, hpl, h2]
  rfl

/-- Witness for C17: the payload `B2 34` decodes to active, truncation from the begin
and 0x1234 samples. -/
theorem truncation_bit_layout_witness :
    CMhasTruncationPacket.parsePayload [0xB2, 0x34]
      = .ok { isActive := true, truncateFromBegin := true, truncatedSamples := 0x1234 } :=
  (truncation_bit_layout 0xB2 0x34 (by decide)).1

/-- C18: on a truncation packet (two-byte payload) every mutator succeeds and rewrites only
its own bit range: `setActive` replaces stream bit 0, `truncateFromBegin(bool)` replaces
stream bit 2, `truncatedSamples(v)` with `v <= 8191` replaces stream bits 3..15 by the 13-bit
value; the other payload bits and the other two getters are unchanged. In particular
`truncatedSamples()` still returns 8191 after `truncatedSamples(8191)` and
`setActive(true)`, and the 13 sample bits still hold 8191. -/
theorem truncation_mutators_isolated (t : CMhasTruncationPacket)
    (h : t.m_payload.length = 2) (a : Bool) (v : Nat) (hv : v ≤ 8191) :
    (∃ t2, t.setActive a = .ok t2
        ∧ bytesToBits t2.m_payload = (bytesToBits t.m_payload).set 0 a
        ∧ t2.isActive = a ∧ t2.truncateFromBegin = t.truncateFromBegin
        ∧ t2.truncatedSamples = t.truncatedSamples)
    ∧ (∃ t2, t.setTruncateFromBegin a = .ok t2
        ∧ bytesToBits t2.m_payload = (bytesToBits t.m_payload).set 2 a
        ∧ t2.truncateFromBegin = a ∧ t2.isActive = t.isActive
        ∧ t2.truncatedSamples = t.truncatedSamples)
    ∧ (∃ t2, t.setTruncatedSamples v = .ok t2
        ∧ bytesToBits t2.m_payload = (bytesToBits t.m_payload).take 3 ++ natToBits v 13
        ∧ t2.truncatedSamples = v ∧ t2.isActive = t.isActive
        ∧ t2.truncateFromBegin = t.truncateFromBegin)
    ∧ (∃ t1 t2, t.setTruncatedSamples 8191 = .ok t1 ∧ t1.setActive true = .ok t2
        ∧ t2.truncatedSamples = 8191
        ∧ (bytesToBits t2.m_payload).drop 3 = natToBits 8191 13) := by
  have hl := sixteen_bits _ h
  have hmod : v % 2 ^ 16 = v := Nat.mod_eq_of_lt (by norm_num; omega)
  have h0 := payload_of_bits ((bytesToBits t.m_payload).set 0 a)
    (by rw [List.length_set]; exact hl)
  have h2 := payload_of_bits ((bytesToBits t.m_payload).set 2 a)
    (by rw [List.length_set]; exact hl)
  have h3 : ∀ w, ((bytesToBits t.m_payload).take 3 ++ natToBits w 13).length = 16 := by
    intro w
    rw [List.length_append, List.length_take, natToBits_length, hl]
    rfl
  have hs := payload_of_bits _ (h3 v)
  have hs1 := payload_of_bits _ (h3 (8191 % 2 ^ 16))
  refine ⟨⟨_, CMhasTruncationPacket.setActive_eq t h a, h0.2, rfl, rfl, rfl⟩,
    ⟨_, CMhasTruncationPacket.setTruncateFromBegin_eq t h a, h2.2, rfl, rfl, rfl⟩,
    ⟨_, CMhasTruncationPacket.setTruncatedSamples_eq t h v, ?_, hmod, rfl, rfl⟩,
    ⟨_, _, CMhasTruncationPacket.setTruncatedSamples_eq t h 8191,
      CMhasTruncationPacket.setActive_eq _ hs1.1 true, rfl, ?_⟩⟩
  · rw [hmod]
    exact hs.2
  · have hlen : ((bytesToBits t.m_payload).take 3).length = 3 := by
      rw [List.length_take, hl]
      rfl
    have hset := payload_of_bits
      (((bytesToBits t.m_payload).take 3 ++ natToBits (8191 % 2 ^ 16) 13).set 0 true)
      (by rw [List.length_set]; exact h3 _)
    show (bytesToBits (bitsToBytes ((bytesToBits (bitsToBytes
      ((bytesToBits t.m_payload).take 3 ++ natToBits (8191 % 2 ^ 16) 13))).set 0 true))).drop 3
      = natToBits 8191 13
    rw [hs1.2, hset.2, List.set_append, if_pos (by rw [hlen]; norm_num),
      List.drop_append_eq_append_drop, List.length_set, hlen,
      List.drop_eq_nil_of_le (by rw [List.length_set, hlen])]
    rfl

/-- Witness for C18: the packet made by the constructor from label and configuration, with
the value 8191 and the flag set. -/
theorem truncation_mutators_isolated_witness :
    ∃ t1 t2,
      CMhasTruncationPacket.setTruncatedSamples
          { toCMhasPacket := { m_payload := [0x0, 0x0], m_packetLabel := 1, m_packetType := 17 } }
          8191 = .ok t1
        ∧ t1.setActive true = .ok t2 ∧ t2.truncatedSamples = 8191
        ∧ (bytesToBits t2.m_payload).drop 3 = natToBits 8191 13 :=
  (truncation_mutators_isolated
    { toCMhasPacket := { m_payload := [0x0, 0x0], m_packetLabel := 1, m_packetType := 17 } }
    rfl true 8191 (by decide)).2.2.2

/-! ## The ASI packet -/

theorem BitParser.run_bind {data : List Bool} {α β : Type} (x : BitParser data α)
    (f : α → BitParser data β) (pos : Nat) :
    (x >>= f).run pos
      = match x.run pos with
        | .ok (a, pos1) => (f a).run pos1
        | .error e => .error e := rfl

theorem BitParser.run_pure {data : List Bool} {α : Type} (a : α) (pos : Nat) :
    (pure a : BitParser data α).run pos = .ok (a, pos) := rfl

theorem bitparser.read_run {data : List Bool} (n pos : Nat) (h : pos + n ≤ data.length) :
    (bitparser.read n : BitParser data Nat).run pos
      = .ok (bitsToNat ((data.drop pos).take n), pos + n) := by
  simp only [bitparser.read, h, if_true]

theorem bitparser.read_eq_CBitParser {data : List Bool} (n pos : Nat)
    (hp : pos ≤ data.length) :
    (bitparser.read n : BitParser data Nat).run pos
      = (CBitParser.read { bits := data.drop pos, nofReadBits := pos } n).map
          (fun r => (r.1, r.2.nofReadBits)) := by
  simp only [bitparser.read, CBitParser.read, List.length_drop]
  by_cases h : pos + n ≤ data.length
  · rw [if_pos h, if_pos (by omega)]
    rfl
  · rw [if_neg h, if_neg (by omega)]
    rfl

theorem bitparser.seek_run {data : List Bool} (offset : Int) (pos target : Nat)
    (ht : (pos : Int) + offset = target) :
    (bitparser.seek offset : BitParser data Unit).run pos
      = if target ≤ data.length then .ok ((), target) else .error Err.outOfBits := by
  simp only [bitparser.seek, ht, Int.toNat_ofNat, Int.ofNat_le, Int.ofNat_nonneg,
    true_and, Nat.cast_nonneg]

theorem toRead_eq (N p3 orig : Nat) (hN : N < 2 ^ 16) (hp : p3 < 2 ^ 30) (ho : orig < 2 ^ 30) :
    (p3 : Int) + toInt32 ((N : Int) * 8
        - toInt32 ((((p3 % 2 ^ 32 + 2 ^ 32 - orig % 2 ^ 32) % 2 ^ 32 : Nat) : Int)))
      = ((orig + 8 * N : Nat) : Int) := by
  unfold toInt32
  norm_num at hN hp ho ⊢
  omega


theorem BitParser.run_bind_ok {data : List Bool} {α β : Type} {x : BitParser data α}
    {pos pos1 : Nat} {a : α} (h : x.run pos = .ok (a, pos1)) (f : α → BitParser data β) :
    (x >>= f).run pos = (f a).run pos1 := by
  rw [BitParser.run_bind, h]

theorem BitParser.run_bind_error {data : List Bool} {α β : Type} {x : BitParser data α}
    {pos : Nat} {e : Err} (h : x.run pos = .error e) (f : α → BitParser data β) :
    (x >>= f).run pos = .error e := by
  rw [BitParser.run_bind, h]

theorem bitparser.nofReadBits_run {data : List Bool} (pos : Nat) :
    (bitparser.nofReadBits : BitParser data Nat).run pos = .ok (pos % 2 ^ 32, pos) := rfl

theorem SAudioSceneDataSet.parse_run (data : List Bool) (hd : data.length < 2 ^ 30)
    (numGroups numGroupPresets : Nat) (conds : List Nat) (pos : Nat)
    (h20 : pos + 20 ≤ data.length) :
    (SAudioSceneDataSet.parse numGroups numGroupPresets conds : BitParser data _).run pos
      = match (SAudioSceneDataSet.parseData numGroups numGroupPresets conds
            (bitsToNat ((data.drop pos).take 4))
            (bitsToNat ((data.drop (pos + 4)).take 16)) : BitParser data _).run (pos + 20) with
        | .error e => .error e
        | .ok (element, _) =>
          if pos + 20 + 8 * bitsToNat ((data.drop (pos + 4)).take 16) ≤ data.length then
            .ok ({ dataType := bitsToNat ((data.drop pos).take 4),
                   dataLength := bitsToNat ((data.drop (pos + 4)).take 16),
                   data := element },
                 pos + 20 + 8 * bitsToNat ((data.drop (pos + 4)).take 16))
          else .error Err.outOfBits := by
  have hN : bitsToNat ((data.drop (pos + 4)).take 16) < 2 ^ 16 :=
    lt_of_lt_of_le (bitsToNat_lt _)
      (Nat.pow_le_pow_right (by norm_num) (by rw [List.length_take]; exact min_le_left _ _))
  have h24 : pos + 4 + 16 = pos + 20 := by omega
  have r4 := @bitparser.read_run data 4 pos (by omega)
  have r16 := @bitparser.read_run data 16 (pos + 4) (by omega)
  rw [h24] at r16
  have rn := @bitparser.nofReadBits_run data (pos + 20)
  generalize bitsToNat ((data.drop (pos + 4)).take 16) = N at hN r16 ⊢
  generalize bitsToNat ((data.drop pos).take 4) = tag at r4 ⊢
  unfold SAudioSceneDataSet.parse
  rw [BitParser.run_bind_ok r4, BitParser.run_bind_ok r16, BitParser.run_bind_ok rn]
  cases hdec : (SAudioSceneDataSet.parseData numGroups numGroupPresets conds tag N :
      BitParser data _).run (pos + 20) with
  | error e =>
    rw [BitParser.run_bind_error hdec]
  | ok r =>
    obtain ⟨element, p3⟩ := r
    have hp3 := (SAudioSceneDataSet.parseData numGroups numGroupPresets conds tag N :
      BitParser data _).inside (pos + 20) element p3 h20 hdec
    have hs := toRead_eq N p3 (pos + 20) hN (by omega) (by omega)
    have rs := @bitparser.seek_run data _ p3 (pos + 20 + 8 * N) hs
    have rn3 := @bitparser.nofReadBits_run data p3
    rw [BitParser.run_bind_ok hdec, BitParser.run_bind_ok rn3]
    by_cases hle : pos + 20 + 8 * N ≤ data.length
    · rw [if_pos hle] at rs
      rw [BitParser.run_bind_ok rs]
      simp only [hle, if_true]
      rfl
    · rw [if_neg hle] at rs
      rw [BitParser.run_bind_error rs]
      simp only [hle, if_false]

theorem SAudioSceneDataSet.parse_run_short (data : List Bool)
    (numGroups numGroupPresets : Nat) (conds : List Nat) (pos : Nat)
    (h20 : ¬ pos + 20 ≤ data.length) :
    (SAudioSceneDataSet.parse numGroups numGroupPresets conds : BitParser data _).run pos
      = .error Err.outOfBits := by
  unfold SAudioSceneDataSet.parse
  by_cases h4 : pos + 4 ≤ data.length
  · have r4 := @bitparser.read_run data 4 pos h4
    have r16 : (bitparser.read 16 : BitParser data Nat).run (pos + 4)
        = .error Err.outOfBits := by
      simp only [bitparser.read]
      rw [if_neg (by omega)]
    rw [BitParser.run_bind_ok r4, BitParser.run_bind_error r16]
  · have r4 : (bitparser.read 4 : BitParser data Nat).run pos = .error Err.outOfBits := by
      simp only [bitparser.read]
      rw [if_neg h4]
    rw [BitParser.run_bind_error r4]

theorem SAudioSceneDataSet.parseData_unrecognised (data : List Bool)
    (numGroups numGroupPresets : Nat) (conds : List Nat) (tag N pos : Nat) (ht : 10 ≤ tag) :
    (SAudioSceneDataSet.parseData numGroups numGroupPresets conds tag N :
        BitParser data _).run pos
      = if pos + 8 * N ≤ data.length then .ok (.nullptr, pos + 8 * N)
        else .error Err.outOfBits := by
  have rs := @bitparser.seek_run data (8 * (N : Int)) pos (pos + 8 * N) (by push_cast; ring)
  unfold SAudioSceneDataSet.parseData
  have h015 : ¬ (tag = 0 ∨ tag = 1 ∨ tag = 5) := by omega
  have hne : ∀ k, k < 10 → ¬ tag = k := fun k hk h => by omega
  simp only [h015, hne 2 (by norm_num), hne 3 (by norm_num), hne 4 (by norm_num),
    hne 6 (by norm_num), hne 7 (by norm_num), hne 8 (by norm_num), hne 9 (by norm_num),
    if_false]
  by_cases hle : pos + 8 * N ≤ data.length
  · rw [if_pos hle] at rs
    rw [BitParser.run_bind_ok rs, if_pos hle]
    rfl
  · rw [if_neg hle] at rs
    rw [BitParser.run_bind_error rs, if_neg hle]

/-- C20: in `SAudioSceneData::parsePayload` every extension block that is parsed without an
exception leaves the bit cursor exactly `8 * dataLength` bits after the position that
follows its 16-bit length field (20 bits after the start of the block), whatever the type
tag and whatever number of bits the decoder of the block consumed. The block is parsed
without an exception exactly when its decoder is and the declared end lies inside the
buffer; for an unrecognised tag (10 .. 15) exactly when the declared end lies inside the
buffer. Buffers are shorter than `2 ^ 30` bits, so that the 32-bit arithmetic of the skip
does not wrap. -/
theorem asi_extension_forward_skip (data : List Bool) (hd : data.length < 2 ^ 30)
    (numGroups numGroupPresets : Nat) (conds : List Nat) (pos : Nat) :
    (∀ ds pos1,
        (SAudioSceneDataSet.parse numGroups numGroupPresets conds : BitParser data _).run pos
          = .ok (ds, pos1) →
        ds.dataType = bitsToNat ((data.drop pos).take 4)
          ∧ ds.dataLength = bitsToNat ((data.drop (pos + 4)).take 16)
          ∧ pos1 = pos + 20 + 8 * ds.dataLength)
    ∧ (pos + 20 ≤ data.length →
        ((∃ ds pos1,
            (SAudioSceneDataSet.parse numGroups numGroupPresets conds :
              BitParser data _).run pos = .ok (ds, pos1))
          ↔ ((∃ element p,
                (SAudioSceneDataSet.parseData numGroups numGroupPresets conds
                  (bitsToNat ((data.drop pos).take 4))
                  (bitsToNat ((data.drop (pos + 4)).take 16)) : BitParser data _).run (pos + 20)
                  = .ok (element, p))
              ∧ pos + 20 + 8 * bitsToNat ((data.drop (pos + 4)).take 16) ≤ data.length)))
    ∧ (pos + 20 ≤ data.length → 10 ≤ bitsToNat ((data.drop pos).take 4) →
        ((∃ ds pos1,
            (SAudioSceneDataSet.parse numGroups numGroupPresets conds :
              BitParser data _).run pos = .ok (ds, pos1))
          ↔ pos + 20 + 8 * bitsToNat ((data.drop (pos + 4)).take 16) ≤ data.length)) := by
  refine ⟨fun ds pos1 h => ?_, fun h20 => ?_, fun h20 ht => ?_⟩
  · by_cases h20 : pos + 20 ≤ data.length
    · rw [SAudioSceneDataSet.parse_run data hd numGroups numGroupPresets conds pos h20] at h
      split at h
      · cases h
      · split at h
        · injection h with h
          injection h with h1 h2
          subst h1
          exact ⟨rfl, rfl, h2.symm⟩
        · cases h
    · rw [SAudioSceneDataSet.parse_run_short data numGroups numGroupPresets conds pos h20] at h
      cases h
  · rw [SAudioSceneDataSet.parse_run data hd numGroups numGroupPresets conds pos h20]
    cases (SAudioSceneDataSet.parseData numGroups numGroupPresets conds
        (bitsToNat ((data.drop pos).take 4))
        (bitsToNat ((data.drop (pos + 4)).take 16)) : BitParser data _).run (pos + 20) with
    | error e => simp
    | ok r =>
      obtain ⟨element, p⟩ := r
      by_cases hle : pos + 20 + 8 * bitsToNat ((data.drop (pos + 4)).take 16) ≤ data.length
      · simp [hle]
      · simp [hle]
  · rw [SAudioSceneDataSet.parse_run data hd numGroups numGroupPresets conds pos h20,
      SAudioSceneDataSet.parseData_unrecognised data numGroups numGroupPresets conds _ _ _ ht]
    by_cases hle : pos + 20 + 8 * bitsToNat ((data.drop (pos + 4)).take 16) ≤ data.length
    · simp [hle]
    · simp [hle]

/-- Witness for C20: a block with the unrecognised tag 12 and the declared length 1, followed
by one byte, is parsed without an exception. -/
theorem asi_extension_forward_skip_witness :
    ∃ ds pos1,
      (SAudioSceneDataSet.parse 0 0 [] :
        BitParser
          [true, true, false, false,
           false, false, false, false, false, false, false, false,
           false, false, false, false, false, false, false, true,
           true, false, true, false, true, false, true, true] _).run 0 = .ok (ds, pos1) :=
  ((asi_extension_forward_skip _ (by decide) 0 0 [] 0).2.2 (by decide) (by decide)).mpr
    (by decide)

theorem CMhasAsiPacket.setPayload_residual (t : CMhasAsiPacket) (range rest : ByteBuffer)
    (info : SAudioSceneInfo) (h : SAudioSceneInfo.parsePayload range = .ok (info, rest))
    (hr : rest ≠ []) : t.setPayload range = .error Err.residualData := by
  unfold CMhasAsiPacket.setPayload
  simp [h, bind, Except.bind, hr, throw, throwThe, MonadExceptOf.throw]

theorem CMhasAsiPacket.new_ignores_residual (range rest r : ByteBuffer) (p : CMhasPacket)
    (info : SAudioSceneInfo) (hp : CMhasPacket.new range = .ok (p, rest))
    (ht : p.packetType = 3) (h : SAudioSceneInfo.parsePayload p.m_payload = .ok (info, r)) :
    CMhasAsiPacket.new range = .ok ({ toCMhasPacket := p, m_sceneInfo := info }, rest) := by
  unfold CMhasAsiPacket.new
  simp [hp, bind, Except.bind, ht, h, pure, Except.pure]

/-- C19 (divergence): the stream `60 03 00 00 FF` holds an ASI packet of three payload bytes.
The scene of a stream that is not the main stream takes 15 bits, so `parsePayload` advances
by two bytes and leaves the byte `FF` unparsed. `payload(begin, end)` rejects these three
bytes, while the stream constructor accepts them: it sets its iterator to the end of the
payload before it compares the two. -/
theorem asi_constructor_accepts_residual_data :
    CMhasAsiPacket.new [0x60, 0x03, 0x00, 0x00, 0xFF]
        = .ok ({ toCMhasPacket := ⟨[0x00, 0x00, 0xFF], 0, 3⟩, m_sceneInfo := {} }, [])
    ∧ SAudioSceneInfo.parsePayload [0x00, 0x00, 0xFF] = .ok ({}, [0xFF])
    ∧ CMhasAsiPacket.setPayload { toCMhasPacket := ⟨[], 1, 3⟩ } [0x00, 0x00, 0xFF]
        = .error Err.residualData := by
  decide

/-! ## The configuration packet: decoding -/

theorem SSpeakerConfig3d.ofLayout_error {layout : SMpeghSpeakerLayout} {e : Err}
    (h : SSpeakerConfig3d.ofLayout layout = .error e) : e = Err.invalidSpeakerLayoutType := by
  unfold SSpeakerConfig3d.ofLayout at h
  split at h
  · cases h
  · injection h with h
    exact h.symm

theorem SConfig.parseSignalGroup_error {configInfo : SMpeghConfigInfo} {grp : Nat}
    {group : SMpeghSignalGroup} {heap : SignalGroupHeap} {signals3d : SSignals3d} {e : Err}
    (h : SConfig.parseSignalGroup configInfo grp group heap signals3d = .error e) :
    e = Err.invalidSpeakerLayoutType ∨ e = Err.saocNotSupported
      ∨ e = Err.invalidSignalGroupType := by
  unfold SConfig.parseSignalGroup at h
  cases hk : SConfig.signalGroupKind group with
  | ok r =>
    rw [hk] at h
    cases h
  | error e1 =>
    rw [hk] at h
    injection h with h
    subst h
    unfold SConfig.signalGroupKind at hk
    split at hk
    · cases hl : SSpeakerConfig3d.ofLayout group.audioChannelLayout with
      | ok r =>
        rw [hl] at hk
        cases hk
      | error e2 =>
        rw [hl] at hk
        injection hk with hk
        subst hk
        exact Or.inl (SSpeakerConfig3d.ofLayout_error hl)
    · split at hk
      · cases hk
      · split at hk
        · injection hk with hk
          exact Or.inr (Or.inl hk.symm)
        · split at hk
          · cases hk
          · injection hk with hk
            exact Or.inr (Or.inr hk.symm)

theorem SConfig.parseSignalGroups_error (configInfo : SMpeghConfigInfo) :
    ∀ (groups : List SMpeghSignalGroup) (grp : Nat) (heap : SignalGroupHeap)
      (signals3d : SSignals3d) (e : Err),
      SConfig.parseSignalGroups configInfo groups grp heap signals3d = .error e →
      e = Err.invalidSpeakerLayoutType ∨ e = Err.saocNotSupported
        ∨ e = Err.invalidSignalGroupType := by
  intro groups
  induction groups with
  | nil =>
    intro grp heap signals3d e h
    cases h
  | cons group groups ih =>
    intro grp heap signals3d e h
    unfold SConfig.parseSignalGroups at h
    cases hg : SConfig.parseSignalGroup configInfo grp group heap signals3d with
    | error e1 =>
      rw [hg] at h
      injection h with h
      subst h
      exact SConfig.parseSignalGroup_error hg
    | ok r =>
      rw [hg] at h
      exact ih _ _ _ _ h

theorem SConfig.parsePayload_eq (mpegh : ByteBuffer → Except Err SMpeghConfigInfo)
    (heap : SignalGroupHeap) (c : SConfig) (range : ByteBuffer) (configInfo : SMpeghConfigInfo)
    (hr : 0 < range.length) (hm : mpegh range = .ok configInfo) :
    SConfig.parsePayload mpegh heap c range = SConfig.fromConfigInfo heap c configInfo := by
  unfold SConfig.parsePayload
  rw [if_neg (not_not.mpr hr), hm]

theorem SConfig.deriveOutput_error {pli csf : Nat} {f : Int} {e : Err}
    (h : SConfig.deriveOutput pli csf f = .error e) :
    (csf ≠ 1 ∧ e = Err.wrongCoreSbrFrameLengthIndex)
      ∨ (csf = 1 ∧ (e = Err.invalidSamplingFrequency ∨ e = Err.unknownSamplingFrequency)) := by
  unfold SConfig.deriveOutput at h
  split at h
  · rename_i h1
    injection h with h
    exact Or.inl ⟨h1, h.symm⟩
  · rename_i h1
    split at h
    · injection h with h
      exact Or.inr ⟨not_not.mp h1, Or.inl h.symm⟩
    · split at h
      · injection h with h
        exact Or.inr ⟨not_not.mp h1, Or.inr h.symm⟩
      · cases h

theorem SConfig.fromConfigInfo_error {heap : SignalGroupHeap} {c : SConfig}
    {configInfo : SMpeghConfigInfo} {e : Err}
    (h : SConfig.fromConfigInfo heap c configInfo = .error e) :
    (¬ (0x0B ≤ configInfo.profileLevelIndicator % 2 ^ 8
          ∧ configInfo.profileLevelIndicator % 2 ^ 8 ≤ 0x14)
        ∧ e = Err.unsupportedProfileLevel)
      ∨ ((0x0B ≤ configInfo.profileLevelIndicator % 2 ^ 8
            ∧ configInfo.profileLevelIndicator % 2 ^ 8 ≤ 0x14)
          ∧ ((configInfo.coreSbrFrameLengthIndex % 2 ^ 8 ≠ 1
                ∧ e = Err.wrongCoreSbrFrameLengthIndex)
              ∨ (configInfo.coreSbrFrameLengthIndex % 2 ^ 8 = 1
                  ∧ (e = Err.invalidSamplingFrequency ∨ e = Err.unknownSamplingFrequency
                      ∨ e = Err.invalidSpeakerLayoutType ∨ e = Err.saocNotSupported
                      ∨ e = Err.invalidSignalGroupType)))) := by
  unfold SConfig.fromConfigInfo at h
  generalize toInt32 configInfo.samplingFrequency = f at h
  split at h
  · rename_i h1
    injection h with h
    exact Or.inl ⟨h1, h.symm⟩
  · rename_i h1
    refine Or.inr ⟨not_not.mp h1, ?_⟩
    split at h
    · rename_i e1 hd
      injection h with h
      subst h
      rcases SConfig.deriveOutput_error hd with ⟨h2, h3⟩ | ⟨h2, h3 | h3⟩
      · exact Or.inl ⟨h2, h3⟩
      · exact Or.inr ⟨h2, Or.inl h3⟩
      · exact Or.inr ⟨h2, Or.inr (Or.inl h3)⟩
    · rename_i o1 o2 hd
      have hcsf : configInfo.coreSbrFrameLengthIndex % 2 ^ 8 = 1 := by
        unfold SConfig.deriveOutput at hd
        split at hd
        · cases hd
        · rename_i h2
          exact not_not.mp h2
      refine Or.inr ⟨hcsf, ?_⟩
      split at h
      · rename_i e1 hl
        injection h with h
        subst h
        exact Or.inr (Or.inr (Or.inl (SSpeakerConfig3d.ofLayout_error hl)))
      · split at h
        · rename_i e1 hg
          injection h with h
          subst h
          exact Or.inr (Or.inr (SConfig.parseSignalGroups_error _ _ _ _ _ _ hg))
        · cases h

/-- C24: once the external decoder has returned its record, `SConfig::parsePayload` fails
with "Unsupported profile level indication" when `profileLevelIndication` lies outside
0x0B .. 0x14, and with "Wrong coreSbrFrameLengthIndex found." when it lies inside and
`coreSbrFrameLengthIndex` is not 1; in every other case it raises neither of the two. -/
theorem unsupported_profile (mpegh : ByteBuffer → Except Err SMpeghConfigInfo)
    (heap : SignalGroupHeap) (c : SConfig) (range : ByteBuffer) (configInfo : SMpeghConfigInfo)
    (hr : 0 < range.length) (hm : mpegh range = .ok configInfo) :
    (¬ (0x0B ≤ configInfo.profileLevelIndicator % 2 ^ 8
          ∧ configInfo.profileLevelIndicator % 2 ^ 8 ≤ 0x14) →
        SConfig.parsePayload mpegh heap c range = .error Err.unsupportedProfileLevel)
    ∧ ((0x0B ≤ configInfo.profileLevelIndicator % 2 ^ 8
          ∧ configInfo.profileLevelIndicator % 2 ^ 8 ≤ 0x14) →
        configInfo.coreSbrFrameLengthIndex % 2 ^ 8 ≠ 1 →
        SConfig.parsePayload mpegh heap c range = .error Err.wrongCoreSbrFrameLengthIndex)
    ∧ ((0x0B ≤ configInfo.profileLevelIndicator % 2 ^ 8
          ∧ configInfo.profileLevelIndicator % 2 ^ 8 ≤ 0x14) →
        configInfo.coreSbrFrameLengthIndex % 2 ^ 8 = 1 →
        SConfig.parsePayload mpegh heap c range ≠ .error Err.unsupportedProfileLevel
          ∧ SConfig.parsePayload mpegh heap c range
              ≠ .error Err.wrongCoreSbrFrameLengthIndex) := by
  rw [SConfig.parsePayload_eq mpegh heap c range configInfo hr hm]
  refine ⟨fun h1 => ?_, fun h1 h2 => ?_, fun h1 h2 => ?_⟩
  · unfold SConfig.fromConfigInfo
    rw [if_pos h1]
  · unfold SConfig.fromConfigInfo SConfig.deriveOutput
    rw [if_neg (not_not.mpr h1), if_pos h2]
  · constructor
    · intro he
      rcases SConfig.fromConfigInfo_error he with ⟨h3, -⟩ | ⟨-, ⟨-, h3⟩ | ⟨-, h3⟩⟩
      · exact h3 h1
      · cases h3
      · rcases h3 with h | h | h | h | h <;> cases h
    · intro he
      rcases SConfig.fromConfigInfo_error he with ⟨-, h3⟩ | ⟨-, ⟨h3, -⟩ | ⟨-, h3⟩⟩
      · cases h3
      · exact h3 h2
      · rcases h3 with h | h | h | h | h <;> cases h

/-- Witness for C24: a record with the profile level 0x0A is refused, whatever the payload
bytes were. -/
theorem unsupported_profile_witness :
    SConfig.parsePayload (fun _ => .ok { profileLevelIndicator := 0x0A }) [] {} [0x00]
      = .error Err.unsupportedProfileLevel :=
  (unsupported_profile (fun _ => .ok { profileLevelIndicator := 0x0A }) [] {} [0x00]
    { profileLevelIndicator := 0x0A } (by decide) rfl).1 (by decide)

theorem lookup_ratio (f : Int) :
    RESAMPLING_RATIOS.lookup f
      = if f = 96000 ∨ f = 88200 ∨ f = 48000 ∨ f = 44100 then some (1, 1)
        else if f = 64000 ∨ f = 58800 ∨ f = 32000 ∨ f = 29400 then some (3, 2)
        else if f = 24000 ∨ f = 22050 then some (2, 1)
        else if f = 16000 ∨ f = 14700 then some (3, 1)
        else none := by
  by_cases h1 : f = 96000 ∨ f = 88200 ∨ f = 48000 ∨ f = 44100
  · rw [if_pos h1]
    rcases h1 with rfl | rfl | rfl | rfl <;> rfl
  · rw [if_neg h1]
    by_cases h2 : f = 64000 ∨ f = 58800 ∨ f = 32000 ∨ f = 29400
    · rw [if_pos h2]
      rcases h2 with rfl | rfl | rfl | rfl <;> rfl
    · rw [if_neg h2]
      by_cases h3 : f = 24000 ∨ f = 22050
      · rw [if_pos h3]
        rcases h3 with rfl | rfl <;> rfl
      · rw [if_neg h3]
        by_cases h4 : f = 16000 ∨ f = 14700
        · rw [if_pos h4]
          rcases h4 with rfl | rfl <;> rfl
        · rw [if_neg h4]
          have hne : ∀ k : Int, f ≠ k → (f == k) = false := fun k hk => beq_eq_false_iff_ne.mpr hk
          simp only [not_or] at h1 h2 h3 h4
          simp only [RESAMPLING_RATIOS, List.lookup_cons, List.lookup_nil, hne _ h1.1,
            hne _ h1.2.1, hne _ h1.2.2.1, hne _ h1.2.2.2, hne _ h2.1, hne _ h2.2.1,
            hne _ h2.2.2.1, hne _ h2.2.2.2, hne _ h3.1, hne _ h3.2, hne _ h4.1, hne _ h4.2]

theorem timesRatio_cast (x : Int) (n d : Nat) (hx : 0 ≤ x) (hd : 0 < d)
    (hdvd : (d : Int) ∣ x * n) :
    ((timesRatio x (n, d) : Int) : ℚ) = x * ((n : ℚ) / d) := by
  have hd0 : ((d : Int) : ℚ) ≠ 0 := by
    have : (d : ℚ) ≠ 0 := Nat.cast_ne_zero.mpr (by omega)
    simpa using this
  unfold timesRatio
  rw [Int.tdiv_eq_ediv (Int.mul_nonneg hx (Int.ofNat_nonneg n)) (Int.ofNat_nonneg d),
    Int.cast_div hdvd hd0]
  push_cast
  ring

theorem SConfig.deriveOutput_ok {pli csf : Nat} {f o1 o2 : Int}
    (h : SConfig.deriveOutput pli csf f = .ok (o1, o2)) :
    ∃ r, resamplingRatio f = some r ∧ (o1 : ℚ) = f * r ∧ (o2 : ℚ) = 1024 * r := by
  have key : ∀ (n d : Nat) (r : ℚ), 0 < d → (n : ℚ) / d = r → (d : Int) ∣ f * n →
      (d : Int) ∣ 1024 * n → 0 ≤ f →
      RESAMPLING_RATIOS.lookup f = some (n, d) → resamplingRatio f = some r →
      ∃ r, resamplingRatio f = some r ∧ (o1 : ℚ) = f * r ∧ (o2 : ℚ) = 1024 * r := by
    intro n d r hd hr hd1 hd2 hf hl hs
    unfold SConfig.deriveOutput at h
    rw [hl] at h
    split at h
    · cases h
    · split at h
      · cases h
      · simp only [Except.ok.injEq, Prod.mk.injEq] at h
        refine ⟨r, hs, ?_, ?_⟩
        · rw [← h.1, timesRatio_cast f n d hf hd hd1, hr]
        · rw [← h.2, timesRatio_cast 1024 n d (by norm_num) hd hd2, hr]
          norm_num
  have hl := lookup_ratio f
  by_cases h1 : f = 96000 ∨ f = 88200 ∨ f = 48000 ∨ f = 44100
  · rw [if_pos h1] at hl
    have hs : resamplingRatio f = some 1 := by
      unfold resamplingRatio
      rw [if_pos h1]
    refine key 1 1 1 (by norm_num) (by norm_num) (by simp) (by simp) ?_ hl hs
    rcases h1 with rfl | rfl | rfl | rfl <;> norm_num
  · rw [if_neg h1] at hl
    by_cases h2 : f = 64000 ∨ f = 58800 ∨ f = 32000 ∨ f = 29400
    · rw [if_pos h2] at hl
      have hs : resamplingRatio f = some (3 / 2) := by
        unfold resamplingRatio
        rw [if_neg h1, if_pos h2]
      refine key 3 2 (3 / 2) (by norm_num) (by norm_num) ?_ (by decide) ?_ hl hs
      · rcases h2 with rfl | rfl | rfl | rfl <;> decide
      · rcases h2 with rfl | rfl | rfl | rfl <;> norm_num
    · rw [if_neg h2] at hl
      by_cases h3 : f = 24000 ∨ f = 22050
      · rw [if_pos h3] at hl
        have hs : resamplingRatio f = some 2 := by
          unfold resamplingRatio
          rw [if_neg h1, if_neg h2, if_pos h3]
        refine key 2 1 2 (by norm_num) (by norm_num) (by simp) (by simp) ?_ hl hs
        rcases h3 with rfl | rfl <;> norm_num
      · rw [if_neg h3] at hl
        by_cases h4 : f = 16000 ∨ f = 14700
        · rw [if_pos h4] at hl
          have hs : resamplingRatio f = some 3 := by
            unfold resamplingRatio
            rw [if_neg h1, if_neg h2, if_neg h3, if_pos h4]
          refine key 3 1 3 (by norm_num) (by norm_num) (by simp) (by simp) ?_ hl hs
          rcases h4 with rfl | rfl <;> norm_num
        · rw [if_neg h4] at hl
          unfold SConfig.deriveOutput at h
          rw [hl] at h
          split at h
          · cases h
          · split at h <;> cases h

theorem SConfig.deriveOutput_unknown {pli csf : Nat} {f : Int}
    (h : resamplingRatio f = none) : ∃ e, SConfig.deriveOutput pli csf f = .error e := by
  have hl := lookup_ratio f
  unfold resamplingRatio at h
  split at h
  · cases h
  · rename_i h1
    rw [if_neg h1] at hl
    split at h
    · cases h
    · rename_i h2
      rw [if_neg h2] at hl
      split at h
      · cases h
      · rename_i h3
        rw [if_neg h3] at hl
        split at h
        · cases h
        · rename_i h4
          rw [if_neg h4] at hl
          unfold SConfig.deriveOutput
          rw [hl]
          split
          · exact ⟨_, rfl⟩
          · split <;> exact ⟨_, rfl⟩

theorem SConfig.fromConfigInfo_ok {heap heap1 : SignalGroupHeap} {c c1 : SConfig}
    {configInfo : SMpeghConfigInfo}
    (h : SConfig.fromConfigInfo heap c configInfo = .ok (heap1, c1)) :
    ∃ referenceLayout signals3d,
      SConfig.deriveOutput (configInfo.profileLevelIndicator % 2 ^ 8)
          (configInfo.coreSbrFrameLengthIndex % 2 ^ 8) (toInt32 configInfo.samplingFrequency)
        = .ok (c1.outputSamplingFrequency, c1.outputFramesize)
      ∧ SSpeakerConfig3d.ofLayout configInfo.referenceLayout = .ok referenceLayout
      ∧ SConfig.parseSignalGroups configInfo configInfo.signalGroups 0 heap c.signals3d
          = .ok (heap1, signals3d)
      ∧ c1 = { c with
          profileLevelIndication := configInfo.profileLevelIndicator % 2 ^ 8,
          samplingFrequency := toInt32 configInfo.samplingFrequency,
          coreSbrFrameLengthIndex := configInfo.coreSbrFrameLengthIndex % 2 ^ 8,
          outputSamplingFrequency := c1.outputSamplingFrequency,
          outputFramesize := c1.outputFramesize,
          referenceLayout := some referenceLayout,
          signals3d := signals3d,
          audioPreRollPresent := configInfo.audioPreRollPresent,
          compatibleProfileLevels := configInfo.compatibleProfileLevels } := by
  unfold SConfig.fromConfigInfo at h
  generalize toInt32 configInfo.samplingFrequency = f at h ⊢
  split at h
  · cases h
  · split at h
    · cases h
    · rename_i o1 o2 hd
      split at h
      · cases h
      · rename_i layout hl
        split at h
        · cases h
        · rename_i heap2 signals3d hg
          injection h with h
          injection h with h1 h2
          subst h1 h2
          exact ⟨layout, signals3d, hd, hl, hg, rfl⟩

theorem SConfig.parsePayload_ok {mpegh : ByteBuffer → Except Err SMpeghConfigInfo}
    {heap heap1 : SignalGroupHeap} {c c1 : SConfig} {range : ByteBuffer}
    (h : SConfig.parsePayload mpegh heap c range = .ok (heap1, c1)) :
    0 < range.length ∧ ∃ configInfo, mpegh range = .ok configInfo
      ∧ SConfig.fromConfigInfo heap c configInfo = .ok (heap1, c1) := by
  unfold SConfig.parsePayload at h
  split at h
  · cases h
  · rename_i hr
    refine ⟨not_not.mp hr, ?_⟩
    split at h
    · cases h
    · rename_i configInfo hm
      exact ⟨configInfo, hm, h⟩

/-- C25: for every configuration that `SConfig::parsePayload` accepts, with sampling
frequency `f`, `outputSamplingFrequency = f * r(f)` and `outputFramesize = 1024 * r(f)` for
the ratio `r` of the specification (as rational numbers: both products are integers); and
decoding fails when `f` is not a key of the table. -/
theorem derived_output_parameters (mpegh : ByteBuffer → Except Err SMpeghConfigInfo)
    (heap : SignalGroupHeap) (c : SConfig) (range : ByteBuffer) (configInfo : SMpeghConfigInfo)
    (hm : mpegh range = .ok configInfo) :
    (∀ heap1 c1, SConfig.parsePayload mpegh heap c range = .ok (heap1, c1) →
        c1.samplingFrequency = toInt32 configInfo.samplingFrequency
          ∧ ∃ r, resamplingRatio c1.samplingFrequency = some r
              ∧ (c1.outputSamplingFrequency : ℚ) = c1.samplingFrequency * r
              ∧ (c1.outputFramesize : ℚ) = 1024 * r)
    ∧ (resamplingRatio (toInt32 configInfo.samplingFrequency) = none →
        ∃ e, SConfig.parsePayload mpegh heap c range = .error e) := by
  constructor
  · intro heap1 c1 h
    obtain ⟨-, info, hm1, h1⟩ := SConfig.parsePayload_ok h
    rw [hm] at hm1
    injection hm1 with hm1
    subst hm1
    obtain ⟨layout, signals3d, hd, -, -, hc⟩ := SConfig.fromConfigInfo_ok h1
    have hf : c1.samplingFrequency = toInt32 configInfo.samplingFrequency := by
      rw [hc]
    refine ⟨hf, ?_⟩
    rw [hf]
    exact SConfig.deriveOutput_ok hd
  · intro hn
    by_cases hr : 0 < range.length
    · rw [SConfig.parsePayload_eq mpegh heap c range configInfo hr hm]
      unfold SConfig.fromConfigInfo
      split
      · exact ⟨_, rfl⟩
      · obtain ⟨e, he⟩ := @SConfig.deriveOutput_unknown
          (configInfo.profileLevelIndicator % 2 ^ 8)
          (configInfo.coreSbrFrameLengthIndex % 2 ^ 8) _ hn
        rw [he]
        exact ⟨_, rfl⟩
    · unfold SConfig.parsePayload
      rw [if_pos hr]
      exact ⟨_, rfl⟩

/-- Witness for C25: a record with the sampling frequency 32000 is accepted with the output
sampling frequency 48000 and the output frame size 1536. -/
theorem derived_output_parameters_witness :
    ∃ r, resamplingRatio 32000 = some r ∧ ((48000 : Int) : ℚ) = (32000 : Int) * r
      ∧ ((1536 : Int) : ℚ) = 1024 * r :=
  ((derived_output_parameters
      (fun _ => .ok { profileLevelIndicator := 0x0C, samplingFrequency := 32000,
                      coreSbrFrameLengthIndex := 1 })
      [] {} [0x00]
      { profileLevelIndicator := 0x0C, samplingFrequency := 32000,
        coreSbrFrameLengthIndex := 1 } rfl).1 []
    { profileLevelIndication := 0x0C, coreSbrFrameLengthIndex := 1, samplingFrequency := 32000,
      outputSamplingFrequency := 48000, outputFramesize := 1536,
      referenceLayout := some { speakerLayoutType := 0, cicpSpeakerLayoutIdx := 0 } }
    (by decide)).2

/-- C26, the claim as stated refuted: under the profile levels 0x0F and 0x14 a record with
the sampling frequency 48000 and one with 32000 get the same output sampling frequency
48000, but the output frame sizes 1024 and 1536. -/
theorem ambiguous_frequencies_frame_sizes_differ :
    (∀ pli, pli = 0x0F ∨ pli = 0x14 →
      SConfig.deriveOutput pli 1 48000 = .ok (48000, 1024)
        ∧ SConfig.deriveOutput pli 1 32000 = .ok (48000, 1536))
    ∧ (SConfig.parsePayload
          (fun _ => .ok { profileLevelIndicator := 0x0F, samplingFrequency := 48000,
                          coreSbrFrameLengthIndex := 1 }) [] {} [0x00]).map
        (fun r => (r.2.outputSamplingFrequency, r.2.outputFramesize)) = .ok (48000, 1024)
    ∧ (SConfig.parsePayload
          (fun _ => .ok { profileLevelIndicator := 0x0F, samplingFrequency := 32000,
                          coreSbrFrameLengthIndex := 1 }) [] {} [0x00]).map
        (fun r => (r.2.outputSamplingFrequency, r.2.outputFramesize)) = .ok (48000, 1536) := by
  refine ⟨?_, by decide, by decide⟩
  intro pli h
  rcases h with rfl | rfl <;> exact ⟨by decide, by decide⟩

/-- C26, amended: whatever the profile level, a configuration that is accepted with the
sampling frequency 48000 and one that is accepted with 32000 have the same output sampling
frequency, 48000, and different output frame sizes, 1024 and 1536. -/
theorem ambiguous_frequencies (mpegh : ByteBuffer → Except Err SMpeghConfigInfo)
    (heap1 heap2 heap3 heap4 : SignalGroupHeap) (c1 c2 d1 d2 : SConfig)
    (range1 range2 : ByteBuffer)
    (h1 : SConfig.parsePayload mpegh heap1 c1 range1 = .ok (heap3, d1))
    (h2 : SConfig.parsePayload mpegh heap2 c2 range2 = .ok (heap4, d2))
    (hf1 : d1.samplingFrequency = 48000) (hf2 : d2.samplingFrequency = 32000) :
    d1.outputSamplingFrequency = 48000 ∧ d2.outputSamplingFrequency = 48000
      ∧ d1.outputFramesize = 1024 ∧ d2.outputFramesize = 1536 := by
  obtain ⟨-, info1, -, g1⟩ := SConfig.parsePayload_ok h1
  obtain ⟨-, info2, -, g2⟩ := SConfig.parsePayload_ok h2
  obtain ⟨l1, s1, e1, -, -, k1⟩ := SConfig.fromConfigInfo_ok g1
  obtain ⟨l2, s2, e2, -, -, k2⟩ := SConfig.fromConfigInfo_ok g2
  have f1 : toInt32 info1.samplingFrequency = 48000 := by
    rw [← hf1, k1]
  have f2 : toInt32 info2.samplingFrequency = 32000 := by
    rw [← hf2, k2]
  rw [f1] at e1
  rw [f2] at e2
  have r1 : RESAMPLING_RATIOS.lookup (48000 : Int) = some (1, 1) := by decide
  have r2 : RESAMPLING_RATIOS.lookup (32000 : Int) = some (3, 2) := by decide
  unfold SConfig.deriveOutput at e1 e2
  rw [r1] at e1
  rw [r2] at e2
  split at e1
  · cases e1
  · split at e1
    · cases e1
    · split at e2
      · cases e2
      · split at e2
        · cases e2
        · simp only [Except.ok.injEq, Prod.mk.injEq] at e1 e2
          refine ⟨?_, ?_, ?_, ?_⟩
          · rw [← e1.1]; decide
          · rw [← e2.1]; decide
          · rw [← e1.2]; decide
          · rw [← e2.2]; decide

/-- Witness for C26 amended: the two records of the counterexample, under the profile level
0x0F. -/
theorem ambiguous_frequencies_witness :
    (48000 : Int) = 48000 ∧ (48000 : Int) = 48000 ∧ (1024 : Int) = 1024
      ∧ (1536 : Int) = 1536 :=
  ambiguous_frequencies
    (fun range =>
      if range = [0x00] then
        .ok { profileLevelIndicator := 0x0F, samplingFrequency := 48000,
              coreSbrFrameLengthIndex := 1 }
      else
        .ok { profileLevelIndicator := 0x0F, samplingFrequency := 32000,
              coreSbrFrameLengthIndex := 1 })
    [] [] [] [] {} {}
    { profileLevelIndication := 0x0F, coreSbrFrameLengthIndex := 1, samplingFrequency := 48000,
      outputSamplingFrequency := 48000, outputFramesize := 1024,
      referenceLayout := some { speakerLayoutType := 0, cicpSpeakerLayoutIdx := 0 } }
    { profileLevelIndication := 0x0F, coreSbrFrameLengthIndex := 1, samplingFrequency := 32000,
      outputSamplingFrequency := 48000, outputFramesize := 1536,
      referenceLayout := some { speakerLayoutType := 0, cicpSpeakerLayoutIdx := 0 } }
    [0x00] [0x01] (by decide) (by decide) rfl rfl

/-! ## The configuration packet: `applyAsi` and the shared signal groups -/

theorem SignalGroupHeap.update_getElem? (heap : SignalGroupHeap) (ptr : Nat)
    (f : SSignalGroup → SSignalGroup) (q : Nat) :
    (heap.update ptr f)[q]? = if q = ptr then (heap[q]?).map f else heap[q]? := by
  unfold SignalGroupHeap.update
  split
  · rename_i g hg
    by_cases hq : q = ptr
    · subst hq
      rw [if_pos rfl, hg, List.getElem?_set_eq_of_lt]
      · rfl
      · exact (List.getElem?_eq_some.mp hg).1
    · rw [if_neg hq, List.getElem?_set_ne (fun h => hq h.symm)]
  · rename_i hg
    by_cases hq : q = ptr
    · subst hq
      rw [if_pos rfl, hg]
      rfl
    · rw [if_neg hq]

theorem update_fold_not_mem (f : SSignalGroup → SSignalGroup) (ptrs : List Nat) (q : Nat)
    (hq : q ∉ ptrs) :
    ∀ heap : SignalGroupHeap,
      (ptrs.foldl (fun heap ptr => SignalGroupHeap.update heap ptr f) heap)[q]? = heap[q]? := by
  induction ptrs with
  | nil => intro heap; rfl
  | cons p ps ih =>
    intro heap
    rw [List.mem_cons, not_or] at hq
    rw [List.foldl_cons, ih hq.2, SignalGroupHeap.update_getElem?, if_neg hq.1]

theorem update_fold_mem (f : SSignalGroup → SSignalGroup) (ptrs : List Nat) (q : Nat)
    (hn : ptrs.Nodup) (hq : q ∈ ptrs) :
    ∀ heap : SignalGroupHeap,
      (ptrs.foldl (fun heap ptr => SignalGroupHeap.update heap ptr f) heap)[q]?
        = (heap[q]?).map f := by
  induction ptrs with
  | nil => cases hq
  | cons p ps ih =>
    intro heap
    rw [List.nodup_cons] at hn
    rw [List.foldl_cons]
    by_cases hp : q = p
    · subst hp
      rw [update_fold_not_mem f ps q hn.1, SignalGroupHeap.update_getElem?, if_pos rfl]
    · have hq1 : q ∈ ps := by
        rcases List.mem_cons.mp hq with h | h
        · exact absurd h hp
        · exact h
      rw [ih hn.2 hq1, SignalGroupHeap.update_getElem?, if_neg hp]

theorem SSignals3d.applyAsi_applied (heap : SignalGroupHeap) (s : SSignals3d)
    (a : SAudioSceneInfo) (h : s.asiApplied = true) :
    SSignals3d.applyAsi heap s a = (heap, s) := by
  unfold SSignals3d.applyAsi
  rw [if_neg (not_not.mpr h)]

theorem SSignals3d.applyAsi_fresh (heap : SignalGroupHeap) (s : SSignals3d)
    (a : SAudioSceneInfo) (h : s.asiApplied = false) :
    SSignals3d.applyAsi heap s a
      = (s.signalGroups.foldl
          (fun heap signalGroup =>
            SignalGroupHeap.update heap signalGroup fun g =>
              { g with
                metaDataElementIds :=
                  g.metaDataElementIds.map
                    fun id => ((a.metaDataElementIDOffset + 1) % 2 ^ 8 + id) % 2 ^ 8 })
          heap,
         { s with
           appliedMetaDataElementIdOffset := (a.metaDataElementIDOffset + 1) % 2 ^ 8,
           signals :=
             s.signals.foldl
               (fun newSignals signal =>
                 mapAssign newSignals
                   ((signal.1 + (a.metaDataElementIDOffset + 1) % 2 ^ 8) % 2 ^ 8) signal.2)
               [],
           asiApplied := true }) := by
  unfold SSignals3d.applyAsi
  rw [if_pos (by rw [h]; exact Bool.false_ne_true)]

theorem SSignals3d.applyAsi_sets_applied (heap : SignalGroupHeap) (s : SSignals3d)
    (a : SAudioSceneInfo) : (SSignals3d.applyAsi heap s a).2.asiApplied = true := by
  cases h : s.asiApplied
  · rw [SSignals3d.applyAsi_fresh heap s a h]
  · rw [SSignals3d.applyAsi_applied heap s a h]
    exact h

theorem SConfig.applyAsi_main (heap : SignalGroupHeap) (c : SConfig) (a : SAudioSceneInfo)
    (h : a.isMainStream = true) : SConfig.applyAsi heap c a = (heap, c) := by
  unfold SConfig.applyAsi
  rw [if_neg (not_not.mpr h)]

theorem SConfig.applyAsi_other (heap : SignalGroupHeap) (c : SConfig) (a : SAudioSceneInfo)
    (h : a.isMainStream = false) :
    SConfig.applyAsi heap c a
      = ((SSignals3d.applyAsi heap c.signals3d a).1,
         { c with signals3d := (SSignals3d.applyAsi heap c.signals3d a).2 }) := by
  unfold SConfig.applyAsi
  rw [if_pos (by rw [h]; exact Bool.false_ne_true)]

/-- C22: for every configuration and every scene info `a1` that is not of the main stream,
`applyAsi(a1)` followed by `applyAsi(a2)` leaves the state that `applyAsi(a1)` alone leaves,
whatever `a2` is: the same map `signals`, the same element ids in every signal group. A scene
info of the main stream changes nothing. -/
theorem offset_application_idempotent (heap : SignalGroupHeap) (c : SConfig)
    (a1 a2 : SAudioSceneInfo) (h1 : a1.isMainStream = false) :
    SConfig.applyAsi (SConfig.applyAsi heap c a1).1 (SConfig.applyAsi heap c a1).2 a2
        = SConfig.applyAsi heap c a1
      ∧ ∀ a : SAudioSceneInfo, a.isMainStream = true →
          SConfig.applyAsi heap c a = (heap, c) := by
  refine ⟨?_, fun a ha => SConfig.applyAsi_main heap c a ha⟩
  rw [SConfig.applyAsi_other heap c a1 h1]
  cases h2 : a2.isMainStream
  · rw [SConfig.applyAsi_other _ _ a2 h2]
    rw [SSignals3d.applyAsi_applied _ _ a2 (SSignals3d.applyAsi_sets_applied heap c.signals3d a1)]
  · rw [SConfig.applyAsi_main _ _ a2 h2]

/-- Witness for C22: one signal group with the element ids 0 and 1, the offsets 3 and 9. -/
theorem offset_application_idempotent_witness :
    SConfig.applyAsi
        (SConfig.applyAsi [{ metaDataElementIds := [0, 1] }]
          { signals3d := { signalGroups := [0],
                           signals := [(0, { signalGroup := some 0, signalNumber := 0 }),
                                       (1, { signalGroup := some 0, signalNumber := 1 })] } }
          { metaDataElementIDOffset := 3 }).1
        (SConfig.applyAsi [{ metaDataElementIds := [0, 1] }]
          { signals3d := { signalGroups := [0],
                           signals := [(0, { signalGroup := some 0, signalNumber := 0 }),
                                       (1, { signalGroup := some 0, signalNumber := 1 })] } }
          { metaDataElementIDOffset := 3 }).2
        { metaDataElementIDOffset := 9 }
      = ([{ metaDataElementIds := [4, 5] }],
         { signals3d := { signalGroups := [0],
                          signals := [(4, { signalGroup := some 0, signalNumber := 0 }),
                                      (5, { signalGroup := some 0, signalNumber := 1 })],
                          asiApplied := true, appliedMetaDataElementIdOffset := 4 } }) :=
  (offset_application_idempotent [{ metaDataElementIds := [0, 1] }]
    { signals3d := { signalGroups := [0],
                     signals := [(0, { signalGroup := some 0, signalNumber := 0 }),
                                 (1, { signalGroup := some 0, signalNumber := 1 })] } }
    { metaDataElementIDOffset := 3 } { metaDataElementIDOffset := 9 } rfl).1.trans (by decide)


/-- The loop over the signal groups of `SConfig::parsePayload` appends to `signalGroups`:
the pointers that were in the list stay in front, and one is added per group. -/
theorem SConfig.parseSignalGroups_appends (configInfo : SMpeghConfigInfo)
    (groups : List SMpeghSignalGroup) :
    ∀ (grp : Nat) (heap heap1 : SignalGroupHeap) (s s1 : SSignals3d),
      SConfig.parseSignalGroups configInfo groups grp heap s = .ok (heap1, s1) →
        ∃ added : List Nat, s1.signalGroups = s.signalGroups ++ added
          ∧ added.length = groups.length
          ∧ s1.asiApplied = s.asiApplied := by
  induction groups with
  | nil =>
    intro grp heap heap1 s s1 h
    unfold SConfig.parseSignalGroups at h
    injection h with h
    injection h with h1 h2
    subst h2
    exact ⟨[], (List.append_nil _).symm, rfl, rfl⟩
  | cons group groups ih =>
    intro grp heap heap1 s s1 h
    unfold SConfig.parseSignalGroups at h
    cases hg : SConfig.parseSignalGroup configInfo grp group heap s with
    | error e =>
      rw [hg] at h
      cases h
    | ok r =>
      obtain ⟨heap2, s2⟩ := r
      rw [hg] at h
      obtain ⟨added, ha, hl, hap⟩ := ih (grp + 1) heap2 heap1 s2 s1 h
      unfold SConfig.parseSignalGroup at hg
      split at hg
      · cases hg
      · injection hg with hg
        injection hg with hg1 hg2
        subst hg2
        refine ⟨heap.length :: added, ?_, ?_, ?_⟩
        · rw [ha]
          simp [SignalGroupHeap.alloc]
        · simp [hl]
        · rw [hap]

/-- The override `payload(begin, end)` parses into the configuration the packet holds: the
signal groups of the previous payload stay in front of the new ones, and the flag
`asiApplied` stays as it was. -/
theorem CMhasConfigPacket.setPayload_keeps (mpegh : ByteBuffer → Except Err SMpeghConfigInfo)
    (heap heap1 : SignalGroupHeap) (t t1 : CMhasConfigPacket) (range : ByteBuffer)
    (h : CMhasConfigPacket.setPayload mpegh heap t range = .ok (heap1, t1)) :
    t1.m_payload = range
      ∧ ∃ configInfo added, mpegh range = .ok configInfo
          ∧ t1.m_config.signals3d.signalGroups = t.m_config.signals3d.signalGroups ++ added
          ∧ added.length = configInfo.signalGroups.length
          ∧ t1.m_config.signals3d.asiApplied = t.m_config.signals3d.asiApplied := by
  unfold CMhasConfigPacket.setPayload at h
  cases hp : SConfig.parsePayload mpegh heap t.m_config range with
  | error e =>
    rw [hp] at h
    cases h
  | ok r =>
    obtain ⟨heap2, c2⟩ := r
    rw [hp] at h
    injection h with h
    injection h with h1 h2
    subst h2
    obtain ⟨-, configInfo, hm, hf⟩ := SConfig.parsePayload_ok hp
    obtain ⟨layout, s3, -, -, hg, hc⟩ := SConfig.fromConfigInfo_ok hf
    obtain ⟨added, ha, hl, hap⟩ := SConfig.parseSignalGroups_appends _ _ _ _ _ _ _ hg
    refine ⟨rfl, configInfo, added, hm, ?_, hl, ?_⟩
    · show c2.signals3d.signalGroups = _
      rw [hc]
      exact ha
    · show c2.signals3d.asiApplied = _
      rw [hc]
      exact hap

/-- C27, the divergence: a configuration packet is constructed from the payload `[0x00]`,
which the decoder reads as one group of channels with the element ids 0 and 1; then
`payload(begin, end)` is called with the payload `[0x01]`, which the decoder reads as one
group of objects with the element id 5. `payload()` returns `[0x01]`, but the configuration
has two signal groups and the three element ids 0, 1 and 5 in `signals`, and a packet that
is constructed from `[0x01]` has one signal group and the element id 5. -/
theorem config_payload_replacement_accumulates :
    (((CMhasConfigPacket.ofPayload
          (fun range =>
            if range = [0x00] then
              .ok { profileLevelIndicator := 0x0C, samplingFrequency := 48000,
                    coreSbrFrameLengthIndex := 1,
                    signalGroups := [{ numSignals := 2, signalGroupType := 0,
                                       metaDataElementIds := [0, 1] }] }
            else
              .ok { profileLevelIndicator := 0x0C, samplingFrequency := 48000,
                    coreSbrFrameLengthIndex := 1,
                    signalGroups := [{ numSignals := 1, signalGroupType := 1,
                                       metaDataElementIds := [5] }] })
          [] 1 [0x00]).bind
        fun r =>
          CMhasConfigPacket.setPayload
            (fun range =>
              if range = [0x00] then
                .ok { profileLevelIndicator := 0x0C, samplingFrequency := 48000,
                      coreSbrFrameLengthIndex := 1,
                      signalGroups := [{ numSignals := 2, signalGroupType := 0,
                                         metaDataElementIds := [0, 1] }] }
              else
                .ok { profileLevelIndicator := 0x0C, samplingFrequency := 48000,
                      coreSbrFrameLengthIndex := 1,
                      signalGroups := [{ numSignals := 1, signalGroupType := 1,
                                         metaDataElementIds := [5] }] })
            r.1 r.2 [0x01]).map
      fun r =>
        (r.2.payload, r.2.mhasConfigInfo.signals3d.signalGroups.length,
          mapKeys r.2.mhasConfigInfo.signals3d.signals))
      = .ok ([0x01], 2, [0, 1, 5])
    ∧ ((CMhasConfigPacket.ofPayload
          (fun range =>
            if range = [0x00] then
              .ok { profileLevelIndicator := 0x0C, samplingFrequency := 48000,
                    coreSbrFrameLengthIndex := 1,
                    signalGroups := [{ numSignals := 2, signalGroupType := 0,
                                       metaDataElementIds := [0, 1] }] }
            else
              .ok { profileLevelIndicator := 0x0C, samplingFrequency := 48000,
                    coreSbrFrameLengthIndex := 1,
                    signalGroups := [{ numSignals := 1, signalGroupType := 1,
                                       metaDataElementIds := [5] }] })
          [] 1 [0x01]).map
      fun r =>
        (r.2.payload, r.2.mhasConfigInfo.signals3d.signalGroups.length,
          mapKeys r.2.mhasConfigInfo.signals3d.signals))
      = .ok ([0x01], 1, [5]) := by
  constructor <;> decide

/-! ## The ASI group -/

theorem SAudioSceneGroup.parsePayload_eq_parts {data : List Bool} :
    (SAudioSceneGroup.parsePayload : BitParser data _) = SAudioSceneGroup.parsePosition := rfl

theorem BitParser.read_bind_ok {data : List Bool} {β : Type} {n pos : Nat}
    {f : Nat → BitParser data β} {r : β × Nat}
    (h : (bitparser.read n >>= f).run pos = .ok r) :
    pos + n ≤ data.length ∧ (f (bitsAt data pos n)).run (pos + n) = .ok r := by
  by_cases hle : pos + n ≤ data.length
  · rw [BitParser.run_bind_ok (@bitparser.read_run data n pos hle)] at h
    exact ⟨hle, h⟩
  · have he : (bitparser.read n : BitParser data Nat).run pos = .error Err.outOfBits := by
      simp only [bitparser.read]
      rw [if_neg hle]
    rw [BitParser.run_bind_error he] at h
    cases h

theorem BitParser.read_bind_run {data : List Bool} {β : Type} (n pos : Nat)
    (f : Nat → BitParser data β) (hle : pos + n ≤ data.length) :
    (bitparser.read n >>= f).run pos = (f (bitsAt data pos n)).run (pos + n) :=
  BitParser.run_bind_ok (@bitparser.read_run data n pos hle) f

theorem BitParser.pure_bind_run {data : List Bool} {α β : Type} (a : α)
    (f : α → BitParser data β) (pos : Nat) :
    (pure a >>= f).run pos = (f a).run pos := rfl

/-- The loop `std::generate` over reads of `n` bits: `k` fields in a row. -/
theorem generate_read_ok {data : List Bool} (n : Nat) :
    ∀ (k pos : Nat) (l : List Nat) (pos1 : Nat),
      (generate k (bitparser.read n) : BitParser data _).run pos = .ok (l, pos1) →
        pos1 = pos + n * k ∧ l = (List.range k).map fun i => bitsAt data (pos + n * i) n := by
  intro k
  induction k with
  | zero =>
    intro pos l pos1 h
    unfold generate at h
    rw [BitParser.run_pure] at h
    injection h with h
    injection h with h1 h2
    subst h1 h2
    exact ⟨rfl, rfl⟩
  | succ k ih =>
    intro pos l pos1 h
    unfold generate at h
    obtain ⟨_, h⟩ := BitParser.read_bind_ok h
    cases hg : (generate k (bitparser.read n) : BitParser data _).run (pos + n) with
    | error e =>
      rw [BitParser.run_bind_error hg] at h
      cases h
    | ok r =>
      obtain ⟨xs, p2⟩ := r
      rw [BitParser.run_bind_ok hg, BitParser.run_pure] at h
      injection h with h
      injection h with h1 h2
      subst h1 h2
      obtain ⟨e1, e2⟩ := ih _ _ _ hg
      refine ⟨?_, ?_⟩
      · rw [e1, Nat.mul_succ]
        omega
      · rw [e2, List.range_succ_eq_map, List.map_cons, List.map_map]
        congr 1
        apply List.map_congr_left
        intro i _
        show bitsAt data (pos + n + n * i) n = bitsAt data (pos + n * (i + 1)) n
        rw [Nat.mul_succ]
        congr 1
        omega

theorem generate_read_run {data : List Bool} (n : Nat) :
    ∀ (k pos : Nat), pos + n * k ≤ data.length →
      ∃ l, (generate k (bitparser.read n) : BitParser data _).run pos
        = .ok (l, pos + n * k) := by
  intro k
  induction k with
  | zero =>
    intro pos _
    exact ⟨[], rfl⟩
  | succ k ih =>
    intro pos hle
    rw [Nat.mul_succ] at hle
    obtain ⟨xs, hx⟩ := ih (pos + n) (by omega)
    refine ⟨bitsAt data pos n :: xs, ?_⟩
    unfold generate
    rw [BitParser.read_bind_run n pos _ (by omega), BitParser.run_bind_ok hx,
      BitParser.run_pure, Nat.mul_succ]
    congr 2
    omega

theorem SAudioSceneGroup.parseMembers_ok {data : List Bool} {obj0 g : SAudioSceneGroup}
    {pos pos1 : Nat}
    (h : (SAudioSceneGroup.parseMembers obj0 : BitParser data _).run pos = .ok (g, pos1)) :
    ∃ startID metaDataElementId,
      g = { obj0 with
            bsGroupNumMembers := bitsAt data pos 7,
            hasConjunctMembers := bitsAt data (pos + 7) 1 == 1,
            startID := startID, metaDataElementId := metaDataElementId }
      ∧ ((bitsAt data (pos + 7) 1 == 1) = true →
          startID = bitsAt data (pos + 8) 7 ∧ metaDataElementId = obj0.metaDataElementId
            ∧ pos1 = pos + 15)
      ∧ ((bitsAt data (pos + 7) 1 == 1) = false →
          startID = obj0.startID
            ∧ metaDataElementId
                = (List.range (bitsAt data pos 7 + 1)).map
                    (fun i => bitsAt data (pos + 8 + 7 * i) 7)
            ∧ pos1 = pos + 8 + 7 * (bitsAt data pos 7 + 1)) := by
  unfold SAudioSceneGroup.parseMembers at h
  obtain ⟨_, h⟩ := BitParser.read_bind_ok h
  obtain ⟨_, h⟩ := BitParser.read_bind_ok h
  by_cases hc : (bitsAt data (pos + 7) 1 == 1) = true
  · rw [if_pos hc] at h
    obtain ⟨_, h⟩ := BitParser.read_bind_ok h
    rw [BitParser.pure_bind_run, BitParser.run_pure] at h
    injection h with h
    injection h with h1 h2
    refine ⟨bitsAt data (pos + 8) 7, obj0.metaDataElementId, h1.symm, ?_, ?_⟩
    · intro _
      exact ⟨rfl, rfl, h2.symm⟩
    · intro h0
      exact absurd (hc.symm.trans h0) (by decide)
  · rw [if_neg hc] at h
    cases hg : (generate (bitsAt data pos 7 + 1) (bitparser.read 7) :
        BitParser data _).run (pos + 7 + 1) with
    | error e =>
      rw [BitParser.run_bind_error hg] at h
      cases h
    | ok r =>
      obtain ⟨ids, p2⟩ := r
      rw [BitParser.run_bind_ok hg, BitParser.pure_bind_run, BitParser.run_pure] at h
      injection h with h
      injection h with h1 h2
      obtain ⟨e1, e2⟩ := generate_read_ok 7 _ _ _ _ hg
      refine ⟨obj0.startID, ids, h1.symm, ?_, ?_⟩
      · intro h0
        exact absurd h0 hc
      · intro _
        refine ⟨rfl, e2, ?_⟩
        rw [← h2, e1]

theorem SAudioSceneGroup.parseMembers_run {data : List Bool} (obj0 : SAudioSceneGroup)
    (pos : Nat) (hle : pos + 904 ≤ data.length) :
    ∃ g pos1, (SAudioSceneGroup.parseMembers obj0 : BitParser data _).run pos
      = .ok (g, pos1) := by
  have hn : bitsAt data pos 7 < 2 ^ 7 :=
    lt_of_lt_of_le (bitsToNat_lt _)
      (Nat.pow_le_pow_right (by norm_num) (by rw [List.length_take]; exact min_le_left _ _))
  unfold SAudioSceneGroup.parseMembers
  rw [BitParser.read_bind_run 7 pos _ (by omega),
    BitParser.read_bind_run 1 (pos + 7) _ (by omega)]
  by_cases hc : (bitsAt data (pos + 7) 1 == 1) = true
  · rw [if_pos hc, BitParser.read_bind_run 7 (pos + 7 + 1) _ (by omega),
      BitParser.pure_bind_run, BitParser.run_pure]
    exact ⟨_, _, rfl⟩
  · rw [if_neg hc]
    obtain ⟨ids, hg⟩ := @generate_read_run data 7 (bitsAt data pos 7 + 1) (pos + 7 + 1)
      (by omega)
    rw [BitParser.run_bind_ok hg, BitParser.pure_bind_run, BitParser.run_pure]
    exact ⟨_, _, rfl⟩

theorem SAudioSceneGroup.parseGain_ok {data : List Bool} {obj0 g : SAudioSceneGroup}
    {pos pos1 : Nat}
    (h : (SAudioSceneGroup.parseGain obj0 : BitParser data _).run pos = .ok (g, pos1)) :
    ∃ minGain maxGain p,
      ((bitsAt data pos 1 == 1) = true →
          minGain = bitsAt data (pos + 1) 6 ∧ maxGain = bitsAt data (pos + 7) 5
            ∧ p = pos + 12)
      ∧ ((bitsAt data pos 1 == 1) = false →
          minGain = obj0.interactivityMinGain ∧ maxGain = obj0.interactivityMaxGain
            ∧ p = pos + 1)
      ∧ (SAudioSceneGroup.parseMembers
            { obj0 with
              allowGainInteractivity := bitsAt data pos 1 == 1,
              interactivityMinGain := minGain,
              interactivityMaxGain := maxGain } : BitParser data _).run p = .ok (g, pos1) := by
  unfold SAudioSceneGroup.parseGain at h
  obtain ⟨_, h⟩ := BitParser.read_bind_ok h
  by_cases hc : (bitsAt data pos 1 == 1) = true
  · rw [if_pos hc] at h
    obtain ⟨_, h⟩ := BitParser.read_bind_ok h
    obtain ⟨_, h⟩ := BitParser.read_bind_ok h
    rw [BitParser.pure_bind_run] at h
    refine ⟨bitsAt data (pos + 1) 6, bitsAt data (pos + 7) 5, pos + 12, ?_, ?_, h⟩
    · intro _
      exact ⟨rfl, rfl, rfl⟩
    · intro h0
      exact absurd (hc.symm.trans h0) (by decide)
  · rw [if_neg hc, BitParser.pure_bind_run] at h
    refine ⟨obj0.interactivityMinGain, obj0.interactivityMaxGain, pos + 1, ?_, ?_, h⟩
    · intro h0
      exact absurd h0 hc
    · intro _
      exact ⟨rfl, rfl, rfl⟩

theorem SAudioSceneGroup.parseGain_run {data : List Bool} (obj0 : SAudioSceneGroup)
    (pos : Nat) (hle : pos + 916 ≤ data.length) :
    ∃ g pos1, (SAudioSceneGroup.parseGain obj0 : BitParser data _).run pos
      = .ok (g, pos1) := by
  unfold SAudioSceneGroup.parseGain
  rw [BitParser.read_bind_run 1 pos _ (by omega)]
  by_cases hc : (bitsAt data pos 1 == 1) = true
  · rw [if_pos hc, BitParser.read_bind_run 6 (pos + 1) _ (by omega),
      BitParser.read_bind_run 5 (pos + 1 + 6) _ (by omega), BitParser.pure_bind_run]
    exact SAudioSceneGroup.parseMembers_run _ _ (by omega)
  · rw [if_neg hc, BitParser.pure_bind_run]
    exact SAudioSceneGroup.parseMembers_run _ _ (by omega)

theorem SAudioSceneGroup.parsePosition_ok {data : List Bool} {g : SAudioSceneGroup}
    {pos pos1 : Nat}
    (h : (SAudioSceneGroup.parsePosition : BitParser data _).run pos = .ok (g, pos1)) :
    ∃ minAz maxAz minEl maxEl minDist maxDist p,
      ((bitsAt data (pos + 9) 1 == 1) = true →
          minAz = bitsAt data (pos + 10) 7 ∧ maxAz = bitsAt data (pos + 17) 7
            ∧ minEl = bitsAt data (pos + 24) 5 ∧ maxEl = bitsAt data (pos + 29) 5
            ∧ minDist = bitsAt data (pos + 34) 4 ∧ maxDist = bitsAt data (pos + 38) 4
            ∧ p = pos + 42)
      ∧ ((bitsAt data (pos + 9) 1 == 1) = false →
          minAz = 0 ∧ maxAz = 0 ∧ minEl = 0 ∧ maxEl = 0 ∧ minDist = 0 ∧ maxDist = 0
            ∧ p = pos + 10)
      ∧ (SAudioSceneGroup.parseGain
            { groupID := bitsAt data pos 7,
              allowOnOff := bitsAt data (pos + 7) 1 == 1,
              defaultOnOff := bitsAt data (pos + 8) 1 == 1,
              allowPositionInteractivity := bitsAt data (pos + 9) 1 == 1,
              interactivityMinAzOffset := minAz,
              interactivityMaxAzOffset := maxAz,
              interactivityMinElOffset := minEl,
              interactivityMaxElOffset := maxEl,
              interactivityMinDistFactor := minDist,
              interactivityMaxDistFactor := maxDist } : BitParser data _).run p
          = .ok (g, pos1) := by
  unfold SAudioSceneGroup.parsePosition at h
  obtain ⟨_, h⟩ := BitParser.read_bind_ok h
  obtain ⟨_, h⟩ := BitParser.read_bind_ok h
  obtain ⟨_, h⟩ := BitParser.read_bind_ok h
  obtain ⟨_, h⟩ := BitParser.read_bind_ok h
  by_cases hc : (bitsAt data (pos + 9) 1 == 1) = true
  · rw [if_pos hc] at h
    obtain ⟨_, h⟩ := BitParser.read_bind_ok h
    obtain ⟨_, h⟩ := BitParser.read_bind_ok h
    obtain ⟨_, h⟩ := BitParser.read_bind_ok h
    obtain ⟨_, h⟩ := BitParser.read_bind_ok h
    obtain ⟨_, h⟩ := BitParser.read_bind_ok h
    obtain ⟨_, h⟩ := BitParser.read_bind_ok h
    rw [BitParser.pure_bind_run] at h
    refine ⟨_, _, _, _, _, _, pos + 42, ?_, ?_, h⟩
    · intro _
      exact ⟨rfl, rfl, rfl, rfl, rfl, rfl, rfl⟩
    · intro h0
      exact absurd (hc.symm.trans h0) (by decide)
  · rw [if_neg hc, BitParser.pure_bind_run] at h
    refine ⟨0, 0, 0, 0, 0, 0, pos + 10, ?_, ?_, h⟩
    · intro h0
      exact absurd h0 hc
    · intro _
      exact ⟨rfl, rfl, rfl, rfl, rfl, rfl, rfl⟩

theorem SAudioSceneGroup.parsePosition_run {data : List Bool} (pos : Nat)
    (hle : pos + 958 ≤ data.length) :
    ∃ g pos1, (SAudioSceneGroup.parsePosition : BitParser data _).run pos
      = .ok (g, pos1) := by
  unfold SAudioSceneGroup.parsePosition
  rw [BitParser.read_bind_run 7 pos _ (by omega),
    BitParser.read_bind_run 1 (pos + 7) _ (by omega),
    BitParser.read_bind_run 1 (pos + 7 + 1) _ (by omega),
    BitParser.read_bind_run 1 (pos + 7 + 1 + 1) _ (by omega)]
  by_cases hc : (bitsAt data (pos + 9) 1 == 1) = true
  · rw [if_pos hc, BitParser.read_bind_run 7 (pos + 7 + 1 + 1 + 1) _ (by omega),
      BitParser.read_bind_run 7 (pos + 7 + 1 + 1 + 1 + 7) _ (by omega),
      BitParser.read_bind_run 5 (pos + 7 + 1 + 1 + 1 + 7 + 7) _ (by omega),
      BitParser.read_bind_run 5 (pos + 7 + 1 + 1 + 1 + 7 + 7 + 5) _ (by omega),
      BitParser.read_bind_run 4 (pos + 7 + 1 + 1 + 1 + 7 + 7 + 5 + 5) _ (by omega),
      BitParser.read_bind_run 4 (pos + 7 + 1 + 1 + 1 + 7 + 7 + 5 + 5 + 4) _ (by omega),
      BitParser.pure_bind_run]
    exact SAudioSceneGroup.parseGain_run _ _ (by omega)
  · rw [if_neg hc, BitParser.pure_bind_run]
    exact SAudioSceneGroup.parseGain_run _ _ (by omega)

set_option maxHeartbeats 1000000 in
theorem SAudioSceneGroup.parsePayload_bits (data : List Bool) (pos : Nat) :
    (∀ (g : SAudioSceneGroup) (pos1 : Nat),
      (SAudioSceneGroup.parsePayload : BitParser data _).run pos = .ok (g, pos1) →
        pos1 = pos + (10 + (if g.allowPositionInteractivity = true then 32 else 0) + 1
                  + (if g.allowGainInteractivity = true then 11 else 0) + 8
                  + (if g.hasConjunctMembers = true then 7
                     else 7 * (g.bsGroupNumMembers + 1)))
        ∧ g.groupID = bitsAt data pos 7
        ∧ g.allowOnOff = (bitsAt data (pos + 7) 1 == 1)
        ∧ g.defaultOnOff = (bitsAt data (pos + 8) 1 == 1)
        ∧ g.allowPositionInteractivity = (bitsAt data (pos + 9) 1 == 1)
        ∧ (g.allowPositionInteractivity = true →
            g.interactivityMinAzOffset = bitsAt data (pos + 10) 7
              ∧ g.interactivityMaxAzOffset = bitsAt data (pos + 17) 7
              ∧ g.interactivityMinElOffset = bitsAt data (pos + 24) 5
              ∧ g.interactivityMaxElOffset = bitsAt data (pos + 29) 5
              ∧ g.interactivityMinDistFactor = bitsAt data (pos + 34) 4
              ∧ g.interactivityMaxDistFactor = bitsAt data (pos + 38) 4)
        ∧ (g.allowPositionInteractivity = false →
            g.interactivityMinAzOffset = 0 ∧ g.interactivityMaxAzOffset = 0
              ∧ g.interactivityMinElOffset = 0 ∧ g.interactivityMaxElOffset = 0
              ∧ g.interactivityMinDistFactor = 0 ∧ g.interactivityMaxDistFactor = 0)
        ∧ (∀ p, p = pos + 10 + (if g.allowPositionInteractivity = true then 32 else 0) →
            g.allowGainInteractivity = (bitsAt data p 1 == 1)
              ∧ (g.allowGainInteractivity = true →
                  g.interactivityMinGain = bitsAt data (p + 1) 6
                    ∧ g.interactivityMaxGain = bitsAt data (p + 7) 5)
              ∧ (g.allowGainInteractivity = false →
                  g.interactivityMinGain = 0 ∧ g.interactivityMaxGain = 0)
              ∧ ∀ q, q = p + 1 + (if g.allowGainInteractivity = true then 11 else 0) →
                  g.bsGroupNumMembers = bitsAt data q 7
                    ∧ g.hasConjunctMembers = (bitsAt data (q + 7) 1 == 1)
                    ∧ (g.hasConjunctMembers = true →
                        g.startID = bitsAt data (q + 8) 7 ∧ g.metaDataElementId = [])
                    ∧ (g.hasConjunctMembers = false →
                        g.startID = 0
                          ∧ g.metaDataElementId.length = g.bsGroupNumMembers + 1
                          ∧ g.metaDataElementId
                              = (List.range (g.bsGroupNumMembers + 1)).map
                                  (fun i => bitsAt data (q + 8 + 7 * i) 7))))
    ∧ (pos + 958 ≤ data.length →
        ∃ g pos1, (SAudioSceneGroup.parsePayload : BitParser data _).run pos
          = .ok (g, pos1)) := by
  rw [SAudioSceneGroup.parsePayload_eq_parts]
  refine ⟨?_, SAudioSceneGroup.parsePosition_run pos⟩
  intro g pos1 h
  obtain ⟨minAz, maxAz, minEl, maxEl, minDist, maxDist, p, hp1, hp0, h⟩ :=
    SAudioSceneGroup.parsePosition_ok h
  obtain ⟨minGain, maxGain, q, hg1, hg0, h⟩ := SAudioSceneGroup.parseGain_ok h
  obtain ⟨startID, ids, hg, hm1, hm0⟩ := SAudioSceneGroup.parseMembers_ok h
  subst hg
  rcases Bool.eq_false_or_eq_true (bitsAt data (pos + 9) 1 == 1) with hc1 | hc1
  · obtain ⟨rfl, rfl, rfl, rfl, rfl, rfl, rfl⟩ := hp1 hc1
    rcases Bool.eq_false_or_eq_true (bitsAt data (pos + 42) 1 == 1) with hc2 | hc2
    · obtain ⟨rfl, rfl, rfl⟩ := hg1 hc2
      rcases Bool.eq_false_or_eq_true (bitsAt data (pos + 42 + 12 + 7) 1 == 1) with hc3 | hc3
      · obtain ⟨rfl, rfl, rfl⟩ := hm1 hc3
        clear * - hc1 hc2 hc3
        simp only [Nat.add_assoc, Nat.reduceAdd, beq_iff_eq, beq_eq_false_iff_ne, ne_eq]
          at hc1 hc2 hc3
        simp [Nat.add_assoc, hc1, hc2, hc3]
      · obtain ⟨rfl, rfl, rfl⟩ := hm0 hc3
        clear * - hc1 hc2 hc3
        simp only [Nat.add_assoc, Nat.reduceAdd, beq_iff_eq, beq_eq_false_iff_ne, ne_eq]
          at hc1 hc2 hc3
        simp [Nat.add_assoc, hc1, hc2, hc3]
        intro a _
        congr 1
        omega
    · obtain ⟨rfl, rfl, rfl⟩ := hg0 hc2
      rcases Bool.eq_false_or_eq_true (bitsAt data (pos + 42 + 1 + 7) 1 == 1) with hc3 | hc3
      · obtain ⟨rfl, rfl, rfl⟩ := hm1 hc3
        clear * - hc1 hc2 hc3
        simp only [Nat.add_assoc, Nat.reduceAdd, beq_iff_eq, beq_eq_false_iff_ne, ne_eq]
          at hc1 hc2 hc3
        simp [Nat.add_assoc, hc1, hc2, hc3]
      · obtain ⟨rfl, rfl, rfl⟩ := hm0 hc3
        clear * - hc1 hc2 hc3
        simp only [Nat.add_assoc, Nat.reduceAdd, beq_iff_eq, beq_eq_false_iff_ne, ne_eq]
          at hc1 hc2 hc3
        simp [Nat.add_assoc, hc1, hc2, hc3]
        intro a _
        congr 1
        omega
  · obtain ⟨rfl, rfl, rfl, rfl, rfl, rfl, rfl⟩ := hp0 hc1
    rcases Bool.eq_false_or_eq_true (bitsAt data (pos + 10) 1 == 1) with hc2 | hc2
    · obtain ⟨rfl, rfl, rfl⟩ := hg1 hc2
      rcases Bool.eq_false_or_eq_true (bitsAt data (pos + 10 + 12 + 7) 1 == 1) with hc3 | hc3
      · obtain ⟨rfl, rfl, rfl⟩ := hm1 hc3
        clear * - hc1 hc2 hc3
        simp only [Nat.add_assoc, Nat.reduceAdd, beq_iff_eq, beq_eq_false_iff_ne, ne_eq]
          at hc1 hc2 hc3
        simp [Nat.add_assoc, hc1, hc2, hc3]
      · obtain ⟨rfl, rfl, rfl⟩ := hm0 hc3
        clear * - hc1 hc2 hc3
        simp only [Nat.add_assoc, Nat.reduceAdd, beq_iff_eq, beq_eq_false_iff_ne, ne_eq]
          at hc1 hc2 hc3
        simp [Nat.add_assoc, hc1, hc2, hc3]
        intro a _
        congr 1
        omega
    · obtain ⟨rfl, rfl, rfl⟩ := hg0 hc2
      rcases Bool.eq_false_or_eq_true (bitsAt data (pos + 10 + 1 + 7) 1 == 1) with hc3 | hc3
      · obtain ⟨rfl, rfl, rfl⟩ := hm1 hc3
        clear * - hc1 hc2 hc3
        simp only [Nat.add_assoc, Nat.reduceAdd, beq_iff_eq, beq_eq_false_iff_ne, ne_eq]
          at hc1 hc2 hc3
        simp [Nat.add_assoc, hc1, hc2, hc3]
      · obtain ⟨rfl, rfl, rfl⟩ := hm0 hc3
        clear * - hc1 hc2 hc3
        simp only [Nat.add_assoc, Nat.reduceAdd, beq_iff_eq, beq_eq_false_iff_ne, ne_eq]
          at hc1 hc2 hc3
        simp [Nat.add_assoc, hc1, hc2, hc3]
        intro a _
        congr 1
        omega

/-- C30: the bit layout of an ASI group. When `SAudioSceneGroup::parsePayload` returns, it
has consumed 10 + (32 if `allowPositionInteractivity`) + 1 + (11 if
`allowGainInteractivity`) + 8 + (7 if `hasConjunctMembers`, else
7 * (`bsGroupNumMembers` + 1)) bits; the first four fields are the bits 0 .. 9; the six
position fields (7, 7, 5, 5, 4, 4 bits) are the bits that follow when
`allowPositionInteractivity` is set and 0 otherwise; the two gain fields (6, 5 bits) follow
the flag `allowGainInteractivity` when it is set and are 0 otherwise; without conjunct
members `metaDataElementId` holds the `bsGroupNumMembers + 1` fields of 7 bits that follow,
with conjunct members it is empty and `startID` is read. The decoder returns whenever 958
bits are left. -/
theorem asi_group_bit_layout (data : List Bool) (pos : Nat) :
    (∀ (g : SAudioSceneGroup) (pos1 : Nat),
      (SAudioSceneGroup.parsePayload : BitParser data _).run pos = .ok (g, pos1) →
        pos1 = pos + (10 + (if g.allowPositionInteractivity = true then 32 else 0) + 1
                  + (if g.allowGainInteractivity = true then 11 else 0) + 8
                  + (if g.hasConjunctMembers = true then 7
                     else 7 * (g.bsGroupNumMembers + 1)))
        ∧ g.groupID = bitsAt data pos 7
        ∧ g.allowOnOff = (bitsAt data (pos + 7) 1 == 1)
        ∧ g.defaultOnOff = (bitsAt data (pos + 8) 1 == 1)
        ∧ g.allowPositionInteractivity = (bitsAt data (pos + 9) 1 == 1)
        ∧ (g.allowPositionInteractivity = true →
            g.interactivityMinAzOffset = bitsAt data (pos + 10) 7
              ∧ g.interactivityMaxAzOffset = bitsAt data (pos + 17) 7
              ∧ g.interactivityMinElOffset = bitsAt data (pos + 24) 5
              ∧ g.interactivityMaxElOffset = bitsAt data (pos + 29) 5
              ∧ g.interactivityMinDistFactor = bitsAt data (pos + 34) 4
              ∧ g.interactivityMaxDistFactor = bitsAt data (pos + 38) 4)
        ∧ (g.allowPositionInteractivity = false →
            g.interactivityMinAzOffset = 0 ∧ g.interactivityMaxAzOffset = 0
              ∧ g.interactivityMinElOffset = 0 ∧ g.interactivityMaxElOffset = 0
              ∧ g.interactivityMinDistFactor = 0 ∧ g.interactivityMaxDistFactor = 0)
        ∧ (∀ p, p = pos + 10 + (if g.allowPositionInteractivity = true then 32 else 0) →
            g.allowGainInteractivity = (bitsAt data p 1 == 1)
              ∧ (g.allowGainInteractivity = true →
                  g.interactivityMinGain = bitsAt data (p + 1) 6
                    ∧ g.interactivityMaxGain = bitsAt data (p + 7) 5)
              ∧ (g.allowGainInteractivity = false →
                  g.interactivityMinGain = 0 ∧ g.interactivityMaxGain = 0)
              ∧ ∀ q, q = p + 1 + (if g.allowGainInteractivity = true then 11 else 0) →
                  g.bsGroupNumMembers = bitsAt data q 7
                    ∧ g.hasConjunctMembers = (bitsAt data (q + 7) 1 == 1)
                    ∧ (g.hasConjunctMembers = true →
                        g.startID = bitsAt data (q + 8) 7 ∧ g.metaDataElementId = [])
                    ∧ (g.hasConjunctMembers = false →
                        g.startID = 0
                          ∧ g.metaDataElementId.length = g.bsGroupNumMembers + 1
                          ∧ g.metaDataElementId
                              = (List.range (g.bsGroupNumMembers + 1)).map
                                  (fun i => bitsAt data (q + 8 + 7 * i) 7))))
    ∧ (pos + 958 ≤ data.length →
        ∃ g pos1, (SAudioSceneGroup.parsePayload : BitParser data _).run pos
          = .ok (g, pos1)) :=
  SAudioSceneGroup.parsePayload_bits data pos

/-- Witness for C30: a group without interactivity and with the two members 3 and 4, in
33 bits. -/
theorem asi_group_bit_layout_witness :
    (SAudioSceneGroup.parsePayload :
        BitParser (bytesToBits [0x0B, 0x00, 0x40, 0xC2, 0x00]) _).run 0
      = .ok ({ groupID := 5, allowOnOff := true, bsGroupNumMembers := 1,
               metaDataElementId := [3, 4] }, 33)
    ∧ 5 = bitsAt (bytesToBits [0x0B, 0x00, 0x40, 0xC2, 0x00]) 0 7 :=
  ⟨by decide,
   ((asi_group_bit_layout (bytesToBits [0x0B, 0x00, 0x40, 0xC2, 0x00]) 0).1
      { groupID := 5, allowOnOff := true, bsGroupNumMembers := 1,
        metaDataElementId := [3, 4] } 33 (by decide)).2.1⟩

/-! ## The info wrapper -/

theorem forEachUntilError_inv {σ α : Type} (step : α → σ → σ × Option Err) (Inv : σ → Prop)
    (hk : ∀ x s, Inv s → Inv (step x s).1) (xs : List α) :
    ∀ s, Inv s → Inv (forEachUntilError step xs s).1 := by
  induction xs with
  | nil => intro s hs; exact hs
  | cons x xs ih =>
    intro s hi
    unfold forEachUntilError
    have h1 := hk x s hi
    rcases hs : step x s with ⟨s1, _ | e⟩
    · rw [hs] at h1
      exact ih s1 h1
    · rw [hs] at h1
      exact h1

theorem forEachUntilError_ok {σ α : Type} (step : α → σ → σ × Option Err) (Inv : σ → Prop)
    (Q : α → Prop) (hk : ∀ x s, Inv s → Inv (step x s).1)
    (hq : ∀ x s, Inv s → (step x s).2 = none → Q x) (xs : List α) :
    ∀ s, Inv s → (forEachUntilError step xs s).2 = none → ∀ x ∈ xs, Q x := by
  induction xs with
  | nil =>
    intro s _ _ x hx
    cases hx
  | cons x xs ih =>
    intro s hi h y hy
    unfold forEachUntilError at h
    have h1 := hk x s hi
    have h2 := hq x s hi
    rcases hs : step x s with ⟨s1, _ | e⟩
    · rw [hs] at h h1 h2
      rcases List.mem_cons.mp hy with rfl | hy
      · exact h2 rfl
      · exact ih s1 h1 h y hy
    · rw [hs] at h
      cases h

theorem mapFind_isSome_iff {β : Type} (m : List (Nat × β)) (k : Nat) :
    (mapFind m k).isSome = true ↔ k ∈ mapKeys m := by
  induction m with
  | nil => simp [mapFind, mapKeys]
  | cons x m ih =>
    obtain ⟨k1, v⟩ := x
    unfold mapFind
    by_cases h : k1 = k
    · rw [if_pos h]
      simp [mapKeys, h]
    · rw [if_neg h, ih]
      simp only [mapKeys, List.map_cons, List.mem_cons]
      constructor
      · intro h1
        exact Or.inr h1
      · intro h1
        rcases h1 with h1 | h1
        · exact absurd h1.symm h
        · exact h1

theorem mapCount_eq_one_iff {β : Type} (m : List (Nat × β)) (k : Nat) :
    mapCount m k = 1 ↔ k ∈ mapKeys m := by
  rw [← mapFind_isSome_iff]
  unfold mapCount
  cases (mapFind m k).isSome <;> simp

theorem mapKeys_mapAssign {β : Type} (m : List (Nat × β)) (k : Nat) (v : β) :
    ∀ x ∈ mapKeys (mapAssign m k v), x = k ∨ x ∈ mapKeys m := by
  induction m with
  | nil =>
    intro x hx
    simp [mapAssign, mapKeys] at hx
    exact Or.inl hx
  | cons y m ih =>
    obtain ⟨k1, v1⟩ := y
    intro x hx
    unfold mapAssign at hx
    by_cases h1 : k < k1
    · rw [if_pos h1] at hx
      simp only [mapKeys, List.map_cons, List.mem_cons] at hx ⊢
      exact hx
    · rw [if_neg h1] at hx
      by_cases h2 : k = k1
      · rw [if_pos h2] at hx
        simp only [mapKeys, List.map_cons, List.mem_cons] at hx ⊢
        rcases hx with hx | hx
        · exact Or.inl hx
        · exact Or.inr (Or.inr hx)
      · rw [if_neg h2] at hx
        simp only [mapKeys, List.map_cons, List.mem_cons] at hx ⊢
        rcases hx with hx | hx
        · exact Or.inr (Or.inl hx)
        · rcases ih x hx with h | h
          · exact Or.inl h
          · exact Or.inr (Or.inr h)

theorem mapKeys_mapAssign_subset {β : Type} (m : List (Nat × β)) (k : Nat) (v : β)
    (S : List Nat) (hk : k ∈ S) (hm : mapKeys m ⊆ S) : mapKeys (mapAssign m k v) ⊆ S := by
  intro x hx
  rcases mapKeys_mapAssign m k v x hx with h | h
  · rw [h]
    exact hk
  · exact hm h

theorem forEachUntilError_inv_mem {σ α : Type} (step : α → σ → σ × Option Err)
    (Inv : σ → Prop) (xs : List α) (hk : ∀ x ∈ xs, ∀ s, Inv s → Inv (step x s).1) :
    ∀ s, Inv s → Inv (forEachUntilError step xs s).1 := by
  induction xs with
  | nil => intro s hs; exact hs
  | cons x xs ih =>
    intro s hi
    unfold forEachUntilError
    have h1 := hk x (List.mem_cons_self _ _) s hi
    rcases hs : step x s with ⟨s1, _ | e⟩
    · rw [hs] at h1
      exact ih (fun y hy => hk y (List.mem_cons_of_mem _ hy)) s1 h1
    · rw [hs] at h1
      exact h1

theorem forEachUntilError_ok_mem {σ α : Type} (step : α → σ → σ × Option Err)
    (Inv : σ → Prop) (Q : α → Prop) (xs : List α)
    (hk : ∀ x ∈ xs, ∀ s, Inv s → Inv (step x s).1)
    (hq : ∀ x ∈ xs, ∀ s, Inv s → (step x s).2 = none → Q x) :
    ∀ s, Inv s → (forEachUntilError step xs s).2 = none → ∀ x ∈ xs, Q x := by
  induction xs with
  | nil =>
    intro s _ _ x hx
    cases hx
  | cons x xs ih =>
    intro s hi h y hy
    unfold forEachUntilError at h
    have h1 := hk x (List.mem_cons_self _ _) s hi
    have h2 := hq x (List.mem_cons_self _ _) s hi
    rcases hs : step x s with ⟨s1, _ | e⟩
    · rw [hs] at h h1 h2
      rcases List.mem_cons.mp hy with rfl | hy
      · exact h2 rfl
      · exact ih (fun z hz => hk z (List.mem_cons_of_mem _ hz))
          (fun z hz => hq z (List.mem_cons_of_mem _ hz)) s1 h1 h y hy
    · rw [hs] at h
      cases h

theorem CMhasInfoWrapper.initGroups_keys (signals3d : SSignals3d)
    (audioScene : SAudioSceneInfo) (info : SMhasBufferInfo) :
    mapKeys (CMhasInfoWrapper.initGroups signals3d audioScene info).1.groups
      ⊆ audioScene.groups.map fun group => group.groupID := by
  unfold CMhasInfoWrapper.initGroups
  apply forEachUntilError_inv_mem (CMhasInfoWrapper.initGroup signals3d)
    (fun i => mapKeys i.groups ⊆ audioScene.groups.map fun group => group.groupID)
  · intro group hg s hs
    unfold CMhasInfoWrapper.initGroup
    split
    · exact hs
    · split
      · exact hs
      · exact mapKeys_mapAssign_subset _ _ _ _ (List.mem_map_of_mem _ hg) hs
  · intro x hx
    cases hx

theorem CMhasInfoWrapper.initSwitchGroups_keys (audioScene : SAudioSceneInfo)
    (info : SMhasBufferInfo) :
    (CMhasInfoWrapper.initSwitchGroups audioScene info).1.groups = info.groups
      ∧ mapKeys (CMhasInfoWrapper.initSwitchGroups audioScene info).1.switchGroups
          ⊆ audioScene.switchGroups.map fun switchGroup => switchGroup.switchGroupID := by
  unfold CMhasInfoWrapper.initSwitchGroups
  apply forEachUntilError_inv_mem CMhasInfoWrapper.initSwitchGroup
    (fun i => i.groups = info.groups
      ∧ mapKeys i.switchGroups
          ⊆ audioScene.switchGroups.map fun switchGroup => switchGroup.switchGroupID)
  · intro switchGroup hg s hs
    unfold CMhasInfoWrapper.initSwitchGroup
    split
    · exact ⟨hs.1, mapKeys_mapAssign_subset _ _ _ _ (List.mem_map_of_mem _ hg) hs.2⟩
    · exact hs
  · refine ⟨rfl, ?_⟩
    intro x hx
    cases hx

theorem CMhasInfoWrapper.initGroupPresets_keys (audioScene : SAudioSceneInfo)
    (info : SMhasBufferInfo) :
    (CMhasInfoWrapper.initGroupPresets audioScene info).1.groups = info.groups
      ∧ (CMhasInfoWrapper.initGroupPresets audioScene info).1.switchGroups
          = info.switchGroups
      ∧ mapKeys (CMhasInfoWrapper.initGroupPresets audioScene info).1.groupPresets
          ⊆ audioScene.groupPresets.map fun groupPreset => groupPreset.presetID := by
  unfold CMhasInfoWrapper.initGroupPresets
  simp only []
  have key : ∀ (ps : List SAudioSceneGroupPresets) (i0 : SMhasBufferInfo) (S : List Nat),
      (∀ p ∈ ps, p.presetID ∈ S) → mapKeys i0.groupPresets ⊆ S →
        (ps.foldl
          (fun info groupPreset =>
            ({ info with
              groupPresets := mapAssign info.groupPresets groupPreset.presetID
                { id := groupPreset.presetID,
                  groupIds := groupPreset.conditions.map fun condition =>
                    { referenceId := condition.groupID, groupType := 1,
                      onOff := condition.onOff } } } : SMhasBufferInfo)) i0).groups
            = i0.groups
        ∧ (ps.foldl
          (fun info groupPreset =>
            ({ info with
              groupPresets := mapAssign info.groupPresets groupPreset.presetID
                { id := groupPreset.presetID,
                  groupIds := groupPreset.conditions.map fun condition =>
                    { referenceId := condition.groupID, groupType := 1,
                      onOff := condition.onOff } } } : SMhasBufferInfo)) i0).switchGroups
            = i0.switchGroups
        ∧ mapKeys (ps.foldl
          (fun info groupPreset =>
            ({ info with
              groupPresets := mapAssign info.groupPresets groupPreset.presetID
                { id := groupPreset.presetID,
                  groupIds := groupPreset.conditions.map fun condition =>
                    { referenceId := condition.groupID, groupType := 1,
                      onOff := condition.onOff } } } : SMhasBufferInfo)) i0).groupPresets
            ⊆ S := by
    intro ps
    induction ps with
    | nil =>
      intro i0 S _ h0
      exact ⟨rfl, rfl, h0⟩
    | cons p ps ih =>
      intro i0 S hS h0
      rw [List.foldl_cons]
      obtain ⟨h1, h2, h3⟩ := ih
        ({ i0 with
          groupPresets := mapAssign i0.groupPresets p.presetID
            { id := p.presetID,
              groupIds := p.conditions.map fun condition =>
                { referenceId := condition.groupID, groupType := 1,
                  onOff := condition.onOff } } } : SMhasBufferInfo)
        S (fun q hq => hS q (List.mem_cons_of_mem _ hq))
        (mapKeys_mapAssign_subset i0.groupPresets p.presetID
          { id := p.presetID,
            groupIds := p.conditions.map fun condition =>
              { referenceId := condition.groupID, groupType := 1,
                onOff := condition.onOff } } S (hS p (List.mem_cons_self _ _)) h0)
      exact ⟨h1, h2, h3⟩
  exact key audioScene.groupPresets _ _ (fun p hp => List.mem_map_of_mem _ hp)
    (fun x hx => by cases hx)

theorem CMhasInfoWrapper.handleCondition_keys (audioScene : SAudioSceneInfo)
    (presetId : Nat)
    (hp : presetId ∈ audioScene.groupPresets.map (fun groupPreset => groupPreset.presetID))
    (entry : Nat × Bool) (info : SMhasBufferInfo) (h : info.keysWithin audioScene) :
    (CMhasInfoWrapper.handleCondition presetId entry info).1.keysWithin audioScene := by
  obtain ⟨h1, h2, h3⟩ := h
  unfold CMhasInfoWrapper.handleCondition
  simp only []
  split
  · split
    · exact ⟨h1, h2, mapKeys_mapAssign_subset _ _ _ _ hp h3⟩
    · exact ⟨h1, h2, mapKeys_mapAssign_subset _ _ _ _ hp h3⟩
  · split
    · exact ⟨h1, h2, mapKeys_mapAssign_subset _ _ _ _ hp h3⟩
    · exact ⟨h1, h2, mapKeys_mapAssign_subset _ _ _ _ hp h3⟩

theorem CMhasInfoWrapper.handleGroupPresetExtension_keys (audioScene : SAudioSceneInfo)
    (presetExt : SAudioSceneGrpPresetEx) (groupPresetIds : List Nat)
    (hp : groupPresetIds
      ⊆ audioScene.groupPresets.map (fun groupPreset => groupPreset.presetID))
    (info : SMhasBufferInfo) (h : info.keysWithin audioScene) :
    (CMhasInfoWrapper.handleGroupPresetExtension presetExt groupPresetIds
      info).1.keysWithin audioScene := by
  unfold CMhasInfoWrapper.handleGroupPresetExtension
  split
  · exact h
  · apply forEachUntilError_inv_mem CMhasInfoWrapper.handlePresetExtension
      (fun i => i.keysWithin audioScene) _ _ info h
    intro entry he s hs
    have hid : entry.2 ∈ audioScene.groupPresets.map
        (fun groupPreset => groupPreset.presetID) := by
      obtain ⟨a, b⟩ := entry
      exact hp (List.of_mem_zip he).2
    have hs1 : SMhasBufferInfo.keysWithin audioScene
        { s with
          groupPresets := mapAssign s.groupPresets entry.2
            (mapAt s.groupPresets entry.2 {}) } :=
      ⟨hs.1, hs.2.1, mapKeys_mapAssign_subset _ _ _ _ hid hs.2.2⟩
    unfold CMhasInfoWrapper.handlePresetExtension
    split
    · simp only []
      split
      · exact hs1
      · apply forEachUntilError_inv_mem (CMhasInfoWrapper.handleCondition entry.2)
          (fun i => i.keysWithin audioScene) _ _ _ hs1
        intro c _ s1 h1
        exact CMhasInfoWrapper.handleCondition_keys audioScene entry.2 hid c s1 h1
    · exact hs

theorem CMhasInfoWrapper.addDescription_keys (audioScene : SAudioSceneInfo) (dataType : Nat)
    (descBlock : SDescriptionBlock) (lang : SDescriptionLanguages) (info : SMhasBufferInfo)
    (h : info.keysWithin audioScene) :
    (CMhasInfoWrapper.addDescription dataType descBlock lang info).1.keysWithin audioScene
      ∧ ((CMhasInfoWrapper.addDescription dataType descBlock lang info).2 = none →
          (dataType = 0 → descBlock.descriptionGroupID
              ∈ audioScene.groups.map (fun group => group.groupID))
          ∧ (dataType = 1 → descBlock.descriptionSwitchGroupID
              ∈ audioScene.switchGroups.map (fun switchGroup => switchGroup.switchGroupID))
          ∧ (dataType = 5 → descBlock.descriptionGroupPresetID
              ∈ audioScene.groupPresets.map (fun groupPreset => groupPreset.presetID))) := by
  obtain ⟨h1, h2, h3⟩ := h
  unfold CMhasInfoWrapper.addDescription
  simp only []
  by_cases t0 : dataType = 0
  · rw [if_pos t0]
    by_cases hc : mapCount info.groups descBlock.descriptionGroupID = 1
    · rw [if_neg (not_not.mpr hc)]
      have hk := h1 ((mapCount_eq_one_iff _ _).mp hc)
      refine ⟨⟨mapKeys_mapAssign_subset _ _ _ _ hk h1, h2, h3⟩, fun _ => ⟨fun _ => hk, ?_, ?_⟩⟩
      · intro t1
        omega
      · intro t5
        omega
    · rw [if_pos hc]
      exact ⟨⟨h1, h2, h3⟩, fun he => by cases he⟩
  · rw [if_neg t0]
    by_cases t1 : dataType = 1
    · rw [if_pos t1]
      by_cases hc : mapCount info.switchGroups descBlock.descriptionSwitchGroupID = 1
      · rw [if_neg (not_not.mpr hc)]
        have hk := h2 ((mapCount_eq_one_iff _ _).mp hc)
        refine ⟨⟨h1, mapKeys_mapAssign_subset _ _ _ _ hk h2, h3⟩,
          fun _ => ⟨fun t => absurd t t0, fun _ => hk, ?_⟩⟩
        intro t5
        omega
      · rw [if_pos hc]
        exact ⟨⟨h1, h2, h3⟩, fun he => by cases he⟩
    · rw [if_neg t1]
      by_cases t5 : dataType = 5
      · rw [if_pos t5]
        by_cases hc : mapCount info.groupPresets descBlock.descriptionGroupPresetID = 1
        · rw [if_neg (not_not.mpr hc)]
          have hk := h3 ((mapCount_eq_one_iff _ _).mp hc)
          exact ⟨⟨h1, h2, mapKeys_mapAssign_subset _ _ _ _ hk h3⟩,
            fun _ => ⟨fun t => absurd t t0, fun t => absurd t t1, fun _ => hk⟩⟩
        · rw [if_pos hc]
          exact ⟨⟨h1, h2, h3⟩, fun he => by cases he⟩
      · rw [if_neg t5]
        exact ⟨⟨h1, h2, h3⟩, fun he => by cases he⟩

theorem CMhasInfoWrapper.handleGroupDescription_keys (audioScene : SAudioSceneInfo)
    (audioSceneDescription : SAudioSceneDescription) (dataType : Nat)
    (info : SMhasBufferInfo) (h : info.keysWithin audioScene) :
    (CMhasInfoWrapper.handleGroupDescription audioSceneDescription dataType
        info).1.keysWithin audioScene
      ∧ ((CMhasInfoWrapper.handleGroupDescription audioSceneDescription dataType
            info).2 = none →
          ∀ descBlock ∈ audioSceneDescription.descriptionBlocks, descBlock.languages ≠ [] →
            (dataType = 0 → descBlock.descriptionGroupID
                ∈ audioScene.groups.map (fun group => group.groupID))
            ∧ (dataType = 1 → descBlock.descriptionSwitchGroupID
                ∈ audioScene.switchGroups.map
                    (fun switchGroup => switchGroup.switchGroupID))
            ∧ (dataType = 5 → descBlock.descriptionGroupPresetID
                ∈ audioScene.groupPresets.map
                    (fun groupPreset => groupPreset.presetID))) := by
  unfold CMhasInfoWrapper.handleGroupDescription
  have hinner : ∀ (descBlock : SDescriptionBlock) (s : SMhasBufferInfo),
      s.keysWithin audioScene →
        (forEachUntilError (CMhasInfoWrapper.addDescription dataType descBlock)
          descBlock.languages s).1.keysWithin audioScene := by
    intro descBlock s hs
    apply forEachUntilError_inv_mem (CMhasInfoWrapper.addDescription dataType descBlock)
      (fun i => i.keysWithin audioScene) _ _ s hs
    intro lang _ s1 h1
    exact (CMhasInfoWrapper.addDescription_keys audioScene dataType descBlock lang s1 h1).1
  refine ⟨?_, ?_⟩
  · apply forEachUntilError_inv_mem _ (fun i => i.keysWithin audioScene) _ _ info h
    intro descBlock _ s hs
    exact hinner descBlock s hs
  · intro hok
    refine forEachUntilError_ok_mem _ (fun i => i.keysWithin audioScene)
      (fun descBlock => descBlock.languages ≠ [] →
        (dataType = 0 → descBlock.descriptionGroupID
            ∈ audioScene.groups.map (fun group => group.groupID))
        ∧ (dataType = 1 → descBlock.descriptionSwitchGroupID
            ∈ audioScene.switchGroups.map (fun switchGroup => switchGroup.switchGroupID))
        ∧ (dataType = 5 → descBlock.descriptionGroupPresetID
            ∈ audioScene.groupPresets.map (fun groupPreset => groupPreset.presetID)))
      _ ?_ ?_ info h hok
    · intro descBlock _ s hs
      exact hinner descBlock s hs
    · intro descBlock _ s hs hnone hne
      obtain ⟨lang, hlang⟩ := List.exists_mem_of_ne_nil _ hne
      exact forEachUntilError_ok_mem (CMhasInfoWrapper.addDescription dataType descBlock)
        (fun i => i.keysWithin audioScene) (fun _ => _) descBlock.languages
        (fun l _ s1 h1 =>
          (CMhasInfoWrapper.addDescription_keys audioScene dataType descBlock l s1 h1).1)
        (fun l _ s1 h1 =>
          (CMhasInfoWrapper.addDescription_keys audioScene dataType descBlock l s1 h1).2)
        s hs hnone lang hlang

theorem CMhasInfoWrapper.handleDataSet_keys (audioScene : SAudioSceneInfo)
    (groupPresetIds : List Nat)
    (hp : groupPresetIds
      ⊆ audioScene.groupPresets.map (fun groupPreset => groupPreset.presetID))
    (dataSet : SAudioSceneDataSet) (info : SMhasBufferInfo)
    (h : info.keysWithin audioScene) :
    (CMhasInfoWrapper.handleDataSet groupPresetIds dataSet info).1.keysWithin audioScene
      ∧ ((CMhasInfoWrapper.handleDataSet groupPresetIds dataSet info).2 = none →
          ∀ audioSceneDescription, dataSet.data = .description audioSceneDescription →
            ∀ descBlock ∈ audioSceneDescription.descriptionBlocks,
              descBlock.languages ≠ [] →
                (dataSet.dataType = 0 → descBlock.descriptionGroupID
                    ∈ audioScene.groups.map (fun group => group.groupID))
                ∧ (dataSet.dataType = 1 → descBlock.descriptionSwitchGroupID
                    ∈ audioScene.switchGroups.map
                        (fun switchGroup => switchGroup.switchGroupID))
                ∧ (dataSet.dataType = 5 → descBlock.descriptionGroupPresetID
                    ∈ audioScene.groupPresets.map
                        (fun groupPreset => groupPreset.presetID))) := by
  unfold CMhasInfoWrapper.handleDataSet
  by_cases t8 : dataSet.dataType = 8
  · rw [if_pos t8]
    cases hd : dataSet.data with
    | grpPresetEx presetExt =>
      refine ⟨CMhasInfoWrapper.handleGroupPresetExtension_keys audioScene presetExt
        groupPresetIds hp info h, ?_⟩
      intro _ d hdd
      cases hdd
    | description d =>
      refine ⟨h, ?_⟩
      intro he
      cases he
    | contentDataBlock d => exact ⟨h, fun _ d hdd => by cases hdd⟩
    | compositePair d => exact ⟨h, fun _ d hdd => by cases hdd⟩
    | prodScreenSizeData d => exact ⟨h, fun _ d hdd => by cases hdd⟩
    | drcUiInfo d => exact ⟨h, fun _ d hdd => by cases hdd⟩
    | prodScreenSizeDataEx d => exact ⟨h, fun _ d hdd => by cases hdd⟩
    | loudnessCompData d => exact ⟨h, fun _ d hdd => by cases hdd⟩
    | nullptr => exact ⟨h, fun _ d hdd => by cases hdd⟩
  · rw [if_neg t8]
    by_cases t : dataSet.dataType = 1 ∨ dataSet.dataType = 5 ∨ dataSet.dataType = 0
    · rw [if_pos t]
      cases hd : dataSet.data with
      | description d =>
        obtain ⟨k1, k2⟩ := CMhasInfoWrapper.handleGroupDescription_keys audioScene d
          dataSet.dataType info h
        refine ⟨k1, ?_⟩
        intro hok d1 hd1
        injection hd1 with hd1
        subst hd1
        exact k2 hok
      | grpPresetEx d => exact ⟨h, fun _ d hdd => by cases hdd⟩
      | contentDataBlock d => exact ⟨h, fun _ d hdd => by cases hdd⟩
      | compositePair d => exact ⟨h, fun _ d hdd => by cases hdd⟩
      | prodScreenSizeData d => exact ⟨h, fun _ d hdd => by cases hdd⟩
      | drcUiInfo d => exact ⟨h, fun _ d hdd => by cases hdd⟩
      | prodScreenSizeDataEx d => exact ⟨h, fun _ d hdd => by cases hdd⟩
      | loudnessCompData d => exact ⟨h, fun _ d hdd => by cases hdd⟩
      | nullptr => exact ⟨h, fun _ d hdd => by cases hdd⟩
    · rw [if_neg t]
      refine ⟨h, ?_⟩
      intro _ d _ descBlock _ _
      refine ⟨fun t0 => absurd (Or.inr (Or.inr t0)) t, fun t1 => absurd (Or.inl t1) t,
        fun t5 => absurd (Or.inr (Or.inl t5)) t⟩

theorem CMhasInfoWrapper.extractInfo_ok (signals3d : SSignals3d)
    (audioScene : SAudioSceneInfo) (info : SMhasBufferInfo)
    (h : (CMhasInfoWrapper.extractInfo signals3d audioScene info).2 = none) :
    ∀ dataSet ∈ audioScene.data.dataSets,
      ∀ audioSceneDescription, dataSet.data = .description audioSceneDescription →
        ∀ descBlock ∈ audioSceneDescription.descriptionBlocks, descBlock.languages ≠ [] →
          (dataSet.dataType = 0 → descBlock.descriptionGroupID
              ∈ audioScene.groups.map (fun group => group.groupID))
          ∧ (dataSet.dataType = 1 → descBlock.descriptionSwitchGroupID
              ∈ audioScene.switchGroups.map (fun switchGroup => switchGroup.switchGroupID))
          ∧ (dataSet.dataType = 5 → descBlock.descriptionGroupPresetID
              ∈ audioScene.groupPresets.map (fun groupPreset => groupPreset.presetID)) := by
  unfold CMhasInfoWrapper.extractInfo at h
  have g1 := CMhasInfoWrapper.initGroups_keys signals3d audioScene info
  rcases hg : CMhasInfoWrapper.initGroups signals3d audioScene info with ⟨i1, _ | e⟩
  · rw [hg] at h g1
    simp only [] at h g1
    have g2 := CMhasInfoWrapper.initSwitchGroups_keys audioScene i1
    rcases hs : CMhasInfoWrapper.initSwitchGroups audioScene i1 with ⟨i2, _ | e⟩
    · rw [hs] at h g2
      simp only [] at h g2
      have g3 := CMhasInfoWrapper.initGroupPresets_keys audioScene i2
      have hinv : (CMhasInfoWrapper.initGroupPresets audioScene i2).1.keysWithin
          audioScene := by
        refine ⟨?_, ?_, g3.2.2⟩
        · rw [g3.1, g2.1]
          exact g1
        · rw [g3.2.1]
          exact g2.2
      have hids : (CMhasInfoWrapper.initGroupPresets audioScene i2).2
          ⊆ audioScene.groupPresets.map (fun groupPreset => groupPreset.presetID) :=
        fun x hx => hx
      exact forEachUntilError_ok_mem _ (fun i => i.keysWithin audioScene) _ _
        (fun dataSet _ s hs1 =>
          (CMhasInfoWrapper.handleDataSet_keys audioScene _ hids dataSet s hs1).1)
        (fun dataSet _ s hs1 =>
          (CMhasInfoWrapper.handleDataSet_keys audioScene _ hids dataSet s hs1).2)
        _ hinv h
    · rw [hs] at h
      cases h
  · rw [hg] at h
    cases h

set_option maxRecDepth 100000 in
theorem CMhasAsiPacket.new_absent_group_id :
    (CMhasAsiPacket.new
        [0x68, 0x0F, 0x80, 0x00, 0x02, 0x00, 0x01, 0x00, 0x02, 0x83, 0x2B, 0x73, 0x38, 0x02,
         0x08, 0x00, 0x00]).map (fun r => (r.1.m_sceneInfo, r.2))
      = .ok ({ isMainStream := true,
               groups := [],
               data := { dataSets :=
                 [{ dataType := 0, dataLength := 8,
                    data := .description { descriptionBlocks :=
                      [{ descriptionGroupID := 5,
                         languages := [{ bsDescLanguage := 0x656E67,
                                         descData := [0x41] }] }] } }] } }, []) := by
  decide

/-- C21, the claim as stated refuted: the constructor `CMhasAsiPacket(begin, end)` decodes
an ASI packet of the main stream that has no group and one description block for the
group id 5, and returns it; only `extractAsiInfo` of the info wrapper raises the exception
`No group with the given id was found.` for its scene. -/
theorem asi_decode_accepts_absent_group_id :
    (CMhasAsiPacket.new
        [0x68, 0x0F, 0x80, 0x00, 0x02, 0x00, 0x01, 0x00, 0x02, 0x83, 0x2B, 0x73, 0x38, 0x02,
         0x08, 0x00, 0x00]).map (fun r => (r.1.m_sceneInfo, r.2))
      = .ok ({ isMainStream := true,
               groups := [],
               data := { dataSets :=
                 [{ dataType := 0, dataLength := 8,
                    data := .description { descriptionBlocks :=
                      [{ descriptionGroupID := 5,
                         languages := [{ bsDescLanguage := 0x656E67,
                                         descData := [0x41] }] }] } }] } }, [])
    ∧ (({} : CMhasInfoWrapper).extractAsiInfo
        { isMainStream := true,
          groups := [],
          data := { dataSets :=
            [{ dataType := 0, dataLength := 8,
               data := .description { descriptionBlocks :=
                 [{ descriptionGroupID := 5,
                    languages := [{ bsDescLanguage := 0x656E67,
                                    descData := [0x41] }] }] } }] } }).2
        = some Err.noGroupWithId :=
  ⟨CMhasAsiPacket.new_absent_group_id, by decide⟩

/-- An ASI packet in the queue whose scene makes `extractAsiInfo` raise in every state ends
the loop of `handleParsedPackets` with an exception, if no earlier packet has done so. -/
theorem CMhasInfoWrapper.handleQueue_raises (V : PacketViews) (packet : CMhasPacket)
    (audioScene : SAudioSceneInfo) (ht : packet.packetType = 3)
    (hv : V.audioSceneInfo packet = some audioScene)
    (hx : ∀ x : CMhasInfoWrapper, ∃ e, (x.extractAsiInfo audioScene).2 = some e)
    (queue : List CMhasPacket) :
    ∀ w : CMhasInfoWrapper, packet ∈ queue →
      ∃ e, (CMhasInfoWrapper.handleQueue V queue w).2 = some e := by
  induction queue with
  | nil => intro w h; cases h
  | cons p rest ih =>
    intro w hmem
    unfold CMhasInfoWrapper.handleQueue
    generalize ({ w with m_mhasParser := { w.m_mhasParser with m_parsedPackets := rest } } :
      CMhasInfoWrapper) = x
    rcases hp : CMhasInfoWrapper.handlePacket V p x with ⟨w1, _ | e⟩
    · simp only []
      rcases List.mem_cons.1 hmem with h | h
      · subst h
        exfalso
        unfold CMhasInfoWrapper.handlePacket at hp
        have h1 : ¬ packet.packetType = 1 := by rw [ht]; decide
        rw [if_neg h1, if_pos ht, hv] at hp
        obtain ⟨e, he⟩ := hx x
        rcases hr : x.extractAsiInfo audioScene with ⟨w2, _ | e2⟩
        · rw [hr] at he
          cases he
        · simp only [hr] at hp
          cases hp
      · exact ih w1 h
    · exact ⟨e, rfl⟩

/-- The call `handleParsedPackets()` of `feed` stands after the `try` block: an exception it
raises ends the call of `feed`. -/
theorem CMhasInfoWrapper.feed_escapes (D : Decoders) (V : PacketViews) (w : CMhasInfoWrapper)
    (buffer : ByteBuffer) (packet : CMhasPacket) (audioScene : SAudioSceneInfo)
    (hr : ((w.m_mhasParser.feed buffer).parsePackets D).2 = none)
    (hmem : packet ∈ ((w.m_mhasParser.feed buffer).parsePackets D).1.m_parsedPackets)
    (ht : packet.packetType = 3) (hv : V.audioSceneInfo packet = some audioScene)
    (hx : ∀ x : CMhasInfoWrapper, ∃ e, (x.extractAsiInfo audioScene).2 = some e) :
    ∃ e, (w.feed D V buffer).2 = some e := by
  unfold CMhasInfoWrapper.feed
  rcases hp : (w.m_mhasParser.feed buffer).parsePackets D with ⟨parser, _ | e1⟩
  · rw [hp] at hmem
    exact CMhasInfoWrapper.handleQueue_raises V packet audioScene ht hv hx _ _ hmem
  · rw [hp] at hr
    cases hr


set_option maxRecDepth 100000 in
theorem CMhasInfoWrapper.feed_sample :
    ((({} : CMhasInfoWrapper).m_mhasParser.feed
        [0xC0, 0x01, 0xA5, 0x68, 0x0F, 0x80, 0x00, 0x02, 0x00, 0x01, 0x00, 0x02, 0x83, 0x2B,
         0x73, 0x38, 0x02, 0x08, 0x00, 0x00]).parsePackets
        ⟨fun type payload =>
          if type = 3 then (SAudioSceneInfo.parsePayload payload).toBool else true,
          fun _ _ => true, fun _ => false⟩)
      = (⟨true, [], [⟨[0xA5], 0, 6⟩,
          ⟨[0x80, 0x00, 0x02, 0x00, 0x01, 0x00, 0x02, 0x83, 0x2B, 0x73, 0x38, 0x02, 0x08,
            0x00, 0x00], 1, 3⟩], false⟩, none) := by
  decide

set_option maxRecDepth 100000 in
theorem PacketViews.audioSceneInfo_sample :
    PacketViews.audioSceneInfo
        ⟨fun _ => none,
          fun packet =>
            if packet.packetType = 3 then
              (SAudioSceneInfo.parsePayload packet.m_payload).toOption.map Prod.fst
            else none⟩
        ⟨[0x80, 0x00, 0x02, 0x00, 0x01, 0x00, 0x02, 0x83, 0x2B, 0x73, 0x38, 0x02, 0x08,
          0x00, 0x00], 1, 3⟩
      = some { isMainStream := true,
               groups := [],
               data := { dataSets :=
                 [{ dataType := 0, dataLength := 8,
                    data := .description { descriptionBlocks :=
                      [{ descriptionGroupID := 5,
                         languages := [{ bsDescLanguage := 0x656E67,
                                         descData := [0x41] }] }] } }] } } := by
  decide

/-- C21, amended: the check is made by the info wrapper. When `extractAsiInfo` returns
without an exception, every group id, switch-group id and preset id that a description
block with at least one language entry refers to occurs in the corresponding top-level
list of the scene. For a scene with a reference to an absent id `extractAsiInfo` raises an
exception, in every state of the wrapper, and the exception escapes `feed`: when
`parsePackets()` returns in a call of `feed` and an ASI packet with this scene is in the
queue, the call of `feed` ends with an exception. -/
theorem referenced_ids_exist (w : CMhasInfoWrapper) (audioScene : SAudioSceneInfo) :
    ((w.extractAsiInfo audioScene).2 = none →
      ∀ dataSet ∈ audioScene.data.dataSets,
        ∀ audioSceneDescription, dataSet.data = .description audioSceneDescription →
          ∀ descBlock ∈ audioSceneDescription.descriptionBlocks, descBlock.languages ≠ [] →
            (dataSet.dataType = 0 → descBlock.descriptionGroupID
                ∈ audioScene.groups.map (fun group => group.groupID))
            ∧ (dataSet.dataType = 1 → descBlock.descriptionSwitchGroupID
                ∈ audioScene.switchGroups.map
                    (fun switchGroup => switchGroup.switchGroupID))
            ∧ (dataSet.dataType = 5 → descBlock.descriptionGroupPresetID
                ∈ audioScene.groupPresets.map
                    (fun groupPreset => groupPreset.presetID)))
    ∧ ((∃ dataSet ∈ audioScene.data.dataSets,
          ∃ audioSceneDescription, dataSet.data = .description audioSceneDescription
            ∧ ∃ descBlock ∈ audioSceneDescription.descriptionBlocks,
                descBlock.languages ≠ []
                  ∧ ((dataSet.dataType = 0 ∧ descBlock.descriptionGroupID
                        ∉ audioScene.groups.map (fun group => group.groupID))
                    ∨ (dataSet.dataType = 1 ∧ descBlock.descriptionSwitchGroupID
                        ∉ audioScene.switchGroups.map
                            (fun switchGroup => switchGroup.switchGroupID))
                    ∨ (dataSet.dataType = 5 ∧ descBlock.descriptionGroupPresetID
                        ∉ audioScene.groupPresets.map
                            (fun groupPreset => groupPreset.presetID)))) →
        (∃ e, (w.extractAsiInfo audioScene).2 = some e)
        ∧ ∀ (D : Decoders) (V : PacketViews) (x : CMhasInfoWrapper) (buffer : ByteBuffer)
            (packet : CMhasPacket),
            ((x.m_mhasParser.feed buffer).parsePackets D).2 = none →
            packet ∈ ((x.m_mhasParser.feed buffer).parsePackets D).1.m_parsedPackets →
            packet.packetType = 3 → V.audioSceneInfo packet = some audioScene →
            ∃ e, (x.feed D V buffer).2 = some e) := by
  refine ⟨CMhasInfoWrapper.extractInfo_ok w.m_signals3d audioScene w.m_mhasBufferInfo, ?_⟩
  rintro ⟨dataSet, hds, d, hd, descBlock, hb, hne, hcase⟩
  have raise : ∀ x : CMhasInfoWrapper, ∃ e, (x.extractAsiInfo audioScene).2 = some e := by
    intro x
    have key := CMhasInfoWrapper.extractInfo_ok x.m_signals3d audioScene x.m_mhasBufferInfo
    rcases hr : (x.extractAsiInfo audioScene).2 with _ | e
    · obtain ⟨k0, k1, k5⟩ := key hr dataSet hds d hd descBlock hb hne
      rcases hcase with ⟨t, hn⟩ | ⟨t, hn⟩ | ⟨t, hn⟩
      · exact absurd (k0 t) hn
      · exact absurd (k1 t) hn
      · exact absurd (k5 t) hn
    · exact ⟨e, rfl⟩
  refine ⟨raise w, ?_⟩
  intro D V x buffer packet hr hmem ht hv
  exact CMhasInfoWrapper.feed_escapes D V x buffer packet audioScene hr hmem ht hv raise

/-- Witness for C21 amended: a scene with the group 5 and a description block for it is
taken over by the wrapper, whose signals hold the element id 0 of the group; and a new
wrapper that is fed a sync packet and an ASI packet of the main stream with no group and a
description block for the group 5 ends the call of `feed` with an exception. -/
theorem referenced_ids_exist_witness :
    (5 : Nat) ∈ ([{ groupID := 5, metaDataElementId := [0] }] : List SAudioSceneGroup).map
      (fun group => group.groupID)
    ∧ ∃ e, (CMhasInfoWrapper.feed
        ⟨fun type payload =>
          if type = 3 then (SAudioSceneInfo.parsePayload payload).toBool else true,
          fun _ _ => true, fun _ => false⟩
        ⟨fun _ => none,
          fun packet =>
            if packet.packetType = 3 then
              (SAudioSceneInfo.parsePayload packet.m_payload).toOption.map Prod.fst
            else none⟩
        {}
        [0xC0, 0x01, 0xA5, 0x68, 0x0F, 0x80, 0x00, 0x02, 0x00, 0x01, 0x00, 0x02, 0x83, 0x2B,
         0x73, 0x38, 0x02, 0x08, 0x00, 0x00]).2 = some e :=
  ⟨(((referenced_ids_exist
      { m_signals3d := { signals := [(0, { signalGroup := some 0, signalNumber := 0 })] } }
      { isMainStream := true,
        groups := [{ groupID := 5, metaDataElementId := [0] }],
        data := { dataSets :=
          [{ dataType := 0, dataLength := 8,
             data := .description { descriptionBlocks :=
               [{ descriptionGroupID := 5,
                  languages := [{ bsDescLanguage := 0x656E67,
                                  descData := [0x41] }] }] } }] } }).1 (by decide)
      _ (List.mem_singleton.mpr rfl) _ rfl _ (List.mem_singleton.mpr rfl) (by decide)).1 rfl),
   ((referenced_ids_exist {}
      { isMainStream := true,
        groups := [],
        data := { dataSets :=
          [{ dataType := 0, dataLength := 8,
             data := .description { descriptionBlocks :=
               [{ descriptionGroupID := 5,
                  languages := [{ bsDescLanguage := 0x656E67,
                                  descData := [0x41] }] }] } }] } }).2
      ⟨_, List.mem_singleton.mpr rfl, _, rfl, _, List.mem_singleton.mpr rfl, by decide,
        Or.inl ⟨rfl, by decide⟩⟩).2
      _ _ {} _
      ⟨[0x80, 0x00, 0x02, 0x00, 0x01, 0x00, 0x02, 0x83, 0x2B, 0x73, 0x38, 0x02, 0x08,
        0x00, 0x00], 1, 3⟩
      (by rw [CMhasInfoWrapper.feed_sample])
      (by rw [CMhasInfoWrapper.feed_sample]; decide)
      rfl
      PacketViews.audioSceneInfo_sample⟩

/-! ## `tools::readNextFrame` -/

theorem flagAfter_append (D : Decoders) (flag : Bool) (ps qs : List CMhasPacket) :
    flagAfter D flag (ps ++ qs) = flagAfter D (flagAfter D flag ps) qs := by
  unfold flagAfter
  rw [List.foldl_append]

theorem escapedValueWriteSize_cases (v f s t : Nat) :
    escapedValueWriteSize v f s t = f ∨ escapedValueWriteSize v f s t = (f + s) % 2 ^ 32
      ∨ escapedValueWriteSize v f s t = ((f + s) % 2 ^ 32 + t) % 2 ^ 32 := by
  unfold escapedValueWriteSize
  simp only
  split_ifs
  · right; right; rfl
  · right; left; rfl
  · left; rfl

/-- C32: when `CMhasPacket(begin, end)` parses a packet from a byte range, the number of
bytes it consumed is the packet's `calculatePacketSize()`, and `writePacket` writes exactly
the consumed bytes, whatever the vector held before. -/
theorem canonical_reserialisation (range rest vector : ByteBuffer) (p : CMhasPacket)
    (h : CMhasPacket.new range = .ok (p, rest)) :
    ∃ size, p.calculatePacketSize = .ok size
      ∧ size + rest.length = range.length
      ∧ p.writePacket vector = .ok (range.take size)
      ∧ range = range.take size ++ rest := by
  obtain ⟨hr, hs⟩ := CMhasPacket.new_ok h
  have hl := packetBytes_length p
  refine ⟨(headerBits p).length / 8 + p.m_payload.length, calculatePacketSize_eq p hs, ?_, ?_, ?_⟩
  · rw [hr, List.length_append, hl]
  · rw [writePacket_eq p hs, hr, ← hl, List.take_left]
  · rw [← hl]
    conv_rhs => rw [hr, List.take_left]
    exact hr

/-- Witness for C32: a sync packet followed by one more byte, written over a vector of
two bytes. -/
theorem canonical_reserialisation_witness :
    CMhasPacket.new [0xC0, 0x01, 0xA5, 0x77]
        = .ok ({ m_payload := [0xA5], m_packetLabel := 0, m_packetType := 6 }, [0x77])
      ∧ ∃ size,
          CMhasPacket.calculatePacketSize
              { m_payload := [0xA5], m_packetLabel := 0, m_packetType := 6 } = .ok size
          ∧ size + [(0x77 : Byte)].length = [(0xC0 : Byte), 0x01, 0xA5, 0x77].length
          ∧ CMhasPacket.writePacket
                { m_payload := [0xA5], m_packetLabel := 0, m_packetType := 6 } [0x11, 0x22]
              = .ok (List.take size [0xC0, 0x01, 0xA5, 0x77])
          ∧ [(0xC0 : Byte), 0x01, 0xA5, 0x77] = List.take size [0xC0, 0x01, 0xA5, 0x77] ++ [0x77] :=
  ⟨by decide,
    canonical_reserialisation [0xC0, 0x01, 0xA5, 0x77] [0x77] [0x11, 0x22]
      { m_payload := [0xA5], m_packetLabel := 0, m_packetType := 6 } (by decide)⟩

/-- C33: for every packet type, label and payload length, the three escaped sizes of the
header add up to a multiple of 8 between 16 and 120, so `calculatePacketSize` never raises
`Size calculation is wrong` and the header it counts is between 2 and 15 whole bytes. -/
theorem header_alignment (p : CMhasPacket) :
    (escapedValueWriteSize p.m_packetType 3 8 8 + escapedValueWriteSize p.m_packetLabel 2 8 32
        + escapedValueWriteSize p.m_payload.length 11 24 24) % 8 = 0
      ∧ 16 ≤ escapedValueWriteSize p.m_packetType 3 8 8
          + escapedValueWriteSize p.m_packetLabel 2 8 32
          + escapedValueWriteSize p.m_payload.length 11 24 24
      ∧ escapedValueWriteSize p.m_packetType 3 8 8 + escapedValueWriteSize p.m_packetLabel 2 8 32
          + escapedValueWriteSize p.m_payload.length 11 24 24 ≤ 120
      ∧ ∃ header, 2 ≤ header ∧ header ≤ 15
          ∧ 8 * header = escapedValueWriteSize p.m_packetType 3 8 8
              + escapedValueWriteSize p.m_packetLabel 2 8 32
              + escapedValueWriteSize p.m_payload.length 11 24 24
          ∧ p.calculatePacketSize
              = .ok ((header + p.m_payload.length % 2 ^ 32) % 2 ^ 32) := by
  have h1 := escapedValueWriteSize_cases p.m_packetType 3 8 8
  have h2 := escapedValueWriteSize_cases p.m_packetLabel 2 8 32
  have h3 := escapedValueWriteSize_cases p.m_payload.length 11 24 24
  norm_num at h1 h2 h3
  unfold CMhasPacket.calculatePacketSize
  generalize escapedValueWriteSize p.m_packetType 3 8 8 = a at *
  generalize escapedValueWriteSize p.m_packetLabel 2 8 32 = b at *
  generalize escapedValueWriteSize p.m_payload.length 11 24 24 = c at *
  have e : ((0 + a) % 2 ^ 64 + b) % 2 ^ 64 + c = a + b + c := by
    rcases h1 with h | h | h <;> rcases h2 with h' | h' | h' <;> subst h <;> subst h' <;> rfl
  have hm : (a + b + c) % 8 = 0 := by omega
  have e2 : (a + b + c) % 2 ^ 64 = a + b + c := Nat.mod_eq_of_lt (by omega)
  refine ⟨hm, by omega, by omega, (a + b + c) / 8, by omega, by omega, by omega, ?_⟩
  simp only [e, e2, hm, not_true_eq_false, if_false]
  have e3 : (a + b + c) / 8 % 2 ^ 32 = (a + b + c) / 8 := Nat.mod_eq_of_lt (by omega)
  rw [e3]
  rfl

/-! ## The parser: exceptions, the queue of an unsynced parser and the pre-roll flag -/

theorem parseLoop_spec (D : Decoders) (n : Nat) :
    ∀ (range : ByteBuffer) (flag : Bool), range.length = n →
      ∃ ps rest, (∀ p ∈ ps, p.serialisable) ∧ acceptedAll D flag ps
        ∧ range = (ps.map packetBytes).flatten ++ rest
        ∧ ((CMhasPacket.s_parseNextPacket D rest (flagAfter D flag ps) = .ok (none, rest)
            ∧ ∀ queue, parseLoop D (range.length + 1) range flag queue
                = (rest, flagAfter D flag ps, queue ++ ps, none))
          ∨ ∃ e, CMhasPacket.s_parseNextPacket D rest (flagAfter D flag ps) = .error e
            ∧ ∀ queue, parseLoop D (range.length + 1) range flag queue
                = (rest, flagAfter D flag ps, queue ++ ps, some e)) := by
  induction n using Nat.strong_induction_on with
  | _ n ih =>
    intro range flag hn
    cases hs : CMhasPacket.s_parseNextPacket D range flag with
    | error e =>
      refine ⟨[], range, by simp, trivial, by simp, Or.inr ⟨e, hs, ?_⟩⟩
      intro queue
      rw [parseLoop_step, hs]
      simp [flagAfter]
    | ok x =>
      obtain ⟨o, rest⟩ := x
      cases o with
      | none =>
        have := CMhasPacket.s_parseNextPacket_none hs
        subst this
        refine ⟨[], rest, by simp, trivial, by simp, Or.inl ⟨hs, ?_⟩⟩
        intro queue
        rw [parseLoop_step, hs]
        simp [flagAfter]
      | some p =>
        obtain ⟨hp, hr, ha⟩ := CMhasPacket.s_parseNextPacket_some hs
        have hl := packetBytes_length p
        have hh := (headerBits_length p).2.1
        have hlen : rest.length + 2 ≤ range.length := by
          rw [hr, List.length_append]; omega
        obtain ⟨ps, rest', h1, h2, h3, h4⟩ :=
          ih rest.length (by omega) rest (nextFlag D flag p) rfl
        refine ⟨p :: ps, rest', ?_, ⟨ha, h2⟩, ?_, ?_⟩
        · intro q hq
          rcases List.mem_cons.1 hq with h | h
          · subst h; exact hp
          · exact h1 q h
        · rw [hr, h3]; simp
        · simp only [flagAfter, List.foldl_cons] at h4 ⊢
          rcases h4 with ⟨h5, h6⟩ | ⟨e, h5, h6⟩
          · refine Or.inl ⟨h5, ?_⟩
            intro queue
            rw [parseLoop_step, hs]
            simp only []
            rw [h6]; simp
          · refine Or.inr ⟨e, h5, ?_⟩
            intro queue
            rw [parseLoop_step, hs]
            simp only []
            rw [h6]; simp

theorem flagAfter_eq_lastConfigurationFlag (D : Decoders) (ps : List CMhasPacket) :
    ∀ flag, flagAfter D flag ps = lastConfigurationFlag D flag ps := by
  induction ps using List.reverseRecOn with
  | nil => intro flag; rfl
  | append_singleton ps p ih =>
    intro flag
    rw [flagAfter_append, ih]
    unfold lastConfigurationFlag
    simp only [flagAfter, List.foldl_cons, List.foldl_nil, nextFlag, List.filter_append]
    by_cases hp : p.packetType = 1
    · simp [hp, List.filter_cons]
    · simp [hp, List.filter_cons]

theorem lastConfigurationFlag_append (D : Decoders) (flag : Bool) (ps qs : List CMhasPacket) :
    lastConfigurationFlag D flag (ps ++ qs)
      = lastConfigurationFlag D (lastConfigurationFlag D flag ps) qs := by
  rw [← flagAfter_eq_lastConfigurationFlag, ← flagAfter_eq_lastConfigurationFlag,
    ← flagAfter_eq_lastConfigurationFlag, flagAfter_append]

/-- What one call of `parsePackets` does to the queue and to the pre-roll flag. -/
theorem parsePackets_queue (D : Decoders) (s : CMhasParser) :
    ∃ ps, (s.parsePackets D).1.m_parsedPackets = s.m_parsedPackets ++ ps
      ∧ (s.parsePackets D).1.m_audioPreRollPresent = flagAfter D s.m_audioPreRollPresent ps
      ∧ (s.m_isSynced = false → (s.parsePackets D).1.m_isSynced = false → ps = []) := by
  obtain ⟨synced, buffer, queue, flag⟩ := s
  cases synced with
  | true =>
    rw [parsePackets_synced]
    obtain ⟨ps, rest, _, _, _, ⟨_, h⟩ | ⟨e, _, h⟩⟩ := parseLoop_spec D _ buffer flag rfl
    · rw [h]; exact ⟨ps, rfl, rfl, by intro h; cases h⟩
    · rw [h]; exact ⟨ps, rfl, rfl, by intro h; cases h⟩
  | false =>
    rw [parsePackets_unsynced]
    rcases hsc : syncScan buffer with ⟨_ | _, r⟩
    · exact ⟨[], by simp, rfl, fun _ _ => rfl⟩
    · obtain ⟨ps, rest, _, _, _, ⟨_, h⟩ | ⟨e, _, h⟩⟩ := parseLoop_spec D _ r flag rfl
      · simp only [h]; exact ⟨ps, rfl, rfl, by intro _ h; cases h⟩
      · simp only [h]; exact ⟨ps, rfl, rfl, by intro _ h; cases h⟩

/-- C34, amended: when `parsePackets` raises, the input buffer is what it was before the
call, the parser is synced, and the packets decoded before the failing one are in the
queue. A second call repeats the pass, queueing these packets again and raising again,
when the first pass started at the first byte of the buffer and left the pre-roll flag as
it was. -/
theorem parse_packets_not_atomic (D : Decoders) (s : CMhasParser) (e : Err)
    (h : (s.parsePackets D).2 = some e) :
    (s.parsePackets D).1.m_buffer = s.m_buffer
      ∧ (s.parsePackets D).1.m_isSynced = true
      ∧ ∃ skipped ps rest,
          s.m_buffer = skipped ++ ((ps.map packetBytes).flatten ++ rest)
          ∧ (s.m_isSynced = true → skipped = [])
          ∧ acceptedAll D s.m_audioPreRollPresent ps
          ∧ CMhasPacket.s_parseNextPacket D rest (flagAfter D s.m_audioPreRollPresent ps)
              = .error e
          ∧ (s.parsePackets D).1.m_parsedPackets = s.m_parsedPackets ++ ps
          ∧ (s.parsePackets D).1.m_audioPreRollPresent
              = flagAfter D s.m_audioPreRollPresent ps
          ∧ (skipped = [] → flagAfter D s.m_audioPreRollPresent ps = s.m_audioPreRollPresent →
              ((s.parsePackets D).1.parsePackets D).2 = some e
              ∧ ((s.parsePackets D).1.parsePackets D).1.m_buffer = s.m_buffer
              ∧ ((s.parsePackets D).1.parsePackets D).1.m_parsedPackets
                  = s.m_parsedPackets ++ ps ++ ps) := by
  obtain ⟨synced, buffer, queue, flag⟩ := s
  have second : ∀ (ps : List CMhasPacket) (rest : ByteBuffer),
      (∀ queue, parseLoop D (buffer.length + 1) buffer flag queue
          = (rest, flagAfter D flag ps, queue ++ ps, some e)) →
      flagAfter D flag ps = flag →
      (CMhasParser.parsePackets D ⟨true, buffer, queue ++ ps, flagAfter D flag ps⟩).2 = some e
      ∧ (CMhasParser.parsePackets D ⟨true, buffer, queue ++ ps, flagAfter D flag ps⟩).1.m_buffer
          = buffer
      ∧ (CMhasParser.parsePackets D
            ⟨true, buffer, queue ++ ps, flagAfter D flag ps⟩).1.m_parsedPackets
          = queue ++ ps ++ ps := by
    intro ps rest hl hf
    rw [parsePackets_synced, hf, hl]
    exact ⟨rfl, rfl, rfl⟩
  cases synced with
  | true =>
    rw [parsePackets_synced] at h ⊢
    obtain ⟨ps, rest, _, ha, hb, ⟨_, hl⟩ | ⟨e', he, hl⟩⟩ := parseLoop_spec D _ buffer flag rfl
    · rw [hl] at h; cases h
    · rw [hl] at h ⊢
      cases h
      refine ⟨rfl, rfl, [], ps, rest, hb, fun _ => rfl, ha, he, rfl, rfl, ?_⟩
      intro _ hf
      exact second ps rest hl hf
  | false =>
    rw [parsePackets_unsynced] at h ⊢
    obtain ⟨pre, hpre⟩ := syncScan_suffix buffer
    rcases hsc : syncScan buffer with ⟨_ | _, r⟩
    · rw [hsc] at h; cases h
    · rw [hsc] at h hpre
      simp only [] at h hpre ⊢
      obtain ⟨ps, rest, _, ha, hb, ⟨_, hl⟩ | ⟨e', he, hl⟩⟩ := parseLoop_spec D _ r flag rfl
      · rw [hl] at h; cases h
      · rw [hl] at h ⊢
        cases h
        refine ⟨rfl, rfl, pre, ps, rest, by rw [← hb]; exact hpre, ?_, ha, he, rfl, rfl, ?_⟩
        · intro hc; cases hc
        · intro hp hf
          subst hp
          have hr : r = buffer := by simpa using hpre.symm
          subst hr
          exact second ps rest hl hf

/-- Witness for C34: a synced parser whose buffer holds a sync packet and a truncation
packet with the reserved bit set. -/
theorem parse_packets_not_atomic_witness :
    (CMhasParser.parsePackets
        ⟨fun type payload =>
          if type = 17 then (CMhasTruncationPacket.parsePayload payload).toBool else true,
          fun _ _ => true, fun _ => false⟩
        ⟨true, [0xC0, 0x01, 0xA5, 0xE1, 0x40, 0x02, 0xC0, 0x00], [], false⟩).2
      = some Err.malformedPayload
    ∧ (CMhasParser.parsePackets
        ⟨fun type payload =>
          if type = 17 then (CMhasTruncationPacket.parsePayload payload).toBool else true,
          fun _ _ => true, fun _ => false⟩
        ⟨true, [0xC0, 0x01, 0xA5, 0xE1, 0x40, 0x02, 0xC0, 0x00], [], false⟩).1.m_buffer
      = [0xC0, 0x01, 0xA5, 0xE1, 0x40, 0x02, 0xC0, 0x00] :=
  ⟨by decide,
    (parse_packets_not_atomic
      ⟨fun type payload =>
        if type = 17 then (CMhasTruncationPacket.parsePayload payload).toBool else true,
        fun _ _ => true, fun _ => false⟩
      ⟨true, [0xC0, 0x01, 0xA5, 0xE1, 0x40, 0x02, 0xC0, 0x00], [], false⟩
      Err.malformedPayload (by decide)).1⟩

/-- C34, the last sentence of the claim refuted: a new parser is fed one byte `00`, a sync
packet and a truncation packet whose reserved bit is set. The first `parsePackets` skips
the byte, syncs, queues the sync packet and raises on the truncation packet; the buffer is
untouched. The second `parsePackets`, now synced, starts at the byte `00`, reads a header
announcing 192 payload bytes, waits for more data and returns: the sync packet is not
queued again. -/
theorem second_pass_starts_at_buffer_begin :
    decodeHeader [0x00, 0xC0, 0x01, 0xA5, 0xE1, 0x40, 0x02, 0xC0, 0x00] = .ok (0, 0, 192, 2)
    ∧ CMhasParser.parsePackets
        ⟨fun type payload =>
          if type = 17 then (CMhasTruncationPacket.parsePayload payload).toBool else true,
          fun _ _ => true, fun _ => false⟩
        (({} : CMhasParser).feed [0x00, 0xC0, 0x01, 0xA5, 0xE1, 0x40, 0x02, 0xC0, 0x00])
      = (⟨true, [0x00, 0xC0, 0x01, 0xA5, 0xE1, 0x40, 0x02, 0xC0, 0x00], [⟨[0xA5], 0, 6⟩], false⟩,
          some Err.malformedPayload)
    ∧ CMhasParser.parsePackets
        ⟨fun type payload =>
          if type = 17 then (CMhasTruncationPacket.parsePayload payload).toBool else true,
          fun _ _ => true, fun _ => false⟩
        ⟨true, [0x00, 0xC0, 0x01, 0xA5, 0xE1, 0x40, 0x02, 0xC0, 0x00], [⟨[0xA5], 0, 6⟩], false⟩
      = (⟨true, [0x00, 0xC0, 0x01, 0xA5, 0xE1, 0x40, 0x02, 0xC0, 0x00], [⟨[0xA5], 0, 6⟩], false⟩,
          none) := by
  refine ⟨by decide, by decide, by decide⟩

theorem operate_unsynced_empty (D : Decoders) (s : CMhasParser) (op : ParserOperation)
    (h : s.m_isSynced = false → s.m_parsedPackets = []) :
    (s.operate D op).m_isSynced = false → (s.operate D op).m_parsedPackets = [] := by
  cases op with
  | reset => intro _; rfl
  | call c =>
    cases c with
    | feed v => exact h
    | sync => intro h'; cases h'
    | parsePackets =>
      intro h'
      show (s.parsePackets D).1.m_parsedPackets = []
      obtain ⟨ps, h1, _, h3⟩ := parsePackets_queue D s
      have hs : s.m_isSynced = false := by
        by_contra hc
        have hc' : s.m_isSynced = true := by simpa using hc
        obtain ⟨synced, buffer, queue, flag⟩ := s
        simp only at hc'
        subst hc'
        have h2 : (CMhasParser.parsePackets D ⟨true, buffer, queue, flag⟩).1.m_isSynced = false :=
          h'
        rw [parsePackets_synced] at h2
        generalize parseLoop D (buffer.length + 1) buffer flag queue = x at h2
        obtain ⟨r, f, q, _ | e⟩ := x <;> cases h2
      rw [h1, h hs, h3 hs h']
      rfl
    | nextPacket =>
      intro h'
      obtain ⟨synced, buffer, queue, flag⟩ := s
      cases queue with
      | nil => rfl
      | cons q qs =>
        have h'' : synced = false := h'
        have := h h''
        cases this
    | allAvailablePackets => intro _; rfl

/-- C35: in every state a parser reaches from construction through `feed`, `sync`, `reset`,
`parsePackets` (returning or raising), `nextPacket` and `allAvailablePackets`, a parser that
is not synced has an empty output queue: `isSynced() == false` implies
`numPacketsAvailable() == 0`. -/
theorem unsynced_parser_has_empty_queue (D : Decoders) (ops : List ParserOperation)
    (h : (CMhasParser.operations D {} ops).isSynced = false) :
    (CMhasParser.operations D {} ops).m_parsedPackets = []
      ∧ (CMhasParser.operations D {} ops).numPacketsAvailable = 0 := by
  have key : ∀ (ops : List ParserOperation) (s : CMhasParser),
      (s.m_isSynced = false → s.m_parsedPackets = []) →
      (CMhasParser.operations D s ops).m_isSynced = false →
      (CMhasParser.operations D s ops).m_parsedPackets = [] := by
    intro ops
    induction ops with
    | nil => intro s hs; exact hs
    | cons op ops ih =>
      intro s hs
      exact ih (s.operate D op) (operate_unsynced_empty D s op hs)
  have := key ops {} (fun _ => rfl) h
  exact ⟨this, by unfold CMhasParser.numPacketsAvailable; rw [this]; rfl⟩

/-- Witness for C35: a parser that synced on a sync packet and queued it is reset, fed two
bytes and asked to parse. -/
theorem unsynced_parser_has_empty_queue_witness :
    (CMhasParser.operations ⟨fun _ _ => true, fun _ _ => true, fun _ => false⟩ {}
        [.call (.feed [0xC0, 0x01, 0xA5, 0xC0]), .call .parsePackets, .reset,
         .call (.feed [0x00, 0x01]), .call .parsePackets]).isSynced = false
      ∧ (CMhasParser.operations ⟨fun _ _ => true, fun _ _ => true, fun _ => false⟩ {}
          [.call (.feed [0xC0, 0x01, 0xA5, 0xC0]), .call .parsePackets, .reset,
           .call (.feed [0x00, 0x01]), .call .parsePackets]).numPacketsAvailable = 0 :=
  ⟨by decide,
    (unsynced_parser_has_empty_queue ⟨fun _ _ => true, fun _ _ => true, fun _ => false⟩
      [.call (.feed [0xC0, 0x01, 0xA5, 0xC0]), .call .parsePackets, .reset,
       .call (.feed [0x00, 0x01]), .call .parsePackets] (by decide)).2⟩

theorem operate_flag (D : Decoders) (s : CMhasParser) (op : ParserOperation) :
    (s.operate D op).m_audioPreRollPresent
      = flagAfter D s.m_audioPreRollPresent (s.appended D op) := by
  cases op with
  | reset => rfl
  | call c =>
    cases c with
    | feed v => rfl
    | sync => rfl
    | parsePackets =>
      obtain ⟨ps, h1, h2, _⟩ := parsePackets_queue D s
      show (s.parsePackets D).1.m_audioPreRollPresent = _
      unfold CMhasParser.appended
      rw [h1, h2, List.drop_left]
    | nextPacket =>
      obtain ⟨synced, buffer, queue, flag⟩ := s
      cases queue <;> rfl
    | allAvailablePackets => rfl

theorem operations_flag (D : Decoders) (ops : List ParserOperation) :
    ∀ s : CMhasParser, (CMhasParser.operations D s ops).m_audioPreRollPresent
      = flagAfter D s.m_audioPreRollPresent (CMhasParser.parsedOver D s ops) := by
  induction ops with
  | nil => intro s; rfl
  | cons op ops ih =>
    intro s
    show (CMhasParser.operations D (s.operate D op) ops).m_audioPreRollPresent = _
    rw [ih, operate_flag, ← flagAfter_append]
    rfl

theorem operations_append (D : Decoders) (s : CMhasParser) (ops ops2 : List ParserOperation) :
    CMhasParser.operations D s (ops ++ ops2)
      = CMhasParser.operations D (CMhasParser.operations D s ops) ops2 := by
  unfold CMhasParser.operations
  rw [List.foldl_append]

/-- C38: `reset()` does not touch the pre-roll flag. After every sequence of operations on
a new parser, `reset` included, the flag `parsePackets` passes to the factory is that of
the most recent configuration packet the parser has queued since construction, and `false`
when there is none; it is the same after one more `reset()`, which changes the buffer, the
queue and the sync flag only. The loop of `parsePackets` then accepts each packet under the
flag left by the packets before it and ends with the flag of the most recent configuration
packet. -/
theorem reset_keeps_pre_roll_flag (D : Decoders) (ops : List ParserOperation) :
    (CMhasParser.operations D {} ops).m_audioPreRollPresent
        = lastConfigurationFlag D false (CMhasParser.parsedOver D {} ops)
      ∧ (CMhasParser.operations D {} (ops ++ [.reset])).m_audioPreRollPresent
          = lastConfigurationFlag D false (CMhasParser.parsedOver D {} ops)
      ∧ (∀ s : CMhasParser, s.reset
          = ⟨false, [], [], s.m_audioPreRollPresent⟩)
      ∧ ∀ range : ByteBuffer, ∃ ps rest,
          acceptedAll D (lastConfigurationFlag D false (CMhasParser.parsedOver D {} ops)) ps
          ∧ ∀ queue, ∃ r,
              parseLoop D (range.length + 1) range
                  (CMhasParser.operations D {} ops).m_audioPreRollPresent queue
                = (rest, lastConfigurationFlag D false (CMhasParser.parsedOver D {} ops ++ ps),
                    queue ++ ps, r) := by
  have h1 : (CMhasParser.operations D {} ops).m_audioPreRollPresent
      = lastConfigurationFlag D false (CMhasParser.parsedOver D {} ops) := by
    rw [operations_flag D ops {}, flagAfter_eq_lastConfigurationFlag]
  refine ⟨h1, ?_, fun s => rfl, ?_⟩
  · rw [operations_append]
    exact h1
  · intro range
    obtain ⟨ps, rest, _, ha, _, ⟨_, h⟩ | ⟨e, _, h⟩⟩ :=
      parseLoop_spec D _ range
        (lastConfigurationFlag D false (CMhasParser.parsedOver D {} ops)) rfl
    · refine ⟨ps, rest, ha, fun queue => ⟨none, ?_⟩⟩
      rw [h1, h, lastConfigurationFlag_append, flagAfter_eq_lastConfigurationFlag]
    · refine ⟨ps, rest, ha, fun queue => ⟨some e, ?_⟩⟩
      rw [h1, h, lastConfigurationFlag_append, flagAfter_eq_lastConfigurationFlag]

/-! ## The truncation packet: payload and members in step -/

theorem mapFind_mapAssign {β : Type} (m : List (Nat × β)) (k : Nat) (v : β) (x : Nat) :
    mapFind (mapAssign m k v) x = if k = x then some v else mapFind m x := by
  induction m with
  | nil => simp [mapAssign, mapFind]
  | cons e rest ih =>
    obtain ⟨k1, v1⟩ := e
    unfold mapAssign
    by_cases h1 : k < k1
    · rw [if_pos h1]
      by_cases hx : k = x
      · simp [mapFind, hx]
      · simp [mapFind, hx]
    · rw [if_neg h1]
      by_cases h2 : k = k1
      · rw [if_pos h2]
        subst h2
        by_cases hx : k = x
        · simp [mapFind, hx]
        · simp [mapFind, hx]
      · rw [if_neg h2]
        by_cases hx : k = x
        · subst hx
          have : ¬ k1 = k := fun h => h2 h.symm
          simp [mapFind, this, ih]
        · simp [mapFind, hx, ih]

theorem mapKeys_mapAssign_iff {β : Type} (m : List (Nat × β)) (k : Nat) (v : β) (x : Nat) :
    x ∈ mapKeys (mapAssign m k v) ↔ x = k ∨ x ∈ mapKeys m := by
  rw [← mapFind_isSome_iff, ← mapFind_isSome_iff, mapFind_mapAssign]
  by_cases h : k = x
  · simp [h]
  · have : ¬ x = k := fun h' => h h'.symm
    simp [h, this]

theorem mapAssign_sorted {β : Type} (m : List (Nat × β)) (k : Nat) (v : β)
    (hs : (mapKeys m).Pairwise (· < ·)) : (mapKeys (mapAssign m k v)).Pairwise (· < ·) := by
  induction m with
  | nil => simp [mapAssign, mapKeys]
  | cons e rest ih =>
    obtain ⟨k1, v1⟩ := e
    have hs' : (k1 :: mapKeys rest).Pairwise (· < ·) := hs
    rw [List.pairwise_cons] at hs'
    unfold mapAssign
    split_ifs with h1 h2
    · show (k :: k1 :: mapKeys rest).Pairwise (· < ·)
      rw [List.pairwise_cons]
      refine ⟨?_, hs⟩
      intro a ha
      rcases List.mem_cons.1 ha with h | h
      · omega
      · have := hs'.1 a h
        omega
    · subst h2
      exact hs
    · show (k1 :: mapKeys (mapAssign rest k v)).Pairwise (· < ·)
      rw [List.pairwise_cons]
      refine ⟨?_, ih hs'.2⟩
      intro a ha
      rcases (mapKeys_mapAssign_iff rest k v a).1 ha with h | h
      · omega
      · exact hs'.1 a h

theorem mapAssign_length {β : Type} (m : List (Nat × β)) (k : Nat) (v : β)
    (hs : (mapKeys m).Pairwise (· < ·)) (hk : k ∉ mapKeys m) :
    (mapAssign m k v).length = m.length + 1 := by
  induction m with
  | nil => rfl
  | cons e rest ih =>
    obtain ⟨k1, v1⟩ := e
    have hs' : (k1 :: mapKeys rest).Pairwise (· < ·) := hs
    rw [List.pairwise_cons] at hs'
    have hk' : k ∉ k1 :: mapKeys rest := hk
    rw [List.mem_cons, not_or] at hk'
    unfold mapAssign
    split_ifs with h1 h2
    · rfl
    · exact absurd h2 hk'.1
    · simp only [List.length_cons]
      rw [ih hs'.2 hk'.2]

/-- The map `applyAsi` builds from the entries of `signals`. -/
theorem shifted_signals {β : Type} (sh : Nat → Nat) (l : List (Nat × β)) :
    ((mapKeys l).map sh).Nodup →
      (mapKeys (l.foldl (fun acc signal => mapAssign acc (sh signal.1) signal.2) [])).Pairwise
          (· < ·)
      ∧ (l.foldl (fun acc signal => mapAssign acc (sh signal.1) signal.2) []).length = l.length
      ∧ (∀ x, x ∈ mapKeys (l.foldl (fun acc signal => mapAssign acc (sh signal.1) signal.2) [])
          ↔ x ∈ (mapKeys l).map sh)
      ∧ ∀ e ∈ l, mapFind (l.foldl (fun acc signal => mapAssign acc (sh signal.1) signal.2) [])
          (sh e.1) = some e.2 := by
  induction l using List.reverseRecOn with
  | nil =>
    intro _
    refine ⟨List.Pairwise.nil, rfl, fun x => Iff.rfl, ?_⟩
    intro e he
    cases he
  | append_singleton l y ih =>
    intro hn
    have hn' : ((mapKeys l).map sh ++ [sh y.1]).Nodup := by
      simpa [mapKeys] using hn
    rw [List.nodup_append] at hn'
    obtain ⟨hn1, _, hdis⟩ := hn'
    have hy : sh y.1 ∉ (mapKeys l).map sh := by
      intro hmem
      exact hdis hmem (List.mem_singleton_self _)
    obtain ⟨i1, i2, i3, i4⟩ := ih hn1
    rw [List.foldl_append]
    simp only [List.foldl_cons, List.foldl_nil]
    refine ⟨mapAssign_sorted _ _ _ i1, ?_, ?_, ?_⟩
    · rw [mapAssign_length _ _ _ i1 (fun h => hy ((i3 _).1 h)), i2, List.length_append]
      rfl
    · intro x
      rw [mapKeys_mapAssign_iff, i3]
      simp only [mapKeys, List.map_append, List.map_cons, List.map_nil, List.mem_append,
        List.mem_singleton]
      tauto
    · intro e he
      rw [mapFind_mapAssign]
      rcases List.mem_append.1 he with h | h
      · have hne : ¬ sh y.1 = sh e.1 := by
          intro heq
          apply hy
          rw [heq]
          exact List.mem_map_of_mem sh (List.mem_map_of_mem Prod.fst h)
        rw [if_neg hne]
        exact i4 e h
      · rw [List.mem_singleton] at h
        subst h
        rw [if_pos rfl]

theorem mapFind_none_iff {β : Type} (m : List (Nat × β)) (k : Nat) :
    mapFind m k = none ↔ k ∉ mapKeys m := by
  rw [← mapFind_isSome_iff]
  cases mapFind m k <;> simp

theorem mapFind_some_mem {β : Type} (m : List (Nat × β)) (k : Nat) (v : β) :
    mapFind m k = some v → (k, v) ∈ m := by
  induction m with
  | nil => intro h; cases h
  | cons y l ih =>
    obtain ⟨k1, v1⟩ := y
    intro h
    unfold mapFind at h
    split_ifs at h with hk
    · cases h
      subst hk
      exact List.mem_cons_self _ _
    · exact List.mem_cons_of_mem _ (ih h)

/-- C37: the first `applyAsi` with a scene info that is not the main stream and has the
offset `k` moves every key `id` of `signals` to `(id + k + 1) mod 256`, with the signal
(signal group and signal number) it was bound to, and maps every entry of the
`metaDataElementIds` of every signal group through the same function. The function is
injective on `uint8_t` values, so the new map has as many entries as the old one, its keys
are the shifted keys, and no two of them collide. -/
theorem first_apply_asi_exact_effect (heap : SignalGroupHeap) (c : SConfig)
    (a : SAudioSceneInfo) (hm : a.isMainStream = false)
    (hfirst : c.signals3d.asiApplied = false)
    (hkeys : (mapKeys c.signals3d.signals).Nodup)
    (hu8 : ∀ id ∈ mapKeys c.signals3d.signals, id < 256)
    (hptr : c.signals3d.signalGroups.Nodup) :
    (∀ id, id < 256 →
        mapFind (SConfig.applyAsi heap c a).2.signals3d.signals
            ((id + a.metaDataElementIDOffset + 1) % 256)
          = mapFind c.signals3d.signals id)
      ∧ (SConfig.applyAsi heap c a).2.signals3d.signals.length = c.signals3d.signals.length
      ∧ (∀ x, x ∈ mapKeys (SConfig.applyAsi heap c a).2.signals3d.signals
          ↔ ∃ id ∈ mapKeys c.signals3d.signals, x = (id + a.metaDataElementIDOffset + 1) % 256)
      ∧ (mapKeys (SConfig.applyAsi heap c a).2.signals3d.signals).Nodup
      ∧ (∀ q ∈ c.signals3d.signalGroups,
          (((SConfig.applyAsi heap c a).1)[q]?).map (fun g => g.metaDataElementIds)
            = (heap[q]?).map fun g =>
                g.metaDataElementIds.map
                  fun id => (id + a.metaDataElementIDOffset + 1) % 256)
      ∧ ∀ x y, x < 256 → y < 256 →
          (x + a.metaDataElementIDOffset + 1) % 256 = (y + a.metaDataElementIDOffset + 1) % 256 →
          x = y := by
  have hsh : ∀ id, (id + (a.metaDataElementIDOffset + 1) % 2 ^ 8) % 2 ^ 8
      = (id + a.metaDataElementIDOffset + 1) % 256 := by
    intro id
    omega
  have hinj : ∀ x y, x < 256 → y < 256 →
      (x + a.metaDataElementIDOffset + 1) % 256 = (y + a.metaDataElementIDOffset + 1) % 256 →
      x = y := by
    intro x y hx hy h
    omega
  have hnd : ((mapKeys c.signals3d.signals).map
      fun id => (id + (a.metaDataElementIDOffset + 1) % 2 ^ 8) % 2 ^ 8).Nodup := by
    refine List.Nodup.map_on ?_ hkeys
    intro x hx y hy h
    rw [hsh, hsh] at h
    exact hinj x y (hu8 x hx) (hu8 y hy) h
  obtain ⟨s1, s2, s3, s4⟩ := shifted_signals
    (fun id => (id + (a.metaDataElementIDOffset + 1) % 2 ^ 8) % 2 ^ 8) c.signals3d.signals hnd
  rw [SConfig.applyAsi_other heap c a hm, SSignals3d.applyAsi_fresh heap _ a hfirst]
  have hkeysIff : ∀ x, x ∈ mapKeys (c.signals3d.signals.foldl
        (fun acc signal =>
          mapAssign acc ((signal.1 + (a.metaDataElementIDOffset + 1) % 2 ^ 8) % 2 ^ 8) signal.2)
        [])
      ↔ ∃ id ∈ mapKeys c.signals3d.signals,
          x = (id + a.metaDataElementIDOffset + 1) % 256 := by
    intro x
    rw [s3 x, List.mem_map]
    constructor
    · rintro ⟨id, hid, rfl⟩
      exact ⟨id, hid, hsh id⟩
    · rintro ⟨id, hid, rfl⟩
      exact ⟨id, hid, hsh id⟩
  refine ⟨?_, s2, hkeysIff, ?_, ?_, hinj⟩
  · intro id hid
    show mapFind (c.signals3d.signals.foldl _ []) _ = _
    cases hf : mapFind c.signals3d.signals id with
    | none =>
      rw [mapFind_none_iff] at hf ⊢
      intro hmem
      obtain ⟨id2, hid2, heq⟩ := (hkeysIff _).1 hmem
      have := hinj id id2 hid (hu8 id2 hid2) heq
      subst this
      exact hf hid2
    | some v =>
      rw [← hsh id]
      exact s4 (id, v) (mapFind_some_mem _ _ _ hf)
  · exact (List.Pairwise.imp (fun h => Nat.ne_of_lt h) s1 : List.Pairwise (· ≠ ·) _)
  · intro q hq
    show ((c.signals3d.signalGroups.foldl _ heap)[q]?).map _ = _
    rw [update_fold_mem _ _ q hptr hq heap, Option.map_map]
    congr 1
    funext g
    show g.metaDataElementIds.map _ = g.metaDataElementIds.map _
    congr 1
    funext id
    omega

/-- Witness for C37: two signals of one signal group with the element ids 3 and 250, and
the offset 9: the ids become 13 and 4. -/
theorem first_apply_asi_exact_effect_witness :
    mapFind
        (SConfig.applyAsi
          [{ metaDataElementIds := [3, 250], idx := 0, signalGroupType := 1, numSignals := 2 }]
          { signals3d :=
              { signalGroups := [0],
                signals := [(3, { signalGroup := some 0, signalNumber := 0 }),
                            (250, { signalGroup := some 0, signalNumber := 1 })] } }
          { metaDataElementIDOffset := 9 }).2.signals3d.signals
        ((250 + 9 + 1) % 256)
      = some { signalGroup := some 0, signalNumber := 1 } :=
  ((first_apply_asi_exact_effect
      [{ metaDataElementIds := [3, 250], idx := 0, signalGroupType := 1, numSignals := 2 }]
      { signals3d :=
          { signalGroups := [0],
            signals := [(3, { signalGroup := some 0, signalNumber := 0 }),
                        (250, { signalGroup := some 0, signalNumber := 1 })] } }
      { metaDataElementIDOffset := 9 } rfl rfl (by decide) (by decide) (by decide)).1 250
    (by decide)).trans (by decide)

/-! ## The conjunct members of a group -/

theorem CMhasInfoWrapper.conjunctMembers_ok (group : SAudioSceneGroup)
    (hb : group.startID + group.bsGroupNumMembers + 1 ≤ 255) (fuel : Nat) :
    ∀ (id : Nat) (acc : List Nat), id ≤ group.startID + group.bsGroupNumMembers + 1 →
      group.startID + group.bsGroupNumMembers + 1 - id + 1 ≤ fuel →
      CMhasInfoWrapper.conjunctMembers group fuel id acc
        = .ok (acc ++ List.range' id (group.startID + group.bsGroupNumMembers + 1 - id)) := by
  induction fuel with
  | zero => intro id acc _ h; omega
  | succ fuel ih =>
    intro id acc hid hf
    unfold CMhasInfoWrapper.conjunctMembers
    by_cases hlt : id < group.startID + group.bsGroupNumMembers + 1
    · rw [if_pos hlt]
      have hm : (id + 1) % 2 ^ 8 = id + 1 := Nat.mod_eq_of_lt (by omega)
      rw [hm, ih (id + 1) (acc ++ [id]) (by omega) (by omega)]
      have hs : group.startID + group.bsGroupNumMembers + 1 - id
          = (group.startID + group.bsGroupNumMembers + 1 - (id + 1)) + 1 := by omega
      rw [hs, List.range'_succ]
      simp
    · rw [if_neg hlt]
      have hz : group.startID + group.bsGroupNumMembers + 1 - id = 0 := by omega
      rw [hz]
      simp

theorem CMhasInfoWrapper.conjunctMembers_short (group : SAudioSceneGroup)
    (hb : group.startID + group.bsGroupNumMembers + 1 ≤ 255) (fuel : Nat) :
    ∀ (id : Nat) (acc : List Nat), id ≤ group.startID + group.bsGroupNumMembers + 1 →
      fuel < group.startID + group.bsGroupNumMembers + 1 - id + 1 →
      CMhasInfoWrapper.conjunctMembers group fuel id acc = .error Err.outOfFuel := by
  induction fuel with
  | zero => intro id acc _ _; rfl
  | succ fuel ih =>
    intro id acc hid hf
    unfold CMhasInfoWrapper.conjunctMembers
    have hlt : id < group.startID + group.bsGroupNumMembers + 1 := by omega
    rw [if_pos hlt]
    have hm : (id + 1) % 2 ^ 8 = id + 1 := Nat.mod_eq_of_lt (by omega)
    rw [hm]
    exact ih (id + 1) (acc ++ [id]) (by omega) (by omega)

/-- When the bound exceeds 255 the loop condition holds for every value of the counter: the
loop does not end. -/
theorem CMhasInfoWrapper.conjunctMembers_wraps (group : SAudioSceneGroup)
    (hb : 255 < group.startID + group.bsGroupNumMembers + 1) (fuel : Nat) :
    ∀ (id : Nat) (acc : List Nat), id < 256 →
      CMhasInfoWrapper.conjunctMembers group fuel id acc = .error Err.outOfFuel := by
  induction fuel with
  | zero => intro id acc _; rfl
  | succ fuel ih =>
    intro id acc hid
    unfold CMhasInfoWrapper.conjunctMembers
    rw [if_pos (by omega)]
    exact ih _ _ (Nat.mod_lt _ (by norm_num))

/-- The element ids `initGroups` collects for a group with conjunct members are those of
the loop, for every bound on the iterations that lets the loop end if it ends at all. -/
theorem SAudioSceneGroup.memberIds_eq_loop (group : SAudioSceneGroup)
    (hc : group.hasConjunctMembers = true) (hs : group.startID < 256) (fuel : Nat)
    (hf : 257 ≤ fuel) :
    group.memberIds = CMhasInfoWrapper.conjunctMembers group fuel group.startID [] := by
  unfold SAudioSceneGroup.memberIds
  rw [if_pos hc]
  by_cases hb : group.startID + group.bsGroupNumMembers + 1 ≤ 255
  · rw [if_pos hb, CMhasInfoWrapper.conjunctMembers_ok group hb fuel group.startID []
      (by omega) (by omega)]
    congr 2
    omega
  · rw [if_neg hb, CMhasInfoWrapper.conjunctMembers_wraps group (by omega) fuel _ _ hs]

theorem bitsAt_lt (data : List Bool) (pos n : Nat) : bitsAt data pos n < 2 ^ n := by
  unfold bitsAt
  refine Nat.lt_of_lt_of_le (bitsToNat_lt _) (Nat.pow_le_pow_right (by norm_num) ?_)
  rw [List.length_take]
  exact Nat.min_le_left _ _

/-- C39: for a group with conjunct members whose `startID` and `bsGroupNumMembers` fit in
7 bits, the loop of `initGroups` over the `uint8_t` counter ends after exactly
`bsGroupNumMembers + 1` iterations, with the ids `startID`, ..., `startID +
bsGroupNumMembers`, none above 254, so the counter never wraps; these are the ids
`initGroups` looks up. Every group the decoder returns has such fields. -/
theorem conjunct_member_expansion_terminates (group : SAudioSceneGroup)
    (hc : group.hasConjunctMembers = true) (hs : group.startID < 2 ^ 7)
    (hn : group.bsGroupNumMembers < 2 ^ 7) :
    (∀ fuel, group.bsGroupNumMembers + 2 ≤ fuel →
        CMhasInfoWrapper.conjunctMembers group fuel group.startID []
          = .ok (List.range' group.startID (group.bsGroupNumMembers + 1)))
      ∧ (∀ fuel, fuel < group.bsGroupNumMembers + 2 →
          CMhasInfoWrapper.conjunctMembers group fuel group.startID []
            = .error Err.outOfFuel)
      ∧ (List.range' group.startID (group.bsGroupNumMembers + 1)).length
          = group.bsGroupNumMembers + 1
      ∧ (∀ i, i ≤ group.bsGroupNumMembers →
          (List.range' group.startID (group.bsGroupNumMembers + 1))[i]?
            = some (group.startID + i) ∧ group.startID + i ≤ 254)
      ∧ group.memberIds = .ok (List.range' group.startID (group.bsGroupNumMembers + 1))
      ∧ ∀ (data : List Bool) (pos pos1 : Nat) (g : SAudioSceneGroup),
          (SAudioSceneGroup.parsePayload : BitParser data _).run pos = .ok (g, pos1) →
            g.startID < 2 ^ 7 ∧ g.bsGroupNumMembers < 2 ^ 7 := by
  have hb : group.startID + group.bsGroupNumMembers + 1 ≤ 255 := by
    norm_num at hs hn
    omega
  have hd : group.startID + group.bsGroupNumMembers + 1 - group.startID
      = group.bsGroupNumMembers + 1 := by omega
  refine ⟨?_, ?_, List.length_range' _ _ _, ?_, ?_, ?_⟩
  · intro fuel hf
    rw [CMhasInfoWrapper.conjunctMembers_ok group hb fuel group.startID [] (by omega)
      (by omega), hd]
    rfl
  · intro fuel hf
    exact CMhasInfoWrapper.conjunctMembers_short group hb fuel group.startID [] (by omega)
      (by omega)
  · intro i hi
    refine ⟨?_, by norm_num at hs hn; omega⟩
    rw [List.getElem?_range' _ _ (by omega)]
    simp
  · unfold SAudioSceneGroup.memberIds
    rw [if_pos hc, if_pos hb]
  · intro data pos pos1 g hg
    obtain ⟨-, -, -, -, -, -, hz, hrest⟩ := (SAudioSceneGroup.parsePayload_bits data pos).1 g pos1 hg
    obtain ⟨-, -, -, hq⟩ := hrest _ rfl
    obtain ⟨hm, -, hyes, hno⟩ := hq _ rfl
    refine ⟨?_, by rw [hm]; exact bitsAt_lt _ _ _⟩
    cases hcm : g.hasConjunctMembers with
    | true => rw [(hyes hcm).1]; exact bitsAt_lt _ _ _
    | false => rw [(hno hcm).1]; norm_num

/-- Witness for C39: a group with the ids 120 to 127 as conjunct members. -/
theorem conjunct_member_expansion_terminates_witness :
    CMhasInfoWrapper.conjunctMembers
        { hasConjunctMembers := true, startID := 120, bsGroupNumMembers := 7 } 9 120 []
      = .ok [120, 121, 122, 123, 124, 125, 126, 127] :=
  ((conjunct_member_expansion_terminates
      { hasConjunctMembers := true, startID := 120, bsGroupNumMembers := 7 } rfl (by decide)
      (by decide)).1 9 (by decide)).trans (by decide)

/-! ## The two bit counts of an escaped value -/

theorem escape_limit32 (f : Nat) (h1 : 1 ≤ f) (h32 : f ≤ 32) :
    sub32 (shl32 2 (sub32 f 1)) 1 = 2 ^ f - 1 := by
  have e32 : sub32 f 1 = f - 1 := by
    unfold sub32
    norm_num
    omega
  have e2 : 2 * 2 ^ (f - 1) = 2 ^ f := by
    obtain ⟨g, rfl⟩ := Nat.exists_eq_succ_of_ne_zero (by omega : f ≠ 0)
    simp [pow_succ']
  rw [e32]
  unfold shl32
  rw [e2]
  unfold sub32
  rcases Nat.lt_or_ge f 32 with h | h
  · have hlt : 2 ^ f < 2 ^ 32 := Nat.pow_lt_pow_right (by norm_num) h
    have hge := Nat.one_le_two_pow (n := f)
    rw [Nat.mod_eq_of_lt hlt]
    omega
  · have : f = 32 := by omega
    subst this
    norm_num

theorem bit_count_mod (v f s t : Nat) (hf : 1 ≤ f) (hf32 : f ≤ 32) (hs : 1 ≤ s) (hs32 : s ≤ 32) :
    escapedValueWriteSize v f s t = tools.calculateEscapedValueBitCount v f s t % 2 ^ 32
      ∧ (f + s + t < 2 ^ 32 →
          tools.calculateEscapedValueBitCount v f s t = escapedValueWriteSize v f s t)
      ∧ (t < 2 ^ 32 → 2 ^ 32 ≤ f + s + t → 2 ^ f - 1 + (2 ^ s - 1) ≤ v → v < 2 ^ 64 →
          tools.calculateEscapedValueBitCount v f s t = f + s + t
            ∧ escapedValueWriteSize v f s t = f + s + t - 2 ^ 32) := by
  unfold tools.calculateEscapedValueBitCount escapedValueWriteSize
  simp only [escape_limit32 f hf hf32, escape_limit32 s hs hs32,
    escape_limit f hf (by omega), escape_limit s hs (by omega), ge_iff_le]
  have e1 : (f + s) % 2 ^ 32 = f + s := Nat.mod_eq_of_lt (by omega)
  have e2 : (f + s) % 2 ^ 64 = f + s := Nat.mod_eq_of_lt (by omega)
  have e3 : f % 2 ^ 32 = f := Nat.mod_eq_of_lt (by omega)
  rw [e1, e2]
  refine ⟨?_, ?_, ?_⟩
  · split_ifs
    · rw [Nat.mod_mod_of_dvd _ (by norm_num : 2 ^ 32 ∣ 2 ^ 64)]
    · exact e1.symm
    · exact e3.symm
  · intro ht
    have e4 : (f + s + t) % 2 ^ 32 = f + s + t := Nat.mod_eq_of_lt ht
    have e5 : (f + s + t) % 2 ^ 64 = f + s + t := Nat.mod_eq_of_lt (by omega)
    rw [e4, e5]
  · intro ht hge hv hv64
    have hp : 1 ≤ 2 ^ f := Nat.one_le_two_pow
    have hq : 1 ≤ 2 ^ s := Nat.one_le_two_pow
    have e : sub64 v (2 ^ f - 1) = v - (2 ^ f - 1) := by
      unfold sub64
      norm_num at hv64 ⊢
      omega
    have e5 : (f + s + t) % 2 ^ 64 = f + s + t := Nat.mod_eq_of_lt (by omega)
    have e6 : (f + s + t) % 2 ^ 32 = f + s + t - 2 ^ 32 := by omega
    rw [if_pos (by omega), if_pos (by rw [e]; omega), if_pos (by omega),
      if_pos (by rw [e]; omega), e5, e6]
    exact ⟨rfl, rfl⟩

/-- C40, amended: for every value and all widths with `1 <= first <= 32` and
`1 <= second <= 32`, `escapedValueWriteSize` returns `tools::calculateEscapedValueBitCount`
modulo 2^32, and the two functions return the same bit count when `first + second + third`
is below 2^32. The escape limits agree also at the width 32, where the 32-bit shift wraps
to zero and the subtraction wraps to 2^32 - 1. When the sum reaches 2^32 and the value is
in the third tier, the `uint64_t` count is the sum and the `uint32_t` count is 2^32 less. -/
theorem bit_count_functions_agree (v f s t : Nat) (hf : 1 ≤ f) (hf32 : f ≤ 32) (hs : 1 ≤ s)
    (hs32 : s ≤ 32) :
    escapedValueWriteSize v f s t = tools.calculateEscapedValueBitCount v f s t % 2 ^ 32
      ∧ (f + s + t < 2 ^ 32 →
          tools.calculateEscapedValueBitCount v f s t = escapedValueWriteSize v f s t)
      ∧ sub32 (shl32 2 (sub32 f 1)) 1 = sub64 (shl64 2 (sub32 f 1)) 1
      ∧ shl32 2 (sub32 32 1) = 0
      ∧ sub32 (shl32 2 (sub32 32 1)) 1 = 2 ^ 32 - 1
      ∧ (t < 2 ^ 32 → 2 ^ 32 ≤ f + s + t → 2 ^ f - 1 + (2 ^ s - 1) ≤ v → v < 2 ^ 64 →
          tools.calculateEscapedValueBitCount v f s t = f + s + t
            ∧ escapedValueWriteSize v f s t = f + s + t - 2 ^ 32) := by
  have hlim : sub32 (shl32 2 (sub32 f 1)) 1 = sub64 (shl64 2 (sub32 f 1)) 1 := by
    rw [escape_limit32 f hf hf32, escape_limit f hf (by omega)]
  obtain ⟨h1, h2, h3⟩ := bit_count_mod v f s t hf hf32 hs hs32
  exact ⟨h1, h2, hlim, by decide, by decide, h3⟩

/-- Witness for C40: the value 2^33, which is in the third tier for the widths 32 and 32,
with a third field of 8 bits. -/
theorem bit_count_functions_agree_witness :
    tools.calculateEscapedValueBitCount (2 ^ 33) 32 32 8 = escapedValueWriteSize (2 ^ 33) 32 32 8
      ∧ escapedValueWriteSize (2 ^ 33) 32 32 8 = 72 :=
  ⟨(bit_count_functions_agree (2 ^ 33) 32 32 8 (by decide) (by decide) (by decide)
      (by decide)).2.1 (by decide), by decide⟩

/-- C40, the claim as stated refuted: for the widths 1 and 1, the value 2 is in the third
tier, and with `third = 4294967295` the `uint64_t` count of
`tools::calculateEscapedValueBitCount` is 4294967297 while the `uint32_t` count of
`escapedValueWriteSize` wraps around to 1. -/
theorem bit_count_functions_differ :
    tools.calculateEscapedValueBitCount 2 1 1 4294967295 = 4294967297
      ∧ escapedValueWriteSize 2 1 1 4294967295 = 1 := by
  refine ⟨by decide, by decide⟩

/-! ## The conditions of a group preset: layout -/

theorem generate_ok {data : List Bool} {α : Type} (f : BitParser data α) (size : α → Nat)
    (P : Nat → α → Prop)
    (hf : ∀ p a p1, f.run p = .ok (a, p1) → p1 = p + size a ∧ P p a) :
    ∀ (k pos : Nat) (l : List α) (pos1 : Nat),
      (generate k f : BitParser data _).run pos = .ok (l, pos1) →
        l.length = k ∧ pos1 = pos + (l.map size).sum
          ∧ ∀ (i : Nat) (hi : i < l.length), P (pos + ((l.take i).map size).sum) l[i] := by
  intro k
  induction k with
  | zero =>
    intro pos l pos1 h
    unfold generate at h
    rw [BitParser.run_pure] at h
    injection h with h
    injection h with h1 h2
    subst h1 h2
    refine ⟨rfl, rfl, ?_⟩
    intro i hi
    cases hi
  | succ k ih =>
    intro pos l pos1 h
    unfold generate at h
    cases hx : f.run pos with
    | error e =>
      rw [BitParser.run_bind_error hx] at h
      cases h
    | ok r =>
      obtain ⟨x, p1⟩ := r
      rw [BitParser.run_bind_ok hx] at h
      cases hg : (generate k f : BitParser data _).run p1 with
      | error e =>
        rw [BitParser.run_bind_error hg] at h
        cases h
      | ok r =>
        obtain ⟨xs, p2⟩ := r
        rw [BitParser.run_bind_ok hg, BitParser.run_pure] at h
        injection h with h
        injection h with h1 h2
        subst h1 h2
        obtain ⟨e1, e2, e3⟩ := ih _ _ _ hg
        obtain ⟨f1, f2⟩ := hf _ _ _ hx
        refine ⟨by rw [List.length_cons, e1], ?_, ?_⟩
        · rw [e2, f1, List.map_cons, List.sum_cons]
          omega
        · intro i hi
          cases i with
          | zero => exact f2
          | succ i =>
            have hi' : i < xs.length := by simpa using hi
            have := e3 i hi'
            rw [f1] at this
            simp only [List.take_succ_cons, List.map_cons, List.sum_cons,
              List.getElem_cons_succ]
            rw [← Nat.add_assoc]
            exact this

theorem generate_run {data : List Bool} {α : Type} (f : BitParser data α) (m : Nat)
    (hf : ∀ p, p + m ≤ data.length → ∃ a p1, f.run p = .ok (a, p1) ∧ p1 ≤ p + m) :
    ∀ (k pos : Nat), pos + m * k ≤ data.length →
      ∃ l pos1, (generate k f : BitParser data _).run pos = .ok (l, pos1)
        ∧ pos1 ≤ pos + m * k := by
  intro k
  induction k with
  | zero =>
    intro pos _
    exact ⟨[], pos, rfl, by omega⟩
  | succ k ih =>
    intro pos hle
    rw [Nat.mul_succ] at hle
    obtain ⟨a, p1, ha, hp1⟩ := hf pos (by omega)
    obtain ⟨xs, p2, hx, hp2⟩ := ih p1 (by omega)
    refine ⟨a :: xs, p2, ?_, by rw [Nat.mul_succ]; omega⟩
    unfold generate
    rw [BitParser.run_bind_ok ha, BitParser.run_bind_ok hx, BitParser.run_pure]

theorem SAudioScenePresetCondition.parse_ok {data : List Bool} (pos : Nat)
    (c : SAudioScenePresetCondition) (pos1 : Nat)
    (h : (SAudioScenePresetCondition.parse : BitParser data _).run pos = .ok (c, pos1)) :
    pos1 = pos + c.nofBits ∧ c.readAt data pos := by
  unfold SAudioScenePresetCondition.parse at h
  replace h := (BitParser.read_bind_ok h).2
  replace h := (BitParser.read_bind_ok h).2
  by_cases hc : (bitsAt data (pos + 7) 1 == 1) = true
  · rw [if_pos hc] at h
    replace h := (BitParser.read_bind_ok h).2
    replace h := (BitParser.read_bind_ok h).2
    by_cases hg : (bitsAt data (pos + 7 + 1 + 1) 1 == 1) = true
    · rw [if_pos hg] at h
      replace h := (BitParser.read_bind_ok h).2
      rw [BitParser.pure_bind_run] at h
      replace h := (BitParser.read_bind_ok h).2
      replace h := (BitParser.read_bind_ok h).2
      by_cases hp : (bitsAt data (pos + 7 + 1 + 1 + 1 + 8 + 1) 1 == 1) = true
      · rw [if_pos hp] at h
        replace h := (BitParser.read_bind_ok h).2
        replace h := (BitParser.read_bind_ok h).2
        replace h := (BitParser.read_bind_ok h).2
        rw [BitParser.pure_bind_run, BitParser.pure_bind_run, BitParser.run_pure] at h
        injection h with h
        injection h with h1 h2
        subst h1 h2
        dsimp only [SAudioScenePresetCondition.nofBits, SAudioScenePresetCondition.readAt]
        simp only [Nat.add_assoc, Nat.reduceAdd] at hc hg hp ⊢
        simp [hc, hg, hp]
      · rw [if_neg hp] at h
        rw [BitParser.pure_bind_run, BitParser.pure_bind_run, BitParser.run_pure] at h
        injection h with h
        injection h with h1 h2
        subst h1 h2
        dsimp only [SAudioScenePresetCondition.nofBits, SAudioScenePresetCondition.readAt]
        simp only [Nat.add_assoc, Nat.reduceAdd] at hc hg hp ⊢
        simp [hc, hg, hp]
    · rw [if_neg hg] at h
      rw [BitParser.pure_bind_run] at h
      replace h := (BitParser.read_bind_ok h).2
      replace h := (BitParser.read_bind_ok h).2
      by_cases hp : (bitsAt data (pos + 7 + 1 + 1 + 1 + 1) 1 == 1) = true
      · rw [if_pos hp] at h
        replace h := (BitParser.read_bind_ok h).2
        replace h := (BitParser.read_bind_ok h).2
        replace h := (BitParser.read_bind_ok h).2
        rw [BitParser.pure_bind_run, BitParser.pure_bind_run, BitParser.run_pure] at h
        injection h with h
        injection h with h1 h2
        subst h1 h2
        dsimp only [SAudioScenePresetCondition.nofBits, SAudioScenePresetCondition.readAt]
        simp only [Nat.add_assoc, Nat.reduceAdd] at hc hg hp ⊢
        simp [hc, hg, hp]
      · rw [if_neg hp] at h
        rw [BitParser.pure_bind_run, BitParser.pure_bind_run, BitParser.run_pure] at h
        injection h with h
        injection h with h1 h2
        subst h1 h2
        dsimp only [SAudioScenePresetCondition.nofBits, SAudioScenePresetCondition.readAt]
        simp only [Nat.add_assoc, Nat.reduceAdd] at hc hg hp ⊢
        simp [hc, hg, hp]
  · rw [if_neg hc] at h
    rw [BitParser.pure_bind_run, BitParser.run_pure] at h
    injection h with h
    injection h with h1 h2
    subst h1 h2
    refine ⟨rfl, rfl, rfl, fun _ => rfl, ?_⟩
    intro h0
    exact absurd h0 hc

theorem SAudioScenePresetCondition.parse_total {data : List Bool} (pos : Nat)
    (hle : pos + 38 ≤ data.length) :
    ∃ c pos1, (SAudioScenePresetCondition.parse : BitParser data _).run pos = .ok (c, pos1)
      ∧ pos1 ≤ pos + 38 := by
  unfold SAudioScenePresetCondition.parse
  rw [BitParser.read_bind_run 7 pos _ (by omega),
    BitParser.read_bind_run 1 (pos + 7) _ (by omega)]
  by_cases hc : (bitsAt data (pos + 7) 1 == 1) = true
  · rw [if_pos hc, BitParser.read_bind_run 1 (pos + 7 + 1) _ (by omega),
      BitParser.read_bind_run 1 (pos + 7 + 1 + 1) _ (by omega)]
    by_cases hg : (bitsAt data (pos + 7 + 1 + 1) 1 == 1) = true
    · rw [if_pos hg, BitParser.read_bind_run 8 (pos + 7 + 1 + 1 + 1) _ (by omega),
        BitParser.pure_bind_run,
        BitParser.read_bind_run 1 (pos + 7 + 1 + 1 + 1 + 8) _ (by omega),
        BitParser.read_bind_run 1 (pos + 7 + 1 + 1 + 1 + 8 + 1) _ (by omega)]
      by_cases hp : (bitsAt data (pos + 7 + 1 + 1 + 1 + 8 + 1) 1 == 1) = true
      · rw [if_pos hp, BitParser.read_bind_run 8 (pos + 7 + 1 + 1 + 1 + 8 + 1 + 1) _ (by omega),
          BitParser.read_bind_run 6 (pos + 7 + 1 + 1 + 1 + 8 + 1 + 1 + 8) _ (by omega),
          BitParser.read_bind_run 4 (pos + 7 + 1 + 1 + 1 + 8 + 1 + 1 + 8 + 6) _ (by omega),
          BitParser.pure_bind_run, BitParser.pure_bind_run, BitParser.run_pure]
        exact ⟨_, _, rfl, by omega⟩
      · rw [if_neg hp, BitParser.pure_bind_run, BitParser.pure_bind_run, BitParser.run_pure]
        exact ⟨_, _, rfl, by omega⟩
    · rw [if_neg hg, BitParser.pure_bind_run,
        BitParser.read_bind_run 1 (pos + 7 + 1 + 1 + 1) _ (by omega),
        BitParser.read_bind_run 1 (pos + 7 + 1 + 1 + 1 + 1) _ (by omega)]
      by_cases hp : (bitsAt data (pos + 7 + 1 + 1 + 1 + 1) 1 == 1) = true
      · rw [if_pos hp, BitParser.read_bind_run 8 (pos + 7 + 1 + 1 + 1 + 1 + 1) _ (by omega),
          BitParser.read_bind_run 6 (pos + 7 + 1 + 1 + 1 + 1 + 1 + 8) _ (by omega),
          BitParser.read_bind_run 4 (pos + 7 + 1 + 1 + 1 + 1 + 1 + 8 + 6) _ (by omega),
          BitParser.pure_bind_run, BitParser.pure_bind_run, BitParser.run_pure]
        exact ⟨_, _, rfl, by omega⟩
      · rw [if_neg hp, BitParser.pure_bind_run, BitParser.pure_bind_run, BitParser.run_pure]
        exact ⟨_, _, rfl, by omega⟩
  · rw [if_neg hc, BitParser.pure_bind_run, BitParser.run_pure]
    exact ⟨_, _, rfl, by omega⟩

/-- C31: a group preset that `SAudioSceneGroupPresets::parsePayload` returns has
`numConditions + 1` conditions, where `numConditions` is the 4-bit field after `presetID`
and `kind`, so between 1 and 16. For each condition the record `condition` is present
exactly when its `onOff` bit is 1. Within a record the gain is read when `gainFlag` is 1 and
is 0 otherwise, and the azimuth, elevation and distance offsets are read when
`positionFlag` is 1 and are 0 otherwise; the fields of the condition of index `i` are at
the cursor position that the conditions before it leave, and the cursor advances by the
bits of the fields that are read. The decoder returns when 622 bits are left. -/
theorem group_preset_conditions (data : List Bool) (pos : Nat) :
    (∀ (g : SAudioSceneGroupPresets) (pos1 : Nat),
      (SAudioSceneGroupPresets.parsePayload : BitParser data _).run pos = .ok (g, pos1) →
        g.presetID = bitsAt data pos 5 ∧ g.kind = bitsAt data (pos + 5) 5
        ∧ g.conditions.length = bitsAt data (pos + 10) 4 + 1
        ∧ 1 ≤ g.conditions.length ∧ g.conditions.length ≤ 16
        ∧ pos1 = pos + 14 + (g.conditions.map SAudioScenePresetCondition.nofBits).sum
        ∧ (∀ (i : Nat) (hi : i < g.conditions.length),
            g.conditions[i].readAt data
              (pos + 14 + ((g.conditions.take i).map SAudioScenePresetCondition.nofBits).sum))
        ∧ ∀ c ∈ g.conditions,
            (c.condition.isSome = true ↔ c.onOff = true)
            ∧ ∀ d, c.condition = some d →
                (d.gainFlag = false → d.gain = 0)
                ∧ (d.positionFlag = false →
                    d.azOffset = 0 ∧ d.elOffset = 0 ∧ d.distFactor = 0))
    ∧ (pos + 622 ≤ data.length →
        ∃ g pos1, (SAudioSceneGroupPresets.parsePayload : BitParser data _).run pos
          = .ok (g, pos1)) := by
  have hn : bitsAt data (pos + 5 + 5) 4 < 2 ^ 4 :=
    lt_of_lt_of_le (bitsToNat_lt _)
      (Nat.pow_le_pow_right (by norm_num) (by rw [List.length_take]; exact min_le_left _ _))
  refine ⟨?_, ?_⟩
  · intro g pos1 h
    unfold SAudioSceneGroupPresets.parsePayload at h
    replace h := (BitParser.read_bind_ok h).2
    replace h := (BitParser.read_bind_ok h).2
    replace h := (BitParser.read_bind_ok h).2
    cases hg : (generate (bitsAt data (pos + 5 + 5) 4 + 1)
        SAudioScenePresetCondition.parse : BitParser data _).run (pos + 5 + 5 + 4) with
    | error e =>
      rw [BitParser.run_bind_error hg] at h
      cases h
    | ok r =>
      obtain ⟨l, p2⟩ := r
      rw [BitParser.run_bind_ok hg, BitParser.run_pure] at h
      injection h with h
      injection h with h1 h2
      subst h1 h2
      obtain ⟨e1, e2, e3⟩ := generate_ok SAudioScenePresetCondition.parse
        SAudioScenePresetCondition.nofBits (fun p c => c.readAt data p)
        (fun p a p1 ha => SAudioScenePresetCondition.parse_ok p a p1 ha) _ _ _ _ hg
      have e10 : pos + 5 + 5 = pos + 10 := by omega
      have e14 : pos + 5 + 5 + 4 = pos + 14 := by omega
      rw [e10] at e1 hn
      rw [e14] at e2 e3
      refine ⟨rfl, rfl, e1, ?_, ?_, e2, e3, ?_⟩
      · show 1 ≤ l.length
        omega
      · show l.length ≤ 16
        norm_num at hn
        omega
      · intro c hc
        obtain ⟨i, hi, rfl⟩ := List.getElem_of_mem hc
        obtain ⟨-, -, hoff, hon⟩ := e3 i hi
        refine ⟨?_, ?_⟩
        · cases hoo : (l[i]).onOff with
          | false => rw [hoff hoo]; simp
          | true =>
            obtain ⟨d, hd, -⟩ := hon hoo
            rw [hd]; simp
        · intro d hd
          cases hoo : (l[i]).onOff with
          | false =>
            rw [hoff hoo] at hd
            cases hd
          | true =>
            obtain ⟨d2, hd2, -, -, -, hg0, hq⟩ := hon hoo
            rw [hd] at hd2
            cases hd2
            obtain ⟨-, -, -, hp0⟩ := hq _ rfl
            exact ⟨hg0, hp0⟩
  · intro hle
    obtain ⟨l, p2, hl, _⟩ := @generate_run data _ SAudioScenePresetCondition.parse 38
      (fun p hp => SAudioScenePresetCondition.parse_total p hp)
      (bitsAt data (pos + 5 + 5) 4 + 1) (pos + 5 + 5 + 4) (by norm_num at hn; omega)
    unfold SAudioSceneGroupPresets.parsePayload
    rw [BitParser.read_bind_run 5 pos _ (by omega),
      BitParser.read_bind_run 5 (pos + 5) _ (by omega),
      BitParser.read_bind_run 4 (pos + 5 + 5) _ (by omega),
      BitParser.run_bind_ok hl, BitParser.run_pure]
    exact ⟨_, _, rfl⟩

theorem SAudioSceneGroupPresets.parsePayload_sample :
    (SAudioSceneGroupPresets.parsePayload :
        BitParser (bytesToBits [0x08, 0x84, 0x18, 0x25, 0x55, 0x00]) _).run 0
      = .ok ({ presetID := 1, kind := 2,
               conditions := [{ groupID := 3, onOff := false, condition := none },
                 { groupID := 4, onOff := true,
                   condition := some { gainFlag := true, gain := 0x55 } }] }, 42) := by
  decide

/-- Witness for C31: a preset with two conditions, the first off, the second on with a
gain and no position offsets. -/
theorem group_preset_conditions_witness :
    ([{ groupID := 3, onOff := false, condition := none },
      { groupID := 4, onOff := true,
        condition := some { gainFlag := true, gain := 0x55 } }] :
        List SAudioScenePresetCondition).length
      = bitsAt (bytesToBits [0x08, 0x84, 0x18, 0x25, 0x55, 0x00]) (0 + 10) 4 + 1 :=
  ((group_preset_conditions (bytesToBits [0x08, 0x84, 0x18, 0x25, 0x55, 0x00]) 0).1 _ _
    SAudioSceneGroupPresets.parsePayload_sample).2.2.1

end Mhas
